import Mathlib

/-!
HuaDB: lock manager, LRU replacement, MVCC visibility, table scan,
slotted table pages, heap-table insert and the log manager.

A shallow embedding of the transactional core of HuaDB
(`src/transaction/lock_manager.{h,cpp}`, `src/storage/lru_buffer_strategy.cpp`,
`src/table/table_scan.cpp`, `src/table/table_page.cpp`, `src/table/table.cpp`,
`src/log/log_manager.cpp`) together with the properties its specification
states about it.

Conventions of the embedding:
* `xid_t`, `cid_t`, `oid_t`, `pageid_t`, `slotid_t` are unsigned machine
  integers in the source; the functions modelled here only compare them, so
  they are natural numbers.
* `std::vector` and `std::list` are `List`; `std::unordered_set<xid_t>` is a
  `List Nat` used through membership only.
* `std::unordered_map<oid_t, std::vector<ResourceLock>>` is a total function
  from object ids to lock lists: `operator[]` default-constructs the empty
  vector for an absent key, so an absent key and an empty vector are the same
  set of held locks.
-/

namespace huadb

/-! ## Lock manager: data model (`lock_manager.h`) -/

/-- The five multi-granularity lock modes, in the order of `enum class LockType`. -/
inductive LockType where
  | IS
  | IX
  | S
  | SIX
  | X
  deriving DecidableEq, Repr

/-- The `static_cast<int>` of a lock mode: its position in the enumeration. -/
def LockType.toNat : LockType → Nat
  | .IS => 0
  | .IX => 1
  | .S => 2
  | .SIX => 3
  | .X => 4

/-- Granularity of a lock, `enum class LockGranularity`. -/
inductive LockGranularity where
  | TABLE
  | ROW
  deriving DecidableEq, Repr

/-- Record identifier `(page_id, slot_id)`. -/
structure Rid where
  page_id_ : Nat
  slot_id_ : Nat
  deriving DecidableEq, Repr

/-- One held lock, the struct `ResourceLock`. -/
structure ResourceLock where
  lock_type_ : LockType
  lock_granularity_ : LockGranularity
  xid_t_ : Nat
  rid_ : Rid
  deriving DecidableEq, Repr

/-- The table `LockManager::lock_compatibility_map_`, row by row. -/
def lock_compatibility_map_ : List (List Bool) :=
  [[true,  true,  true,  true,  false],
   [true,  true,  false, false, false],
   [true,  false, true,  false, false],
   [true,  false, false, false, false],
   [false, false, false, false, false]]

/-- The table `LockManager::lock_upgrade_map_`, row by row. -/
def lock_upgrade_map_ : List (List LockType) :=
  [[.IS,  .IX,  .S,   .SIX, .X],
   [.IX,  .IX,  .SIX, .SIX, .X],
   [.S,   .SIX, .S,   .SIX, .X],
   [.SIX, .SIX, .SIX, .SIX, .X],
   [.X,   .X,   .X,   .X,   .X]]

/-- `LockManager::Compatible`: the entry of the compatibility table at
`[type_a][type_b]`. Both indices are below five, so the defaults are never used. -/
def Compatible (type_a type_b : LockType) : Bool :=
  (lock_compatibility_map_.getD type_a.toNat []).getD type_b.toNat false

/-- `LockManager::Upgrade`: the entry of the upgrade table at `[self][other]`. -/
def Upgrade (self other : LockType) : LockType :=
  (lock_upgrade_map_.getD self.toNat []).getD other.toNat .X

/-- The member `resource_locks_`: for every object id the locks held on it. -/
abbrev LockMap := Nat → List ResourceLock

/-- The lock manager with no lock held. -/
def LockMap.empty : LockMap := fun _ => []

/-- Assignment `resource_locks_[oid] = locks`. -/
def LockMap.set (m : LockMap) (oid : Nat) (locks : List ResourceLock) : LockMap :=
  fun o => if o = oid then locks else m o

/-! ## Lock manager: operations (`lock_manager.cpp`) -/

/-- First loop of `LockTable`: is there an entry of another transaction, of an
incompatible mode, at table granularity? (The loop returns `false` from
`LockTable` at the first such entry.) -/
def tableConflict (xid : Nat) (lock_type : LockType) : List ResourceLock → Bool
  | [] => false
  | entry :: rest =>
    if entry.xid_t_ ≠ xid ∧ Compatible entry.lock_type_ lock_type = false
        ∧ entry.lock_granularity_ = LockGranularity.TABLE then true
    else tableConflict xid lock_type rest

/-- Second loop of `LockTable`: upgrade the first table lock of `xid` in place;
`none` when the loop ends without finding one. -/
def tableUpgrade (xid : Nat) (lock_type : LockType) : List ResourceLock → Option (List ResourceLock)
  | [] => none
  | entry :: rest =>
    if entry.xid_t_ = xid ∧ entry.lock_granularity_ = LockGranularity.TABLE then
      some ({ entry with lock_type_ := Upgrade entry.lock_type_ lock_type } :: rest)
    else (tableUpgrade xid lock_type rest).map (fun r => entry :: r)

/-- `LockManager::LockTable`: the returned flag and the lock map afterwards. -/
def LockTable (m : LockMap) (xid : Nat) (lock_type : LockType) (oid : Nat) : Bool × LockMap :=
  let new_lock : ResourceLock := ⟨lock_type, .TABLE, xid, ⟨0, 0⟩⟩
  if tableConflict xid lock_type (m oid) then (false, m)
  else
    match tableUpgrade xid lock_type (m oid) with
    | some locks => (true, m.set oid locks)
    | none => (true, m.set oid (m oid ++ [new_lock]))

/-- The condition shared by both loops of `LockRow`: a row-granularity entry on
exactly this `rid`. -/
def sameRow (rid : Rid) (entry : ResourceLock) : Prop :=
  entry.rid_.slot_id_ = rid.slot_id_ ∧ entry.rid_.page_id_ = rid.page_id_
    ∧ entry.lock_granularity_ = LockGranularity.ROW

instance (rid : Rid) (entry : ResourceLock) : Decidable (sameRow rid entry) := by
  unfold sameRow; infer_instance

/-- First loop of `LockRow`: an entry on this row, of another transaction, of an
incompatible mode. -/
def rowConflict (xid : Nat) (lock_type : LockType) (rid : Rid) : List ResourceLock → Bool
  | [] => false
  | entry :: rest =>
    if sameRow rid entry ∧ entry.xid_t_ ≠ xid
        ∧ Compatible entry.lock_type_ lock_type = false then true
    else rowConflict xid lock_type rid rest

/-- Second loop of `LockRow`: upgrade the first lock of `xid` on this row in
place; `none` when there is none. -/
def rowUpgrade (xid : Nat) (lock_type : LockType) (rid : Rid) :
    List ResourceLock → Option (List ResourceLock)
  | [] => none
  | entry :: rest =>
    if sameRow rid entry ∧ entry.xid_t_ = xid then
      some ({ entry with lock_type_ := Upgrade entry.lock_type_ lock_type } :: rest)
    else (rowUpgrade xid lock_type rid rest).map (fun r => entry :: r)

/-- `LockManager::LockRow`: the returned flag and the lock map afterwards. -/
def LockRow (m : LockMap) (xid : Nat) (lock_type : LockType) (oid : Nat) (rid : Rid) :
    Bool × LockMap :=
  let new_row_lock : ResourceLock := ⟨lock_type, .ROW, xid, rid⟩
  if rowConflict xid lock_type rid (m oid) then (false, m)
  else
    match rowUpgrade xid lock_type rid (m oid) with
    | some locks => (true, m.set oid locks)
    | none => (true, m.set oid (m oid ++ [new_row_lock]))

/-- The inner loop of `ReleaseLocks` over one lock list: erase every entry whose
`xid_t_` is `xid`, keep the others where they are. -/
def eraseLocksOf (xid : Nat) : List ResourceLock → List ResourceLock
  | [] => []
  | current_lock :: rest =>
    if current_lock.xid_t_ = xid then eraseLocksOf xid rest
    else current_lock :: eraseLocksOf xid rest

/-- `LockManager::ReleaseLocks`: the inner loop applied to the list of every object. -/
def ReleaseLocks (m : LockMap) (xid : Nat) : LockMap :=
  fun object_id => eraseLocksOf xid (m object_id)

/-! ## LRU replacement (`lru_buffer_strategy.cpp`)

The member `access_order_` is a `std::list<size_t>`; its front is the
most-recent end. -/

/-- `LRUBufferStrategy::Access`: `remove(frame_no)` erases every occurrence of the
frame, `emplace_front` puts it at the front. -/
def Access (access_order_ : List Nat) (frame_no : Nat) : List Nat :=
  frame_no :: access_order_.filter (fun f => f ≠ frame_no)

/-- `LRUBufferStrategy::Evict`: the returned frame `back()` and the list after
`pop_back()`. On an empty list both calls are undefined in the source; the
model returns `none`. -/
def Evict (access_order_ : List Nat) : Option (Nat × List Nat) :=
  match access_order_.getLast? with
  | none => none
  | some lastBuffer => some (lastBuffer, access_order_.dropLast)

/-- A call on the replacement strategy. -/
inductive LRUCall where
  | access (frame_no : Nat)
  | evict
  deriving DecidableEq, Repr

/-- The access order after a sequence of calls, `none` if an `Evict` was made on
an empty list. -/
def LRUrun (access_order_ : List Nat) : List LRUCall → Option (List Nat)
  | [] => some access_order_
  | .access k :: calls => LRUrun (Access access_order_ k) calls
  | .evict :: calls =>
    match Evict access_order_ with
    | none => none
    | some (_, rest) => LRUrun rest calls

/-- Time of the most recent `Access` of each frame: the calls are numbered from
`now` on, `last` holds the times known before them. -/
def lastAccess (now : Nat) (last : Nat → Option Nat) : List LRUCall → Nat → Option Nat
  | [] => last
  | .access k :: calls =>
    lastAccess (now + 1) (fun f => if f = k then some now else last f) calls
  | .evict :: calls => lastAccess (now + 1) last calls

/-- The order invariant of the LRU list: every tracked frame has a recorded
access time before `now`, and towards the back the times strictly decrease. -/
def LRUOrdered (s : List Nat) (last : Nat → Option Nat) (now : Nat) : Prop :=
  (∀ a ∈ s, ∃ t, last a = some t ∧ t < now)
  ∧ s.Pairwise (fun a b => ∃ ta tb, last a = some ta ∧ last b = some tb ∧ tb < ta)

/-! ## MVCC visibility (`table_scan.cpp`) -/

/-- Modelled from the spec: the enumeration `IsolationLevel` (declared in
`common/types.h`, which is not part of the sources at hand), with the three
levels `IsVisible` names. -/
inductive IsolationLevel where
  | READ_COMMITTED
  | REPEATABLE_READ
  | SERIALIZABLE
  deriving DecidableEq, Repr

/-- Modelled from the spec: the class `Record` (its source file is not part of
the sources at hand). A record is a header `{xmin, xmax, cid, deleted_flag}`
followed by column values, and bears the `rid` it was read from. -/
structure Record where
  deleted_ : Bool
  xmin_ : Nat
  xmax_ : Nat
  cid_ : Nat
  values_ : List (Option Int)
  rid_ : Rid
  deriving DecidableEq, Repr

/-- The function `IsVisible` of `table_scan.cpp`, statement by statement. -/
def IsVisible (iso_level : IsolationLevel) (xid cid : Nat) (active_xids : List Nat)
    (record : Record) : Bool :=
  let recordInsertXid := record.xmin_
  let recordDeleteXid := record.xmax_
  let recordInsertCid := record.cid_
  let visible := true
  let visible :=
    if iso_level = .REPEATABLE_READ ∨ iso_level = .SERIALIZABLE then
      let visible :=
        if record.deleted_ = true ∧ recordDeleteXid ∉ active_xids ∧ recordDeleteXid ≤ xid then false
        else visible
      if recordInsertXid ∈ active_xids ∨ recordInsertXid > xid then false else visible
    else if iso_level = .READ_COMMITTED then
      let visible :=
        if record.deleted_ = true ∧ (recordDeleteXid ∉ active_xids ∨ xid = recordDeleteXid) then false
        else visible
      if recordInsertXid ∈ active_xids ∧ recordInsertXid ≠ xid then false else visible
    else visible
  if recordInsertXid = xid ∧ recordInsertCid = cid then false else visible

/-! ## Table scan (`table_scan.cpp`) -/

/-- The part of a `TablePage` the scan reads: the link `next_page_id` and the
slot array, slot `i` given by the record `Record::DeserializeFrom` reads at the
offset of the slot (`GetRecordCount` is the number of slots). -/
structure TablePage where
  next_page_id_ : Nat
  records_ : List Record

/-- `TablePage::GetRecordCount`. -/
def TablePage.GetRecordCount (p : TablePage) : Nat := p.records_.length

/-- `TablePage::GetNextPageId`. -/
def TablePage.GetNextPageId (p : TablePage) : Nat := p.next_page_id_

/-- `TablePage::GetRecord` on a slot below the record count: the record stored
in the slot, bearing `rid`. -/
def TablePage.GetRecord (p : TablePage) (rid : Rid) (h : rid.slot_id_ < p.GetRecordCount) :
    Record :=
  { p.records_.get ⟨rid.slot_id_, h⟩ with rid_ := rid }

/-- The `while (true)` loop of `TableScan::GetNextRecord`, one iteration per unit
of fuel: the returned record (`none` for the null pointer) and the cursor
`rid_` afterwards; `none` when the fuel runs out. `NULL_PAGE_ID` is a constant of
`common/constants.h`, here a parameter; `pages` is the heap of the table as
`BufferPool::GetPage` returns it. -/
def scanLoop (NULL_PAGE_ID : Nat) (pages : Nat → TablePage) (xid : Nat)
    (isolation_level : IsolationLevel) (cid : Nat) (active_xids : List Nat) :
    Nat → Rid → Option (Option Record × Rid)
  | 0, _ => none
  | fuel + 1, rid_ =>
    let table_page := pages rid_.page_id_
    if h : rid_.slot_id_ < table_page.GetRecordCount then
      let record := table_page.GetRecord rid_ h
      let rid_ : Rid := { rid_ with slot_id_ := rid_.slot_id_ + 1 }
      if IsVisible isolation_level xid cid active_xids record = false then
        scanLoop NULL_PAGE_ID pages xid isolation_level cid active_xids fuel rid_
      else some (some record, rid_)
    else if table_page.GetNextPageId ≠ NULL_PAGE_ID then
      scanLoop NULL_PAGE_ID pages xid isolation_level cid active_xids fuel
        ⟨table_page.GetNextPageId, 0⟩
    else some (none, ⟨NULL_PAGE_ID, 0⟩)

/-- `TableScan::GetNextRecord`: the check for the empty table, then the loop. -/
def GetNextRecord (NULL_PAGE_ID : Nat) (pages : Nat → TablePage) (xid : Nat)
    (isolation_level : IsolationLevel) (cid : Nat) (active_xids : List Nat)
    (fuel : Nat) (rid_ : Rid) : Option (Option Record × Rid) :=
  if rid_.page_id_ = NULL_PAGE_ID then some (none, rid_)
  else scanLoop NULL_PAGE_ID pages xid isolation_level cid active_xids fuel rid_

/-- The results of `n` successive `GetNextRecord` calls with fixed arguments, and
the cursor after them. -/
def scanCalls (NULL_PAGE_ID : Nat) (pages : Nat → TablePage) (xid : Nat)
    (isolation_level : IsolationLevel) (cid : Nat) (active_xids : List Nat)
    (fuel : Nat) : Nat → Rid → Option (List (Option Record) × Rid)
  | 0, rid_ => some ([], rid_)
  | n + 1, rid_ =>
    match GetNextRecord NULL_PAGE_ID pages xid isolation_level cid active_xids fuel rid_ with
    | none => none
    | some (r, rid1) =>
      match scanCalls NULL_PAGE_ID pages xid isolation_level cid active_xids fuel n rid1 with
      | none => none
      | some (rs, rid2) => some (r :: rs, rid2)

/-- The list `chain` is the page chain starting at `pid`: it follows
`next_page_id` and ends where the link is `NULL_PAGE_ID`. Such a list exists
exactly when the chain is finite, and then it has no cycle. -/
def IsPageChain (NULL_PAGE_ID : Nat) (pages : Nat → TablePage) : Nat → List Nat → Prop
  | pid, [] => pid = NULL_PAGE_ID
  | pid, p :: ps =>
    pid ≠ NULL_PAGE_ID ∧ p = pid ∧ IsPageChain NULL_PAGE_ID pages (pages p).next_page_id_ ps

/-- Being the page chain from a page id is decidable. -/
def IsPageChain.decide (NULL_PAGE_ID : Nat) (pages : Nat → TablePage) :
    ∀ (pid : Nat) (chain : List Nat), Decidable (IsPageChain NULL_PAGE_ID pages pid chain)
  | pid, [] => inferInstanceAs (Decidable (pid = NULL_PAGE_ID))
  | pid, p :: ps =>
    have := IsPageChain.decide NULL_PAGE_ID pages (pages p).next_page_id_ ps
    inferInstanceAs (Decidable (pid ≠ NULL_PAGE_ID ∧ p = pid
      ∧ IsPageChain NULL_PAGE_ID pages (pages p).next_page_id_ ps))

instance (NULL_PAGE_ID : Nat) (pages : Nat → TablePage) (pid : Nat) (chain : List Nat) :
    Decidable (IsPageChain NULL_PAGE_ID pages pid chain) :=
  IsPageChain.decide NULL_PAGE_ID pages pid chain

/-- The records `rs` stored from slot `slot` on in page `pid`, each bearing its rid. -/
def withRids (pid : Nat) : Nat → List Record → List Record
  | _, [] => []
  | slot, r :: rs => { r with rid_ := ⟨pid, slot⟩ } :: withRids pid (slot + 1) rs

/-- The records of page `pid` from slot `slot` on, in increasing slot order. -/
def pageRecordsFrom (pages : Nat → TablePage) (pid slot : Nat) : List Record :=
  withRids pid slot ((pages pid).records_.drop slot)

/-- The records of the pages of `chain` in page-chain order, within a page in
increasing slot order. -/
def chainRecords (pages : Nat → TablePage) : List Nat → List Record
  | [] => []
  | p :: ps => pageRecordsFrom pages p 0 ++ chainRecords pages ps

/-- The records a scan standing at slot `slot` of the first page of `chain` has
still to visit. -/
def scanRest (pages : Nat → TablePage) : List Nat → Nat → List Record
  | [], _ => []
  | p :: ps, slot => pageRecordsFrom pages p slot ++ chainRecords pages ps

/-- The number of loop iterations that suffices for any call of a scan over
`chain`: one per slot, one per page, and one. -/
def scanFuel (pages : Nat → TablePage) : List Nat → Nat
  | [] => 1
  | p :: ps => (pages p).records_.length + 1 + scanFuel pages ps

/-- A heap of two pages used to evaluate the scan: page 0 holds a record
inserted by transaction 1 and one inserted by transaction 9 and links to page
1, which holds a record inserted by 2 and deleted by 3 and a record inserted by
4, and ends the chain (`NULL_PAGE_ID` taken as 99). -/
def examplePages : Nat → TablePage := fun pid =>
  if pid = 0 then
    ⟨1, [⟨false, 1, 0, 0, [some 10], ⟨0, 0⟩⟩, ⟨false, 9, 0, 0, [some 20], ⟨0, 0⟩⟩]⟩
  else if pid = 1 then
    ⟨99, [⟨true, 2, 3, 0, [some 30], ⟨0, 0⟩⟩, ⟨false, 4, 0, 0, [none], ⟨0, 0⟩⟩]⟩
  else ⟨99, []⟩

/-! ## Slotted table page (`table_page.cpp`)

The page is modelled by its header fields, its slot array and the bytes of
its record area, as three separate components; this is the page as long as
the slot array and the records do not run into each other or into the header.
The dirty flag belongs to the buffer frame (`page_->SetDirty()`), not to the
page contents, and is left out. Sizes and offsets are `db_size_t` in the
source; the statements below concern pages where no subtraction wraps. -/

/-- Modelled from the spec: the constants of `common/constants.h` and the sizes
of the types of `common/types.h` and `table_page.h` the code uses (none of
these files is part of the sources at hand). `SLOT_SIZE` is `sizeof(Slot)`,
`XID_SIZE` is `sizeof(xid_t)`. -/
structure Constants where
  DB_PAGE_SIZE : Nat
  PAGE_HEADER_SIZE : Nat
  SLOT_SIZE : Nat
  XID_SIZE : Nat
  MAX_RECORD_SIZE : Nat
  NULL_PAGE_ID : Nat
  NULL_XID : Nat
  NULL_LSN : Nat
  FIRST_LSN : Nat
  DDL_XID : Nat
  deriving DecidableEq, Repr

/-- What the code relies on about the constants: a slot entry takes room, an
initialised page has room for a slot entry and a record of the greatest
admitted size, and page 0 is not the null page id. -/
def Constants.WellFormed (K : Constants) : Prop :=
  0 < K.SLOT_SIZE
  ∧ K.PAGE_HEADER_SIZE + K.SLOT_SIZE + K.MAX_RECORD_SIZE ≤ K.DB_PAGE_SIZE
  ∧ K.NULL_PAGE_ID ≠ 0

instance (K : Constants) : Decidable K.WellFormed := by
  unfold Constants.WellFormed; infer_instance

/-- One entry of the slot array, the struct `Slot`. -/
structure Slot where
  offset_ : Nat
  size_ : Nat
  deriving DecidableEq, Repr

/-- The contents of a table page: the header fields `page_lsn`, `next_page_id`,
`lower`, `upper`, the slot array `slots_` and the bytes `page_data_` by page
offset. -/
structure SlottedPage where
  page_lsn_ : Nat
  next_page_id_ : Nat
  lower_ : Nat
  upper_ : Nat
  slots_ : Nat → Slot
  page_data_ : Nat → Nat

/-- Writing the bytes `bs` at offset `off` and following. -/
def writeBytes (data : Nat → Nat) (off : Nat) (bs : List Nat) : Nat → Nat :=
  fun i => if off ≤ i ∧ i < off + bs.length then bs.getD (i - off) 0 else data i

/-- The `n` bytes at offset `off` and following. -/
def readBytes (data : Nat → Nat) (off n : Nat) : List Nat :=
  (List.range n).map (fun i => data (off + i))

/-- The `w` bytes of the unsigned integer `v`, least significant first (the
object representation the store `*reinterpret_cast<xid_t *>(p) = v` writes
on a little-endian machine). -/
def encodeLE (w v : Nat) : List Nat :=
  (List.range w).map (fun i => v / 256 ^ i % 256)

/-- Assignment `slots_[slot_id] = slot`. -/
def setSlot (slots : Nat → Slot) (slot_id : Nat) (slot : Slot) : Nat → Slot :=
  fun i => if i = slot_id then slot else slots i

/-- `TablePage::Init`. -/
def SlottedPage.Init (K : Constants) (p : SlottedPage) : SlottedPage :=
  { p with
    page_lsn_ := 0
    next_page_id_ := K.NULL_PAGE_ID
    lower_ := K.PAGE_HEADER_SIZE
    upper_ := K.DB_PAGE_SIZE }

/-- The calls `record->SetXmin(xid)` and `record->SetCid(cid)`. -/
def Record.stamp (record : Record) (xid cid : Nat) : Record :=
  { record with xmin_ := xid, cid_ := cid }

/-- `TablePage::InsertRecord`: the returned slot id and the page afterwards.
`SerializeTo` is `Record::SerializeTo` (of `record.cpp`, not part of the sources
at hand) as the list of bytes it writes; `Record::GetSize` is their number. The
slot array and the bytes of the records are two components here and
`upper - size` is a difference of natural numbers, which is the page of the
source as long as the record fits (`lower + sizeof(Slot) + size <= upper`): the
slot entry and the bytes of the record then lie apart in `page_data_` and nothing
wraps. For a record that does not fit the source writes the record over the
slot array; the function then still gives the slot id, `lower` and `upper` of the
source while the record stays clear of the page header
(`PAGE_HEADER_SIZE + size <= upper`), but not the contents of the page. -/
def SlottedPage.InsertRecord (K : Constants) (SerializeTo : Record → List Nat)
    (p : SlottedPage) (record : Record) (xid cid : Nat) : Nat × SlottedPage :=
  let record := record.stamp xid cid
  let slotId := (p.lower_ - K.PAGE_HEADER_SIZE) / K.SLOT_SIZE
  let upper := p.upper_ - (SerializeTo record).length
  let lower := p.lower_ + K.SLOT_SIZE
  let newSlot : Slot := ⟨upper, (SerializeTo record).length⟩
  (slotId,
    { p with
      upper_ := upper
      lower_ := lower
      slots_ := setSlot p.slots_ slotId newSlot
      page_data_ := writeBytes p.page_data_ upper (SerializeTo record) })

/-- `TablePage::DeleteRecord`: the first byte of the record becomes 1, the
`xid_t` at byte 5 of the record becomes `xid`. -/
def SlottedPage.DeleteRecord (K : Constants) (p : SlottedPage) (slot_id xid : Nat) :
    SlottedPage :=
  let slotOffset := (p.slots_ slot_id).offset_
  { p with
    page_data_ :=
      writeBytes (writeBytes p.page_data_ slotOffset [1]) (slotOffset + 5)
        (encodeLE K.XID_SIZE xid) }

/-- `TablePage::UpdateRecordInPlace`. -/
def SlottedPage.UpdateRecordInPlace (SerializeTo : Record → List Nat) (p : SlottedPage)
    (record : Record) (slot_id : Nat) : SlottedPage :=
  { p with
    page_data_ := writeBytes p.page_data_ (p.slots_ slot_id).offset_ (SerializeTo record) }

/-- `TablePage::UndoDeleteRecord`: the first byte of the record becomes 0, the
`xid_t` at byte 5 of the record becomes `NULL_XID`. -/
def SlottedPage.UndoDeleteRecord (K : Constants) (p : SlottedPage) (slot_id : Nat) :
    SlottedPage :=
  let record_offset := (p.slots_ slot_id).offset_
  { p with
    page_data_ :=
      writeBytes (writeBytes p.page_data_ record_offset [0]) (record_offset + 5)
        (encodeLE K.XID_SIZE K.NULL_XID) }

/-- `TablePage::RedoInsertRecord`: `raw_record` is the buffer the log record
holds, of which `memcpy` copies the first `record_size` bytes. -/
def SlottedPage.RedoInsertRecord (K : Constants) (p : SlottedPage) (slot_id : Nat)
    (raw_record : List Nat) (page_offset record_size : Nat) : SlottedPage :=
  { p with
    upper_ := p.upper_ - record_size
    lower_ := p.lower_ + K.SLOT_SIZE
    slots_ := setSlot p.slots_ slot_id ⟨page_offset, record_size⟩
    page_data_ := writeBytes p.page_data_ page_offset (raw_record.take record_size) }

/-- `TablePage::GetRecordCount` of the slotted page. -/
def SlottedPage.GetRecordCount (K : Constants) (p : SlottedPage) : Nat :=
  (p.lower_ - K.PAGE_HEADER_SIZE) / K.SLOT_SIZE

/-- `TablePage::GetFreeSpaceSize`. -/
def SlottedPage.GetFreeSpaceSize (K : Constants) (p : SlottedPage) : Nat :=
  if p.upper_ < p.lower_ + K.SLOT_SIZE then 0
  else p.upper_ - p.lower_ - K.SLOT_SIZE

/-- `TablePage::SetNextPageId`. -/
def SlottedPage.SetNextPageId (p : SlottedPage) (page_id : Nat) : SlottedPage :=
  { p with next_page_id_ := page_id }

/-- `TablePage::SetPageLSN`. -/
def SlottedPage.SetPageLSN (p : SlottedPage) (page_lsn : Nat) : SlottedPage :=
  { p with page_lsn_ := page_lsn }

/-- The bytes of the record a slot points to. -/
def SlottedPage.recordBytes (p : SlottedPage) (slot_id : Nat) : List Nat :=
  readBytes p.page_data_ (p.slots_ slot_id).offset_ (p.slots_ slot_id).size_

/-! ## Log manager (`log_manager.cpp`)

`std::unordered_map` (the ATT and the DPT) is an association list with at most
one entry a key; the log file is the list of the records `Disk::WriteLog` was
given, in the order written; the files `NEXT_LSN_NAME` and `MASTER_RECORD_NAME`
are their content, `none` while they do not exist. LSNs are `lsn_t` in the
source and natural numbers here. -/

/-- The `DbException`s the modelled code throws. -/
inductive DbException where
  | RecordTooLarge (size : Nat)
  | NotInAtt (xid : Nat)
  | AlreadyInAtt (xid : Nat)
  deriving DecidableEq, Repr

/-- `unordered_map::find`: the value of key `k`, if any. -/
def amFind {κ : Type} [DecidableEq κ] : List (κ × Nat) → κ → Option Nat
  | [], _ => none
  | (k1, v) :: m, k => if k1 = k then some v else amFind m k

/-- Assignment `m[k] = v`: insert or overwrite. -/
def amSet {κ : Type} [DecidableEq κ] : List (κ × Nat) → κ → Nat → List (κ × Nat)
  | [], k, v => [(k, v)]
  | (k1, v1) :: m, k, v => if k1 = k then (k, v) :: m else (k1, v1) :: amSet m k v

/-- `unordered_map::erase` of a key. -/
def amErase {κ : Type} [DecidableEq κ] (m : List (κ × Nat)) (k : κ) : List (κ × Nat) :=
  m.filter (fun e => decide (e.1 ≠ k))

/-- Modelled from the spec: what a log record carries besides `{lsn, xid,
prev_lsn}`, by kind (the classes of `log/log_records/` are not part of the
sources at hand; the fields are the arguments the log manager constructs them
with). -/
inductive LogPayload where
  | BEGIN
  | COMMIT
  | ROLLBACK
  | INSERT (oid page_id slot_id offset size : Nat) (new_record : List Nat)
  | DELETE (oid page_id slot_id : Nat)
  | NEW_PAGE (oid prev_page_id page_id : Nat)
  | BEGIN_CHECKPOINT
  | END_CHECKPOINT (att : List (Nat × Nat)) (dpt : List ((Nat × Nat) × Nat))
  deriving DecidableEq, Repr

/-- A log record: `{lsn, xid, prev_lsn}` and the payload of its kind. -/
structure LogRecord where
  lsn_ : Nat
  xid_ : Nat
  prev_lsn_ : Nat
  payload : LogPayload
  deriving DecidableEq, Repr

/-- `LogRecord::GetSize`: the header `{type, lsn, xid, prev_lsn, size}` has a
fixed width, so the size is a function `logSize` of the payload, which stands
for the `GetSize` of the record classes. -/
def LogRecord.GetSize (logSize : LogPayload → Nat) (log : LogRecord) : Nat :=
  logSize log.payload

/-- The state of the `LogManager`. -/
structure LogManager where
  next_lsn_ : Nat
  flushed_lsn_ : Nat
  att_ : List (Nat × Nat)
  dpt_ : List ((Nat × Nat) × Nat)
  log_buffer_ : List LogRecord
  disk_log_ : List LogRecord
  next_lsn_file_ : Option Nat
  master_record_ : Option Nat
  deriving DecidableEq, Repr

/-- The constructor `LogManager(disk, transaction_manager, next_lsn)` on an empty
log file; `next_lsn - 1` is computed on the 8-byte `lsn_t` and wraps at 0. -/
def LogManager.new (next_lsn : Nat) : LogManager :=
  ⟨next_lsn, (next_lsn + 2 ^ 64 - 1) % 2 ^ 64, [], [], [], [], none, none⟩

/-- Every record appended so far: those written to the log file, then those
still in the buffer. -/
def LogManager.records (s : LogManager) : List LogRecord :=
  s.disk_log_ ++ s.log_buffer_

/-- The test of the loop of `Flush(lsn)` that leaves a record in the buffer. -/
def flushKeeps (K : Constants) (lsn : Nat) (log_record : LogRecord) : Prop :=
  lsn ≠ K.NULL_LSN ∧ log_record.lsn_ > lsn

instance (K : Constants) (lsn : Nat) (log_record : LogRecord) :
    Decidable (flushKeeps K lsn log_record) := by
  unfold flushKeeps; infer_instance

/-- The loop of `Flush(lsn)` over the buffer, from the values of `max_lsn` and
`max_log_size` so far: the records left in the buffer, the records written to
the log file, and the final `max_lsn` and `max_log_size`. -/
def flushLoop (K : Constants) (logSize : LogPayload → Nat) (lsn : Nat) :
    List LogRecord → Nat → Nat → List LogRecord × List LogRecord × Nat × Nat
  | [], max_lsn, max_log_size => ([], [], max_lsn, max_log_size)
  | log_record :: rest, max_lsn, max_log_size =>
    if flushKeeps K lsn log_record then
      let r := flushLoop K logSize lsn rest max_lsn max_log_size
      (log_record :: r.1, r.2.1, r.2.2.1, r.2.2.2)
    else
      let log_size := log_record.GetSize logSize
      let r :=
        if max_lsn = K.NULL_LSN ∨ log_record.lsn_ > max_lsn then
          flushLoop K logSize lsn rest log_record.lsn_ log_size
        else flushLoop K logSize lsn rest max_lsn max_log_size
      (r.1, log_record :: r.2.1, r.2.2.1, r.2.2.2)

/-- `LogManager::Flush(lsn)`. -/
def LogManager.Flush (K : Constants) (logSize : LogPayload → Nat) (s : LogManager)
    (lsn : Nat) : LogManager :=
  let r := flushLoop K logSize lsn s.log_buffer_ K.NULL_LSN 0
  let max_lsn := r.2.2.1
  let max_log_size := r.2.2.2
  let s := { s with log_buffer_ := r.1, disk_log_ := s.disk_log_ ++ r.2.1 }
  if max_lsn ≠ K.NULL_LSN ∧ (s.flushed_lsn_ = K.NULL_LSN ∨ max_lsn > s.flushed_lsn_) then
    let s := { s with flushed_lsn_ := max_lsn }
    let next_lsn := s.next_lsn_file_.getD K.FIRST_LSN
    if s.flushed_lsn_ + max_log_size > next_lsn then
      { s with next_lsn_file_ := some (s.flushed_lsn_ + max_log_size) }
    else s
  else s

/-- `LogManager::SetDirty`. -/
def LogManager.SetDirty (s : LogManager) (oid page_id lsn : Nat) : LogManager :=
  if amFind s.dpt_ (oid, page_id) = none then
    { s with dpt_ := amSet s.dpt_ (oid, page_id) lsn }
  else s

/-- The steps shared by the `Append*Log` functions after the record is built:
`fetch_add` of its size on `next_lsn_` and `SetLSN`. The result is the record
with its LSN and the manager with `next_lsn_` advanced. -/
def LogManager.allocate (logSize : LogPayload → Nat) (s : LogManager) (log : LogRecord) :
    LogRecord × LogManager :=
  let lsn := s.next_lsn_
  ({ log with lsn_ := lsn }, { s with next_lsn_ := s.next_lsn_ + log.GetSize logSize })

/-- `LogManager::AppendInsertLog`. -/
def LogManager.AppendInsertLog (K : Constants) (logSize : LogPayload → Nat) (s : LogManager)
    (xid oid page_id slot_id offset size : Nat) (new_record : List Nat) :
    Except DbException (Nat × LogManager) :=
  match amFind s.att_ xid with
  | none => .error (.NotInAtt xid)
  | some prev =>
    let r := s.allocate logSize
      ⟨K.NULL_LSN, xid, prev, .INSERT oid page_id slot_id offset size new_record⟩
    let lsn := r.1.lsn_
    let s := { r.2 with att_ := amSet r.2.att_ xid lsn }
    let s := { s with log_buffer_ := s.log_buffer_ ++ [r.1] }
    .ok (lsn, s.SetDirty oid page_id lsn)

/-- `LogManager::AppendDeleteLog`. -/
def LogManager.AppendDeleteLog (K : Constants) (logSize : LogPayload → Nat) (s : LogManager)
    (xid oid page_id slot_id : Nat) : Except DbException (Nat × LogManager) :=
  match amFind s.att_ xid with
  | none => .error (.NotInAtt xid)
  | some prev =>
    let r := s.allocate logSize ⟨K.NULL_LSN, xid, prev, .DELETE oid page_id slot_id⟩
    let lsn := r.1.lsn_
    let s := { r.2 with att_ := amSet r.2.att_ xid lsn }
    let s := { s with log_buffer_ := s.log_buffer_ ++ [r.1] }
    .ok (lsn, s.SetDirty oid page_id lsn)

/-- The conversion of an `lsn_t` to an `xid_t`, an unsigned integer of 4 bytes (the
record header keeps `xmin` in the bytes 1 to 4, before `xmax` at byte 5): the value
modulo `2 ^ 32`. -/
def narrowXid (v : Nat) : Nat :=
  v % 4294967296

/-- `LogManager::AppendNewPageLog`. The source keeps what it passes for `prev_lsn` in
the variable `xid_t log_xid`: `NULL_XID` for `DDL_XID`, for which the ATT is left alone,
and otherwise `att_.at(xid)` converted to `xid_t`. -/
def LogManager.AppendNewPageLog (K : Constants) (logSize : LogPayload → Nat) (s : LogManager)
    (xid oid prev_page_id page_id : Nat) : Except DbException (Nat × LogManager) :=
  if xid ≠ K.DDL_XID ∧ amFind s.att_ xid = none then .error (.NotInAtt xid)
  else
    let log_xid :=
      if xid = K.DDL_XID then K.NULL_XID
      else narrowXid ((amFind s.att_ xid).getD K.NULL_XID)
    let r := s.allocate logSize ⟨K.NULL_LSN, xid, log_xid, .NEW_PAGE oid prev_page_id page_id⟩
    let lsn := r.1.lsn_
    let s := if xid ≠ K.DDL_XID then { r.2 with att_ := amSet r.2.att_ xid lsn } else r.2
    let s := { s with log_buffer_ := s.log_buffer_ ++ [r.1] }
    let s := s.SetDirty oid page_id lsn
    let s := if prev_page_id ≠ K.NULL_PAGE_ID then s.SetDirty oid prev_page_id lsn else s
    .ok (lsn, s)

/-- `LogManager::AppendBeginLog`. -/
def LogManager.AppendBeginLog (K : Constants) (logSize : LogPayload → Nat) (s : LogManager)
    (xid : Nat) : Except DbException (Nat × LogManager) :=
  if amFind s.att_ xid ≠ none then .error (.AlreadyInAtt xid)
  else
    let r := s.allocate logSize ⟨K.NULL_LSN, xid, K.NULL_LSN, .BEGIN⟩
    let lsn := r.1.lsn_
    let s := { r.2 with att_ := amSet r.2.att_ xid lsn }
    let s := { s with log_buffer_ := s.log_buffer_ ++ [r.1] }
    .ok (lsn, s)

/-- `LogManager::AppendCommitLog`. -/
def LogManager.AppendCommitLog (K : Constants) (logSize : LogPayload → Nat) (s : LogManager)
    (xid : Nat) : Except DbException (Nat × LogManager) :=
  match amFind s.att_ xid with
  | none => .error (.NotInAtt xid)
  | some prev =>
    let r := s.allocate logSize ⟨K.NULL_LSN, xid, prev, .COMMIT⟩
    let lsn := r.1.lsn_
    let s := { r.2 with log_buffer_ := r.2.log_buffer_ ++ [r.1] }
    let s := s.Flush K logSize lsn
    .ok (lsn, { s with att_ := amErase s.att_ xid })

/-- `LogManager::AppendRollbackLog`. -/
def LogManager.AppendRollbackLog (K : Constants) (logSize : LogPayload → Nat) (s : LogManager)
    (xid : Nat) : Except DbException (Nat × LogManager) :=
  match amFind s.att_ xid with
  | none => .error (.NotInAtt xid)
  | some prev =>
    let r := s.allocate logSize ⟨K.NULL_LSN, xid, prev, .ROLLBACK⟩
    let lsn := r.1.lsn_
    let s := { r.2 with log_buffer_ := r.2.log_buffer_ ++ [r.1] }
    let s := s.Flush K logSize lsn
    .ok (lsn, { s with att_ := amErase s.att_ xid })

/-- `LogManager::Checkpoint`: the returned `end_lsn` and the manager afterwards. -/
def LogManager.Checkpoint (K : Constants) (logSize : LogPayload → Nat) (s : LogManager) :
    Nat × LogManager :=
  let r := s.allocate logSize ⟨K.NULL_LSN, K.NULL_XID, K.NULL_LSN, .BEGIN_CHECKPOINT⟩
  let begin_lsn := r.1.lsn_
  let s := { r.2 with log_buffer_ := r.2.log_buffer_ ++ [r.1] }
  let r := s.allocate logSize
    ⟨K.NULL_LSN, K.NULL_XID, K.NULL_LSN, .END_CHECKPOINT s.att_ s.dpt_⟩
  let end_lsn := r.1.lsn_
  let s := { r.2 with log_buffer_ := r.2.log_buffer_ ++ [r.1] }
  let s := s.Flush K logSize end_lsn
  (end_lsn, { s with master_record_ := some begin_lsn })

/-- `LogManager::FlushPage`. -/
def LogManager.FlushPage (K : Constants) (logSize : LogPayload → Nat) (s : LogManager)
    (table_oid page_id page_lsn : Nat) : LogManager :=
  let s := s.Flush K logSize page_lsn
  { s with dpt_ := amErase s.dpt_ (table_oid, page_id) }

/-- A call of one of the functions of the log manager modelled above. -/
inductive LogCall where
  | AppendInsertLog (xid oid page_id slot_id offset size : Nat) (new_record : List Nat)
  | AppendDeleteLog (xid oid page_id slot_id : Nat)
  | AppendNewPageLog (xid oid prev_page_id page_id : Nat)
  | AppendBeginLog (xid : Nat)
  | AppendCommitLog (xid : Nat)
  | AppendRollbackLog (xid : Nat)
  | Checkpoint
  | Flush (lsn : Nat)
  | SetDirty (oid page_id lsn : Nat)
  | FlushPage (table_oid page_id page_lsn : Nat)
  deriving DecidableEq, Repr

/-- The effect of a call: the LSN it returns (`NULL_LSN` for a `void` function)
and the manager afterwards, or the exception it throws. -/
def LogManager.call (K : Constants) (logSize : LogPayload → Nat) (s : LogManager) :
    LogCall → Except DbException (Nat × LogManager)
  | .AppendInsertLog xid oid page_id slot_id offset size new_record =>
    s.AppendInsertLog K logSize xid oid page_id slot_id offset size new_record
  | .AppendDeleteLog xid oid page_id slot_id => s.AppendDeleteLog K logSize xid oid page_id slot_id
  | .AppendNewPageLog xid oid prev_page_id page_id =>
    s.AppendNewPageLog K logSize xid oid prev_page_id page_id
  | .AppendBeginLog xid => s.AppendBeginLog K logSize xid
  | .AppendCommitLog xid => s.AppendCommitLog K logSize xid
  | .AppendRollbackLog xid => s.AppendRollbackLog K logSize xid
  | .Checkpoint => .ok (s.Checkpoint K logSize)
  | .Flush lsn => .ok (K.NULL_LSN, s.Flush K logSize lsn)
  | .SetDirty oid page_id lsn => .ok (K.NULL_LSN, s.SetDirty oid page_id lsn)
  | .FlushPage table_oid page_id page_lsn =>
    .ok (K.NULL_LSN, s.FlushPage K logSize table_oid page_id page_lsn)

/-- The manager after a sequence of calls; a call that throws (each does so
before it changes anything) leaves the manager as it was. -/
def LogManager.run (K : Constants) (logSize : LogPayload → Nat) (s : LogManager) :
    List LogCall → LogManager
  | [] => s
  | c :: calls =>
    match s.call K logSize c with
    | .error _ => LogManager.run K logSize s calls
    | .ok r => LogManager.run K logSize r.2 calls

/-- The records `logs` fill the LSN range from `lo` to `hi` without gap: the
first has LSN `lo`, each next one the LSN of its predecessor plus the size of
its predecessor, and `hi` is the LSN after the last. -/
def Tiles (logSize : LogPayload → Nat) : Nat → List LogRecord → Nat → Prop
  | lo, [], hi => lo = hi
  | lo, log :: logs, hi => log.lsn_ = lo ∧ Tiles logSize (lo + log.GetSize logSize) logs hi

/-- The list `chain` is what following `prev_lsn` from `lsn` visits among the
records `logs`: records of `xid` found by their LSN, until `NULL_LSN`. -/
def IsLogChain (K : Constants) (logs : List LogRecord) (xid : Nat) :
    Nat → List LogRecord → Prop
  | lsn, [] => lsn = K.NULL_LSN
  | lsn, log :: chain =>
    lsn ≠ K.NULL_LSN ∧ log ∈ logs ∧ log.lsn_ = lsn ∧ log.xid_ = xid
      ∧ IsLogChain K logs xid log.prev_lsn_ chain

/-- The chain of `prev_lsn` from `lsn` visits records of `xid` in strictly
decreasing LSN order and ends, at `NULL_LSN`, with a Begin record. -/
def GoodChain (K : Constants) (logs : List LogRecord) (xid lsn : Nat) : Prop :=
  ∃ chain, IsLogChain K logs xid lsn chain
    ∧ chain.Pairwise (fun a b => b.lsn_ < a.lsn_)
    ∧ ∃ b, chain.getLast? = some b ∧ b.payload = LogPayload.BEGIN

/-- The number of records a call appends to the log when it returns. -/
def LogCall.appended : LogCall → Nat
  | .AppendInsertLog _ _ _ _ _ _ _ => 1
  | .AppendDeleteLog _ _ _ _ => 1
  | .AppendNewPageLog _ _ _ _ => 1
  | .AppendBeginLog _ => 1
  | .AppendCommitLog _ => 1
  | .AppendRollbackLog _ => 1
  | .Checkpoint => 2
  | .Flush _ => 0
  | .SetDirty _ _ _ => 0
  | .FlushPage _ _ _ => 0

/-- Values of the constants used to evaluate the model: small pages of 64 bytes
with a header of 20 bytes, slot entries of 8 bytes, 4-byte xids, `NULL_XID = 0`,
`DDL_XID = 1`, and the greatest values of their types for `NULL_PAGE_ID` and
`NULL_LSN`. -/
def exampleConstants : Constants :=
  { DB_PAGE_SIZE := 64
    PAGE_HEADER_SIZE := 20
    SLOT_SIZE := 8
    XID_SIZE := 4
    MAX_RECORD_SIZE := 36
    NULL_PAGE_ID := 4294967295
    NULL_XID := 0
    NULL_LSN := 18446744073709551615
    FIRST_LSN := 0
    DDL_XID := 1 }

/-- Sizes of log records used to evaluate the model: 24 bytes, and the record
bytes on top for an Insert record. -/
def exampleLogSize : LogPayload → Nat
  | .INSERT _ _ _ _ size _ => 44 + size
  | _ => 24

/-- Every transaction of the ATT has a good chain of `prev_lsn` from its ATT
entry. -/
def ChainInv (K : Constants) (s : LogManager) : Prop :=
  ∀ xid lsn, amFind s.att_ xid = some lsn → GoodChain K s.records xid lsn

/-! ## Table heap (`table.cpp`)

The pages of the table, as `BufferPool::GetPage` and `NewPage` hand them out, are
a function from page ids to page contents; what `NewPage` returns before `Init`
is whatever that function holds at the new id. -/

/-- The state `Table::InsertRecord` reads and writes: the members `oid_` and
`first_page_id_`, the pages of the table in the buffer pool and the log
manager. -/
structure Table where
  oid_ : Nat
  first_page_id_ : Nat
  pages : Nat → SlottedPage
  log_manager_ : LogManager

/-- A write through a `TablePage` handle: page `page_id` of the table becomes `p`. -/
def Table.setPage (t : Table) (page_id : Nat) (p : SlottedPage) : Table :=
  { t with pages := fun i => if i = page_id then p else t.pages i }

/-- The branch of `Table::InsertRecord` for a table without pages (lines 44-60):
page 0 is created, initialised and receives the record; with `write_log` a
NewPage and an Insert record are appended and the page LSN is set. The result
is the returned rid or the exception thrown, and the state at that point. -/
def Table.insertFirst (K : Constants) (SerializeTo : Record → List Nat)
    (logSize : LogPayload → Nat) (t : Table) (record : Record) (xid cid : Nat)
    (write_log : Bool) : Except DbException Rid × Table :=
  let t := { t with first_page_id_ := 0 }
  let r := ((t.pages t.first_page_id_).Init K).InsertRecord K SerializeTo record xid cid
  let slotId := r.1
  let t := t.setPage t.first_page_id_ r.2
  if write_log then
    let offset := r.2.upper_
    let size := (SerializeTo (record.stamp xid cid)).length
    let newRecord := readBytes r.2.page_data_ offset size
    match t.log_manager_.AppendNewPageLog K logSize xid t.oid_ K.NULL_PAGE_ID t.first_page_id_ with
    | .error e => (.error e, t)
    | .ok (_, lm) =>
      match lm.AppendInsertLog K logSize xid t.oid_ t.first_page_id_ slotId offset size
          newRecord with
      | .error e => (.error e, { t with log_manager_ := lm })
      | .ok (lsn, lm) =>
        (.ok ⟨0, slotId⟩,
          ({ t with log_manager_ := lm }).setPage t.first_page_id_ (r.2.SetPageLSN lsn))
  else (.ok ⟨0, slotId⟩, t)

/-- The body of the loop of `Table::InsertRecord` for a page with room (lines
68-78): the record goes into page `currentPageId`; with `write_log` an Insert
record is appended and the page LSN is set. -/
def Table.insertInto (K : Constants) (SerializeTo : Record → List Nat)
    (logSize : LogPayload → Nat) (t : Table) (currentPageId : Nat) (record : Record)
    (xid cid : Nat) (write_log : Bool) : Except DbException Rid × Table :=
  let r := (t.pages currentPageId).InsertRecord K SerializeTo record xid cid
  let slotId := r.1
  let t := t.setPage currentPageId r.2
  if write_log then
    let offset := r.2.upper_
    let size := (SerializeTo (record.stamp xid cid)).length
    let newRecord := readBytes r.2.page_data_ offset size
    match t.log_manager_.AppendInsertLog K logSize xid t.oid_ currentPageId slotId offset size
        newRecord with
    | .error e => (.error e, t)
    | .ok (lsn, lm) =>
      (.ok ⟨currentPageId, slotId⟩,
        ({ t with log_manager_ := lm }).setPage currentPageId (r.2.SetPageLSN lsn))
  else (.ok ⟨currentPageId, slotId⟩, t)

/-- The body of the loop of `Table::InsertRecord` for a last page without room
(lines 81-96): page `currentPageId + 1` is created and initialised, the last
page is linked to it, the record goes into the new page; with `write_log` a
NewPage and an Insert record for page `currentPageId + 1` are appended. The
loop is left by `break` with `currentPageId` as it was, and that is the page id
of the returned rid. -/
def Table.insertNewPage (K : Constants) (SerializeTo : Record → List Nat)
    (logSize : LogPayload → Nat) (t : Table) (currentPageId : Nat) (record : Record)
    (xid cid : Nat) (write_log : Bool) : Except DbException Rid × Table :=
  let t := t.setPage (currentPageId + 1) ((t.pages (currentPageId + 1)).Init K)
  let t := t.setPage currentPageId ((t.pages currentPageId).SetNextPageId (currentPageId + 1))
  let r := (t.pages (currentPageId + 1)).InsertRecord K SerializeTo record xid cid
  let slotId := r.1
  let t := t.setPage (currentPageId + 1) r.2
  if write_log then
    let offset := r.2.upper_
    let size := (SerializeTo (record.stamp xid cid)).length
    let newRecord := readBytes r.2.page_data_ offset size
    match t.log_manager_.AppendNewPageLog K logSize xid t.oid_ currentPageId
        (currentPageId + 1) with
    | .error e => (.error e, t)
    | .ok (_, lm) =>
      match lm.AppendInsertLog K logSize xid t.oid_ (currentPageId + 1) slotId offset size
          newRecord with
      | .error e => (.error e, { t with log_manager_ := lm })
      | .ok (lsn, lm) =>
        (.ok ⟨currentPageId, slotId⟩,
          ({ t with log_manager_ := lm }).setPage (currentPageId + 1) (r.2.SetPageLSN lsn))
  else (.ok ⟨currentPageId, slotId⟩, t)

/-- The loop `while (currentPageId != NULL_PAGE_ID)` of `Table::InsertRecord`, one
iteration per unit of fuel; `none` when the fuel runs out. -/
def Table.insertLoop (K : Constants) (SerializeTo : Record → List Nat)
    (logSize : LogPayload → Nat) (record : Record) (xid cid : Nat) (write_log : Bool) :
    Nat → Table → Nat → Option (Except DbException Rid × Table)
  | 0, _, _ => none
  | fuel + 1, t, currentPageId =>
    if currentPageId = K.NULL_PAGE_ID then some (.ok ⟨currentPageId, 0⟩, t)
    else
      let tablePage := t.pages currentPageId
      if tablePage.GetFreeSpaceSize K ≥ (SerializeTo record).length then
        some (t.insertInto K SerializeTo logSize currentPageId record xid cid write_log)
      else if tablePage.next_page_id_ = K.NULL_PAGE_ID then
        some (t.insertNewPage K SerializeTo logSize currentPageId record xid cid write_log)
      else
        Table.insertLoop K SerializeTo logSize record xid cid write_log fuel t
          tablePage.next_page_id_

/-- `Table::InsertRecord`: the returned rid or the exception thrown, and the
state at that point; `none` when the loop runs out of fuel. -/
def Table.InsertRecord (K : Constants) (SerializeTo : Record → List Nat)
    (logSize : LogPayload → Nat) (fuel : Nat) (t : Table) (record : Record) (xid cid : Nat)
    (write_log : Bool) : Option (Except DbException Rid × Table) :=
  if (SerializeTo record).length > K.MAX_RECORD_SIZE then
    some (.error (.RecordTooLarge (SerializeTo record).length), t)
  else if t.first_page_id_ = K.NULL_PAGE_ID then
    some (t.insertFirst K SerializeTo logSize record xid cid write_log)
  else
    Table.insertLoop K SerializeTo logSize record xid cid write_log fuel t 0

/-- The list `chain` is the chain of pages of the table from `pid`: it follows
`next_page_id` and ends where the link is `NULL_PAGE_ID`. -/
def IsHeapChain (K : Constants) (pages : Nat → SlottedPage) : Nat → List Nat → Prop
  | pid, [] => pid = K.NULL_PAGE_ID
  | pid, p :: ps =>
    pid ≠ K.NULL_PAGE_ID ∧ p = pid ∧ IsHeapChain K pages (pages p).next_page_id_ ps

/-- Being the chain of pages from a page id is decidable. -/
def IsHeapChain.decide (K : Constants) (pages : Nat → SlottedPage) :
    ∀ (pid : Nat) (chain : List Nat), Decidable (IsHeapChain K pages pid chain)
  | pid, [] => inferInstanceAs (Decidable (pid = K.NULL_PAGE_ID))
  | pid, p :: ps =>
    have := IsHeapChain.decide K pages (pages p).next_page_id_ ps
    inferInstanceAs (Decidable (pid ≠ K.NULL_PAGE_ID ∧ p = pid
      ∧ IsHeapChain K pages (pages p).next_page_id_ ps))

instance (K : Constants) (pages : Nat → SlottedPage) (pid : Nat) (chain : List Nat) :
    Decidable (IsHeapChain K pages pid chain) :=
  IsHeapChain.decide K pages pid chain

/-- A serializer used to evaluate the model: the tombstone byte, the 4-byte
`xmin`, `xmax` and `cid`, then one byte for each column value. -/
def exampleSerialize (r : Record) : List Nat :=
  [if r.deleted_ then 1 else 0] ++ encodeLE 4 r.xmin_ ++ encodeLE 4 r.xmax_
    ++ encodeLE 4 r.cid_ ++ r.values_.map (fun v => (v.getD 0).toNat % 256)

/-- A record of `13 + n` bytes under `exampleSerialize`, every column holding `v`. -/
def exampleRecord (n : Nat) (v : Int) : Record :=
  ⟨false, 0, 0, 0, List.replicate n (some v), ⟨0, 0⟩⟩

/-- A table without pages: every frame zeroed, a fresh log manager. -/
def exampleTable : Table :=
  ⟨7, exampleConstants.NULL_PAGE_ID, fun _ => ⟨0, 0, 0, 0, fun _ => ⟨0, 0⟩, fun _ => 0⟩,
    LogManager.new 0⟩

/-- The example table after a record of 15 bytes was inserted into it by
transaction 2 without logging: page 0 holds the record and has 13 bytes of free
space. -/
def exampleTableOnePage : Table :=
  (exampleTable.insertFirst exampleConstants exampleSerialize exampleLogSize
    (exampleRecord 2 5) 2 0 false).2

/-! ## Recovery (`log_manager.cpp`): `Rollback`, `Analyze`, `Redo`

The log file is read at the granularity of records: reading at an LSN gives the
record last written at that LSN. The pages the records act on are a function
from table oid and page id to page contents, as `BufferPool::GetPage` hands them
out. The member `smallest_sequence_num_` is returned by `Analyze` and given to
`Redo`. The next-xid counter of the transaction manager, which `Analyze` raises,
is not part of the state modelled. -/

/-- Modelled from the spec: `Disk::ReadLog` at offset `lsn` followed by
`LogRecord::DeserializeFrom` (neither is part of the sources at hand): the record
last written at that offset, `none` when no record was written there. -/
def ReadLog (disk_log : List LogRecord) (lsn : Nat) : Option LogRecord :=
  disk_log.reverse.find? (fun r => decide (r.lsn_ = lsn))

/-- The test `type == INSERT || type == DELETE || type == NEW_PAGE` of `Analyze` and
`Redo`. -/
def LogPayload.isModification : LogPayload → Bool
  | .INSERT _ _ _ _ _ _ => true
  | .DELETE _ _ _ => true
  | .NEW_PAGE _ _ _ => true
  | _ => false

/-- The test `type == NEW_PAGE`. -/
def LogPayload.isNewPage : LogPayload → Bool
  | .NEW_PAGE _ _ _ => true
  | _ => false

/-- `LogManager::ExtractRecordCoordinates`: the pair `{oid, page_id}` of an Insert,
Delete or NewPage record, `{0, 0}` for the other kinds. -/
def ExtractRecordCoordinates (log_entry : LogRecord) : Nat × Nat :=
  match log_entry.payload with
  | .INSERT oid page_id _ _ _ _ => (oid, page_id)
  | .DELETE oid page_id _ => (oid, page_id)
  | .NEW_PAGE oid _ page_id => (oid, page_id)
  | _ => (0, 0)

/-- The pages of the tables by table oid and page id. -/
abbrev Pages := Nat → Nat → SlottedPage

/-- What stops `Rollback`: the `std::runtime_error` it throws when the buffer has
no record with the LSN looked for, or what the `Undo` of a record threw. -/
inductive RollbackFailure (ε : Type) where
  | NotFoundInBuffer (lsn : Nat)
  | UndoFailed (e : ε)
  deriving DecidableEq, Repr

/-- The search of `Rollback` through the buffer: the first record with the LSN
looked for. -/
def findInBuffer (log_buffer : List LogRecord) (current_sequence : Nat) : Option LogRecord :=
  log_buffer.find? (fun r => decide (r.lsn_ = current_sequence))

/-- The loop of `LogManager::Rollback` from `current_sequence`, one iteration per
unit of fuel: how it ended (`ok`, or what was thrown), the pages then, and the
records whose `Undo` was called, in the order of the calls; `none` when the fuel
runs out or the log file has no record where it is read. `Undo` is the `Undo` of
the record classes (not part of the sources at hand) as a function of the
record and the pages, which may throw; no `try` surrounds its call. -/
def rollbackLoop {ε : Type} (K : Constants) (Undo : LogRecord → Pages → Except ε Pages)
    (s : LogManager) :
    Nat → Nat → Pages → Option (Except (RollbackFailure ε) Unit × Pages × List LogRecord)
  | 0, _, _ => none
  | fuel + 1, current_sequence, pages =>
    if current_sequence ≠ K.NULL_LSN then
      if current_sequence > s.flushed_lsn_ then
        match findInBuffer s.log_buffer_ current_sequence with
        | some current_record =>
          let previous_sequence := current_record.prev_lsn_
          match Undo current_record pages with
          | .error e => some (.error (.UndoFailed e), pages, [current_record])
          | .ok pages =>
            match rollbackLoop K Undo s fuel previous_sequence pages with
            | none => none
            | some r => some (r.1, r.2.1, current_record :: r.2.2)
        | none => some (.error (.NotFoundInBuffer current_sequence), pages, [])
      else
        match ReadLog s.disk_log_ current_sequence with
        | none => none
        | some log_entry =>
          let previous_sequence := log_entry.prev_lsn_
          match Undo log_entry pages with
          | .error e => some (.error (.UndoFailed e), pages, [log_entry])
          | .ok pages =>
            match rollbackLoop K Undo s fuel previous_sequence pages with
            | none => none
            | some r => some (r.1, r.2.1, log_entry :: r.2.2)
    else some (.ok (), pages, [])

/-- `LogManager::Rollback(xid)`; `att_.find(xid)->second` has no defined value when
`xid` is not in the ATT, for which the result is `none`. -/
def LogManager.Rollback {ε : Type} (K : Constants)
    (Undo : LogRecord → Pages → Except ε Pages) (s : LogManager) (fuel : Nat) (xid : Nat)
    (pages : Pages) : Option (Except (RollbackFailure ε) Unit × Pages × List LogRecord) :=
  match amFind s.att_ xid with
  | none => none
  | some current_sequence => rollbackLoop K Undo s fuel current_sequence pages

/-- The first loop of `Analyze`, from `current_position`: the ATT and the DPT of
the first EndCheckpoint record met, the given ones when there is none before
`next_lsn_`; `none` when the fuel runs out or the log file has no record where it
is read. -/
def analyzeCheckpoint (logSize : LogPayload → Nat) (disk_log : List LogRecord) (next_lsn : Nat) :
    Nat → Nat → List (Nat × Nat) → List ((Nat × Nat) × Nat) →
      Option (List (Nat × Nat) × List ((Nat × Nat) × Nat))
  | 0, _, _, _ => none
  | fuel + 1, current_position, att, dpt =>
    if current_position < next_lsn then
      match ReadLog disk_log current_position with
      | none => none
      | some log_entry =>
        match log_entry.payload with
        | .END_CHECKPOINT a d => some (a, d)
        | _ =>
          analyzeCheckpoint logSize disk_log next_lsn fuel
            (current_position + log_entry.GetSize logSize) att dpt
    else some (att, dpt)

/-- The body of the second loop of `Analyze` for the record `log_entry` read at
`current_position`: the ATT and the DPT afterwards. -/
def analyzeStep (current_position : Nat) (log_entry : LogRecord)
    (tables : List (Nat × Nat) × List ((Nat × Nat) × Nat)) :
    List (Nat × Nat) × List ((Nat × Nat) × Nat) :=
  let att := tables.1
  let dpt := tables.2
  let transaction_id := log_entry.xid_
  let is_modification_record := log_entry.payload.isModification
  let att := if is_modification_record then amSet att transaction_id current_position else att
  let att :=
    if log_entry.payload = .COMMIT then
      if amFind att transaction_id ≠ none then amErase att transaction_id else att
    else att
  let coordinates := ExtractRecordCoordinates log_entry
  let dpt :=
    if is_modification_record then
      if amFind dpt coordinates = none then amSet dpt coordinates current_position else dpt
    else dpt
  (att, dpt)

/-- The second loop of `Analyze`, from `current_position`. -/
def analyzeScan (logSize : LogPayload → Nat) (disk_log : List LogRecord) (next_lsn : Nat) :
    Nat → Nat → List (Nat × Nat) × List ((Nat × Nat) × Nat) →
      Option (List (Nat × Nat) × List ((Nat × Nat) × Nat))
  | 0, _, _ => none
  | fuel + 1, current_position, tables =>
    if current_position < next_lsn then
      match ReadLog disk_log current_position with
      | none => none
      | some log_entry =>
        analyzeScan logSize disk_log next_lsn fuel
          (current_position + log_entry.GetSize logSize)
          (analyzeStep current_position log_entry tables)
    else some tables

/-- `LogManager::Analyze`: the manager afterwards and `smallest_sequence_num_`. -/
def LogManager.Analyze (K : Constants) (logSize : LogPayload → Nat) (fuel : Nat)
    (s : LogManager) : Option (LogManager × Nat) :=
  let next_lsn := s.next_lsn_file_.getD K.FIRST_LSN
  let s := { s with next_lsn_ := next_lsn, flushed_lsn_ := (next_lsn + 2 ^ 64 - 1) % 2 ^ 64 }
  let checkpoint_lsn := s.master_record_.getD 0
  match analyzeCheckpoint logSize s.disk_log_ s.next_lsn_ fuel checkpoint_lsn s.att_ s.dpt_ with
  | none => none
  | some tables =>
    match analyzeScan logSize s.disk_log_ s.next_lsn_ fuel checkpoint_lsn tables with
    | none => none
    | some tables => some ({ s with att_ := tables.1, dpt_ := tables.2 }, checkpoint_lsn)

/-- The first loop of `Redo`: the smallest of `smallest_sequence_num_` and the
`rec_lsn` of the DPT entries. -/
def redoStart (smallest_sequence_num : Nat) (dpt : List ((Nat × Nat) × Nat)) : Nat :=
  dpt.foldl (fun current_lsn e => if e.2 < current_lsn then e.2 else current_lsn)
    smallest_sequence_num

/-- The second loop of `Redo`, from `current_lsn`, one iteration per unit of fuel:
the pages afterwards and the records whose `Redo` was called, in the order of
the calls; `none` when the fuel runs out or the log file has no record where it
is read. `Redo` is the `Redo` of the record classes (not part of the sources at
hand) as a function of the record and the pages. -/
def redoLoop (logSize : LogPayload → Nat) (Redo : LogRecord → Pages → Pages)
    (disk_log : List LogRecord) (dpt : List ((Nat × Nat) × Nat)) (next_lsn : Nat) :
    Nat → Nat → Pages → Option (Pages × List LogRecord)
  | 0, _, _ => none
  | fuel + 1, current_lsn, pages =>
    if current_lsn < next_lsn then
      match ReadLog disk_log current_lsn with
      | none => none
      | some log_entry =>
        let record_location := ExtractRecordCoordinates log_entry
        let object_id := record_location.1
        let page_location := record_location.2
        let is_data_modification := log_entry.payload.isModification
        let redone : Bool :=
          if is_data_modification then
            match amFind dpt (object_id, page_location) with
            | some recovery_lsn =>
              if current_lsn ≥ recovery_lsn then
                if log_entry.payload.isNewPage then true
                else
                  let page_sequence_num := (pages object_id page_location).page_lsn_
                  if current_lsn > page_sequence_num then true else false
              else false
            | none => false
          else false
        let pages := if redone then Redo log_entry pages else pages
        match redoLoop logSize Redo disk_log dpt next_lsn fuel
            (current_lsn + log_entry.GetSize logSize) pages with
        | none => none
        | some r => some (r.1, if redone then log_entry :: r.2 else r.2)
    else some (pages, [])

/-- `LogManager::Redo`. -/
def LogManager.Redo (logSize : LogPayload → Nat) (Redo : LogRecord → Pages → Pages)
    (s : LogManager) (smallest_sequence_num : Nat) (fuel : Nat) (pages : Pages) :
    Option (Pages × List LogRecord) :=
  redoLoop logSize Redo s.disk_log_ s.dpt_ s.next_lsn_ fuel
    (redoStart smallest_sequence_num s.dpt_) pages

/-- The log manager constructed with `next_lsn` over the files another manager
left: empty buffer, ATT and DPT. -/
def LogManager.reopen (s : LogManager) (next_lsn : Nat) : LogManager :=
  { LogManager.new next_lsn with
    disk_log_ := s.disk_log_
    next_lsn_file_ := s.next_lsn_file_
    master_record_ := s.master_record_ }

/-- The condition under which the specification has `Redo` call the `Redo` of a
record: it is a mutation record, its page is in the DPT with `rec_lsn` at most
the LSN of the record, and it is a NewPage record or its LSN is greater than the
`page_lsn` the page has at that moment. -/
def RedoWanted (dpt : List ((Nat × Nat) × Nat)) (pages : Pages) (log : LogRecord) : Prop :=
  log.payload.isModification = true
  ∧ ∃ rec_lsn, amFind dpt (ExtractRecordCoordinates log) = some rec_lsn
      ∧ log.lsn_ ≥ rec_lsn
      ∧ (log.payload.isNewPage = true
          ∨ log.lsn_ > (pages (ExtractRecordCoordinates log).1
              (ExtractRecordCoordinates log).2).page_lsn_)

instance (dpt : List ((Nat × Nat) × Nat)) (pages : Pages) (log : LogRecord) :
    Decidable (RedoWanted dpt pages log) :=
  match h : amFind dpt (ExtractRecordCoordinates log) with
  | none => isFalse (fun w => by
      obtain ⟨_, v, hv, _⟩ := w
      rw [h] at hv
      cases hv)
  | some v =>
    decidable_of_iff
      (log.payload.isModification = true ∧ log.lsn_ ≥ v
        ∧ (log.payload.isNewPage = true
          ∨ log.lsn_ > (pages (ExtractRecordCoordinates log).1
              (ExtractRecordCoordinates log).2).page_lsn_))
      ⟨fun w => ⟨w.1, v, h, w.2.1, w.2.2⟩, fun w => by
        obtain ⟨a, v1, hv, b, c⟩ := w
        rw [h] at hv
        cases hv
        exact ⟨a, b, c⟩⟩

/-- The redo pass as the specification words it, over the records `logs` in
their order: the pages afterwards and the records redone. -/
def redoSpec (Redo : LogRecord → Pages → Pages) (dpt : List ((Nat × Nat) × Nat)) :
    List LogRecord → Pages → Pages × List LogRecord
  | [], pages => (pages, [])
  | log :: logs, pages =>
    if RedoWanted dpt pages log then
      ((redoSpec Redo dpt logs (Redo log pages)).1,
        log :: (redoSpec Redo dpt logs (Redo log pages)).2)
    else redoSpec Redo dpt logs pages

/-- The records `chain` are what `Rollback` meets from `lsn`: each is the record
with the LSN looked for, the first such record of the buffer when that LSN is
greater than `flushed_lsn_` and the record of the log file at that LSN when not,
and the `prev_lsn` of the last is `NULL_LSN`. -/
def IsUndoChain (K : Constants) (s : LogManager) : Nat → List LogRecord → Prop
  | lsn, [] => lsn = K.NULL_LSN
  | lsn, log :: chain =>
    lsn ≠ K.NULL_LSN
    ∧ (if lsn > s.flushed_lsn_ then findInBuffer s.log_buffer_ lsn = some log
        else ReadLog s.disk_log_ lsn = some log)
    ∧ IsUndoChain K s log.prev_lsn_ chain

/-- Deciding `IsUndoChain`. -/
def IsUndoChain.decide (K : Constants) (s : LogManager) :
    (lsn : Nat) → (chain : List LogRecord) → Decidable (IsUndoChain K s lsn chain)
  | lsn, [] => inferInstanceAs (Decidable (lsn = K.NULL_LSN))
  | lsn, log :: chain =>
    have := IsUndoChain.decide K s log.prev_lsn_ chain
    inferInstanceAs (Decidable (lsn ≠ K.NULL_LSN
      ∧ (if lsn > s.flushed_lsn_ then findInBuffer s.log_buffer_ lsn = some log
          else ReadLog s.disk_log_ lsn = some log)
      ∧ IsUndoChain K s log.prev_lsn_ chain))

instance (K : Constants) (s : LogManager) (lsn : Nat) (chain : List LogRecord) :
    Decidable (IsUndoChain K s lsn chain) := IsUndoChain.decide K s lsn chain

/-- Calling `Undo` on the records of `chain` in their order until one throws: how
it ended, the pages then, and the records `Undo` was called on. -/
def undoChain {ε : Type} (Undo : LogRecord → Pages → Except ε Pages) :
    List LogRecord → Pages → Except (RollbackFailure ε) Unit × Pages × List LogRecord
  | [], pages => (.ok (), pages, [])
  | log :: chain, pages =>
    match Undo log pages with
    | .error e => (.error (.UndoFailed e), pages, [log])
    | .ok pages1 =>
      ((undoChain Undo chain pages1).1, (undoChain Undo chain pages1).2.1,
        log :: (undoChain Undo chain pages1).2.2)

/-- Deciding `Tiles`. -/
def Tiles.decide (logSize : LogPayload → Nat) :
    (lo : Nat) → (logs : List LogRecord) → (hi : Nat) → Decidable (Tiles logSize lo logs hi)
  | lo, [], hi => inferInstanceAs (Decidable (lo = hi))
  | lo, log :: logs, hi =>
    have := Tiles.decide logSize (lo + log.GetSize logSize) logs hi
    inferInstanceAs (Decidable (log.lsn_ = lo
      ∧ Tiles logSize (lo + log.GetSize logSize) logs hi))

instance (logSize : LogPayload → Nat) (lo : Nat) (logs : List LogRecord) (hi : Nat) :
    Decidable (Tiles logSize lo logs hi) := Tiles.decide logSize lo logs hi

/-- A page with nothing on it and all header fields 0, and the pages of a
database all of which are so. -/
def examplePages0 : Pages :=
  fun _ _ => ⟨0, 0, 0, 0, fun _ => ⟨0, 0⟩, fun _ => 0⟩

/-- A `Redo` used to evaluate the model: an Insert record is put back with
`RedoInsertRecord`, a NewPage record initialises its page, a Delete record marks
the record deleted, and each sets the `page_lsn` of its page to the LSN of the
record. -/
def exampleRedo (log : LogRecord) (pages : Pages) : Pages :=
  match log.payload with
  | .INSERT oid page_id slot_id offset size new_record =>
    fun o p =>
      if o = oid ∧ p = page_id then
        ((pages o p).RedoInsertRecord exampleConstants slot_id new_record offset size).SetPageLSN
          log.lsn_
      else pages o p
  | .DELETE oid page_id slot_id =>
    fun o p =>
      if o = oid ∧ p = page_id then
        ((pages o p).DeleteRecord exampleConstants slot_id log.xid_).SetPageLSN log.lsn_
      else pages o p
  | .NEW_PAGE oid _ page_id =>
    fun o p =>
      if o = oid ∧ p = page_id then ((pages o p).Init exampleConstants).SetPageLSN log.lsn_
      else pages o p
  | _ => pages

/-- An `Undo` used to evaluate the model: the `Undo` of an Insert record throws
when its slot is not below the record count of the page and marks the record
deleted when it is; the other kinds change nothing. -/
def exampleUndo (log : LogRecord) (pages : Pages) : Except Nat Pages :=
  match log.payload with
  | .INSERT oid page_id slot_id _ _ _ =>
    if slot_id < (pages oid page_id).GetRecordCount exampleConstants then
      .ok (fun o p =>
        if o = oid ∧ p = page_id then (pages o p).DeleteRecord exampleConstants slot_id log.xid_
        else pages o p)
    else .error slot_id
  | _ => .ok pages

/-! ## Executors (`limit_executor.cpp`, `orderby_executor.cpp`)

An executor is its state; `Init` gives the state afterwards, `Next` the record
returned (`none` for the null pointer) and the state afterwards. -/

/-- Modelled from the spec: an executor as its parent sees it through the
interface of `executors/executor.h` (which is not part of the sources at hand):
`Init()` makes it start over, and `Next()` returns the records of the sequence
`rows` one after the other and the null pointer from the end of the sequence on.
The field `rest` is what is still to come. -/
structure ChildExecutor where
  rows : List Record
  rest : List Record
  deriving DecidableEq, Repr

/-- `Init()` of a child. -/
def ChildExecutor.Init (c : ChildExecutor) : ChildExecutor :=
  { c with rest := c.rows }

/-- `Next()` of a child. -/
def ChildExecutor.Next (c : ChildExecutor) : Option Record × ChildExecutor :=
  match c.rest with
  | [] => (none, c)
  | r :: rs => (some r, { c with rest := rs })

/-- The records successive calls of `next` return up to the first null pointer,
one call per unit of fuel; `none` when the fuel runs out before a null pointer
is returned. -/
def pullAll {σ : Type} (next : σ → Option Record × σ) : Nat → σ → Option (List Record)
  | 0, _ => none
  | fuel + 1, e =>
    match next e with
    | (none, _) => some []
    | (some r, e1) => (pullAll next fuel e1).map (fun l => r :: l)

/-- The members of `LimitExecutor`: the child `children_[0]` and the `uint32_t`
members `offset_` and `count_`. -/
structure LimitExecutor where
  children_0 : ChildExecutor
  offset_ : Nat
  count_ : Nat
  deriving DecidableEq, Repr

/-- The constructor of `LimitExecutor` from `plan_->limit_offset_` and
`plan_->limit_count_`; for a plan without count, `count_` is `-1` converted to
`uint32_t`. -/
def LimitExecutor.new (limit_offset_ limit_count_ : Option Nat) (child : ChildExecutor) :
    LimitExecutor :=
  { children_0 := child
    offset_ := match limit_offset_ with
      | some v => v
      | none => 0
    count_ := match limit_count_ with
      | some v => v
      | none => 4294967295 }

/-- `LimitExecutor::Init`. -/
def LimitExecutor.Init (e : LimitExecutor) : LimitExecutor :=
  { e with children_0 := e.children_0.Init }

/-- The loop `for (i = 0; i < offset_; i++) children_[0]->Next()`: the child after
`n` calls of `Next`. -/
def ChildExecutor.skip : Nat → ChildExecutor → ChildExecutor
  | 0, c => c
  | n + 1, c => ChildExecutor.skip n c.Next.2

/-- `LimitExecutor::Next`. -/
def LimitExecutor.Next (e : LimitExecutor) : Option Record × LimitExecutor :=
  let e := { e with children_0 := ChildExecutor.skip e.offset_ e.children_0, offset_ := 0 }
  if e.count_ = 0 then (none, e)
  else if e.count_ = 4294967295 then
    let r := e.children_0.Next
    (r.1, { e with children_0 := r.2 })
  else
    let r := e.children_0.Next
    (r.1, { e with children_0 := r.2, count_ := e.count_ - 1 })

/-- Modelled from the spec: the enumeration `OrderByType` of `binder/order_by.h`
(not part of the sources at hand), with the three values the executor names. -/
inductive OrderByType where
  | DEFAULT
  | ASC
  | DESC
  deriving DecidableEq, Repr

/-- Modelled from the spec: what `OrderByExecutor` uses of the class `Value` of
`common/value.h` (not part of the sources at hand): the default-constructed
value `Value()` and the comparisons `Less`, `Greater` and `Equal`. -/
structure ValueOps (ν : Type) where
  null : ν
  Less : ν → ν → Bool
  Greater : ν → ν → Bool
  Equal : ν → ν → Bool

/-- Putting `x` into a sorted list, before the first element that is not less
than it by `comp`. -/
def insertSorted {α : Type} (comp : α → α → Bool) (x : α) : List α → List α
  | [] => [x]
  | y :: ys => if comp y x then y :: insertSorted comp x ys else x :: y :: ys

/-- Modelled from the spec: `std::sort(first, last, comp)` of the C++ library on
the elements of the range as a list. The standard leaves the order among
elements none of which is less than another open; this is one of the results
it allows. -/
def stdSort {α : Type} (comp : α → α → Bool) (l : List α) : List α :=
  l.foldr (insertSorted comp) []

/-- The call `std::sort(v.begin() + lo, v.begin() + hi, comp)`. -/
def sortRange {α : Type} (comp : α → α → Bool) (v : List α) (lo hi : Nat) : List α :=
  v.take lo ++ stdSort comp ((v.take hi).drop lo) ++ v.drop hi

/-- The loops of `OrderByExecutor::Init` that sort each partition: the ranges
between successive entries of `indices_`, then the range from the last entry to
the end. -/
def sortPartitions {α : Type} (comp : α → α → Bool) (v : List α) : List Nat → List α
  | [] => v
  | [last] => sortRange comp v last v.length
  | a :: b :: rest => sortPartitions comp (sortRange comp v a b) (b :: rest)

/-- The loop of `OrderByExecutor::Init` that pushes to `indices_` each position `i`
from `i` on whose value is not `Equal` to the value before it; `prev` is the value
at position `i - 1`. -/
def boundariesFrom {ν : Type} (Equal : ν → ν → Bool) : Nat → ν → List ν → List Nat
  | _, _, [] => []
  | i, prev, v :: vs =>
    if Equal v prev then boundariesFrom Equal (i + 1) v vs
    else i :: boundariesFrom Equal (i + 1) v vs

/-- The value of `indices_` after `indices_.clear(); indices_.push_back(0);` and
the loop over the positions from 1 on. -/
def boundaries {ν : Type} (Equal : ν → ν → Bool) (values : List ν) : List Nat :=
  0 :: match values with
    | [] => []
    | v :: vs => boundariesFrom Equal 1 v vs

/-- The members of `OrderByExecutor`. -/
structure OrderByExecutor (ν : Type) where
  children_0 : ChildExecutor
  sorted_records_ : List (Record × ν)
  indices_ : List Nat
  index_ : Nat

/-- The body of the loop of `OrderByExecutor::Init` over `plan_->order_bys_`, on
`sorted_records_`, `indices_` and `orderByIdx`. -/
def orderByStep {ν : Type} (V : ValueOps ν)
    (state : List (Record × ν) × List Nat × Nat) (sortSpec : OrderByType × (Record → ν)) :
    List (Record × ν) × List Nat × Nat :=
  let direction := sortSpec.1
  let expression := sortSpec.2
  let indices := state.2.1
  let orderByIdx := state.2.2
  let sorted_records := state.1.map (fun recordPair => (recordPair.1, expression recordPair.1))
  let Less := fun (lhs rhs : Record × ν) => V.Less lhs.2 rhs.2
  let Greater := fun (lhs rhs : Record × ν) => V.Greater lhs.2 rhs.2
  let sorted_records :=
    if orderByIdx = 1 then
      if direction = .ASC ∨ direction = .DEFAULT then stdSort Less sorted_records
      else if direction = .DESC then stdSort Greater sorted_records
      else sorted_records
    else
      if direction = .ASC ∨ direction = .DEFAULT then sortPartitions Less sorted_records indices
      else if direction = .DESC then sortPartitions Greater sorted_records indices
      else sorted_records
  (sorted_records, boundaries V.Equal (sorted_records.map (fun p => p.2)), orderByIdx + 1)

/-- `OrderByExecutor::Init`, for the list `order_bys` of `plan_->order_bys_` with
each expression as the function `Evaluate` computes. The loop that calls
`children_[0]->Next()` until it returns the null pointer collects what the child
still has to give and leaves it at its end. -/
def OrderByExecutor.Init {ν : Type} (V : ValueOps ν)
    (order_bys : List (OrderByType × (Record → ν))) (e : OrderByExecutor ν) :
    OrderByExecutor ν :=
  let child := e.children_0.Init
  let collected := child.rest.map (fun current => (current, V.null))
  let child := { child with rest := [] }
  let r := order_bys.foldl (orderByStep V) (collected, [], 1)
  { children_0 := child, sorted_records_ := r.1, indices_ := r.2.1, index_ := 0 }

/-- `OrderByExecutor::Next`. -/
def OrderByExecutor.Next {ν : Type} (e : OrderByExecutor ν) :
    Option Record × OrderByExecutor ν :=
  if h : e.index_ < e.sorted_records_.length then
    (some (e.sorted_records_.get ⟨e.index_, h⟩).1, { e with index_ := e.index_ + 1 })
  else (none, e)

/-- A record with the given integer column values, used to evaluate the
model. -/
def exampleRow (values : List Int) : Record :=
  ⟨false, 0, 0, 0, values.map some, ⟨0, 0⟩⟩

/-- Comparisons used to evaluate the model, on integer values: the order of the
integers; no comparison with a null value holds. -/
def intValueOps : ValueOps (Option Int) :=
  { null := none
    Less := fun a b => match a, b with
      | some x, some y => decide (x < y)
      | _, _ => false
    Greater := fun a b => match a, b with
      | some x, some y => decide (x > y)
      | _, _ => false
    Equal := fun a b => match a, b with
      | some x, some y => decide (x = y)
      | _, _ => false }

/-- The expression that evaluates to column `i` of the record. -/
def columnValue (i : Nat) (record : Record) : Option Int :=
  match record.values_.get? i with
  | some v => v
  | none => none

/-! ## Optimizer (`optimizer.cpp`)

A plan is a tree of operators; the code works on `shared_ptr`s and assigns to
`children_` in place, which is here a function from the tree to the tree
afterwards. -/

/-- Modelled from the spec: the enumeration `LogicType` of
`operators/expressions/logic.h` (not part of the sources at hand). -/
inductive LogicType where
  | AND
  | OR
  | NOT
  deriving DecidableEq, Repr

/-- Modelled from the spec: the expressions of `operators/expressions/` (not part
of the sources at hand) as far as the optimizer looks at them: the kind
`GetExprType()`, the member `name_` (for a column value of the form
`table_name.column_name`), the operands `children_[0]` and `children_[1]` of a
comparison or a logic expression, and `GetLogicType()`. -/
inductive OperatorExpression where
  | COLUMN_VALUE (name_ : String)
  | CONST (name_ : String)
  | COMPARISON (name_ : String) (children_0 children_1 : OperatorExpression)
  | LOGIC (logic_type : LogicType) (name_ : String) (children_0 children_1 : OperatorExpression)
  deriving DecidableEq, Repr

/-- The member `name_` of an expression. -/
def OperatorExpression.name_ : OperatorExpression → String
  | .COLUMN_VALUE n => n
  | .CONST n => n
  | .COMPARISON n _ _ => n
  | .LOGIC _ n _ _ => n

/-- The test `GetExprType() == OperatorExpressionType::COLUMN_VALUE`. -/
def OperatorExpression.isColumnValue : OperatorExpression → Bool
  | .COLUMN_VALUE _ => true
  | _ => false

/-- The value of `children_[0]->name_`; it has no defined value for an expression
without operands, for which this is the empty string. -/
def OperatorExpression.childName0 : OperatorExpression → String
  | .COMPARISON _ a _ => a.name_
  | .LOGIC _ _ a _ => a.name_
  | _ => ""

/-- The value of `children_[1]->name_`. -/
def OperatorExpression.childName1 : OperatorExpression → String
  | .COMPARISON _ _ b => b.name_
  | .LOGIC _ _ _ b => b.name_
  | _ => ""

/-- Modelled from the spec: the operators of `operators/` (not part of the
sources at hand) as far as the optimizer looks at them: the kind `GetType()`, the
member `column_list_`, the children `children_[0]` and `children_[1]`, the
`predicate_` of a Filter, the `join_condition_` of a NestedLoopJoin and the
`GetTableNameOrAlias()` of a SeqScan. The kinds the optimizer does not name are
`OTHER0`, `OTHER1` and `OTHER2`, by their number of children, with a tag for the
kind. -/
inductive Operator where
  | SEQSCAN (column_list_ : List String) (table_name_or_alias : String)
  | FILTER (column_list_ : List String) (children_0 : Operator)
      (predicate_ : OperatorExpression)
  | PROJECTION (column_list_ : List String) (children_0 : Operator)
  | NESTEDLOOP (column_list_ : List String) (children_0 children_1 : Operator)
      (join_condition_ : OperatorExpression)
  | INSERT (column_list_ : List String) (children_0 : Operator)
  | OTHER0 (kind : Nat) (column_list_ : List String)
  | OTHER1 (kind : Nat) (column_list_ : List String) (children_0 : Operator)
  | OTHER2 (kind : Nat) (column_list_ : List String) (children_0 children_1 : Operator)
  deriving DecidableEq, Repr

/-- The vector `children_` of an operator. -/
def Operator.children_ : Operator → List Operator
  | .SEQSCAN _ _ => []
  | .FILTER _ c _ => [c]
  | .PROJECTION _ c => [c]
  | .NESTEDLOOP _ a b _ => [a, b]
  | .INSERT _ c => [c]
  | .OTHER0 _ _ => []
  | .OTHER1 _ _ c => [c]
  | .OTHER2 _ _ a b => [a, b]

/-- What `SplitPredicates` makes of a child that is a Filter over `child` with the
predicate `predicate_`: for a logic expression of type AND, a Filter with the
left operand over `child` and a Filter with the right operand over that, and the
recursive call `SplitPredicates(second_filter)`, which does the same to the lower
one of the two, the only child of `second_filter`. -/
def splitFilter (column_list_ : List String) (child : Operator) :
    OperatorExpression → Operator
  | .LOGIC .AND _ left right =>
    .FILTER column_list_ (splitFilter column_list_ child left) right
  | predicate_ => .FILTER column_list_ child predicate_

/-- The body of the loop of `SplitPredicates` for the child `child_op`. -/
def splitChild (child_op : Operator) : Operator :=
  match child_op with
  | .FILTER column_list_ child predicate_ => splitFilter column_list_ child predicate_
  | _ => child_op

/-- `Optimizer::SplitPredicates`: the loop over the children of `plan`. -/
def SplitPredicates : Operator → Operator
  | .SEQSCAN cl t => .SEQSCAN cl t
  | .FILTER cl c p => .FILTER cl (splitChild c) p
  | .PROJECTION cl c => .PROJECTION cl (splitChild c)
  | .NESTEDLOOP cl a b j => .NESTEDLOOP cl (splitChild a) (splitChild b) j
  | .INSERT cl c => .INSERT cl (splitChild c)
  | .OTHER0 k cl => .OTHER0 k cl
  | .OTHER1 k cl c => .OTHER1 k cl (splitChild c)
  | .OTHER2 k cl a b => .OTHER2 k cl (splitChild a) (splitChild b)

/-- The members of the `Optimizer` that `PushDown` reads and writes. The set
`table_names_` is a list used through membership only. -/
structure OptimizerState where
  join_conditions_ : List (OperatorExpression × Bool)
  filter_conditions_ : List (OperatorExpression × Bool)
  table_names_ : List String
  deriving DecidableEq, Repr

/-- The part of a name before the first `.`, as `substr(0, find('.'))` gives it
(the whole name when it has no `.`). -/
def tablePart (name : String) : String :=
  String.mk (name.data.takeWhile (fun ch => decide (ch ≠ '.')))

/-- The function `GetTableName`: the names of the SeqScan nodes of the tree, added
to `table_set`. -/
def GetTableName : Operator → List String → List String
  | .SEQSCAN _ t, table_set => table_set ++ [t]
  | .FILTER _ c _, table_set => GetTableName c table_set
  | .PROJECTION _ c, table_set => GetTableName c table_set
  | .NESTEDLOOP _ a b _, table_set => GetTableName b (GetTableName a table_set)
  | .INSERT _ c, table_set => GetTableName c table_set
  | .OTHER0 _ _, table_set => table_set
  | .OTHER1 _ _ c, table_set => GetTableName c table_set
  | .OTHER2 _ _ a b, table_set => GetTableName b (GetTableName a table_set)

/-- The loop of `PushDownJoin` over `join_conditions_`: the first condition both
table names of which are in `table_names`, if any, and the conditions with that
one marked. -/
def placeJoinCondition (table_names : List String) :
    List (OperatorExpression × Bool) → Option OperatorExpression × List (OperatorExpression × Bool)
  | [] => (none, [])
  | join_cond :: rest =>
    if tablePart join_cond.1.childName0 ∈ table_names
        ∧ tablePart join_cond.1.childName1 ∈ table_names then
      (some join_cond.1, (join_cond.1, true) :: rest)
    else
      ((placeJoinCondition table_names rest).1,
        join_cond :: (placeJoinCondition table_names rest).2)

/-- The loop of `PushDownSeqScan` over `filter_conditions_`: the first predicate
the table name of which is `scan_table_name`, if any, and the predicates with
that one marked. -/
def placeFilterCondition (scan_table_name : String) :
    List (OperatorExpression × Bool) → Option OperatorExpression × List (OperatorExpression × Bool)
  | [] => (none, [])
  | filter_pred :: rest =>
    if tablePart filter_pred.1.childName0 = scan_table_name then
      (some filter_pred.1, (filter_pred.1, true) :: rest)
    else
      ((placeFilterCondition scan_table_name rest).1,
        filter_pred :: (placeFilterCondition scan_table_name rest).2)

/-- The value of `conditions.back().second`; it has no defined value for an empty
vector, for which this is `false`. -/
def backSecond (conditions : List (OperatorExpression × Bool)) : Bool :=
  match conditions.getLast? with
  | some c => c.2
  | none => false

/-- `Optimizer::PushDown` with `PushDownFilter`, `PushDownProjection`, `PushDownJoin` and
`PushDownSeqScan`: the plan returned and the members afterwards. The argument
`column_list` stands for the assignment by which `PushDownFilter` gives the
`column_list_` of the Filter to its child before the recursive call: when it is
`some l`, a NestedLoopJoin or SeqScan node has `l` for its `column_list_`. -/
def PushDown : Operator → Option (List String) → OptimizerState → Operator × OptimizerState
  | .FILTER cl child predicate_, _, st =>
    let classified : Int × OptimizerState × Option (List String) :=
      match predicate_ with
      | .COMPARISON _ a b =>
        if a.isColumnValue = true ∧ b.isColumnValue = true then
          (1, { st with join_conditions_ := st.join_conditions_ ++ [(predicate_, false)] },
            some cl)
        else
          (0, { st with filter_conditions_ := st.filter_conditions_ ++ [(predicate_, false)] },
            some cl)
      | _ => (-1, st, none)
    let predicate_type := classified.1
    let r := PushDown child classified.2.2 classified.2.1
    if predicate_type = 1 ∧ backSecond r.2.join_conditions_ = true then (r.1, r.2)
    else if predicate_type = 0 ∧ backSecond r.2.filter_conditions_ = true then (r.1, r.2)
    else (.FILTER cl r.1 predicate_, r.2)
  | .PROJECTION cl child, _, st =>
    let r := PushDown child none st
    (.PROJECTION cl r.1, r.2)
  | .NESTEDLOOP cl a b join_condition_, column_list, st =>
    let cl := match column_list with
      | some l => l
      | none => cl
    let table_names := GetTableName (.NESTEDLOOP cl a b join_condition_) []
    let placed := placeJoinCondition table_names st.join_conditions_
    let join_condition_ := match placed.1 with
      | some c => c
      | none => join_condition_
    let st := { st with table_names_ := table_names, join_conditions_ := placed.2 }
    let ra := PushDown a none st
    let rb := PushDown b none ra.2
    (.NESTEDLOOP cl ra.1 rb.1 join_condition_, rb.2)
  | .SEQSCAN cl scan_table_name, column_list, st =>
    let cl := match column_list with
      | some l => l
      | none => cl
    let placed := placeFilterCondition scan_table_name st.filter_conditions_
    match placed.1 with
    | some filter_pred =>
      (.FILTER cl (.SEQSCAN cl scan_table_name) filter_pred,
        { st with filter_conditions_ := placed.2 })
    | none => (.SEQSCAN cl scan_table_name, st)
  | .INSERT cl c, _, st => (.INSERT cl (SplitPredicates c), st)
  | .OTHER0 k cl, _, st => (.OTHER0 k cl, st)
  | .OTHER1 k cl c, _, st => (.OTHER1 k cl (SplitPredicates c), st)
  | .OTHER2 k cl a b, _, st => (.OTHER2 k cl (SplitPredicates a) (SplitPredicates b), st)

/-- The enumeration `JoinOrderAlgorithm` of `optimizer.h`. -/
inductive JoinOrderAlgorithm where
  | NONE
  | DP
  | GREEDY
  deriving DecidableEq, Repr

/-- The assignments `node->children_[0] = a; node->children_[1] = b`; `none` for a
node that has not two children. -/
def Operator.setChildren2 (node a b : Operator) : Option Operator :=
  match node with
  | .NESTEDLOOP cl _ _ j => some (.NESTEDLOOP cl a b j)
  | .OTHER2 k cl _ _ => some (.OTHER2 k cl a b)
  | _ => none

/-- The assignment `node->children_[0] = a`; `none` for a node without children. -/
def Operator.setChild0 (node a : Operator) : Option Operator :=
  match node with
  | .FILTER cl _ p => some (.FILTER cl a p)
  | .PROJECTION cl _ => some (.PROJECTION cl a)
  | .NESTEDLOOP cl _ b j => some (.NESTEDLOOP cl a b j)
  | .INSERT cl _ => some (.INSERT cl a)
  | .OTHER1 k cl _ => some (.OTHER1 k cl a)
  | .OTHER2 k cl _ b => some (.OTHER2 k cl a b)
  | _ => none

/-- `Optimizer::ReorderJoin` for the value `join_order_algorithm_`; `none` when a
child is read or assigned that the node does not have. -/
def ReorderJoin (join_order_algorithm_ : JoinOrderAlgorithm) (plan : Operator) :
    Option Operator :=
  if join_order_algorithm_ = .NONE then some plan
  else if join_order_algorithm_ = .GREEDY then
    match plan with
    | .INSERT _ _ => some plan
    | _ =>
      match plan.children_.get? 0 with
      | none => none
      | some top_loop =>
        match top_loop.children_.get? 0, top_loop.children_.get? 1 with
        | some middle_loop, some scan_table4 =>
          match middle_loop.children_.get? 0, middle_loop.children_.get? 1 with
          | some bottom_loop, some scan_table3 =>
            match bottom_loop.children_.get? 0, bottom_loop.children_.get? 1 with
            | some scan_table1, some scan_table2 =>
              match middle_loop.setChildren2 scan_table2 scan_table3 with
              | none => none
              | some middle_loop =>
                match top_loop.setChildren2 middle_loop scan_table4 with
                | none => none
                | some top_loop =>
                  match bottom_loop.setChildren2 top_loop scan_table1 with
                  | none => none
                  | some bottom_loop => plan.setChild0 bottom_loop
            | _, _ => none
          | _, _ => none
        | _, _ => none
  else some plan

/-- A call of one of the three functions of the lock manager that change the
held locks. -/
inductive LockCall where
  | LockTable (xid : Nat) (lock_type : LockType) (oid : Nat)
  | LockRow (xid : Nat) (lock_type : LockType) (oid : Nat) (rid : Rid)
  | ReleaseLocks (xid : Nat)
  deriving DecidableEq, Repr

/-- The held locks after a call (whatever `LockTable` or `LockRow` returned). -/
def LockMap.call (m : LockMap) : LockCall → LockMap
  | .LockTable xid lock_type oid => (LockTable m xid lock_type oid).2
  | .LockRow xid lock_type oid rid => (LockRow m xid lock_type oid rid).2
  | .ReleaseLocks xid => ReleaseLocks m xid

/-- The held locks after a sequence of calls. -/
def LockMap.run (m : LockMap) (calls : List LockCall) : LockMap :=
  calls.foldl LockMap.call m

/-- Any two locks held on the same object by different transactions have
compatible modes when both are table locks and when both are row locks on the
same row. -/
def LocksCompatible (m : LockMap) : Prop :=
  ∀ oid, ∀ a ∈ m oid, ∀ b ∈ m oid, a.xid_t_ ≠ b.xid_t_ →
    (a.lock_granularity_ = .TABLE → b.lock_granularity_ = .TABLE →
      Compatible a.lock_type_ b.lock_type_ = true)
    ∧ (a.lock_granularity_ = .ROW → b.lock_granularity_ = .ROW → a.rid_ = b.rid_ →
      Compatible a.lock_type_ b.lock_type_ = true)

/-! ## Join executors (`nested_loop_join_executor.cpp`, `merge_join_executor.cpp`)

`Next()` of a join runs loops that end when a record is returned. A loop is
given by what one pass through it does to the members; `runLoop` makes the
passes, one per unit of fuel. -/

/-- Modelled from the spec: `Record::Append` (the class `Record` is not part of
the sources at hand) puts the values of the other record after those of this
one. -/
def Record.Append (r other : Record) : Record :=
  { r with values_ := r.values_ ++ other.values_ }

/-- Modelled from the spec: the constructor of `Record` from a vector of values,
a record with these values and an empty header. -/
def Record.ofValues (values : List (Option Int)) : Record :=
  ⟨false, 0, 0, 0, values, ⟨0, 0⟩⟩

/-- Modelled from the spec: `Record::GetValue(i)`, the value of column `i`
(the null value when there is no such column). -/
def Record.GetValue (r : Record) (i : Nat) : Option Int :=
  match r.values_.get? i with
  | some v => v
  | none => none

/-- Modelled from the spec: `Record::SetValue(i, value)` replaces the value of
column `i`. -/
def Record.SetValue (r : Record) (i : Nat) (value : Option Int) : Record :=
  { r with values_ := r.values_.set i value }

/-- Passes through a loop until one of them returns: `step` is one pass, which
either goes on with new members (`Sum.inl`) or returns a value with the members
it leaves (`Sum.inr`); `none` when the fuel runs out before a pass returns. -/
def runLoop {σ ρ : Type} (step : σ → Sum σ (ρ × σ)) : Nat → σ → Option (ρ × σ)
  | 0, _ => none
  | fuel + 1, e =>
    match step e with
    | .inl e1 => runLoop step fuel e1
    | .inr out => some out

/-- The records successive calls of `next` return up to the first null pointer,
one call per unit of fuel, for a `next` that may itself run out of fuel; `none`
when a call runs out of fuel or the fuel runs out before a null pointer is
returned. -/
def pullAllF {σ : Type} (next : σ → Option (Option Record × σ)) :
    Nat → σ → Option (List Record)
  | 0, _ => none
  | fuel + 1, e =>
    match next e with
    | none => none
    | some (none, _) => some []
    | some (some r, e1) => (pullAllF next fuel e1).map (fun l => r :: l)

/-- The records the passes through a loop return up to the first null pointer
when every call starts where the call before returned, one pass per unit of
fuel. -/
def pullSteps {σ : Type} (step : σ → Sum σ (Option Record × σ)) :
    Nat → σ → Option (List Record)
  | 0, _ => none
  | fuel + 1, e =>
    match step e with
    | .inl e1 => pullSteps step fuel e1
    | .inr (none, _) => some []
    | .inr (some r, e1) => (pullSteps step fuel e1).map (fun l => r :: l)

/-- Modelled from the spec: the enumeration `JoinType` (declared in a header
that is not part of the sources at hand), with the four types
`NestedLoopJoinExecutor::Next` distinguishes. -/
inductive JoinType where
  | INNER
  | LEFT
  | RIGHT
  | FULL
  deriving DecidableEq, Repr

/-- The members of `NestedLoopJoinExecutor`: the children `children_[0]` (left)
and `children_[1]` (right), the current records, the numbers of values of the
first record of either side, the tables of pairs (index, matched) and the
indexes of the current records. -/
structure NestedLoopJoinExecutor where
  children_0 : ChildExecutor
  children_1 : ChildExecutor
  r_record_ : Option Record
  s_record_ : Option Record
  r_value_size_ : Nat
  s_value_size_ : Nat
  r_table_ : List (Nat × Bool)
  s_table_ : List (Nat × Bool)
  r_index_ : Nat
  s_index_ : Nat
  deriving DecidableEq, Repr

/-- The loops `while (record) { table.push_back({index, false}); ++index; record =
child->Next(); }` of `Init`, over the record at hand and the records the child
has still to return: the table and the index afterwards. -/
def storeRecords : List Record → List (Nat × Bool) → Nat → List (Nat × Bool) × Nat
  | [], table, index => (table, index)
  | _ :: rest, table, index => storeRecords rest (table ++ [(index, false)]) (index + 1)

/-- The records a loop `while (record) { ...; record = child->Next(); }` sees: the
record at hand, if there is one, and those the child has still to return. -/
def recordsFrom (record : Option Record) (child : ChildExecutor) : List Record :=
  match record with
  | none => []
  | some r => r :: child.rest

/-- The assignment `table[index].second = true`. -/
def setSecond : List (Nat × Bool) → Nat → List (Nat × Bool)
  | [], _ => []
  | p :: table, 0 => (p.1, true) :: table
  | p :: table, index + 1 => p :: setSecond table index

/-- The value `table[index].second` (`false` when the table has no such
entry). -/
def getSecond : List (Nat × Bool) → Nat → Bool
  | [], _ => false
  | p :: _, 0 => p.2
  | _ :: table, index + 1 => getSecond table index

/-- `NestedLoopJoinExecutor::Init`. -/
def NestedLoopJoinExecutor.Init (e : NestedLoopJoinExecutor) : NestedLoopJoinExecutor :=
  let c0 := e.children_0.Init
  let c1 := e.children_1.Init
  let r_record_ := c0.Next.1
  let c0 := c0.Next.2
  let s_record_ := c1.Next.1
  let c1 := c1.Next.2
  let r_value_size_ := match r_record_ with
    | some r => r.values_.length
    | none => 0
  let s_value_size_ := match s_record_ with
    | some s => s.values_.length
    | none => 0
  let r_table_ := (storeRecords (recordsFrom r_record_ c0) [] 0).1
  let s_table_ := (storeRecords (recordsFrom s_record_ c1) [] 0).1
  let c0 := c0.Init
  let c1 := c1.Init
  { children_0 := c0.Next.2
    children_1 := c1.Next.2
    r_record_ := c0.Next.1
    s_record_ := c1.Next.1
    r_value_size_ := r_value_size_
    s_value_size_ := s_value_size_
    r_table_ := r_table_
    s_table_ := s_table_
    r_index_ := 0
    s_index_ := 0 }

/-- One pass through the loops of the case `JoinType::INNER` of `Next`; `condition`
is `plan_->join_condition_->EvaluateJoin`. With a left and a right record at
hand, the body of `while (s_record_)`; with a left record only, the statements
after that loop; without a left record, the statements after
`while (r_record_)`. -/
def NestedLoopJoinExecutor.stepINNER (condition : Record → Record → Bool)
    (e : NestedLoopJoinExecutor) :
    Sum NestedLoopJoinExecutor (Option Record × NestedLoopJoinExecutor) :=
  match e.r_record_ with
  | some r =>
    match e.s_record_ with
    | some s =>
      if condition r s = true then
        let joinResult := r.Append s
        .inr (some joinResult,
          { e with s_record_ := e.children_1.Next.1, children_1 := e.children_1.Next.2 })
      else
        .inl { e with s_record_ := e.children_1.Next.1, children_1 := e.children_1.Next.2 }
    | none =>
      let c1 := e.children_1.Init
      .inl { e with
        children_1 := c1.Next.2
        s_record_ := c1.Next.1
        r_record_ := e.children_0.Next.1
        children_0 := e.children_0.Next.2 }
  | none =>
    .inr (none, { e with children_0 := e.children_0.Init, children_1 := e.children_1.Init })

/-- One pass through the loops of the case `JoinType::LEFT` of `Next`. -/
def NestedLoopJoinExecutor.stepLEFT (condition : Record → Record → Bool)
    (e : NestedLoopJoinExecutor) :
    Sum NestedLoopJoinExecutor (Option Record × NestedLoopJoinExecutor) :=
  match e.r_record_ with
  | some r =>
    match e.s_record_ with
    | some s =>
      if condition r s = true then
        let joinResult := r.Append s
        .inr (some joinResult,
          { e with
            r_table_ := setSecond e.r_table_ e.r_index_
            s_record_ := e.children_1.Next.1
            children_1 := e.children_1.Next.2
            s_index_ := e.s_index_ + 1 })
      else
        .inl { e with
          s_record_ := e.children_1.Next.1
          children_1 := e.children_1.Next.2
          s_index_ := e.s_index_ + 1 }
    | none =>
      let c1 := e.children_1.Init
      if getSecond e.r_table_ e.r_index_ = false ∧ e.s_value_size_ > 0 then
        let nullValues := List.replicate e.s_value_size_ (none : Option Int)
        let nullExtendedResult := r.Append (Record.ofValues nullValues)
        .inr (some nullExtendedResult,
          { e with
            children_1 := c1.Next.2
            s_record_ := c1.Next.1
            s_index_ := 0
            r_record_ := e.children_0.Next.1
            children_0 := e.children_0.Next.2
            r_index_ := e.r_index_ + 1 })
      else
        .inl { e with
          children_1 := c1.Next.2
          s_record_ := c1.Next.1
          s_index_ := 0
          r_record_ := e.children_0.Next.1
          children_0 := e.children_0.Next.2
          r_index_ := e.r_index_ + 1 }
  | none => .inr (none, e)

/-- The loop `while (s_record_ && r_value_size_ > 0)` of the cases `RIGHT` and `FULL`,
entered when there is no left record, and the `return nullptr` after it: one
pass. -/
def NestedLoopJoinExecutor.stepUnmatchedRight (e : NestedLoopJoinExecutor) :
    Sum NestedLoopJoinExecutor (Option Record × NestedLoopJoinExecutor) :=
  match e.s_record_ with
  | some s =>
    if e.r_value_size_ > 0 then
      if getSecond e.s_table_ e.s_index_ = false then
        let nullValues := List.replicate e.r_value_size_ (none : Option Int)
        let outerJoinResult := (Record.ofValues nullValues).Append s
        let outerJoinResult := outerJoinResult.SetValue 0 (s.GetValue 0)
        .inr (some outerJoinResult,
          { e with
            s_table_ := setSecond e.s_table_ e.s_index_
            s_record_ := e.children_1.Next.1
            children_1 := e.children_1.Next.2
            s_index_ := e.s_index_ + 1 })
      else
        .inl { e with
          s_record_ := e.children_1.Next.1
          children_1 := e.children_1.Next.2
          s_index_ := e.s_index_ + 1 }
    else .inr (none, e)
  | none => .inr (none, e)

/-- One pass through the loops of the case `JoinType::RIGHT` of `Next`. -/
def NestedLoopJoinExecutor.stepRIGHT (condition : Record → Record → Bool)
    (e : NestedLoopJoinExecutor) :
    Sum NestedLoopJoinExecutor (Option Record × NestedLoopJoinExecutor) :=
  match e.r_record_ with
  | none => e.stepUnmatchedRight
  | some r =>
    match e.s_record_ with
    | some s =>
      if condition r s = true then
        let joinedResult := r.Append s
        .inr (some joinedResult,
          { e with
            s_table_ := setSecond e.s_table_ e.s_index_
            s_record_ := e.children_1.Next.1
            children_1 := e.children_1.Next.2
            s_index_ := e.s_index_ + 1 })
      else
        .inl { e with
          s_record_ := e.children_1.Next.1
          children_1 := e.children_1.Next.2
          s_index_ := e.s_index_ + 1 }
    | none =>
      let c1 := e.children_1.Init
      .inl { e with
        children_1 := c1.Next.2
        s_record_ := c1.Next.1
        s_index_ := 0
        r_record_ := e.children_0.Next.1
        children_0 := e.children_0.Next.2
        r_index_ := e.r_index_ + 1 }

/-- One pass through the loops of the case `JoinType::FULL` of `Next`. -/
def NestedLoopJoinExecutor.stepFULL (condition : Record → Record → Bool)
    (e : NestedLoopJoinExecutor) :
    Sum NestedLoopJoinExecutor (Option Record × NestedLoopJoinExecutor) :=
  match e.r_record_ with
  | none => e.stepUnmatchedRight
  | some r =>
    match e.s_record_ with
    | some s =>
      if condition r s = true then
        let combinedRecord := r.Append s
        .inr (some combinedRecord,
          { e with
            r_table_ := setSecond e.r_table_ e.r_index_
            s_table_ := setSecond e.s_table_ e.s_index_
            s_record_ := e.children_1.Next.1
            children_1 := e.children_1.Next.2
            s_index_ := e.s_index_ + 1 })
      else
        .inl { e with
          s_record_ := e.children_1.Next.1
          children_1 := e.children_1.Next.2
          s_index_ := e.s_index_ + 1 }
    | none =>
      let c1 := e.children_1.Init
      if getSecond e.r_table_ e.r_index_ = false ∧ e.s_value_size_ > 0 then
        let nullRightValues := List.replicate e.s_value_size_ (none : Option Int)
        let leftOuterResult := r.Append (Record.ofValues nullRightValues)
        .inr (some leftOuterResult,
          { e with
            children_1 := c1.Next.2
            s_record_ := c1.Next.1
            s_index_ := 0
            r_record_ := e.children_0.Next.1
            children_0 := e.children_0.Next.2
            r_index_ := e.r_index_ + 1 })
      else
        .inl { e with
          children_1 := c1.Next.2
          s_record_ := c1.Next.1
          s_index_ := 0
          r_record_ := e.children_0.Next.1
          children_0 := e.children_0.Next.2
          r_index_ := e.r_index_ + 1 }

/-- One pass through the loops of `Next` for the join type of the plan. -/
def NestedLoopJoinExecutor.step (join_type : JoinType) (condition : Record → Record → Bool)
    (e : NestedLoopJoinExecutor) :
    Sum NestedLoopJoinExecutor (Option Record × NestedLoopJoinExecutor) :=
  match join_type with
  | .INNER => e.stepINNER condition
  | .LEFT => e.stepLEFT condition
  | .RIGHT => e.stepRIGHT condition
  | .FULL => e.stepFULL condition

/-- `NestedLoopJoinExecutor::Next` for the join type and the join condition of
the plan: the passes through its loops up to the first that returns. -/
def NestedLoopJoinExecutor.Next (join_type : JoinType) (condition : Record → Record → Bool)
    (fuel : Nat) (e : NestedLoopJoinExecutor) :
    Option (Option Record × NestedLoopJoinExecutor) :=
  runLoop (NestedLoopJoinExecutor.step join_type condition) fuel e

/-- The executor a `NestedLoopJoinExecutor` is constructed as, over a left child
returning the records `L` and a right child returning the records `R`. -/
def NestedLoopJoinExecutor.new (L R : List Record) : NestedLoopJoinExecutor :=
  { children_0 := ⟨L, L⟩
    children_1 := ⟨R, R⟩
    r_record_ := none
    s_record_ := none
    r_value_size_ := 0
    s_value_size_ := 0
    r_table_ := []
    s_table_ := []
    r_index_ := 0
    s_index_ := 0 }

/-- The entries `(index, mark)`, `(index + 1, mark)`, ... of a table with the given
marks. -/
def tableFrom : Nat → List Bool → List (Nat × Bool)
  | _, [] => []
  | index, b :: marks => (index, b) :: tableFrom (index + 1) marks

/-- The number of values of the first record of a sequence, `0` for the empty
sequence: what `Init` stores in `r_value_size_` and `s_value_size_`. -/
def valueSize (rows : List Record) : Nat :=
  match rows with
  | [] => 0
  | r :: _ => r.values_.length

/-- The records `l ++ s` for the records `s` of `R` that the condition holds of with
`l`, in the order of `R`. -/
def joinRow (condition : Record → Record → Bool) (l : Record) (R : List Record) :
    List Record :=
  (R.filter (fun s => condition l s)).map (fun s => l.Append s)

/-- The record `l` followed by `n` null values. -/
def nullExtend (l : Record) (n : Nat) : Record :=
  l.Append (Record.ofValues (List.replicate n none))

/-- The record the cases `RIGHT` and `FULL` return for a right record `s` without
match: `n` null values followed by the values of `s`, with the first value
replaced by the first value of `s`. -/
def rightOuterRecord (n : Nat) (s : Record) : Record :=
  ((Record.ofValues (List.replicate n none)).Append s).SetValue 0 (s.GetValue 0)

/-- The members of a `NestedLoopJoinExecutor` over children with the records `L` and
`R` at a point where the left record at hand and the left records to come are
`ls` and the right record at hand and the right records to come are `Rs`. -/
def streamState (L R ls Rs : List Record) (r_value_size_ s_value_size_ : Nat)
    (r_table_ s_table_ : List (Nat × Bool)) (r_index_ s_index_ : Nat) :
    NestedLoopJoinExecutor :=
  { children_0 := ⟨L, ls.tail⟩
    children_1 := ⟨R, Rs.tail⟩
    r_record_ := ls.head?
    s_record_ := Rs.head?
    r_value_size_ := r_value_size_
    s_value_size_ := s_value_size_
    r_table_ := r_table_
    s_table_ := s_table_
    r_index_ := r_index_
    s_index_ := s_index_ }

/-- A run of passes through a loop returns the records `out` and then the null
pointer: some amount of fuel gives them. -/
def Yields {σ : Type} (step : σ → Sum σ (Option Record × σ)) (e : σ) (out : List Record) :
    Prop :=
  ∃ k, pullSteps step k e = some out

/-- The points of `MergeJoinExecutor::Next` the control can be at before a pass: the
heads of its five loops. The local variables `left_value`, `right_value` and
`join_result` that are alive at a point are kept with it. -/
inductive MergeJoinControl (ν : Type) where
  /-- Head of `while (!last_match_.empty())`, the entry of `Next`. -/
  | matchLoop
  /-- Head of `while (r_record_ && s_record_)`. -/
  | mergeLoop
  /-- Head of `while (left_value.Less(right_value))`. -/
  | lessLoop (left_value right_value : ν)
  /-- Head of `while (left_value.Greater(right_value))`. -/
  | greaterLoop (left_value right_value : ν)
  /-- Head of `while (s_record_ && rhs_key->Evaluate(s_record_).Equal(left_value))`. -/
  | collectLoop (left_value : ν) (join_result : Record)

/-- The members of `MergeJoinExecutor`: the children `children_[0]` (left) and
`children_[1]` (right), the current records, the right records `last_match_`
equal to the left record and the index `index_` into them; and the point of
`Next` the control is at, which between two calls is its entry. -/
structure MergeJoinExecutor (ν : Type) where
  children_0 : ChildExecutor
  children_1 : ChildExecutor
  r_record_ : Option Record
  s_record_ : Option Record
  last_match_ : List Record
  index_ : Nat
  control : MergeJoinControl ν

/-- The constructor of `MergeJoinExecutor`, over a left child returning the records
`L` and a right child returning the records `R`: `index_` is `0` and `last_match_` is
empty. -/
def MergeJoinExecutor.new (ν : Type) (L R : List Record) : MergeJoinExecutor ν :=
  { children_0 := ⟨L, L⟩
    children_1 := ⟨R, R⟩
    r_record_ := none
    s_record_ := none
    last_match_ := []
    index_ := 0
    control := .matchLoop }

/-- `MergeJoinExecutor::Init`. -/
def MergeJoinExecutor.Init {ν : Type} (e : MergeJoinExecutor ν) : MergeJoinExecutor ν :=
  let c0 := e.children_0.Init
  let c1 := e.children_1.Init
  { e with
    children_0 := c0.Next.2
    children_1 := c1.Next.2
    s_record_ := c1.Next.1
    r_record_ := c0.Next.1
    control := .matchLoop }

/-- One pass through a loop of `MergeJoinExecutor::Next`, from the head of the loop
the control is at: the test of the loop and, when it holds, its body, else the
statements up to the head of the next loop or to a `return`. `lhs_key` and
`rhs_key` are `plan_->left_key_->Evaluate` and `plan_->right_key_->Evaluate`. A pass
that would use a record when there is none goes on as it is (the source
dereferences a null pointer there). -/
def MergeJoinExecutor.step {ν : Type} (V : ValueOps ν) (lhs_key rhs_key : Record → ν)
    (e : MergeJoinExecutor ν) :
    Sum (MergeJoinExecutor ν) (Option Record × MergeJoinExecutor ν) :=
  match e.control with
  | .matchLoop =>
    if e.last_match_ ≠ [] then
      if h : e.index_ < e.last_match_.length then
        match e.r_record_ with
        | none => .inl e
        | some r =>
          let join_result := r.Append (e.last_match_.get ⟨e.index_, h⟩)
          .inr (some join_result, { e with index_ := e.index_ + 1, control := .matchLoop })
      else
        let previous_record := e.r_record_
        match e.children_0.Next.1 with
        | none =>
          .inl { e with
            r_record_ := none
            children_0 := e.children_0.Next.2
            last_match_ := []
            index_ := 0 }
        | some r1 =>
          match previous_record with
          | none => .inl e
          | some previous =>
            .inl { e with
              r_record_ := some r1
              children_0 := e.children_0.Next.2
              last_match_ :=
                if V.Equal (lhs_key r1) (lhs_key previous) = false then [] else e.last_match_
              index_ := 0 }
    else .inl { e with control := .mergeLoop }
  | .mergeLoop =>
    match e.r_record_, e.s_record_ with
    | some r, some s => .inl { e with control := .lessLoop (lhs_key r) (rhs_key s) }
    | _, _ =>
      .inr (none,
        { e with
          children_0 := e.children_0.Init
          children_1 := e.children_1.Init
          control := .matchLoop })
  | .lessLoop left_value right_value =>
    if V.Less left_value right_value = true then
      match e.children_0.Next.1 with
      | none =>
        .inr (none,
          { e with
            r_record_ := none
            children_0 := e.children_0.Next.2
            control := .matchLoop })
      | some r1 =>
        .inl { e with
          r_record_ := some r1
          children_0 := e.children_0.Next.2
          control := .lessLoop (lhs_key r1) right_value }
    else .inl { e with control := .greaterLoop left_value right_value }
  | .greaterLoop left_value right_value =>
    if V.Greater left_value right_value = true then
      match e.children_1.Next.1 with
      | none =>
        .inr (none,
          { e with
            s_record_ := none
            children_1 := e.children_1.Next.2
            control := .matchLoop })
      | some s1 =>
        .inl { e with
          s_record_ := some s1
          children_1 := e.children_1.Next.2
          control := .greaterLoop left_value (rhs_key s1) }
    else if V.Equal left_value right_value = true then
      match e.r_record_, e.s_record_ with
      | some r, some s =>
        let join_result := r.Append s
        .inl { e with
          last_match_ := e.last_match_ ++ [s]
          s_record_ := e.children_1.Next.1
          children_1 := e.children_1.Next.2
          control := .collectLoop left_value join_result }
      | _, _ => .inl e
    else .inl { e with control := .mergeLoop }
  | .collectLoop left_value join_result =>
    match e.s_record_ with
    | some s =>
      if V.Equal (rhs_key s) left_value = true then
        .inl { e with
          last_match_ := e.last_match_ ++ [s]
          s_record_ := e.children_1.Next.1
          children_1 := e.children_1.Next.2 }
      else .inr (some join_result, { e with index_ := e.index_ + 1, control := .matchLoop })
    | none => .inr (some join_result, { e with index_ := e.index_ + 1, control := .matchLoop })

/-- `MergeJoinExecutor::Next`: the passes through its loops from its entry up to
the first that returns. -/
def MergeJoinExecutor.Next {ν : Type} (V : ValueOps ν) (lhs_key rhs_key : Record → ν)
    (fuel : Nat) (e : MergeJoinExecutor ν) : Option (Option Record × MergeJoinExecutor ν) :=
  runLoop (MergeJoinExecutor.step V lhs_key rhs_key) fuel e

/-- The comparisons of the key values of the records of `Ls` and `Rs` are those of
the integers `kl l` and `kr s` given to the records: the keys are linearly ordered
by `Less`, `Greater` and `Equal`. -/
def KeysRanked {ν : Type} (V : ValueOps ν) (lhs_key rhs_key : Record → ν)
    (kl kr : Record → Int) (Ls Rs : List Record) : Prop :=
  (∀ l ∈ Ls, ∀ s ∈ Rs,
    V.Less (lhs_key l) (rhs_key s) = decide (kl l < kr s)
    ∧ V.Greater (lhs_key l) (rhs_key s) = decide (kr s < kl l)
    ∧ V.Equal (lhs_key l) (rhs_key s) = decide (kl l = kr s)
    ∧ V.Equal (rhs_key s) (lhs_key l) = decide (kr s = kl l))
  ∧ ∀ l ∈ Ls, ∀ x ∈ Ls, V.Equal (lhs_key x) (lhs_key l) = decide (kl x = kl l)

/-- The members of a `MergeJoinExecutor` over children with the records `L` and `R` at
a point where the left record at hand and the left records to come are `ls`
and the right record at hand and the right records to come are `Rs`. -/
def mergeState {ν : Type} (L R ls Rs : List Record) (last_match_ : List Record)
    (index_ : Nat) (control : MergeJoinControl ν) : MergeJoinExecutor ν :=
  { children_0 := ⟨L, ls.tail⟩
    children_1 := ⟨R, Rs.tail⟩
    r_record_ := ls.head?
    s_record_ := Rs.head?
    last_match_ := last_match_
    index_ := index_
    control := control }

/-- The integer value of column `i` of a record, `0` for a null value: the rank
of the key of the records used to evaluate the model. -/
def columnRank (i : Nat) (record : Record) : Int :=
  match columnValue i record with
  | some v => v
  | none => 0

instance {ν : Type} (V : ValueOps ν) (lhs_key rhs_key : Record → ν) (kl kr : Record → Int)
    (Ls Rs : List Record) : Decidable (KeysRanked V lhs_key rhs_key kl kr Ls Rs) := by
  unfold KeysRanked
  exact inferInstance

/-! ## Insert executor (`insert_executor.cpp`) -/

/-- The exceptions `Next` of the Insert, the Delete and the Update executor ends
with: the two it throws itself when a lock is refused, and those of the call
of `Table::InsertRecord`, `Table::DeleteRecord` or `Table::UpdateRecord`. -/
inductive ExecutorException where
  | LockTableFailed
  | LockRowFailed
  | Table (e : DbException)
  deriving DecidableEq, Repr

/-- The members of `InsertExecutor` and what it reaches through `context_`: the child
`children_[0]`, the flag `finished_`, the table `table_` and the lock manager
`context_.GetLockManager()`. -/
structure InsertExecutor where
  children_0 : ChildExecutor
  finished_ : Bool
  table_ : Table
  lock_manager : LockMap

/-- The loop `for (i = 0; i < insert_columns.size(); i++) values[column_index] =
record->GetValue(i)` of `Next`; `column_indexes` holds for every insert column the
index `column_list_.GetColumnIndex` gives for its name (the catalog is not part
of the sources at hand). -/
def setColumns : List Nat → Nat → Record → List (Option Int) → List (Option Int)
  | [], _, _, values => values
  | column_index :: rest, i, record, values =>
    setColumns rest (i + 1) record (values.set column_index (record.GetValue i))

/-- The record `table_record` that `Next` builds from a record of the child:
`length` is `column_list_.Length()`. -/
def tableRecord (length : Nat) (column_indexes : List Nat) (record : Record) : Record :=
  Record.ofValues (setColumns column_indexes 0 record (List.replicate length none))

/-- `InsertExecutor::Init`. The table and the column list it fetches from the
catalog are those of the model. -/
def InsertExecutor.Init (e : InsertExecutor) : InsertExecutor :=
  { e with children_0 := e.children_0.Init }

/-- The loop `while (auto record = children_[0]->Next())` of `InsertExecutor::Next`,
over the records the child has still to return, from the given value of the
`uint32_t` variable `count`: the value of `count` after the loop or the exception
thrown, and the members afterwards; `none` when `Table::InsertRecord` runs out of
fuel. `xid` and `cid` are `context_.GetXid()` and `context_.GetCid()`. -/
def InsertExecutor.insertLoop (K : Constants) (SerializeTo : Record → List Nat)
    (logSize : LogPayload → Nat) (xid cid length : Nat) (column_indexes : List Nat)
    (fuel : Nat) :
    List Record → Nat → InsertExecutor → Option (Except ExecutorException Nat × InsertExecutor)
  | [], count, e => some (.ok count, { e with children_0 := { e.children_0 with rest := [] } })
  | record :: rest, count, e =>
    let e := { e with children_0 := { e.children_0 with rest := rest } }
    let table_record := tableRecord length column_indexes record
    let transaction_id := xid
    let object_id := e.table_.oid_
    let locked := LockTable e.lock_manager transaction_id .IX object_id
    if locked.1 = false then
      some (.error .LockTableFailed, { e with lock_manager := locked.2 })
    else
      match Table.InsertRecord K SerializeTo logSize fuel e.table_ table_record xid cid true with
      | none => none
      | some (.error ex, t) =>
        some (.error (.Table ex), { e with lock_manager := locked.2, table_ := t })
      | some (.ok record_id, t) =>
        let locked := LockRow locked.2 transaction_id .X object_id record_id
        if locked.1 = false then
          some (.error .LockRowFailed, { e with lock_manager := locked.2, table_ := t })
        else
          InsertExecutor.insertLoop K SerializeTo logSize xid cid length column_indexes fuel
            rest ((count + 1) % 4294967296) { e with lock_manager := locked.2, table_ := t }

/-- `InsertExecutor::Next`: the record returned (`none` for the null pointer) or the
exception thrown, and the members afterwards. -/
def InsertExecutor.Next (K : Constants) (SerializeTo : Record → List Nat)
    (logSize : LogPayload → Nat) (xid cid length : Nat) (column_indexes : List Nat)
    (fuel : Nat) (e : InsertExecutor) :
    Option (Except ExecutorException (Option Record) × InsertExecutor) :=
  if e.finished_ = true then some (.ok none, e)
  else
    match InsertExecutor.insertLoop K SerializeTo logSize xid cid length column_indexes fuel
        e.children_0.rest 0 e with
    | none => none
    | some (.error ex, e1) => some (.error ex, e1)
    | some (.ok count, e1) =>
      some (.ok (some (Record.ofValues [some (count : Int)])), { e1 with finished_ := true })

/-- The records of a list inserted into a table one after the other by
transaction `xid` with logging: the rids returned and the table afterwards when
every call of `Table::InsertRecord` returns a rid, `none` otherwise. -/
def Table.insertAll (K : Constants) (SerializeTo : Record → List Nat)
    (logSize : LogPayload → Nat) (xid cid : Nat) (fuel : Nat) :
    Table → List Record → Option (List Rid × Table)
  | t, [] => some ([], t)
  | t, record :: rest =>
    match Table.InsertRecord K SerializeTo logSize fuel t record xid cid true with
    | some (.ok rid, t1) =>
      (Table.insertAll K SerializeTo logSize xid cid fuel t1 rest).map
        (fun p => (rid :: p.1, p.2))
    | _ => none

/-- Transaction `xid` holds a table lock of mode `lock_type` on object `oid`. -/
def holdsTable (m : LockMap) (oid xid : Nat) (lock_type : LockType) : Prop :=
  ∃ y ∈ m oid, y.xid_t_ = xid ∧ y.lock_granularity_ = .TABLE ∧ y.lock_type_ = lock_type

/-- Transaction `xid` holds a row lock of mode `lock_type` on row `rid` of object
`oid`. -/
def holdsRow (m : LockMap) (oid xid : Nat) (rid : Rid) (lock_type : LockType) : Prop :=
  ∃ y ∈ m oid, y.xid_t_ = xid ∧ sameRow rid y ∧ y.lock_type_ = lock_type

/-- The example table at a point where transaction 2 has begun: its log manager
holds the Begin record of the transaction. -/
def exampleTableBegun : Table :=
  { exampleTable with
    log_manager_ :=
      match (LogManager.new 0).AppendBeginLog exampleConstants exampleLogSize 2 with
      | .ok (_, s) => s
      | .error _ => LogManager.new 0 }

/-! ## Delete and Update executors (`delete_executor.cpp`, `update_executor.cpp`) -/

/-- `Table::DeleteRecord`: the exception thrown, if any, and the table afterwards:
the record is marked on its page; with `write_log` a Delete record is appended
and the page LSN is set. -/
def Table.DeleteRecord (K : Constants) (logSize : LogPayload → Nat) (t : Table) (rid : Rid)
    (xid : Nat) (write_log : Bool) : Except DbException Unit × Table :=
  let table_page := (t.pages rid.page_id_).DeleteRecord K rid.slot_id_ xid
  let t := t.setPage rid.page_id_ table_page
  if write_log then
    match t.log_manager_.AppendDeleteLog K logSize xid t.oid_ rid.page_id_ rid.slot_id_ with
    | .error e => (.error e, t)
    | .ok (lsn, lm) =>
      (.ok (), ({ t with log_manager_ := lm }).setPage rid.page_id_ (table_page.SetPageLSN lsn))
  else (.ok (), t)

/-- `Table::UpdateRecord`: `DeleteRecord` of the old record, then `InsertRecord` of the
new one, the rid of which is returned; `none` when `InsertRecord` runs out of
fuel. -/
def Table.UpdateRecord (K : Constants) (SerializeTo : Record → List Nat)
    (logSize : LogPayload → Nat) (fuel : Nat) (t : Table) (rid : Rid) (xid cid : Nat)
    (record : Record) (write_log : Bool) : Option (Except DbException Rid × Table) :=
  match t.DeleteRecord K logSize rid xid write_log with
  | (.error e, t) => some (.error e, t)
  | (.ok _, t) => Table.InsertRecord K SerializeTo logSize fuel t record xid cid write_log

/-- The members of `DeleteExecutor` and what it reaches through `context_`: the child
`children_[0]`, the flag `finished_`, the table `table_` and the lock manager
`context_.GetLockManager()`. -/
structure DeleteExecutor where
  children_0 : ChildExecutor
  finished_ : Bool
  table_ : Table
  lock_manager : LockMap

/-- `DeleteExecutor::Init`. -/
def DeleteExecutor.Init (e : DeleteExecutor) : DeleteExecutor :=
  { e with children_0 := e.children_0.Init }

/-- The loop `while (auto record = children_[0]->Next())` of `DeleteExecutor::Next`, over
the records the child has still to return, from the given value of the
`uint32_t` variable `count`: the value of `count` after the loop or the exception
thrown, and the members afterwards. `xid` is `context_.GetXid()`. -/
def DeleteExecutor.deleteLoop (K : Constants) (logSize : LogPayload → Nat) (xid : Nat) :
    List Record → Nat → DeleteExecutor → Except ExecutorException Nat × DeleteExecutor
  | [], count, e => (.ok count, { e with children_0 := { e.children_0 with rest := [] } })
  | record :: rest, count, e =>
    let e := { e with children_0 := { e.children_0 with rest := rest } }
    let transaction_id := xid
    let object_id := e.table_.oid_
    let record_id := record.rid_
    let locked := LockTable e.lock_manager transaction_id .IX object_id
    if locked.1 = false then
      (.error .LockTableFailed, { e with lock_manager := locked.2 })
    else
      match e.table_.DeleteRecord K logSize record_id xid true with
      | (.error ex, t) =>
        (.error (.Table ex), { e with lock_manager := locked.2, table_ := t })
      | (.ok _, t) =>
        let locked := LockRow locked.2 transaction_id .X object_id record_id
        if locked.1 = false then
          (.error .LockRowFailed, { e with lock_manager := locked.2, table_ := t })
        else
          DeleteExecutor.deleteLoop K logSize xid rest ((count + 1) % 4294967296)
            { e with lock_manager := locked.2, table_ := t }

/-- `DeleteExecutor::Next`: the record returned (`none` for the null pointer) or the
exception thrown, and the members afterwards. -/
def DeleteExecutor.Next (K : Constants) (logSize : LogPayload → Nat) (xid : Nat)
    (e : DeleteExecutor) : Except ExecutorException (Option Record) × DeleteExecutor :=
  if e.finished_ = true then (.ok none, e)
  else
    match DeleteExecutor.deleteLoop K logSize xid e.children_0.rest 0 e with
    | (.error ex, e1) => (.error ex, e1)
    | (.ok count, e1) =>
      (.ok (some (Record.ofValues [some (count : Int)])), { e1 with finished_ := true })

/-- The members of `UpdateExecutor` and what it reaches through `plan_` and `context_`:
the child `children_[0]`, the flag `finished_`, the table `table_`, the lock manager
and the expressions `plan_->update_exprs_`, each as the function `Evaluate` is of
the record (the expression classes are not part of the sources at hand). -/
structure UpdateExecutor where
  children_0 : ChildExecutor
  finished_ : Bool
  table_ : Table
  lock_manager : LockMap
  update_exprs_ : List (Record → Option Int)

/-- `UpdateExecutor::Init`. -/
def UpdateExecutor.Init (e : UpdateExecutor) : UpdateExecutor :=
  { e with children_0 := e.children_0.Init }

/-- The record `new_record` that `UpdateExecutor::Next` builds from a record of the
child: the values of the update expressions on it. -/
def updatedRecord (update_exprs : List (Record → Option Int)) (record : Record) : Record :=
  Record.ofValues (update_exprs.map (fun expr => expr record))

/-- The loop `while (auto record = children_[0]->Next())` of `UpdateExecutor::Next`, over
the records the child has still to return, from the given value of the
`uint32_t` variable `count`: the value of `count` after the loop or the exception
thrown, and the members afterwards; `none` when `Table::InsertRecord` runs out of
fuel. `xid` and `cid` are `context_.GetXid()` and `context_.GetCid()`. -/
def UpdateExecutor.updateLoop (K : Constants) (SerializeTo : Record → List Nat)
    (logSize : LogPayload → Nat) (xid cid : Nat) (fuel : Nat) :
    List Record → Nat → UpdateExecutor → Option (Except ExecutorException Nat × UpdateExecutor)
  | [], count, e => some (.ok count, { e with children_0 := { e.children_0 with rest := [] } })
  | record :: rest, count, e =>
    let e := { e with children_0 := { e.children_0 with rest := rest } }
    let new_record := updatedRecord e.update_exprs_ record
    let transaction_id := xid
    let object_id := e.table_.oid_
    let locked := LockTable e.lock_manager transaction_id .IX object_id
    if locked.1 = false then
      some (.error .LockTableFailed, { e with lock_manager := locked.2 })
    else
      match Table.UpdateRecord K SerializeTo logSize fuel e.table_ record.rid_ xid cid
          new_record true with
      | none => none
      | some (.error ex, t) =>
        some (.error (.Table ex), { e with lock_manager := locked.2, table_ := t })
      | some (.ok record_id, t) =>
        let locked := LockRow locked.2 transaction_id .X object_id record_id
        if locked.1 = false then
          some (.error .LockRowFailed, { e with lock_manager := locked.2, table_ := t })
        else
          let locked := LockRow locked.2 transaction_id .X object_id record.rid_
          if locked.1 = false then
            some (.error .LockRowFailed, { e with lock_manager := locked.2, table_ := t })
          else
            UpdateExecutor.updateLoop K SerializeTo logSize xid cid fuel rest
              ((count + 1) % 4294967296) { e with lock_manager := locked.2, table_ := t }

/-- `UpdateExecutor::Next`: the record returned (`none` for the null pointer) or the
exception thrown, and the members afterwards. -/
def UpdateExecutor.Next (K : Constants) (SerializeTo : Record → List Nat)
    (logSize : LogPayload → Nat) (xid cid : Nat) (fuel : Nat) (e : UpdateExecutor) :
    Option (Except ExecutorException (Option Record) × UpdateExecutor) :=
  if e.finished_ = true then some (.ok none, e)
  else
    match UpdateExecutor.updateLoop K SerializeTo logSize xid cid fuel e.children_0.rest 0 e with
    | none => none
    | some (.error ex, e1) => some (.error ex, e1)
    | some (.ok count, e1) =>
      some (.ok (some (Record.ofValues [some (count : Int)])), { e1 with finished_ := true })

/-- The records of the rids of a list deleted from a table one after the other
by transaction `xid` with logging: the table afterwards when every call of
`Table::DeleteRecord` returns, `none` otherwise. -/
def Table.deleteAll (K : Constants) (logSize : LogPayload → Nat) (xid : Nat) :
    Table → List Rid → Option Table
  | t, [] => some t
  | t, rid :: rest =>
    match t.DeleteRecord K logSize rid xid true with
    | (.ok _, t1) => Table.deleteAll K logSize xid t1 rest
    | _ => none

/-- The records of a list, each with the rid it replaces, put into a table one
after the other by `Table::UpdateRecord` of transaction `xid` with logging: the rids
returned and the table afterwards when every call returns a rid, `none`
otherwise. -/
def Table.updateAll (K : Constants) (SerializeTo : Record → List Nat)
    (logSize : LogPayload → Nat) (xid cid : Nat) (fuel : Nat) :
    Table → List (Rid × Record) → Option (List Rid × Table)
  | t, [] => some ([], t)
  | t, (rid, record) :: rest =>
    match Table.UpdateRecord K SerializeTo logSize fuel t rid xid cid record true with
    | some (.ok new_rid, t1) =>
      (Table.updateAll K SerializeTo logSize xid cid fuel t1 rest).map
        (fun p => (new_rid :: p.1, p.2))
    | _ => none

/-- No lock of another transaction stands in the way of transaction `xid` on the
object `oid` and the rows `rids`: every table lock of another transaction is
compatible with `IX`, and the rows carry locks of `xid` only. -/
def Grantable (m : LockMap) (oid xid : Nat) (rids : List Rid) : Prop :=
  (∀ x ∈ m oid, x.lock_granularity_ = .TABLE → x.xid_t_ ≠ xid →
    Compatible x.lock_type_ .IX = true)
  ∧ (∀ rid ∈ rids, ∀ x ∈ m oid, sameRow rid x → x.xid_t_ = xid)

instance (m : LockMap) (oid xid : Nat) (rids : List Rid) :
    Decidable (Grantable m oid xid rids) := by
  unfold Grantable; infer_instance

/-- The example table after transaction 2 has begun and inserted a record of 15
bytes with logging: page 0 holds the record in slot 0. -/
def exampleTableOneRow : Table :=
  (exampleTableBegun.insertFirst exampleConstants exampleSerialize exampleLogSize
    (exampleRecord 2 5) 2 0 true).2

/-! ## Lock manager: theorems -/

/-- C1: lock compatibility is symmetric, `Compatible a b = Compatible b a` for
every pair of the five lock modes. -/
theorem Compatible_symm (a b : LockType) : Compatible a b = Compatible b a := by
  cases a <;> cases b <;> rfl

/-- C2: `Upgrade` is the join of the lock lattice: `IS+IX=IX`, `IS+S=S`,
`IX+S=SIX`, anything with `X` is `X`, `SIX` absorbs `IS`, `IX` and `S`; hence
it is commutative, associative and idempotent on all five modes. -/
theorem Upgrade_lattice_join :
    Upgrade .IS .IX = .IX ∧ Upgrade .IS .S = .S ∧ Upgrade .IX .S = .SIX
    ∧ (∀ m : LockType, Upgrade m .X = .X ∧ Upgrade .X m = .X)
    ∧ (∀ m : LockType, m = .IS ∨ m = .IX ∨ m = .S →
        Upgrade .SIX m = .SIX ∧ Upgrade m .SIX = .SIX)
    ∧ (∀ a b : LockType, Upgrade a b = Upgrade b a)
    ∧ (∀ a b c : LockType, Upgrade (Upgrade a b) c = Upgrade a (Upgrade b c))
    ∧ (∀ a : LockType, Upgrade a a = a) := by
  refine ⟨rfl, rfl, rfl, ?_, ?_, ?_, ?_, ?_⟩
  · intro m; cases m <;> exact ⟨rfl, rfl⟩
  · intro m h; rcases h with rfl | rfl | rfl <;> exact ⟨rfl, rfl⟩
  · intro a b; cases a <;> cases b <;> rfl
  · intro a b c; cases a <;> cases b <;> cases c <;> rfl
  · intro a; cases a <;> rfl

/-- The first loop of `LockTable` finds a conflict exactly when one is in the list. -/
theorem tableConflict_iff (xid : Nat) (lock_type : LockType) (l : List ResourceLock) :
    tableConflict xid lock_type l = true ↔
      ∃ e ∈ l, e.lock_granularity_ = LockGranularity.TABLE ∧ e.xid_t_ ≠ xid
        ∧ Compatible e.lock_type_ lock_type = false := by
  induction l with
  | nil => simp [tableConflict]
  | cons entry rest ih =>
    unfold tableConflict
    by_cases hc : entry.xid_t_ ≠ xid ∧ Compatible entry.lock_type_ lock_type = false
        ∧ entry.lock_granularity_ = LockGranularity.TABLE
    · rw [if_pos hc]
      simp only [true_iff]
      exact ⟨entry, List.mem_cons_self _ _, hc.2.2, hc.1, hc.2.1⟩
    · rw [if_neg hc, ih]
      constructor
      · rintro ⟨e, he, h⟩
        exact ⟨e, List.mem_cons_of_mem _ he, h⟩
      · rintro ⟨e, he, h1, h2, h3⟩
        rcases List.mem_cons.mp he with rfl | he
        · exact absurd ⟨h2, h3, h1⟩ hc
        · exact ⟨e, he, h1, h2, h3⟩

/-- The first loop of `LockRow` finds a conflict exactly when one is in the list. -/
theorem rowConflict_iff (xid : Nat) (lock_type : LockType) (rid : Rid) (l : List ResourceLock) :
    rowConflict xid lock_type rid l = true ↔
      ∃ e ∈ l, sameRow rid e ∧ e.xid_t_ ≠ xid ∧ Compatible e.lock_type_ lock_type = false := by
  induction l with
  | nil => simp [rowConflict]
  | cons entry rest ih =>
    unfold rowConflict
    by_cases hc : sameRow rid entry ∧ entry.xid_t_ ≠ xid
        ∧ Compatible entry.lock_type_ lock_type = false
    · rw [if_pos hc]
      simp only [true_iff]
      exact ⟨entry, List.mem_cons_self _ _, hc⟩
    · rw [if_neg hc, ih]
      constructor
      · rintro ⟨e, he, h⟩
        exact ⟨e, List.mem_cons_of_mem _ he, h⟩
      · rintro ⟨e, he, h⟩
        rcases List.mem_cons.mp he with rfl | he
        · exact absurd h hc
        · exact ⟨e, he, h⟩

/-- A conflict found by the first loop makes `LockRow` return false. -/
theorem LockRow_of_conflict (m : LockMap) (xid : Nat) (lock_type : LockType) (oid : Nat)
    (rid : Rid) (h : rowConflict xid lock_type rid (m oid) = true) :
    (LockRow m xid lock_type oid rid).1 = false := by
  unfold LockRow
  simp only [h, if_true]

/-- The second loop of `LockRow` rewrites the first entry of `xid` on the row and
nothing else. -/
theorem rowUpgrade_first (xid : Nat) (lock_type : LockType) (rid : Rid)
    (pre post : List ResourceLock) (e : ResourceLock)
    (hpre : ∀ x ∈ pre, ¬ (sameRow rid x ∧ x.xid_t_ = xid))
    (he : sameRow rid e ∧ e.xid_t_ = xid) :
    rowUpgrade xid lock_type rid (pre ++ e :: post)
      = some (pre ++ { e with lock_type_ := Upgrade e.lock_type_ lock_type } :: post) := by
  induction pre with
  | nil => simp only [List.nil_append, rowUpgrade, if_pos he]
  | cons x xs ih =>
    have hx : ¬ (sameRow rid x ∧ x.xid_t_ = xid) := hpre x (List.mem_cons_self _ _)
    have hxs : ∀ y ∈ xs, ¬ (sameRow rid y ∧ y.xid_t_ = xid) :=
      fun y hy => hpre y (List.mem_cons_of_mem _ hy)
    rw [List.cons_append]
    unfold rowUpgrade
    rw [if_neg hx, ih hxs]
    rfl

/-- The loop of `ReleaseLocks` is the filter keeping the other transactions' entries. -/
theorem eraseLocksOf_eq_filter (xid : Nat) (l : List ResourceLock) :
    eraseLocksOf xid l = l.filter (fun e => decide (e.xid_t_ ≠ xid)) := by
  induction l with
  | nil => rfl
  | cons e rest ih =>
    unfold eraseLocksOf
    by_cases h : e.xid_t_ = xid
    · rw [if_pos h, ih, List.filter_cons_of_neg (by simpa using h)]
    · rw [if_neg h, ih, List.filter_cons_of_pos (by simpa using h)]

/-- C3: `LockTable(xid, mode, oid)` returns false if and only if some
table-granularity lock on `oid` held by a different xid has a mode incompatible
with the requested one; and when it returns false the held locks are unchanged. -/
theorem LockTable_false_iff (m : LockMap) (xid : Nat) (mode : LockType) (oid : Nat) :
    ((LockTable m xid mode oid).1 = false ↔
      ∃ e ∈ m oid, e.lock_granularity_ = LockGranularity.TABLE ∧ e.xid_t_ ≠ xid
        ∧ Compatible e.lock_type_ mode = false)
    ∧ ((LockTable m xid mode oid).1 = false → (LockTable m xid mode oid).2 = m) := by
  rw [← tableConflict_iff]
  unfold LockTable
  by_cases hc : tableConflict xid mode (m oid) = true
  · simp [hc]
  · simp only [hc, Bool.false_eq_true, if_false, iff_false]
    cases tableUpgrade xid mode (m oid) <;> simp

/-- C4: when `xid` already holds a row lock on `(oid, rid)` (its first such entry
`e`, of mode `h = e.lock_type_`) and no other xid holds an incompatible row lock
on that rid, `LockRow(xid, mode, oid, rid)` returns true, replaces the held mode
with `Upgrade(h, mode)` and adds no entry (the list of `oid` is otherwise the
same, the other objects are untouched). In particular, when `h = S` and the
request is `X`, the held mode becomes `X`, after which the request of any other
transaction for `S` on the row returns false. -/
theorem LockRow_upgrade (m : LockMap) (xid : Nat) (mode : LockType) (oid : Nat) (rid : Rid)
    (pre post : List ResourceLock) (e : ResourceLock)
    (hlist : m oid = pre ++ e :: post)
    (hpre : ∀ x ∈ pre, ¬ (sameRow rid x ∧ x.xid_t_ = xid))
    (he : sameRow rid e ∧ e.xid_t_ = xid)
    (hcompat : ∀ x ∈ m oid, sameRow rid x → x.xid_t_ ≠ xid →
      Compatible x.lock_type_ mode = true) :
    (LockRow m xid mode oid rid).1 = true
    ∧ (LockRow m xid mode oid rid).2 oid
        = pre ++ { e with lock_type_ := Upgrade e.lock_type_ mode } :: post
    ∧ ((LockRow m xid mode oid rid).2 oid).length = (m oid).length
    ∧ (∀ o, o ≠ oid → (LockRow m xid mode oid rid).2 o = m o)
    ∧ (e.lock_type_ = LockType.S → mode = LockType.X →
        (LockRow m xid mode oid rid).2 oid = pre ++ { e with lock_type_ := LockType.X } :: post
        ∧ ∀ xid2, xid2 ≠ xid →
            (LockRow (LockRow m xid mode oid rid).2 xid2 LockType.S oid rid).1 = false) := by
  have hnc : rowConflict xid mode rid (m oid) = false := by
    rw [Bool.eq_false_iff]
    intro hcon
    obtain ⟨x, hx, hrow, hne, hinc⟩ := (rowConflict_iff _ _ _ _).mp hcon
    rw [hcompat x hx hrow hne] at hinc
    exact Bool.noConfusion hinc
  have hup := rowUpgrade_first xid mode rid pre post e hpre he
  have hrun : LockRow m xid mode oid rid
      = (true, m.set oid (pre ++ { e with lock_type_ := Upgrade e.lock_type_ mode } :: post)) := by
    unfold LockRow
    simp only [hnc, Bool.false_eq_true, if_false]
    rw [hlist, hup]
  have hat : (LockRow m xid mode oid rid).2 oid
      = pre ++ { e with lock_type_ := Upgrade e.lock_type_ mode } :: post := by
    rw [hrun]; simp [LockMap.set]
  refine ⟨by rw [hrun], hat, ?_, ?_, ?_⟩
  · rw [hat, hlist]; simp
  · intro o ho
    rw [hrun]; simp [LockMap.set, ho]
  · intro hS hX
    have hX2 : (LockRow m xid mode oid rid).2 oid
        = pre ++ { e with lock_type_ := LockType.X } :: post := by
      rw [hat, hS, hX]; rfl
    refine ⟨hX2, ?_⟩
    intro xid2 hne
    have hcon : rowConflict xid2 LockType.S rid ((LockRow m xid mode oid rid).2 oid) = true := by
      rw [rowConflict_iff, hX2]
      refine ⟨{ e with lock_type_ := LockType.X }, by simp, he.1, ?_, rfl⟩
      show e.xid_t_ ≠ xid2
      rw [he.2]; exact fun h => hne h.symm
    exact LockRow_of_conflict _ _ _ _ _ hcon

/-- C4 at a concrete state: transaction 1 holds `S` on row `(0, 3)` of table 7
and asks for `X`; transaction 2 then asks for `S`. -/
theorem LockRow_upgrade_witness :
    (LockRow (LockMap.empty.set 7 [⟨.S, .ROW, 1, ⟨0, 3⟩⟩]) 1 .X 7 ⟨0, 3⟩).1 = true
    ∧ (LockRow (LockMap.empty.set 7 [⟨.S, .ROW, 1, ⟨0, 3⟩⟩]) 1 .X 7 ⟨0, 3⟩).2 7
        = [⟨.X, .ROW, 1, ⟨0, 3⟩⟩]
    ∧ (LockRow (LockRow (LockMap.empty.set 7 [⟨.S, .ROW, 1, ⟨0, 3⟩⟩]) 1 .X 7 ⟨0, 3⟩).2
        2 .S 7 ⟨0, 3⟩).1 = false := by
  have h := LockRow_upgrade (LockMap.empty.set 7 [⟨.S, .ROW, 1, ⟨0, 3⟩⟩]) 1 .X 7 ⟨0, 3⟩
    [] [] ⟨.S, .ROW, 1, ⟨0, 3⟩⟩ (by simp [LockMap.set]) (by simp)
    (by simp [sameRow]) (by simp [LockMap.set])
  exact ⟨h.1, (h.2.2.2.2 rfl rfl).1, (h.2.2.2.2 rfl rfl).2 2 (by decide)⟩

/-- C5: after `ReleaseLocks(xid)` no lock entry of any object belongs to `xid`,
and for every object the remaining entries are exactly the entries of the other
transactions held before, in the same order. -/
theorem ReleaseLocks_spec (m : LockMap) (xid : Nat) :
    (∀ oid, ∀ e ∈ ReleaseLocks m xid oid, e.xid_t_ ≠ xid)
    ∧ (∀ oid, ReleaseLocks m xid oid = (m oid).filter (fun e => decide (e.xid_t_ ≠ xid))) := by
  constructor
  · intro oid e he
    unfold ReleaseLocks at he
    rw [eraseLocksOf_eq_filter] at he
    simpa using (List.mem_filter.mp he).2
  · intro oid
    exact eraseLocksOf_eq_filter xid (m oid)

/-! ## LRU replacement: theorems -/

/-- C6: after `Access(k)`, `k` is at the most-recent end of the access order and
occurs in it exactly once, and the relative order of all other frames is
unchanged. -/
theorem Access_spec (access_order_ : List Nat) (k : Nat) :
    (Access access_order_ k).head? = some k
    ∧ (Access access_order_ k).count k = 1
    ∧ (Access access_order_ k).filter (fun f => decide (f ≠ k))
        = access_order_.filter (fun f => decide (f ≠ k)) := by
  refine ⟨rfl, ?_, ?_⟩
  · unfold Access
    rw [List.count_cons_self, List.count_eq_zero_of_not_mem]
    intro h
    simpa using (List.mem_filter.mp h).2
  · unfold Access
    rw [List.filter_cons_of_neg (by simp), List.filter_filter]
    simp

/-- `Access` keeps the LRU list ordered by access time. -/
theorem LRUOrdered_Access (s : List Nat) (last : Nat → Option Nat) (now k : Nat)
    (h : LRUOrdered s last now) :
    LRUOrdered (Access s k) (fun f => if f = k then some now else last f) (now + 1) := by
  obtain ⟨hmem, hpw⟩ := h
  have hold : ∀ a ∈ s.filter (fun f => decide (f ≠ k)),
      ∃ t, (if a = k then some now else last a) = some t ∧ t < now := by
    intro a ha
    obtain ⟨ha1, ha2⟩ := List.mem_filter.mp ha
    have hak : a ≠ k := by simpa using ha2
    obtain ⟨t, ht, hlt⟩ := hmem a ha1
    exact ⟨t, by rw [if_neg hak]; exact ht, hlt⟩
  constructor
  · intro a ha
    unfold Access at ha
    rcases List.mem_cons.mp ha with rfl | ha
    · exact ⟨now, by simp, Nat.lt_succ_self _⟩
    · obtain ⟨t, ht, hlt⟩ := hold a ha
      exact ⟨t, ht, Nat.lt_succ_of_lt hlt⟩
  · unfold Access
    rw [List.pairwise_cons]
    constructor
    · intro a ha
      obtain ⟨t, ht, hlt⟩ := hold a ha
      exact ⟨now, t, by simp, ht, hlt⟩
    · refine List.Pairwise.imp_of_mem ?_ (hpw.filter _)
      intro a b ha hb hab
      obtain ⟨ta, tb, h1, h2, h3⟩ := hab
      have hak : a ≠ k := by simpa using (List.mem_filter.mp ha).2
      have hbk : b ≠ k := by simpa using (List.mem_filter.mp hb).2
      exact ⟨ta, tb, by simp only [if_neg hak]; exact h1, by simp only [if_neg hbk]; exact h2, h3⟩

/-- `Evict` on a non-empty list returns its last element and the list without it. -/
theorem Evict_eq (s : List Nat) (hne : s ≠ []) :
    Evict s = some (s.getLast hne, s.dropLast) := by
  unfold Evict
  rw [List.getLast?_eq_getLast s hne]

/-- Dropping the last frame keeps the LRU list ordered. -/
theorem LRUOrdered_dropLast (s : List Nat) (last : Nat → Option Nat) (now : Nat)
    (h : LRUOrdered s last now) : LRUOrdered s.dropLast last (now + 1) := by
  obtain ⟨hmem, hpw⟩ := h
  constructor
  · intro a ha
    obtain ⟨t, ht, hlt⟩ := hmem a (List.mem_of_mem_dropLast ha)
    exact ⟨t, ht, Nat.lt_succ_of_lt hlt⟩
  · exact hpw.sublist (List.dropLast_sublist s)

/-- Every access order reached by a sequence of calls is ordered by the times of
the most recent accesses. -/
theorem LRUOrdered_run (calls : List LRUCall) :
    ∀ (s : List Nat) (last : Nat → Option Nat) (now : Nat) (s1 : List Nat),
      LRUOrdered s last now → LRUrun s calls = some s1 →
      LRUOrdered s1 (lastAccess now last calls) (now + calls.length) := by
  induction calls with
  | nil =>
    intro s last now s1 h hrun
    simp only [LRUrun, Option.some.injEq] at hrun
    subst hrun
    exact h
  | cons c calls ih =>
    intro s last now s1 h hrun
    cases c with
    | access k =>
      simp only [LRUrun] at hrun
      have := ih _ _ _ s1 (LRUOrdered_Access s last now k h) hrun
      simpa [lastAccess, Nat.add_assoc, Nat.add_comm 1] using this
    | evict =>
      by_cases hne : s = []
      · subst hne
        simp [LRUrun, Evict] at hrun
      · simp only [LRUrun, Evict_eq s hne] at hrun
        have := ih _ _ _ s1 (LRUOrdered_dropLast s last now h) hrun
        simpa [lastAccess, Nat.add_assoc, Nat.add_comm 1] using this

/-- C7: in every non-empty LRU state reached from the empty one by a sequence of
`Access` and `Evict` calls, `Evict` returns the tracked frame whose most recent
`Access` is the oldest (strictly older than that of every other tracked frame)
and removes that frame and only that frame: the order before is the order
after followed by the evicted frame, which does not occur in the order after. -/
theorem Evict_least_recent (calls : List LRUCall) (s : List Nat)
    (hrun : LRUrun [] calls = some s) (hne : s ≠ []) :
    ∃ f rest, Evict s = some (f, rest) ∧ f ∈ s ∧ s = rest ++ [f] ∧ f ∉ rest
      ∧ ∃ t, lastAccess 0 (fun _ => none) calls f = some t
        ∧ ∀ g ∈ s, g ≠ f →
            ∃ u, lastAccess 0 (fun _ => none) calls g = some u ∧ t < u := by
  have hinv := LRUOrdered_run calls [] (fun _ => none) 0 s
    ⟨by simp, List.Pairwise.nil⟩ hrun
  obtain ⟨hmem, hpw⟩ := hinv
  have hsplit : s = s.dropLast ++ [s.getLast hne] := (List.dropLast_append_getLast hne).symm
  have hlast : s.getLast hne ∈ s := List.getLast_mem hne
  rw [hsplit, List.pairwise_append] at hpw
  obtain ⟨_, _, hcross⟩ := hpw
  have hnot : s.getLast hne ∉ s.dropLast := by
    intro hin
    obtain ⟨ta, tb, h1, h2, h3⟩ := hcross _ hin _ (List.mem_singleton_self _)
    rw [h1] at h2
    cases h2
    exact Nat.lt_irrefl _ h3
  obtain ⟨t, ht, _⟩ := hmem _ hlast
  refine ⟨s.getLast hne, s.dropLast, Evict_eq s hne, hlast, hsplit, hnot, t, ht, ?_⟩
  intro g hg hgf
  have hg1 : g ∈ s.dropLast := by
    rw [hsplit] at hg
    rcases List.mem_append.mp hg with h | h
    · exact h
    · exact absurd (List.mem_singleton.mp h) hgf
  obtain ⟨ta, tb, h1, h2, h3⟩ := hcross _ hg1 _ (List.mem_singleton_self _)
  rw [ht] at h2
  cases h2
  exact ⟨ta, h1, h3⟩

/-- C7 at a concrete history: after accesses of frames 1, 2, 3, 1 and one
eviction the order is `[1, 3]`, and `Evict` returns frame 3. -/
theorem Evict_least_recent_witness :
    ∃ f rest, Evict [1, 3] = some (f, rest) ∧ f ∈ [1, 3] ∧ [1, 3] = rest ++ [f] ∧ f ∉ rest
      ∧ ∃ t, lastAccess 0 (fun _ => none)
            [.access 1, .access 2, .access 3, .access 1, .evict] f = some t
        ∧ ∀ g ∈ [1, 3], g ≠ f →
            ∃ u, lastAccess 0 (fun _ => none)
              [.access 1, .access 2, .access 3, .access 1, .evict] g = some u ∧ t < u :=
  Evict_least_recent [.access 1, .access 2, .access 3, .access 1, .evict] [1, 3]
    (by decide) (by decide)

/-! ## MVCC visibility: theorems -/

/-- C8: under Repeatable Read or Serializable, `IsVisible` returns false if and
only if (the record is deleted and xmax is not in the active set and xmax <= xid)
or (xmin is in the active set or xmin > xid) or (xmin == xid and the record's cid
equals the current cid). -/
theorem IsVisible_snapshot_false_iff (iso_level : IsolationLevel) (xid cid : Nat)
    (active_xids : List Nat) (record : Record)
    (hiso : iso_level = .REPEATABLE_READ ∨ iso_level = .SERIALIZABLE) :
    IsVisible iso_level xid cid active_xids record = false ↔
      (record.deleted_ = true ∧ record.xmax_ ∉ active_xids ∧ record.xmax_ ≤ xid)
      ∨ (record.xmin_ ∈ active_xids ∨ record.xmin_ > xid)
      ∨ (record.xmin_ = xid ∧ record.cid_ = cid) := by
  unfold IsVisible
  simp only [if_pos hiso]
  by_cases h3 : record.xmin_ = xid ∧ record.cid_ = cid
  · simp only [if_pos h3, true_iff]
    exact Or.inr (Or.inr h3)
  · rw [if_neg h3]
    by_cases h2 : record.xmin_ ∈ active_xids ∨ record.xmin_ > xid
    · simp only [if_pos h2, true_iff]
      exact Or.inr (Or.inl h2)
    · rw [if_neg h2]
      by_cases h1 : record.deleted_ = true ∧ record.xmax_ ∉ active_xids ∧ record.xmax_ ≤ xid
      · simp only [if_pos h1, true_iff]
        exact Or.inl h1
      · simp only [if_neg h1, Bool.true_eq_false, false_iff]
        rintro (h | h | h)
        · exact h1 h
        · exact h2 h
        · exact h3 h

/-- C8 at a concrete input: under Repeatable Read, transaction 5 does not see a
record inserted by transaction 9. -/
theorem IsVisible_snapshot_false_iff_witness :
    IsVisible .REPEATABLE_READ 5 0 [] ⟨false, 9, 0, 0, [], ⟨0, 0⟩⟩ = false :=
  (IsVisible_snapshot_false_iff .REPEATABLE_READ 5 0 [] ⟨false, 9, 0, 0, [], ⟨0, 0⟩⟩
    (Or.inl rfl)).mpr (Or.inr (Or.inl (Or.inr (by decide))))

/-- C9: under Read Committed, `IsVisible` returns false if and only if (the
record is deleted and (xmax is not in the active set or xmax == xid)) or (xmin
is in the active set and xmin != xid) or (xmin == xid and the record's cid
equals the current cid). -/
theorem IsVisible_read_committed_false_iff (xid cid : Nat) (active_xids : List Nat)
    (record : Record) :
    IsVisible .READ_COMMITTED xid cid active_xids record = false ↔
      (record.deleted_ = true ∧ (record.xmax_ ∉ active_xids ∨ record.xmax_ = xid))
      ∨ (record.xmin_ ∈ active_xids ∧ record.xmin_ ≠ xid)
      ∨ (record.xmin_ = xid ∧ record.cid_ = cid) := by
  unfold IsVisible
  have hiso : ¬ (IsolationLevel.READ_COMMITTED = .REPEATABLE_READ
      ∨ IsolationLevel.READ_COMMITTED = .SERIALIZABLE) := by decide
  simp only [if_neg hiso, if_true]
  by_cases h3 : record.xmin_ = xid ∧ record.cid_ = cid
  · simp only [if_pos h3, true_iff]
    exact Or.inr (Or.inr h3)
  · rw [if_neg h3]
    by_cases h2 : record.xmin_ ∈ active_xids ∧ record.xmin_ ≠ xid
    · simp only [if_pos h2, true_iff]
      exact Or.inr (Or.inl h2)
    · rw [if_neg h2]
      by_cases h1 : record.deleted_ = true ∧ (record.xmax_ ∉ active_xids ∨ xid = record.xmax_)
      · simp only [if_pos h1, true_iff]
        exact Or.inl ⟨h1.1, h1.2.imp id Eq.symm⟩
      · simp only [if_neg h1, Bool.true_eq_false, false_iff]
        rintro (h | h | h)
        · exact h1 ⟨h.1, h.2.imp id Eq.symm⟩
        · exact h2 h
        · exact h3 h

/-! ## Table scan: theorems -/

/-- A slot below the record count contributes its record, bearing its rid. -/
theorem pageRecordsFrom_lt (pages : Nat → TablePage) (pid slot : Nat)
    (h : slot < (pages pid).GetRecordCount) :
    pageRecordsFrom pages pid slot
      = (pages pid).GetRecord ⟨pid, slot⟩ h :: pageRecordsFrom pages pid (slot + 1) := by
  unfold pageRecordsFrom
  have hd : (pages pid).records_.drop slot
      = (pages pid).records_.get ⟨slot, h⟩ :: (pages pid).records_.drop (slot + 1) :=
    List.drop_eq_getElem_cons h
  rw [hd]
  rfl

/-- Past the last slot a page contributes nothing. -/
theorem pageRecordsFrom_ge (pages : Nat → TablePage) (pid slot : Nat)
    (h : ¬ slot < (pages pid).GetRecordCount) : pageRecordsFrom pages pid slot = [] := by
  unfold pageRecordsFrom
  rw [List.drop_eq_nil_of_le (Nat.le_of_not_lt h)]
  rfl

/-- The fuel bound is positive. -/
theorem scanFuel_pos (pages : Nat → TablePage) (chain : List Nat) : 1 ≤ scanFuel pages chain := by
  cases chain with
  | nil => exact Nat.le_refl 1
  | cons p ps => unfold scanFuel; omega

/-- One call of the scan loop on a cursor inside a finite chain, with enough
fuel: either no visible record is left and the loop returns null with the
cursor at `NULL_PAGE_ID`, or it returns the first visible record left and the
cursor stands before the remaining ones. -/
theorem scanLoop_spec (NULL_PAGE_ID : Nat) (pages : Nat → TablePage) (xid : Nat)
    (iso : IsolationLevel) (cid : Nat) (active : List Nat) :
    ∀ (fuel p : Nat) (ps : List Nat) (slot : Nat),
      IsPageChain NULL_PAGE_ID pages p (p :: ps) →
      ((pages p).records_.length - slot) + scanFuel pages ps ≤ fuel →
      (((pageRecordsFrom pages p slot ++ chainRecords pages ps).filter
            (IsVisible iso xid cid active) = []
          ∧ scanLoop NULL_PAGE_ID pages xid iso cid active fuel ⟨p, slot⟩
              = some (none, ⟨NULL_PAGE_ID, 0⟩))
        ∨ (∃ r q qs slot1, IsPageChain NULL_PAGE_ID pages q (q :: qs)
            ∧ scanFuel pages (q :: qs) ≤ scanFuel pages (p :: ps)
            ∧ (pageRecordsFrom pages p slot ++ chainRecords pages ps).filter
                (IsVisible iso xid cid active)
              = r :: (pageRecordsFrom pages q slot1 ++ chainRecords pages qs).filter
                  (IsVisible iso xid cid active)
            ∧ scanLoop NULL_PAGE_ID pages xid iso cid active fuel ⟨p, slot⟩
                = some (some r, ⟨q, slot1⟩))) := by
  intro fuel
  induction fuel with
  | zero =>
    intro p ps slot _ hfuel
    have := scanFuel_pos pages ps
    omega
  | succ fuel ih =>
    intro p ps slot hchain hfuel
    unfold scanLoop
    dsimp only
    by_cases h : slot < (pages p).GetRecordCount
    · rw [dif_pos h, pageRecordsFrom_lt pages p slot h]
      have hlen : slot < (pages p).records_.length := h
      by_cases hv : IsVisible iso xid cid active ((pages p).GetRecord ⟨p, slot⟩ h) = false
      · rw [if_pos hv, List.cons_append, List.filter_cons_of_neg (by simp [hv])]
        exact ih p ps (slot + 1) hchain (by omega)
      · rw [if_neg hv, List.cons_append, List.filter_cons_of_pos (by simpa using hv)]
        exact Or.inr ⟨_, p, ps, slot + 1, hchain, Nat.le_refl _, rfl, rfl⟩
    · rw [dif_neg h, pageRecordsFrom_ge pages p slot h, List.nil_append]
      have hnext : IsPageChain NULL_PAGE_ID pages (pages p).next_page_id_ ps := hchain.2.2
      have hlen : (pages p).records_.length - slot = 0 := by
        have : ¬ slot < (pages p).records_.length := h
        omega
      by_cases hn : (pages p).GetNextPageId ≠ NULL_PAGE_ID
      · rw [if_pos hn]
        cases ps with
        | nil => exact absurd hnext hn
        | cons q qs =>
          have hq : q = (pages p).next_page_id_ := hnext.2.1
          have hq1 : (pages p).GetNextPageId = q := hq.symm
          rw [hq1]
          have hqc : IsPageChain NULL_PAGE_ID pages q (q :: qs) := by
            rw [← hq] at hnext
            exact hnext
          have hf : scanFuel pages (q :: qs)
              = (pages q).records_.length + 1 + scanFuel pages qs := rfl
          have hf2 : scanFuel pages (p :: q :: qs)
              = (pages p).records_.length + 1 + scanFuel pages (q :: qs) := rfl
          have hrec : chainRecords pages (q :: qs)
              = pageRecordsFrom pages q 0 ++ chainRecords pages qs := rfl
          rw [hrec]
          rcases ih q qs 0 hqc (by omega) with ⟨h1, h2⟩ | ⟨r, q1, qs1, s1, h1, h2, h3, h4⟩
          · exact Or.inl ⟨h1, h2⟩
          · exact Or.inr ⟨r, q1, qs1, s1, h1, by omega, h3, h4⟩
      · rw [if_neg hn]
        have hn1 : (pages p).next_page_id_ = NULL_PAGE_ID := not_not.mp hn
        cases ps with
        | nil => exact Or.inl ⟨rfl, rfl⟩
        | cons q qs =>
          have hq : q = (pages p).next_page_id_ := hnext.2.1
          exact absurd (hq ▸ hn1) hnext.1

/-- One call of `GetNextRecord` with the cursor on a finite chain and enough
fuel: null when no visible record is left (the cursor is then at
`NULL_PAGE_ID`), otherwise the first visible record left. -/
theorem GetNextRecord_spec (NULL_PAGE_ID : Nat) (pages : Nat → TablePage) (xid : Nat)
    (iso : IsolationLevel) (cid : Nat) (active : List Nat) (fuel : Nat) (rid : Rid)
    (chain : List Nat) (hchain : IsPageChain NULL_PAGE_ID pages rid.page_id_ chain)
    (hfuel : scanFuel pages chain ≤ fuel) :
    ((scanRest pages chain rid.slot_id_).filter (IsVisible iso xid cid active) = []
      ∧ ∃ rid1, IsPageChain NULL_PAGE_ID pages rid1.page_id_ []
          ∧ GetNextRecord NULL_PAGE_ID pages xid iso cid active fuel rid = some (none, rid1))
    ∨ (∃ r rid1 chain1, IsPageChain NULL_PAGE_ID pages rid1.page_id_ chain1
        ∧ scanFuel pages chain1 ≤ scanFuel pages chain
        ∧ (scanRest pages chain rid.slot_id_).filter (IsVisible iso xid cid active)
            = r :: (scanRest pages chain1 rid1.slot_id_).filter (IsVisible iso xid cid active)
        ∧ GetNextRecord NULL_PAGE_ID pages xid iso cid active fuel rid = some (some r, rid1)) := by
  cases chain with
  | nil =>
    have hnull : rid.page_id_ = NULL_PAGE_ID := hchain
    refine Or.inl ⟨rfl, rid, hnull, ?_⟩
    unfold GetNextRecord
    rw [if_pos hnull]
  | cons p ps =>
    have hne : rid.page_id_ ≠ NULL_PAGE_ID := hchain.1
    have hp : p = rid.page_id_ := hchain.2.1
    have hrid : rid = ⟨p, rid.slot_id_⟩ := by rw [hp]
    have hpc : IsPageChain NULL_PAGE_ID pages p (p :: ps) := by
      rw [← hp] at hchain
      exact hchain
    have hf : scanFuel pages (p :: ps)
        = (pages p).records_.length + 1 + scanFuel pages ps := rfl
    have hrun : GetNextRecord NULL_PAGE_ID pages xid iso cid active fuel rid
        = scanLoop NULL_PAGE_ID pages xid iso cid active fuel ⟨p, rid.slot_id_⟩ := by
      unfold GetNextRecord
      rw [if_neg hne, ← hrid]
    rw [hrun]
    have hrest : scanRest pages (p :: ps) rid.slot_id_
        = pageRecordsFrom pages p rid.slot_id_ ++ chainRecords pages ps := rfl
    rw [hrest]
    rcases scanLoop_spec NULL_PAGE_ID pages xid iso cid active fuel p ps rid.slot_id_ hpc
        (by omega) with ⟨h1, h2⟩ | ⟨r, q, qs, s1, h1, h2, h3, h4⟩
    · exact Or.inl ⟨h1, ⟨NULL_PAGE_ID, 0⟩, rfl, h2⟩
    · exact Or.inr ⟨r, ⟨q, s1⟩, q :: qs, h1, h2, h3, h4⟩

/-- Successive calls of `GetNextRecord` with enough fuel: call number `i` returns
the `i`-th visible record still to visit, null when there is none. -/
theorem scanCalls_spec (NULL_PAGE_ID : Nat) (pages : Nat → TablePage) (xid : Nat)
    (iso : IsolationLevel) (cid : Nat) (active : List Nat) (fuel : Nat) :
    ∀ (n : Nat) (rid : Rid) (chain : List Nat),
      IsPageChain NULL_PAGE_ID pages rid.page_id_ chain → scanFuel pages chain ≤ fuel →
      ∃ rid1, scanCalls NULL_PAGE_ID pages xid iso cid active fuel n rid
        = some ((List.range n).map
            (fun i => ((scanRest pages chain rid.slot_id_).filter
              (IsVisible iso xid cid active))[i]?), rid1) := by
  intro n
  induction n with
  | zero =>
    intro rid chain _ _
    exact ⟨rid, rfl⟩
  | succ n ih =>
    intro rid chain hchain hfuel
    rcases GetNextRecord_spec NULL_PAGE_ID pages xid iso cid active fuel rid chain hchain hfuel
      with ⟨h1, rid1, hc1, h2⟩ | ⟨r, rid1, chain1, hc1, hf1, h3, h4⟩
    · obtain ⟨rid2, h5⟩ := ih rid1 [] hc1 (Nat.le_trans (scanFuel_pos pages chain) hfuel)
      refine ⟨rid2, ?_⟩
      unfold scanCalls
      rw [h2]
      dsimp only
      rw [h5, h1, List.range_succ_eq_map]
      simp [scanRest, Function.comp_def]
    · obtain ⟨rid2, h5⟩ := ih rid1 chain1 hc1 (Nat.le_trans hf1 hfuel)
      refine ⟨rid2, ?_⟩
      unfold scanCalls
      rw [h4]
      dsimp only
      rw [h5, h3, List.range_succ_eq_map]
      simp [Function.comp_def]

/-- The records listed for a page bear the id of the page and a slot not below
the first one listed. -/
theorem withRids_rid (pid : Nat) :
    ∀ (rs : List Record) (slot : Nat) (r : Record), r ∈ withRids pid slot rs →
      r.rid_.page_id_ = pid ∧ slot ≤ r.rid_.slot_id_ := by
  intro rs
  induction rs with
  | nil => intro slot r h; simp [withRids] at h
  | cons a rs ih =>
    intro slot r h
    unfold withRids at h
    rcases List.mem_cons.mp h with rfl | h
    · exact ⟨rfl, Nat.le_refl _⟩
    · obtain ⟨h1, h2⟩ := ih (slot + 1) r h
      exact ⟨h1, by omega⟩

/-- The records listed for a page bear pairwise different rids. -/
theorem withRids_nodup (pid : Nat) :
    ∀ (rs : List Record) (slot : Nat), ((withRids pid slot rs).map Record.rid_).Nodup := by
  intro rs
  induction rs with
  | nil => intro slot; simp [withRids]
  | cons a rs ih =>
    intro slot
    unfold withRids
    rw [List.map_cons, List.nodup_cons]
    refine ⟨?_, ih (slot + 1)⟩
    intro hin
    obtain ⟨r, hr, hrid⟩ := List.mem_map.mp hin
    have := (withRids_rid pid rs (slot + 1) r hr).2
    rw [hrid] at this
    simp at this

/-- Every record listed for a chain bears the id of a page of the chain. -/
theorem chainRecords_page_mem (pages : Nat → TablePage) :
    ∀ (chain : List Nat) (r : Record), r ∈ chainRecords pages chain →
      r.rid_.page_id_ ∈ chain := by
  intro chain
  induction chain with
  | nil => intro r h; simp [chainRecords] at h
  | cons p ps ih =>
    intro r h
    unfold chainRecords at h
    rcases List.mem_append.mp h with h | h
    · rw [(withRids_rid p _ 0 r h).1]
      exact List.mem_cons_self _ _
    · exact List.mem_cons_of_mem _ (ih r h)

/-- The page chain starting at a page id is unique. -/
theorem IsPageChain_unique (NULL_PAGE_ID : Nat) (pages : Nat → TablePage) :
    ∀ (l1 l2 : List Nat) (pid : Nat), IsPageChain NULL_PAGE_ID pages pid l1 →
      IsPageChain NULL_PAGE_ID pages pid l2 → l1 = l2 := by
  intro l1
  induction l1 with
  | nil =>
    intro l2 pid h1 h2
    cases l2 with
    | nil => rfl
    | cons q qs => exact absurd h1 h2.1
  | cons p ps ih =>
    intro l2 pid h1 h2
    cases l2 with
    | nil => exact absurd h2 h1.1
    | cons q qs =>
      have hpq : p = q := h1.2.1.trans h2.2.1.symm
      subst hpq
      rw [ih qs _ h1.2.2 h2.2.2]

/-- A page inside a chain starts the rest of the chain. -/
theorem IsPageChain_suffix (NULL_PAGE_ID : Nat) (pages : Nat → TablePage) :
    ∀ (a : List Nat) (q : Nat) (b : List Nat) (pid : Nat),
      IsPageChain NULL_PAGE_ID pages pid (a ++ q :: b) →
      IsPageChain NULL_PAGE_ID pages q (q :: b) := by
  intro a
  induction a with
  | nil =>
    intro q b pid h
    have hq : q = pid := h.2.1
    rw [hq]
    rw [hq] at h
    exact h
  | cons x xs ih =>
    intro q b pid h
    exact ih q b _ h.2.2

/-- A finite page chain visits no page twice. -/
theorem IsPageChain_nodup (NULL_PAGE_ID : Nat) (pages : Nat → TablePage) :
    ∀ (chain : List Nat) (pid : Nat), IsPageChain NULL_PAGE_ID pages pid chain →
      chain.Nodup := by
  intro chain
  induction chain with
  | nil => intro _ _; exact List.nodup_nil
  | cons p ps ih =>
    intro pid h
    rw [List.nodup_cons]
    refine ⟨?_, ih _ h.2.2⟩
    intro hin
    obtain ⟨a, b, hab⟩ := List.append_of_mem hin
    have h1 : IsPageChain NULL_PAGE_ID pages p (p :: b) := by
      have h2 := h.2.2
      rw [hab] at h2
      exact IsPageChain_suffix NULL_PAGE_ID pages a p b _ h2
    have h3 : IsPageChain NULL_PAGE_ID pages p (p :: ps) := by
      have hp : p = pid := h.2.1
      rw [← hp] at h
      exact h
    have h4 := IsPageChain_unique NULL_PAGE_ID pages _ _ p h3 h1
    have h5 : ps.length = b.length := by
      have := congrArg List.length h4
      simpa using this
    have h6 := congrArg List.length hab
    simp at h6
    omega

/-- Over a chain without repeated page the listed records bear pairwise
different rids. -/
theorem chainRecords_nodup (pages : Nat → TablePage) :
    ∀ (chain : List Nat), chain.Nodup →
      ((chainRecords pages chain).map Record.rid_).Nodup := by
  intro chain
  induction chain with
  | nil => intro _; simp [chainRecords]
  | cons p ps ih =>
    intro h
    rw [List.nodup_cons] at h
    unfold chainRecords
    rw [List.map_append, List.nodup_append]
    refine ⟨withRids_nodup p _ 0, ih h.2, ?_⟩
    intro x hx1 hx2
    obtain ⟨r1, hr1, rfl⟩ := List.mem_map.mp hx1
    obtain ⟨r2, hr2, hrid⟩ := List.mem_map.mp hx2
    have h1 := (withRids_rid p _ 0 r1 hr1).1
    have h2 := chainRecords_page_mem pages ps r2 hr2
    rw [hrid, h1] at h2
    exact h.1 h2

/-- C10: for a table whose page chain from `first_page_id` is finite (the list
`chain`), successive `GetNextRecord` calls with fixed (xid, isolation, cid,
active_xids), each given `scanFuel` loop iterations or more, all return, and
call number `i` returns the `i`-th of the records satisfying `IsVisible`, taken
in page-chain order and within a page in increasing slot order, and null once
these are used up, hence null at every later call; each record is met once
(the rids listed are pairwise different); and with the cursor at
`NULL_PAGE_ID` (empty table) a call returns null at once, whatever the fuel. -/
theorem GetNextRecord_scan (NULL_PAGE_ID : Nat) (pages : Nat → TablePage) (xid : Nat)
    (iso : IsolationLevel) (cid : Nat) (active : List Nat) (first_page_id : Nat)
    (chain : List Nat) (hchain : IsPageChain NULL_PAGE_ID pages first_page_id chain) :
    (∀ fuel n, scanFuel pages chain ≤ fuel →
      ∃ rid1, scanCalls NULL_PAGE_ID pages xid iso cid active fuel n ⟨first_page_id, 0⟩
        = some ((List.range n).map
            (fun i => ((chainRecords pages chain).filter (IsVisible iso xid cid active))[i]?),
            rid1))
    ∧ ((chainRecords pages chain).map Record.rid_).Nodup
    ∧ (∀ fuel slot, GetNextRecord NULL_PAGE_ID pages xid iso cid active fuel
        ⟨NULL_PAGE_ID, slot⟩ = some (none, ⟨NULL_PAGE_ID, slot⟩)) := by
  refine ⟨?_, chainRecords_nodup pages chain
    (IsPageChain_nodup NULL_PAGE_ID pages chain first_page_id hchain), ?_⟩
  · intro fuel n hfuel
    have hrest : scanRest pages chain 0 = chainRecords pages chain := by
      cases chain <;> rfl
    have := scanCalls_spec NULL_PAGE_ID pages xid iso cid active fuel n ⟨first_page_id, 0⟩
      chain hchain hfuel
    rw [hrest] at this
    exact this
  · intro fuel slot
    unfold GetNextRecord
    rw [if_pos rfl]

/-- C10 on the example heap, scanned by transaction 5 under Repeatable Read:
four calls return the record of transaction 1 at rid (0, 0), the record of
transaction 4 at rid (1, 1), and null twice. -/
theorem GetNextRecord_scan_witness :
    ∃ rid1, scanCalls 99 examplePages 5 .REPEATABLE_READ 0 [] 7 4 ⟨0, 0⟩
      = some ([some ⟨false, 1, 0, 0, [some 10], ⟨0, 0⟩⟩, some ⟨false, 4, 0, 0, [none], ⟨1, 1⟩⟩,
          none, none], rid1) :=
  (GetNextRecord_scan 99 examplePages 5 .REPEATABLE_READ 0 [] 0 [0, 1]
    (by decide)).1 7 4 (by decide)

/-! ## Slotted table page: theorems -/

/-- A write leaves the bytes outside the written range as they were. -/
theorem writeBytes_outside (data : Nat → Nat) (off : Nat) (bs : List Nat) (i : Nat)
    (h : ¬ (off ≤ i ∧ i < off + bs.length)) : writeBytes data off bs i = data i := by
  unfold writeBytes
  rw [if_neg h]

/-- A write puts byte `j` of the list at offset `off + j`. -/
theorem writeBytes_inside (data : Nat → Nat) (off : Nat) (bs : List Nat) (j : Nat)
    (h : j < bs.length) : writeBytes data off bs (off + j) = bs.getD j 0 := by
  unfold writeBytes
  rw [if_pos ⟨Nat.le_add_right _ _, by omega⟩, Nat.add_sub_cancel_left]

/-- Reading back what was just written gives the written bytes. -/
theorem readBytes_writeBytes (data : Nat → Nat) (off : Nat) (bs : List Nat) :
    readBytes (writeBytes data off bs) off bs.length = bs := by
  unfold readBytes
  apply List.ext_getElem
  · simp
  · intro j h1 h2
    simp only [List.getElem_map, List.getElem_range]
    rw [writeBytes_inside data off bs j h2, List.getD_eq_getElem _ _ h2]

/-- Two byte stores that agree on a range read the same there. -/
theorem readBytes_congr (d1 d2 : Nat → Nat) (off n : Nat)
    (h : ∀ i, off ≤ i → i < off + n → d1 i = d2 i) : readBytes d1 off n = readBytes d2 off n := by
  unfold readBytes
  apply List.map_congr_left
  intro j hj
  exact h (off + j) (Nat.le_add_right _ _) (by have := List.mem_range.mp hj; omega)

/-- A store whose `n` bytes at `off` are the list `bs` holds byte `j` of `bs` at
`off + j`. -/
theorem readBytes_eq_getD (data : Nat → Nat) (off n : Nat) (bs : List Nat)
    (h : readBytes data off n = bs) (j : Nat) (hj : j < n) : data (off + j) = bs.getD j 0 := by
  subst h
  unfold readBytes
  rw [List.getD_eq_getElem _ _ (by simpa using hj)]
  simp

/-- The encoding of an integer on `w` bytes has `w` bytes. -/
theorem encodeLE_length (w v : Nat) : (encodeLE w v).length = w := by
  unfold encodeLE
  simp

/-- C13: `DeleteRecord(slot_id, xid)` sets the tombstone byte of the record to 1
and its xmax (the `xid_t` at byte 5) to `xid` and changes nothing else: `lower`,
`upper`, `next_page_id`, `page_lsn`, every slot entry and the record count are
unchanged, every byte of the page other than those two fields is unchanged, and
so are all bytes of every record lying outside them. -/
theorem DeleteRecord_frame (K : Constants) (p : SlottedPage) (slot_id xid : Nat) :
    (p.DeleteRecord K slot_id xid).lower_ = p.lower_
    ∧ (p.DeleteRecord K slot_id xid).upper_ = p.upper_
    ∧ (p.DeleteRecord K slot_id xid).next_page_id_ = p.next_page_id_
    ∧ (p.DeleteRecord K slot_id xid).page_lsn_ = p.page_lsn_
    ∧ (p.DeleteRecord K slot_id xid).slots_ = p.slots_
    ∧ (p.DeleteRecord K slot_id xid).GetRecordCount K = p.GetRecordCount K
    ∧ (p.DeleteRecord K slot_id xid).page_data_ (p.slots_ slot_id).offset_ = 1
    ∧ readBytes (p.DeleteRecord K slot_id xid).page_data_ ((p.slots_ slot_id).offset_ + 5)
        K.XID_SIZE = encodeLE K.XID_SIZE xid
    ∧ (∀ i, i ≠ (p.slots_ slot_id).offset_ →
        ¬ ((p.slots_ slot_id).offset_ + 5 ≤ i
          ∧ i < (p.slots_ slot_id).offset_ + 5 + K.XID_SIZE) →
        (p.DeleteRecord K slot_id xid).page_data_ i = p.page_data_ i)
    ∧ (∀ j, ((p.slots_ j).offset_ + (p.slots_ j).size_ ≤ (p.slots_ slot_id).offset_
          ∨ (p.slots_ slot_id).offset_ + 5 + K.XID_SIZE ≤ (p.slots_ j).offset_) →
        (p.DeleteRecord K slot_id xid).recordBytes j = p.recordBytes j) := by
  have hframe : ∀ i, i ≠ (p.slots_ slot_id).offset_ →
      ¬ ((p.slots_ slot_id).offset_ + 5 ≤ i
        ∧ i < (p.slots_ slot_id).offset_ + 5 + K.XID_SIZE) →
      (p.DeleteRecord K slot_id xid).page_data_ i = p.page_data_ i := by
    intro i h1 h2
    show writeBytes (writeBytes p.page_data_ _ [1]) _ (encodeLE K.XID_SIZE xid) i = _
    rw [writeBytes_outside _ _ _ _ (by rw [encodeLE_length]; exact h2),
      writeBytes_outside _ _ _ _ (by simp only [List.length_singleton]; omega)]
  refine ⟨rfl, rfl, rfl, rfl, rfl, rfl, ?_, ?_, hframe, ?_⟩
  · show writeBytes (writeBytes p.page_data_ _ [1]) _ (encodeLE K.XID_SIZE xid) _ = _
    rw [writeBytes_outside _ _ _ _ (by omega)]
    have := writeBytes_inside p.page_data_ (p.slots_ slot_id).offset_ [1] 0 (by simp)
    simpa using this
  · show readBytes (writeBytes (writeBytes p.page_data_ _ [1]) _ (encodeLE K.XID_SIZE xid)) _ _
      = _
    have := readBytes_writeBytes (writeBytes p.page_data_ (p.slots_ slot_id).offset_ [1])
      ((p.slots_ slot_id).offset_ + 5) (encodeLE K.XID_SIZE xid)
    rw [encodeLE_length] at this
    exact this
  · intro j hj
    unfold SlottedPage.recordBytes
    show readBytes (p.DeleteRecord K slot_id xid).page_data_ (p.slots_ j).offset_
      (p.slots_ j).size_ = _
    apply readBytes_congr
    intro i hi1 hi2
    apply hframe <;> omega

/-- C14: for a slot whose record is live (tombstone byte 0 and xmax bytes those of
`NULL_XID`), `UndoDeleteRecord(slot)` after `DeleteRecord(slot, xid)` restores the
page, and `DeleteRecord(slot, xid)` after that undo gives the deleted page again. -/
theorem UndoDeleteRecord_DeleteRecord (K : Constants) (p : SlottedPage) (slot_id xid : Nat)
    (htomb : p.page_data_ (p.slots_ slot_id).offset_ = 0)
    (hxmax : readBytes p.page_data_ ((p.slots_ slot_id).offset_ + 5) K.XID_SIZE
      = encodeLE K.XID_SIZE K.NULL_XID) :
    (p.DeleteRecord K slot_id xid).UndoDeleteRecord K slot_id = p
    ∧ ((p.DeleteRecord K slot_id xid).UndoDeleteRecord K slot_id).DeleteRecord K slot_id xid
        = p.DeleteRecord K slot_id xid := by
  have hundo : (p.DeleteRecord K slot_id xid).UndoDeleteRecord K slot_id = p := by
    have hdata : writeBytes (writeBytes
          (writeBytes (writeBytes p.page_data_ (p.slots_ slot_id).offset_ [1])
            ((p.slots_ slot_id).offset_ + 5) (encodeLE K.XID_SIZE xid))
          (p.slots_ slot_id).offset_ [0])
        ((p.slots_ slot_id).offset_ + 5) (encodeLE K.XID_SIZE K.NULL_XID) = p.page_data_ := by
      funext i
      by_cases h2 : (p.slots_ slot_id).offset_ + 5 ≤ i
          ∧ i < (p.slots_ slot_id).offset_ + 5 + K.XID_SIZE
      · obtain ⟨j, rfl⟩ : ∃ j, i = (p.slots_ slot_id).offset_ + 5 + j :=
          ⟨i - ((p.slots_ slot_id).offset_ + 5), by omega⟩
        have hj : j < K.XID_SIZE := by omega
        rw [writeBytes_inside _ _ _ _ (by rw [encodeLE_length]; exact hj)]
        exact (readBytes_eq_getD _ _ _ _ hxmax j hj).symm
      · rw [writeBytes_outside _ _ _ _ (by rw [encodeLE_length]; exact h2)]
        by_cases h1 : i = (p.slots_ slot_id).offset_
        · subst h1
          have := writeBytes_inside
            (writeBytes (writeBytes p.page_data_ (p.slots_ slot_id).offset_ [1])
              ((p.slots_ slot_id).offset_ + 5) (encodeLE K.XID_SIZE xid))
            (p.slots_ slot_id).offset_ [0] 0 (by simp)
          simp only [Nat.add_zero] at this
          rw [this, htomb]
          rfl
        · rw [writeBytes_outside _ _ _ _ (by simp only [List.length_singleton]; omega),
            writeBytes_outside _ _ _ _ (by rw [encodeLE_length]; exact h2),
            writeBytes_outside _ _ _ _ (by simp only [List.length_singleton]; omega)]
    cases p with
    | mk lsn next lower upper slots data =>
      simp only [SlottedPage.DeleteRecord, SlottedPage.UndoDeleteRecord] at hdata ⊢
      rw [hdata]
  exact ⟨hundo, by rw [hundo]⟩

/-- C14 on page 0 of the one-page example table, whose record in slot 0 is live:
deleting it as transaction 7 and undoing the deletion gives the page back. -/
theorem UndoDeleteRecord_DeleteRecord_witness :
    ((exampleTableOnePage.pages 0).DeleteRecord exampleConstants 0 7).UndoDeleteRecord
        exampleConstants 0 = exampleTableOnePage.pages 0 :=
  (UndoDeleteRecord_DeleteRecord exampleConstants (exampleTableOnePage.pages 0) 0 7
    (by decide) (by decide)).1

/-- C15: `RedoInsertRecord` given the slot `InsertRecord` returned, the bytes it
wrote, the `upper` it left and the size of the record yields, from the same
page, the very page the insert yielded: same `lower`, `upper`, slot array and
page bytes. -/
theorem RedoInsertRecord_InsertRecord (K : Constants) (SerializeTo : Record → List Nat)
    (p : SlottedPage) (record : Record) (xid cid : Nat) :
    p.RedoInsertRecord K (p.InsertRecord K SerializeTo record xid cid).1
        (readBytes (p.InsertRecord K SerializeTo record xid cid).2.page_data_
          (p.InsertRecord K SerializeTo record xid cid).2.upper_
          (SerializeTo (record.stamp xid cid)).length)
        (p.InsertRecord K SerializeTo record xid cid).2.upper_
        (SerializeTo (record.stamp xid cid)).length
      = (p.InsertRecord K SerializeTo record xid cid).2 := by
  have hraw : readBytes (p.InsertRecord K SerializeTo record xid cid).2.page_data_
      (p.InsertRecord K SerializeTo record xid cid).2.upper_
      (SerializeTo (record.stamp xid cid)).length = SerializeTo (record.stamp xid cid) :=
    readBytes_writeBytes p.page_data_ _ _
  rw [hraw]
  simp only [SlottedPage.RedoInsertRecord, SlottedPage.InsertRecord, List.take_length]

/-! ## Log manager: theorems -/

/-- Looking up a key after an assignment. -/
theorem amFind_amSet {κ : Type} [DecidableEq κ] (m : List (κ × Nat)) (k : κ) (v : Nat) (k1 : κ) :
    amFind (amSet m k v) k1 = if k1 = k then some v else amFind m k1 := by
  induction m with
  | nil =>
    by_cases h : k1 = k
    · simp [amSet, amFind, h]
    · have h1 : ¬ k = k1 := fun e => h e.symm
      simp [amSet, amFind, h, h1]
  | cons e m ih =>
    obtain ⟨k2, v2⟩ := e
    unfold amSet
    by_cases h2 : k2 = k
    · rw [if_pos h2]
      subst h2
      by_cases h : k1 = k2
      · subst h; simp [amFind]
      · have h1 : ¬ k2 = k1 := fun e => h e.symm
        simp [amFind, h, h1]
    · rw [if_neg h2]
      by_cases h3 : k2 = k1
      · subst h3
        simp [amFind, h2]
      · simp only [amFind, if_neg h3]
        exact ih

/-- Looking up a key after an erasure. -/
theorem amFind_amErase {κ : Type} [DecidableEq κ] (m : List (κ × Nat)) (k : κ) (k1 : κ) :
    amFind (amErase m k) k1 = if k1 = k then none else amFind m k1 := by
  induction m with
  | nil => simp [amErase, amFind]
  | cons e m ih =>
    obtain ⟨k2, v2⟩ := e
    unfold amErase at ih ⊢
    by_cases h2 : k2 = k
    · rw [List.filter_cons_of_neg (by simpa using h2), ih]
      subst h2
      by_cases h : k1 = k2
      · simp [h]
      · have h1 : ¬ k2 = k1 := fun e => h e.symm
        simp [amFind, h, h1]
    · rw [List.filter_cons_of_pos (by simpa using h2)]
      by_cases h3 : k2 = k1
      · subst h3
        simp [amFind, h2]
      · simp only [amFind, if_neg h3]
        exact ih

/-- The loop of `Flush` leaves in the buffer the records its test keeps and
writes the others, both in buffer order. -/
theorem flushLoop_filter (K : Constants) (logSize : LogPayload → Nat) (lsn : Nat)
    (l : List LogRecord) :
    ∀ (max_lsn max_log_size : Nat),
      (flushLoop K logSize lsn l max_lsn max_log_size).1
        = l.filter (fun r => decide (flushKeeps K lsn r))
      ∧ (flushLoop K logSize lsn l max_lsn max_log_size).2.1
        = l.filter (fun r => decide (¬ flushKeeps K lsn r)) := by
  induction l with
  | nil => intro _ _; exact ⟨rfl, rfl⟩
  | cons r rest ih =>
    intro max_lsn max_log_size
    unfold flushLoop
    by_cases hk : flushKeeps K lsn r
    · rw [if_pos hk, List.filter_cons_of_pos (by simpa using hk),
        List.filter_cons_of_neg (by simpa using hk)]
      dsimp only
      exact ⟨by rw [(ih _ _).1], (ih _ _).2⟩
    · rw [if_neg hk, List.filter_cons_of_neg (by simpa using hk),
        List.filter_cons_of_pos (by simpa using hk)]
      dsimp only
      split
      · exact ⟨(ih _ _).1, by rw [(ih _ _).2]⟩
      · exact ⟨(ih _ _).1, by rw [(ih _ _).2]⟩

/-- `Flush` changes neither `next_lsn_` nor the ATT nor the DPT, leaves in the
buffer the records its test keeps and appends the others to the log file. -/
theorem Flush_fields (K : Constants) (logSize : LogPayload → Nat) (s : LogManager) (lsn : Nat) :
    (s.Flush K logSize lsn).next_lsn_ = s.next_lsn_
    ∧ (s.Flush K logSize lsn).att_ = s.att_
    ∧ (s.Flush K logSize lsn).dpt_ = s.dpt_
    ∧ (s.Flush K logSize lsn).log_buffer_
        = s.log_buffer_.filter (fun r => decide (flushKeeps K lsn r))
    ∧ (s.Flush K logSize lsn).disk_log_
        = s.disk_log_ ++ s.log_buffer_.filter (fun r => decide (¬ flushKeeps K lsn r)) := by
  have h := flushLoop_filter K logSize lsn s.log_buffer_ K.NULL_LSN 0
  unfold LogManager.Flush
  dsimp only
  split
  · split
    · exact ⟨rfl, rfl, rfl, h.1, by rw [h.2]⟩
    · exact ⟨rfl, rfl, rfl, h.1, by rw [h.2]⟩
  · exact ⟨rfl, rfl, rfl, h.1, by rw [h.2]⟩

/-- `Flush` neither adds nor loses a record. -/
theorem mem_Flush_records (K : Constants) (logSize : LogPayload → Nat) (s : LogManager)
    (lsn : Nat) (r : LogRecord) : r ∈ (s.Flush K logSize lsn).records ↔ r ∈ s.records := by
  obtain ⟨_, _, _, hb, hd⟩ := Flush_fields K logSize s lsn
  unfold LogManager.records
  rw [hb, hd]
  simp only [List.mem_append, List.mem_filter, decide_eq_true_eq]
  constructor
  · rintro ((h | ⟨h, _⟩) | ⟨h, _⟩)
    · exact Or.inl h
    · exact Or.inr h
    · exact Or.inr h
  · rintro (h | h)
    · exact Or.inl (Or.inl h)
    · by_cases hk : flushKeeps K lsn r
      · exact Or.inr ⟨h, hk⟩
      · exact Or.inl (Or.inr ⟨h, hk⟩)

/-- A gap-free list followed by a gap-free list is gap-free, and conversely. -/
theorem Tiles_append (logSize : LogPayload → Nat) (a b : List LogRecord) :
    ∀ (lo hi : Nat), Tiles logSize lo (a ++ b) hi ↔
      ∃ mid, Tiles logSize lo a mid ∧ Tiles logSize mid b hi := by
  induction a with
  | nil =>
    intro lo hi
    constructor
    · intro h; exact ⟨lo, rfl, h⟩
    · rintro ⟨mid, h1, h2⟩
      have : lo = mid := h1
      subst this
      exact h2
  | cons r rs ih =>
    intro lo hi
    show (r.lsn_ = lo ∧ Tiles logSize (lo + r.GetSize logSize) (rs ++ b) hi) ↔
      ∃ mid, (r.lsn_ = lo ∧ Tiles logSize (lo + r.GetSize logSize) rs mid)
        ∧ Tiles logSize mid b hi
    rw [ih]
    constructor
    · rintro ⟨h1, mid, h2, h3⟩; exact ⟨mid, ⟨h1, h2⟩, h3⟩
    · rintro ⟨mid, ⟨h1, h2⟩, h3⟩; exact ⟨h1, mid, h2, h3⟩

/-- The end of a gap-free list is determined by its start. -/
theorem Tiles_unique (logSize : LogPayload → Nat) (l : List LogRecord) :
    ∀ (lo h1 h2 : Nat), Tiles logSize lo l h1 → Tiles logSize lo l h2 → h1 = h2 := by
  induction l with
  | nil => intro lo h1 h2 a b; exact a.symm.trans b
  | cons r rs ih => intro lo h1 h2 a b; exact ih _ _ _ a.2 b.2

/-- The records of a gap-free list lie between its bounds. -/
theorem Tiles_bounds (logSize : LogPayload → Nat) (l : List LogRecord) :
    ∀ (lo hi : Nat), Tiles logSize lo l hi →
      lo ≤ hi ∧ ∀ r ∈ l, lo ≤ r.lsn_ ∧ r.lsn_ + r.GetSize logSize ≤ hi := by
  induction l with
  | nil =>
    intro lo hi h
    have : lo = hi := h
    exact ⟨by omega, by simp⟩
  | cons r rs ih =>
    intro lo hi h
    obtain ⟨h1, h2⟩ := ih _ _ h.2
    have h0 : r.lsn_ = lo := h.1
    refine ⟨by omega, ?_⟩
    intro x hx
    rcases List.mem_cons.mp hx with rfl | hx
    · exact ⟨by omega, by omega⟩
    · have := h2 x hx
      exact ⟨by omega, this.2⟩

/-- In a gap-free list the LSNs do not decrease. -/
theorem Tiles_sorted (logSize : LogPayload → Nat) (l : List LogRecord) :
    ∀ (lo hi : Nat), Tiles logSize lo l hi → l.Pairwise (fun a b => a.lsn_ ≤ b.lsn_) := by
  induction l with
  | nil => intro _ _ _; exact List.Pairwise.nil
  | cons r rs ih =>
    intro lo hi h
    rw [List.pairwise_cons]
    refine ⟨?_, ih _ _ h.2⟩
    intro x hx
    have h0 : r.lsn_ = lo := h.1
    have := ((Tiles_bounds logSize rs _ _ h.2).2 x hx).1
    omega

/-- In a gap-free list of records of positive size the LSNs strictly increase. -/
theorem Tiles_strict (logSize : LogPayload → Nat) (hpos : ∀ p, 0 < logSize p)
    (l : List LogRecord) :
    ∀ (lo hi : Nat), Tiles logSize lo l hi → l.Pairwise (fun a b => a.lsn_ < b.lsn_) := by
  induction l with
  | nil => intro _ _ _; exact List.Pairwise.nil
  | cons r rs ih =>
    intro lo hi h
    rw [List.pairwise_cons]
    refine ⟨?_, ih _ _ h.2⟩
    intro x hx
    have h0 : r.lsn_ = lo := h.1
    have := ((Tiles_bounds logSize rs _ _ h.2).2 x hx).1
    have hp : 0 < r.GetSize logSize := hpos _
    omega

/-- In a gap-free list each record but the last is followed by the record whose
LSN is its own plus its size. -/
theorem Tiles_adjacent (logSize : LogPayload → Nat) (l : List LogRecord) :
    ∀ (lo hi : Nat), Tiles logSize lo l hi →
      ∀ (i : Nat) (h : i + 1 < l.length),
        (l.get ⟨i + 1, h⟩).lsn_
          = (l.get ⟨i, Nat.lt_of_succ_lt h⟩).lsn_
            + (l.get ⟨i, Nat.lt_of_succ_lt h⟩).GetSize logSize := by
  induction l with
  | nil => intro _ _ _ i h; simp at h
  | cons r rs ih =>
    intro lo hi ht i h
    cases i with
    | zero =>
      cases rs with
      | nil => simp at h
      | cons r2 rs2 =>
        have h0 : r.lsn_ = lo := ht.1
        have h1 : r2.lsn_ = lo + r.GetSize logSize := ht.2.1
        simp only [List.get_eq_getElem, List.getElem_cons_succ, List.getElem_cons_zero]
        omega
    | succ j =>
      have := ih _ _ ht.2 j (by simpa using h)
      simpa using this

/-- When the LSNs of the buffer do not decrease, the records `Flush` writes are
a front part of the buffer and the records it keeps the rest. -/
theorem flush_split (K : Constants) (lsn : Nat) (l : List LogRecord)
    (hs : l.Pairwise (fun a b => a.lsn_ ≤ b.lsn_)) :
    l.filter (fun r => decide (¬ flushKeeps K lsn r))
      ++ l.filter (fun r => decide (flushKeeps K lsn r)) = l := by
  induction l with
  | nil => rfl
  | cons r rs ih =>
    rw [List.pairwise_cons] at hs
    by_cases hk : flushKeeps K lsn r
    · have hall : ∀ x ∈ rs, flushKeeps K lsn x := by
        intro x hx
        have := hs.1 x hx
        exact ⟨hk.1, Nat.lt_of_lt_of_le hk.2 this⟩
      rw [List.filter_cons_of_neg (by simpa using hk),
        List.filter_cons_of_pos (by simpa using hk),
        List.filter_eq_nil_iff.mpr (by intro x hx; simpa using hall x hx),
        List.filter_eq_self.mpr (by intro x hx; simpa using hall x hx)]
      rfl
    · rw [List.filter_cons_of_pos (by simpa using hk),
        List.filter_cons_of_neg (by simpa using hk), List.cons_append, ih hs.2]

/-- On a gap-free log `Flush` moves a front part of the buffer to the log file:
the list of all records is unchanged. -/
theorem Flush_records (K : Constants) (logSize : LogPayload → Nat) (s : LogManager)
    (lsn lo : Nat) (ht : Tiles logSize lo s.records s.next_lsn_) :
    (s.Flush K logSize lsn).records = s.records := by
  obtain ⟨_, _, _, hb, hd⟩ := Flush_fields K logSize s lsn
  unfold LogManager.records at ht ⊢
  obtain ⟨mid, _, h2⟩ := (Tiles_append logSize _ _ _ _).mp ht
  rw [hb, hd, List.append_assoc, flush_split K lsn _ (Tiles_sorted logSize _ _ _ h2)]

/-- `SetDirty` touches the DPT only. -/
theorem SetDirty_fields (s : LogManager) (oid page_id lsn : Nat) :
    (s.SetDirty oid page_id lsn).records = s.records
    ∧ (s.SetDirty oid page_id lsn).next_lsn_ = s.next_lsn_
    ∧ (s.SetDirty oid page_id lsn).att_ = s.att_ := by
  unfold LogManager.SetDirty
  split
  · exact ⟨rfl, rfl, rfl⟩
  · exact ⟨rfl, rfl, rfl⟩

/-- `AppendInsertLog` for a transaction of the ATT: the appended record, the
returned LSN, `next_lsn_` and the ATT afterwards. -/
theorem AppendInsertLog_ok (K : Constants) (logSize : LogPayload → Nat) (s : LogManager)
    (xid oid page_id slot_id offset size : Nat) (new_record : List Nat) (prev : Nat)
    (hfind : amFind s.att_ xid = some prev) :
    ∃ s1, s.AppendInsertLog K logSize xid oid page_id slot_id offset size new_record
        = .ok (s.next_lsn_, s1)
      ∧ s1.records = s.records
          ++ [⟨s.next_lsn_, xid, prev, .INSERT oid page_id slot_id offset size new_record⟩]
      ∧ s1.next_lsn_ = s.next_lsn_
          + logSize (.INSERT oid page_id slot_id offset size new_record)
      ∧ s1.att_ = amSet s.att_ xid s.next_lsn_ := by
  unfold LogManager.AppendInsertLog
  rw [hfind]
  refine ⟨_, rfl, ?_, ?_, ?_⟩
  · rw [(SetDirty_fields _ _ _ _).1]
    simp [LogManager.records, LogManager.allocate]
  · rw [(SetDirty_fields _ _ _ _).2.1]
    rfl
  · rw [(SetDirty_fields _ _ _ _).2.2]
    rfl

/-- `AppendDeleteLog` for a transaction of the ATT. -/
theorem AppendDeleteLog_ok (K : Constants) (logSize : LogPayload → Nat) (s : LogManager)
    (xid oid page_id slot_id : Nat) (prev : Nat) (hfind : amFind s.att_ xid = some prev) :
    ∃ s1, s.AppendDeleteLog K logSize xid oid page_id slot_id = .ok (s.next_lsn_, s1)
      ∧ s1.records = s.records ++ [⟨s.next_lsn_, xid, prev, .DELETE oid page_id slot_id⟩]
      ∧ s1.next_lsn_ = s.next_lsn_ + logSize (.DELETE oid page_id slot_id)
      ∧ s1.att_ = amSet s.att_ xid s.next_lsn_ := by
  unfold LogManager.AppendDeleteLog
  rw [hfind]
  refine ⟨_, rfl, ?_, ?_, ?_⟩
  · rw [(SetDirty_fields _ _ _ _).1]
    simp [LogManager.records, LogManager.allocate]
  · rw [(SetDirty_fields _ _ _ _).2.1]
    rfl
  · rw [(SetDirty_fields _ _ _ _).2.2]
    rfl

/-- `AppendNewPageLog` for a transaction of the ATT other than `DDL_XID`. -/
theorem AppendNewPageLog_ok (K : Constants) (logSize : LogPayload → Nat) (s : LogManager)
    (xid oid prev_page_id page_id : Nat) (prev : Nat) (hfind : amFind s.att_ xid = some prev)
    (hddl : xid ≠ K.DDL_XID) :
    ∃ s1, s.AppendNewPageLog K logSize xid oid prev_page_id page_id = .ok (s.next_lsn_, s1)
      ∧ s1.records = s.records
          ++ [⟨s.next_lsn_, xid, narrowXid prev, .NEW_PAGE oid prev_page_id page_id⟩]
      ∧ s1.next_lsn_ = s.next_lsn_ + logSize (.NEW_PAGE oid prev_page_id page_id)
      ∧ s1.att_ = amSet s.att_ xid s.next_lsn_ := by
  unfold LogManager.AppendNewPageLog
  have h1 : ¬ (xid ≠ K.DDL_XID ∧ amFind s.att_ xid = none) := by
    rw [hfind]; simp
  rw [if_neg h1]
  simp only [if_neg hddl, hfind, Option.getD_some, ne_eq, hddl, not_false_eq_true, if_true]
  refine ⟨_, rfl, ?_, ?_, ?_⟩
  · split
    · rw [(SetDirty_fields _ _ _ _).1, (SetDirty_fields _ _ _ _).1]
      simp [LogManager.records, LogManager.allocate]
    · rw [(SetDirty_fields _ _ _ _).1]
      simp [LogManager.records, LogManager.allocate]
  · split
    · rw [(SetDirty_fields _ _ _ _).2.1, (SetDirty_fields _ _ _ _).2.1]
      rfl
    · rw [(SetDirty_fields _ _ _ _).2.1]
      rfl
  · split
    · rw [(SetDirty_fields _ _ _ _).2.2, (SetDirty_fields _ _ _ _).2.2]
      rfl
    · rw [(SetDirty_fields _ _ _ _).2.2]
      rfl

/-- `AppendNewPageLog` for `DDL_XID`: the record carries `NULL_XID` in the place
of `prev_lsn` and the ATT is unchanged. -/
theorem AppendNewPageLog_ddl (K : Constants) (logSize : LogPayload → Nat) (s : LogManager)
    (oid prev_page_id page_id : Nat) :
    ∃ s1, s.AppendNewPageLog K logSize K.DDL_XID oid prev_page_id page_id
        = .ok (s.next_lsn_, s1)
      ∧ s1.records = s.records
          ++ [⟨s.next_lsn_, K.DDL_XID, K.NULL_XID, .NEW_PAGE oid prev_page_id page_id⟩]
      ∧ s1.next_lsn_ = s.next_lsn_ + logSize (.NEW_PAGE oid prev_page_id page_id)
      ∧ s1.att_ = s.att_ := by
  unfold LogManager.AppendNewPageLog
  have h1 : ¬ (K.DDL_XID ≠ K.DDL_XID ∧ amFind s.att_ K.DDL_XID = none) := by simp
  rw [if_neg h1]
  simp only [if_true, ne_eq, not_true_eq_false, if_false]
  refine ⟨_, rfl, ?_, ?_, ?_⟩
  · split
    · rw [(SetDirty_fields _ _ _ _).1, (SetDirty_fields _ _ _ _).1]
      simp [LogManager.records, LogManager.allocate]
    · rw [(SetDirty_fields _ _ _ _).1]
      simp [LogManager.records, LogManager.allocate]
  · split
    · rw [(SetDirty_fields _ _ _ _).2.1, (SetDirty_fields _ _ _ _).2.1]
      rfl
    · rw [(SetDirty_fields _ _ _ _).2.1]
      rfl
  · split
    · rw [(SetDirty_fields _ _ _ _).2.2, (SetDirty_fields _ _ _ _).2.2]
      rfl
    · rw [(SetDirty_fields _ _ _ _).2.2]
      rfl

/-- `AppendBeginLog` for a transaction not in the ATT. -/
theorem AppendBeginLog_ok (K : Constants) (logSize : LogPayload → Nat) (s : LogManager)
    (xid : Nat) (hfind : amFind s.att_ xid = none) :
    ∃ s1, s.AppendBeginLog K logSize xid = .ok (s.next_lsn_, s1)
      ∧ s1.records = s.records ++ [⟨s.next_lsn_, xid, K.NULL_LSN, .BEGIN⟩]
      ∧ s1.next_lsn_ = s.next_lsn_ + logSize .BEGIN
      ∧ s1.att_ = amSet s.att_ xid s.next_lsn_ := by
  unfold LogManager.AppendBeginLog
  rw [if_neg (by rw [hfind]; simp)]
  refine ⟨_, rfl, ?_, rfl, rfl⟩
  simp [LogManager.records, LogManager.allocate]

/-- `AppendCommitLog` for a transaction of the ATT, on a gap-free log. -/
theorem AppendCommitLog_ok (K : Constants) (logSize : LogPayload → Nat) (s : LogManager)
    (xid prev lo : Nat) (ht : Tiles logSize lo s.records s.next_lsn_)
    (hfind : amFind s.att_ xid = some prev) :
    ∃ s1, s.AppendCommitLog K logSize xid = .ok (s.next_lsn_, s1)
      ∧ s1.records = s.records ++ [⟨s.next_lsn_, xid, prev, .COMMIT⟩]
      ∧ s1.next_lsn_ = s.next_lsn_ + logSize .COMMIT
      ∧ s1.att_ = amErase s.att_ xid := by
  unfold LogManager.AppendCommitLog
  rw [hfind]
  refine ⟨_, rfl, ?_, ?_, ?_⟩
  · show (LogManager.Flush K logSize _ _).records = _
    rw [Flush_records K logSize _ _ lo]
    · simp [LogManager.records, LogManager.allocate]
    · have hrec : ∀ (r : LogRecord),
          ({ (s.allocate logSize ⟨K.NULL_LSN, xid, prev, .COMMIT⟩).2 with
              log_buffer_ := (s.allocate logSize ⟨K.NULL_LSN, xid, prev, .COMMIT⟩).2.log_buffer_
                ++ [r] } : LogManager).records = s.records ++ [r] := by
        intro r; simp [LogManager.records, LogManager.allocate]
      rw [hrec, Tiles_append]
      exact ⟨s.next_lsn_, ht, rfl, rfl⟩
  · show (LogManager.Flush K logSize _ _).next_lsn_ = _
    rw [(Flush_fields K logSize _ _).1]
    rfl
  · show amErase (LogManager.Flush K logSize _ _).att_ xid = _
    rw [(Flush_fields K logSize _ _).2.1]
    rfl

/-- `AppendRollbackLog` for a transaction of the ATT, on a gap-free log. -/
theorem AppendRollbackLog_ok (K : Constants) (logSize : LogPayload → Nat) (s : LogManager)
    (xid prev lo : Nat) (ht : Tiles logSize lo s.records s.next_lsn_)
    (hfind : amFind s.att_ xid = some prev) :
    ∃ s1, s.AppendRollbackLog K logSize xid = .ok (s.next_lsn_, s1)
      ∧ s1.records = s.records ++ [⟨s.next_lsn_, xid, prev, .ROLLBACK⟩]
      ∧ s1.next_lsn_ = s.next_lsn_ + logSize .ROLLBACK
      ∧ s1.att_ = amErase s.att_ xid := by
  unfold LogManager.AppendRollbackLog
  rw [hfind]
  refine ⟨_, rfl, ?_, ?_, ?_⟩
  · show (LogManager.Flush K logSize _ _).records = _
    rw [Flush_records K logSize _ _ lo]
    · simp [LogManager.records, LogManager.allocate]
    · have hrec : ∀ (r : LogRecord),
          ({ (s.allocate logSize ⟨K.NULL_LSN, xid, prev, .ROLLBACK⟩).2 with
              log_buffer_ := (s.allocate logSize ⟨K.NULL_LSN, xid, prev, .ROLLBACK⟩).2.log_buffer_
                ++ [r] } : LogManager).records = s.records ++ [r] := by
        intro r; simp [LogManager.records, LogManager.allocate]
      rw [hrec, Tiles_append]
      exact ⟨s.next_lsn_, ht, rfl, rfl⟩
  · show (LogManager.Flush K logSize _ _).next_lsn_ = _
    rw [(Flush_fields K logSize _ _).1]
    rfl
  · show amErase (LogManager.Flush K logSize _ _).att_ xid = _
    rw [(Flush_fields K logSize _ _).2.1]
    rfl

/-- `Checkpoint` on a gap-free log: the two appended records, the returned LSN,
`next_lsn_` and the ATT afterwards. -/
theorem Checkpoint_ok (K : Constants) (logSize : LogPayload → Nat) (s : LogManager)
    (lo : Nat) (ht : Tiles logSize lo s.records s.next_lsn_) :
    (s.Checkpoint K logSize).1 = s.next_lsn_ + logSize .BEGIN_CHECKPOINT
    ∧ (s.Checkpoint K logSize).2.records = s.records
        ++ [⟨s.next_lsn_, K.NULL_XID, K.NULL_LSN, .BEGIN_CHECKPOINT⟩,
            ⟨s.next_lsn_ + logSize .BEGIN_CHECKPOINT, K.NULL_XID, K.NULL_LSN,
              .END_CHECKPOINT s.att_ s.dpt_⟩]
    ∧ (s.Checkpoint K logSize).2.next_lsn_ = s.next_lsn_ + logSize .BEGIN_CHECKPOINT
        + logSize (.END_CHECKPOINT s.att_ s.dpt_)
    ∧ (s.Checkpoint K logSize).2.att_ = s.att_ := by
  have hlist : ∀ (b e : LogRecord), s.disk_log_ ++ (s.log_buffer_ ++ [b] ++ [e])
      = s.records ++ [b, e] := by
    intro b e; simp [LogManager.records]
  unfold LogManager.Checkpoint
  refine ⟨rfl, ?_, ?_, ?_⟩
  · show (LogManager.Flush K logSize _ _).records = _
    rw [Flush_records K logSize _ _ lo]
    · simp [LogManager.records, LogManager.allocate, LogRecord.GetSize]
    · show Tiles logSize lo (s.disk_log_ ++ (s.log_buffer_ ++ [_] ++ [_])) _
      rw [hlist, Tiles_append]
      exact ⟨s.next_lsn_, ht, rfl, rfl, rfl⟩
  · show (LogManager.Flush K logSize _ _).next_lsn_ = _
    rw [(Flush_fields K logSize _ _).1]
    rfl
  · show (LogManager.Flush K logSize _ _).att_ = _
    rw [(Flush_fields K logSize _ _).2.1]
    rfl

/-- What a call that returns does to the log, on a gap-free log: it appends
`appended` records at the end, which fill the LSN range from the old
`next_lsn_` to the new one, and returns the LSN of the last of them. -/
theorem call_appends (K : Constants) (logSize : LogPayload → Nat) (s : LogManager) (lo : Nat)
    (ht : Tiles logSize lo s.records s.next_lsn_) (c : LogCall) (lsn : Nat) (s1 : LogManager)
    (h : s.call K logSize c = .ok (lsn, s1)) :
    ∃ new, s1.records = s.records ++ new ∧ new.length = c.appended
      ∧ Tiles logSize s.next_lsn_ new s1.next_lsn_
      ∧ (∀ log, new.getLast? = some log → log.lsn_ = lsn)
      ∧ (c.appended = 1 → lsn = s.next_lsn_) := by
  have one : ∀ (r : LogRecord) (t : LogManager),
      Except.ok (s.next_lsn_, t) = (Except.ok (lsn, s1) : Except DbException (Nat × LogManager)) →
      t.records = s.records ++ [r] → r.lsn_ = s.next_lsn_ →
      t.next_lsn_ = s.next_lsn_ + r.GetSize logSize →
      ∃ new, s1.records = s.records ++ new ∧ new.length = 1
        ∧ Tiles logSize s.next_lsn_ new s1.next_lsn_
        ∧ (∀ log, new.getLast? = some log → log.lsn_ = lsn)
        ∧ ((1 : Nat) = 1 → lsn = s.next_lsn_) := by
    intro r t heq hrec hl hn
    injection heq with heq
    injection heq with h1 h2
    subst h1 h2
    refine ⟨[r], hrec, rfl, ⟨hl, hn.symm⟩, ?_, fun _ => rfl⟩
    intro log hlog
    simp only [List.getLast?_singleton, Option.some.injEq] at hlog
    rw [← hlog, hl]
  have zero : ∀ (t : LogManager), t = s1 → t.records = s.records →
      t.next_lsn_ = s.next_lsn_ →
      ∃ new, s1.records = s.records ++ new ∧ new.length = 0
        ∧ Tiles logSize s.next_lsn_ new s1.next_lsn_
        ∧ (∀ log, new.getLast? = some log → log.lsn_ = lsn)
        ∧ ((0 : Nat) = 1 → lsn = s.next_lsn_) := by
    intro t ht1 hrec hn
    subst ht1
    exact ⟨[], by simpa using hrec, rfl, hn.symm, by simp, by simp⟩
  cases c with
  | AppendInsertLog xid oid page_id slot_id offset size new_record =>
    cases hfind : amFind s.att_ xid with
    | none => simp [LogManager.call, LogManager.AppendInsertLog, hfind] at h
    | some prev =>
      obtain ⟨t, h1, h2, h3, _⟩ := AppendInsertLog_ok K logSize s xid oid page_id slot_id offset
        size new_record prev hfind
      simp only [LogManager.call] at h
      exact one _ t (h1.symm.trans h) h2 rfl h3
  | AppendDeleteLog xid oid page_id slot_id =>
    cases hfind : amFind s.att_ xid with
    | none => simp [LogManager.call, LogManager.AppendDeleteLog, hfind] at h
    | some prev =>
      obtain ⟨t, h1, h2, h3, _⟩ := AppendDeleteLog_ok K logSize s xid oid page_id slot_id prev
        hfind
      simp only [LogManager.call] at h
      exact one _ t (h1.symm.trans h) h2 rfl h3
  | AppendNewPageLog xid oid prev_page_id page_id =>
    by_cases hddl : xid = K.DDL_XID
    · subst hddl
      obtain ⟨t, h1, h2, h3, _⟩ := AppendNewPageLog_ddl K logSize s oid prev_page_id page_id
      simp only [LogManager.call] at h
      exact one _ t (h1.symm.trans h) h2 rfl h3
    · cases hfind : amFind s.att_ xid with
      | none => simp [LogManager.call, LogManager.AppendNewPageLog, hfind, hddl] at h
      | some prev =>
        obtain ⟨t, h1, h2, h3, _⟩ := AppendNewPageLog_ok K logSize s xid oid prev_page_id page_id
          prev hfind hddl
        simp only [LogManager.call] at h
        exact one _ t (h1.symm.trans h) h2 rfl h3
  | AppendBeginLog xid =>
    cases hfind : amFind s.att_ xid with
    | some prev => simp [LogManager.call, LogManager.AppendBeginLog, hfind] at h
    | none =>
      obtain ⟨t, h1, h2, h3, _⟩ := AppendBeginLog_ok K logSize s xid hfind
      simp only [LogManager.call] at h
      exact one _ t (h1.symm.trans h) h2 rfl h3
  | AppendCommitLog xid =>
    cases hfind : amFind s.att_ xid with
    | none => simp [LogManager.call, LogManager.AppendCommitLog, hfind] at h
    | some prev =>
      obtain ⟨t, h1, h2, h3, _⟩ := AppendCommitLog_ok K logSize s xid prev lo ht hfind
      simp only [LogManager.call] at h
      exact one _ t (h1.symm.trans h) h2 rfl h3
  | AppendRollbackLog xid =>
    cases hfind : amFind s.att_ xid with
    | none => simp [LogManager.call, LogManager.AppendRollbackLog, hfind] at h
    | some prev =>
      obtain ⟨t, h1, h2, h3, _⟩ := AppendRollbackLog_ok K logSize s xid prev lo ht hfind
      simp only [LogManager.call] at h
      exact one _ t (h1.symm.trans h) h2 rfl h3
  | Checkpoint =>
    obtain ⟨h1, h2, h3, _⟩ := Checkpoint_ok K logSize s lo ht
    simp only [LogManager.call] at h
    injection h with h
    have hl : (s.Checkpoint K logSize).1 = lsn := congrArg Prod.fst h
    have hs : (s.Checkpoint K logSize).2 = s1 := congrArg Prod.snd h
    subst hl hs
    refine ⟨_, h2, rfl, ⟨rfl, rfl, ?_⟩, ?_, by simp [LogCall.appended]⟩
    · rw [h3]; rfl
    · intro log hlog
      simp only [List.getLast?_cons_cons, List.getLast?_singleton, Option.some.injEq] at hlog
      rw [← hlog, h1]
  | Flush l =>
    simp only [LogManager.call] at h
    injection h with h
    injection h with h1 h2
    exact zero _ h2 (Flush_records K logSize s l lo ht) (Flush_fields K logSize s l).1
  | SetDirty oid page_id l =>
    simp only [LogManager.call] at h
    injection h with h
    injection h with h1 h2
    exact zero _ h2 (SetDirty_fields s oid page_id l).1 (SetDirty_fields s oid page_id l).2.1
  | FlushPage table_oid page_id page_lsn =>
    simp only [LogManager.call] at h
    injection h with h
    injection h with h1 h2
    refine zero _ h2 ?_ ?_
    · show (LogManager.Flush K logSize s page_lsn).records = _
      exact Flush_records K logSize s page_lsn lo ht
    · show (LogManager.Flush K logSize s page_lsn).next_lsn_ = _
      exact (Flush_fields K logSize s page_lsn).1

/-- A sequence of calls keeps the log gap-free. -/
theorem run_Tiles (K : Constants) (logSize : LogPayload → Nat) (lo : Nat)
    (calls : List LogCall) :
    ∀ (s : LogManager), Tiles logSize lo s.records s.next_lsn_ →
      Tiles logSize lo (s.run K logSize calls).records (s.run K logSize calls).next_lsn_ := by
  induction calls with
  | nil => intro s h; exact h
  | cons c calls ih =>
    intro s h
    cases hc : s.call K logSize c with
    | error e =>
      simp only [LogManager.run, hc]
      exact ih s h
    | ok r =>
      obtain ⟨lsn, s1⟩ := r
      simp only [LogManager.run, hc]
      obtain ⟨new, h1, _, h3, _⟩ := call_appends K logSize s lo h c lsn s1 hc
      apply ih
      rw [h1, Tiles_append]
      exact ⟨s.next_lsn_, h, h3⟩

/-- C19: LSN allocation is gap-free and strictly increasing. From a gap-free log
(an empty one, say) and after any sequence of calls, the list of all appended
records is gap-free: each record but the last is followed by the record whose
LSN is its own LSN plus its own size, and with records of positive size the
LSNs strictly increase; every further call that returns appends its records
(one for an `Append*` call, two for `Checkpoint`) at the end, gives the first the
value of `next_lsn_` before the call and each next one the LSN after its
predecessor, and advances `next_lsn_` by exactly their sizes. -/
theorem LSN_allocation_gap_free (K : Constants) (logSize : LogPayload → Nat)
    (s0 : LogManager) (lo : Nat) (h0 : Tiles logSize lo s0.records s0.next_lsn_)
    (calls : List LogCall) :
    Tiles logSize lo (s0.run K logSize calls).records (s0.run K logSize calls).next_lsn_
    ∧ (∀ (i : Nat) (h : i + 1 < (s0.run K logSize calls).records.length),
        ((s0.run K logSize calls).records.get ⟨i + 1, h⟩).lsn_
          = ((s0.run K logSize calls).records.get ⟨i, Nat.lt_of_succ_lt h⟩).lsn_
            + ((s0.run K logSize calls).records.get ⟨i, Nat.lt_of_succ_lt h⟩).GetSize logSize)
    ∧ ((∀ p, 0 < logSize p) →
        (s0.run K logSize calls).records.Pairwise (fun a b => a.lsn_ < b.lsn_))
    ∧ (∀ (c : LogCall) (lsn : Nat) (s1 : LogManager),
        (s0.run K logSize calls).call K logSize c = .ok (lsn, s1) →
        ∃ new, s1.records = (s0.run K logSize calls).records ++ new
          ∧ new.length = c.appended
          ∧ Tiles logSize (s0.run K logSize calls).next_lsn_ new s1.next_lsn_
          ∧ (∀ log, new.getLast? = some log → log.lsn_ = lsn)
          ∧ (c.appended = 1 → lsn = (s0.run K logSize calls).next_lsn_)) := by
  have ht := run_Tiles K logSize lo calls s0 h0
  exact ⟨ht, Tiles_adjacent logSize _ _ _ ht, fun hpos => Tiles_strict logSize hpos _ _ _ ht,
    fun c lsn s1 h => call_appends K logSize _ lo ht c lsn s1 h⟩

/-- C19 on a fresh log manager: after a Begin, an Insert and a Commit of
transaction 2 and a checkpoint the log is gap-free from LSN 0. -/
theorem LSN_allocation_gap_free_witness :
    Tiles exampleLogSize 0
      ((LogManager.new 0).run exampleConstants exampleLogSize
        [.AppendBeginLog 2, .AppendInsertLog 2 7 0 0 200 3 [0, 0, 0], .AppendCommitLog 2,
          .Checkpoint]).records
      ((LogManager.new 0).run exampleConstants exampleLogSize
        [.AppendBeginLog 2, .AppendInsertLog 2 7 0 0 200 3 [0, 0, 0], .AppendCommitLog 2,
          .Checkpoint]).next_lsn_ :=
  (LSN_allocation_gap_free exampleConstants exampleLogSize (LogManager.new 0) 0 rfl _).1

/-- A chain found among some records is found among more records. -/
theorem IsLogChain_mono (K : Constants) (logs logs1 : List LogRecord) (xid : Nat)
    (hsub : ∀ r ∈ logs, r ∈ logs1) :
    ∀ (chain : List LogRecord) (lsn : Nat), IsLogChain K logs xid lsn chain →
      IsLogChain K logs1 xid lsn chain := by
  intro chain
  induction chain with
  | nil => intro lsn h; exact h
  | cons r rs ih =>
    intro lsn h
    exact ⟨h.1, hsub r h.2.1, h.2.2.1, h.2.2.2.1, ih _ h.2.2.2.2⟩

/-- The records of a chain are among the records it was found in. -/
theorem IsLogChain_mem (K : Constants) (logs : List LogRecord) (xid : Nat) :
    ∀ (chain : List LogRecord) (lsn : Nat), IsLogChain K logs xid lsn chain →
      ∀ r ∈ chain, r ∈ logs := by
  intro chain
  induction chain with
  | nil => intro _ _ r hr; simp at hr
  | cons a rs ih =>
    intro lsn h r hr
    rcases List.mem_cons.mp hr with rfl | hr
    · exact h.2.1
    · exact ih _ h.2.2.2.2 r hr

/-- A good chain found among some records is one among more records. -/
theorem GoodChain_mono (K : Constants) (logs logs1 : List LogRecord) (xid lsn : Nat)
    (hsub : ∀ r ∈ logs, r ∈ logs1) (h : GoodChain K logs xid lsn) :
    GoodChain K logs1 xid lsn := by
  obtain ⟨chain, h1, h2, h3⟩ := h
  exact ⟨chain, IsLogChain_mono K logs logs1 xid hsub chain lsn h1, h2, h3⟩

/-- A Begin record appended with a fresh LSN starts a good chain. -/
theorem GoodChain_begin (K : Constants) (logs : List LogRecord) (xid n : Nat)
    (hn : n ≠ K.NULL_LSN) :
    GoodChain K (logs ++ [⟨n, xid, K.NULL_LSN, .BEGIN⟩]) xid n := by
  refine ⟨[⟨n, xid, K.NULL_LSN, .BEGIN⟩], ⟨hn, by simp, rfl, rfl, rfl⟩, ?_, _, rfl, rfl⟩
  simp

/-- A record appended with an LSN above all others and `prev_lsn` the start of
a good chain of its transaction starts a good chain. -/
theorem GoodChain_extend (K : Constants) (logs : List LogRecord) (xid n prev : Nat)
    (payload : LogPayload) (hn : n ≠ K.NULL_LSN) (hlt : ∀ r ∈ logs, r.lsn_ < n)
    (h : GoodChain K logs xid prev) :
    GoodChain K (logs ++ [⟨n, xid, prev, payload⟩]) xid n := by
  obtain ⟨chain, h1, h2, b, h3, h4⟩ := h
  have hne : chain ≠ [] := by
    intro e; rw [e] at h3; simp at h3
  refine ⟨⟨n, xid, prev, payload⟩ :: chain, ⟨hn, by simp, rfl, rfl, ?_⟩, ?_, b, ?_, h4⟩
  · exact IsLogChain_mono K logs _ xid (fun r hr => List.mem_append_left _ hr) chain prev h1
  · rw [List.pairwise_cons]
    exact ⟨fun r hr => hlt r (IsLogChain_mem K logs xid chain prev h1 r hr), h2⟩
  · cases chain with
    | nil => exact absurd rfl hne
    | cons c cs => rw [List.getLast?_cons_cons]; exact h3

/-- A good chain starts at a record of the log. -/
theorem GoodChain_start (K : Constants) (logs : List LogRecord) (xid lsn : Nat)
    (h : GoodChain K logs xid lsn) : ∃ r ∈ logs, r.lsn_ = lsn := by
  obtain ⟨chain, h1, _, b, h3, _⟩ := h
  cases chain with
  | nil => simp at h3
  | cons c cs => exact ⟨c, h1.2.1, h1.2.2.1⟩

/-- The conversion to `xid_t` keeps a value below `2 ^ 32`. -/
theorem narrowXid_of_lt (v : Nat) (h : v < 4294967296) : narrowXid v = v :=
  Nat.mod_eq_of_lt h

/-- On a gap-free log of records of positive size every LSN is below
`next_lsn_`. -/
theorem records_lt_next (logSize : LogPayload → Nat) (hpos : ∀ p, 0 < logSize p)
    (s : LogManager) (lo : Nat) (ht : Tiles logSize lo s.records s.next_lsn_) :
    ∀ r ∈ s.records, r.lsn_ < s.next_lsn_ := by
  intro r hr
  have := ((Tiles_bounds logSize _ _ _ ht).2 r hr).2
  have hp : 0 < r.GetSize logSize := hpos _
  omega

/-- A call that returns keeps the chains of the ATT good, provided the LSN it
allocates is not `NULL_LSN` and the LSNs allocated before are below `2 ^ 32`, so
that `AppendNewPageLog` passes the ATT entry unchanged through its `xid_t`. -/
theorem call_ChainInv (K : Constants) (logSize : LogPayload → Nat)
    (hpos : ∀ p, 0 < logSize p) (s : LogManager) (lo : Nat)
    (ht : Tiles logSize lo s.records s.next_lsn_) (hinv : ChainInv K s)
    (c : LogCall) (lsn : Nat) (s1 : LogManager)
    (h : s.call K logSize c = .ok (lsn, s1))
    (hnull : K.NULL_LSN < s.next_lsn_ ∨ s1.next_lsn_ ≤ K.NULL_LSN)
    (hsmall : s.next_lsn_ ≤ 4294967296) :
    ChainInv K s1 := by
  have hlt := records_lt_next logSize hpos s lo ht
  -- the three ways the ATT and the log change
  have hset : ∀ (t : LogManager) (xid : Nat) (r : LogRecord),
      Except.ok (s.next_lsn_, t) = (Except.ok (lsn, s1) : Except DbException (Nat × LogManager)) →
      t.records = s.records ++ [r] → t.next_lsn_ = s.next_lsn_ + logSize r.payload →
      t.att_ = amSet s.att_ xid s.next_lsn_ →
      GoodChain K (s.records ++ [r]) xid s.next_lsn_ → ChainInv K s1 := by
    intro t xid r heq hrec hnext hatt hgood
    injection heq with heq
    injection heq with h1 h2
    subst h1 h2
    intro x l hx
    rw [hatt, amFind_amSet] at hx
    rw [hrec]
    by_cases hxx : x = xid
    · rw [if_pos hxx] at hx
      cases hx
      rw [hxx]
      exact hgood
    · rw [if_neg hxx] at hx
      exact GoodChain_mono K _ _ x l (fun r hr => List.mem_append_left _ hr) (hinv x l hx)
  have hfresh : ∀ (t : LogManager) (p : LogPayload),
      Except.ok (s.next_lsn_, t) = (Except.ok (lsn, s1) : Except DbException (Nat × LogManager)) →
      t.next_lsn_ = s.next_lsn_ + logSize p → s.next_lsn_ ≠ K.NULL_LSN := by
    intro t p heq hnext
    injection heq with heq
    injection heq with h1 h2
    subst h1 h2
    have := hpos p
    omega
  have hmono : ∀ (t : LogManager) (new : List LogRecord), t = s1 →
      t.records = s.records ++ new →
      (∀ x l, amFind t.att_ x = some l → amFind s.att_ x = some l) → ChainInv K s1 := by
    intro t new ht1 hrec hatt
    subst ht1
    intro x l hx
    rw [hrec]
    exact GoodChain_mono K _ _ x l (fun r hr => List.mem_append_left _ hr)
      (hinv x l (hatt x l hx))
  have herase : ∀ (m : List (Nat × Nat)) (xid x l : Nat),
      amFind (amErase m xid) x = some l → amFind m x = some l := by
    intro m xid x l hx
    rw [amFind_amErase] at hx
    by_cases hxx : x = xid
    · rw [if_pos hxx] at hx; cases hx
    · rw [if_neg hxx] at hx; exact hx
  have hsnd : ∀ (a : Nat) (t : LogManager),
      Except.ok (a, t) = (Except.ok (lsn, s1) : Except DbException (Nat × LogManager)) →
      t = s1 := by
    intro a t heq
    injection heq with heq
    injection heq
  cases c with
  | AppendInsertLog xid oid page_id slot_id offset size new_record =>
    cases hfind : amFind s.att_ xid with
    | none => simp [LogManager.call, LogManager.AppendInsertLog, hfind] at h
    | some prev =>
      obtain ⟨t, h1, h2, h3, h4⟩ := AppendInsertLog_ok K logSize s xid oid page_id slot_id
        offset size new_record prev hfind
      simp only [LogManager.call] at h
      exact hset t xid _ (h1.symm.trans h) h2 h3 h4
        (GoodChain_extend K _ xid _ prev _ (hfresh t _ (h1.symm.trans h) h3) hlt
          (hinv xid prev hfind))
  | AppendDeleteLog xid oid page_id slot_id =>
    cases hfind : amFind s.att_ xid with
    | none => simp [LogManager.call, LogManager.AppendDeleteLog, hfind] at h
    | some prev =>
      obtain ⟨t, h1, h2, h3, h4⟩ := AppendDeleteLog_ok K logSize s xid oid page_id slot_id
        prev hfind
      simp only [LogManager.call] at h
      exact hset t xid _ (h1.symm.trans h) h2 h3 h4
        (GoodChain_extend K _ xid _ prev _ (hfresh t _ (h1.symm.trans h) h3) hlt
          (hinv xid prev hfind))
  | AppendNewPageLog xid oid prev_page_id page_id =>
    by_cases hddl : xid = K.DDL_XID
    · subst hddl
      obtain ⟨t, h1, h2, h3, h4⟩ := AppendNewPageLog_ddl K logSize s oid prev_page_id page_id
      simp only [LogManager.call] at h
      exact hmono t _ (hsnd _ _ (h1.symm.trans h)) h2 (fun x l hx => by rw [h4] at hx; exact hx)
    · cases hfind : amFind s.att_ xid with
      | none => simp [LogManager.call, LogManager.AppendNewPageLog, hfind, hddl] at h
      | some prev =>
        obtain ⟨t, h1, h2, h3, h4⟩ := AppendNewPageLog_ok K logSize s xid oid prev_page_id
          page_id prev hfind hddl
        obtain ⟨r0, hr0, hr1⟩ := GoodChain_start K _ xid prev (hinv xid prev hfind)
        have hprev : prev < s.next_lsn_ := by
          rw [← hr1]; exact hlt r0 hr0
        rw [narrowXid_of_lt prev (by omega)] at h2
        simp only [LogManager.call] at h
        exact hset t xid _ (h1.symm.trans h) h2 h3 h4
          (GoodChain_extend K _ xid _ prev _ (hfresh t _ (h1.symm.trans h) h3) hlt
            (hinv xid prev hfind))
  | AppendBeginLog xid =>
    cases hfind : amFind s.att_ xid with
    | some prev => simp [LogManager.call, LogManager.AppendBeginLog, hfind] at h
    | none =>
      obtain ⟨t, h1, h2, h3, h4⟩ := AppendBeginLog_ok K logSize s xid hfind
      simp only [LogManager.call] at h
      exact hset t xid _ (h1.symm.trans h) h2 h3 h4
        (GoodChain_begin K _ xid _ (hfresh t _ (h1.symm.trans h) h3))
  | AppendCommitLog xid =>
    cases hfind : amFind s.att_ xid with
    | none => simp [LogManager.call, LogManager.AppendCommitLog, hfind] at h
    | some prev =>
      obtain ⟨t, h1, h2, h3, h4⟩ := AppendCommitLog_ok K logSize s xid prev lo ht hfind
      simp only [LogManager.call] at h
      exact hmono t _ (hsnd _ _ (h1.symm.trans h)) h2
        (fun x l hx => by rw [h4] at hx; exact herase _ _ _ _ hx)
  | AppendRollbackLog xid =>
    cases hfind : amFind s.att_ xid with
    | none => simp [LogManager.call, LogManager.AppendRollbackLog, hfind] at h
    | some prev =>
      obtain ⟨t, h1, h2, h3, h4⟩ := AppendRollbackLog_ok K logSize s xid prev lo ht hfind
      simp only [LogManager.call] at h
      exact hmono t _ (hsnd _ _ (h1.symm.trans h)) h2
        (fun x l hx => by rw [h4] at hx; exact herase _ _ _ _ hx)
  | Checkpoint =>
    obtain ⟨h1, h2, h3, h4⟩ := Checkpoint_ok K logSize s lo ht
    simp only [LogManager.call] at h
    injection h with h
    exact hmono _ _ (congrArg Prod.snd h) h2 (fun x l hx => by rw [h4] at hx; exact hx)
  | Flush l =>
    simp only [LogManager.call] at h
    refine hmono _ [] (hsnd _ _ h) ?_ (fun x l hx => by
      rw [(Flush_fields K logSize s _).2.1] at hx; exact hx)
    rw [Flush_records K logSize s _ lo ht, List.append_nil]
  | SetDirty oid page_id l =>
    simp only [LogManager.call] at h
    refine hmono _ [] (hsnd _ _ h) ?_ (fun x l hx => by
      rw [(SetDirty_fields s _ _ _).2.2] at hx; exact hx)
    rw [(SetDirty_fields s _ _ _).1, List.append_nil]
  | FlushPage table_oid page_id page_lsn =>
    simp only [LogManager.call] at h
    refine hmono _ [] (hsnd _ _ h) ?_ (fun x l hx => by
      have : (s.FlushPage K logSize table_oid page_id page_lsn).att_
          = (s.Flush K logSize page_lsn).att_ := rfl
      rw [this, (Flush_fields K logSize s _).2.1] at hx; exact hx)
    have : (s.FlushPage K logSize table_oid page_id page_lsn).records
        = (s.Flush K logSize page_lsn).records := rfl
    rw [this, Flush_records K logSize s _ lo ht, List.append_nil]

/-- A sequence of calls on a gap-free log does not lower `next_lsn_`. -/
theorem run_next_mono (K : Constants) (logSize : LogPayload → Nat) (lo : Nat)
    (calls : List LogCall) :
    ∀ (s : LogManager), Tiles logSize lo s.records s.next_lsn_ →
      s.next_lsn_ ≤ (s.run K logSize calls).next_lsn_ := by
  induction calls with
  | nil => intro s _; exact Nat.le_refl _
  | cons c calls ih =>
    intro s h
    cases hc : s.call K logSize c with
    | error e =>
      simp only [LogManager.run, hc]
      exact ih s h
    | ok r =>
      obtain ⟨lsn, s1⟩ := r
      simp only [LogManager.run, hc]
      obtain ⟨new, h1, _, h3, _⟩ := call_appends K logSize s lo h c lsn s1 hc
      have hle := (Tiles_bounds logSize _ _ _ h3).1
      have ht1 : Tiles logSize lo s1.records s1.next_lsn_ := by
        rw [h1, Tiles_append]; exact ⟨s.next_lsn_, h, h3⟩
      exact Nat.le_trans hle (ih s1 ht1)

/-- A sequence of calls keeps the chains of the ATT good, provided no LSN it
allocates is `NULL_LSN` and `next_lsn_` ends at most at `2 ^ 32`. -/
theorem run_ChainInv (K : Constants) (logSize : LogPayload → Nat)
    (hpos : ∀ p, 0 < logSize p) (lo : Nat) (calls : List LogCall) :
    ∀ (s : LogManager), Tiles logSize lo s.records s.next_lsn_ → ChainInv K s →
      (K.NULL_LSN < s.next_lsn_ ∨ (s.run K logSize calls).next_lsn_ ≤ K.NULL_LSN) →
      (s.run K logSize calls).next_lsn_ ≤ 4294967296 →
      ChainInv K (s.run K logSize calls) := by
  induction calls with
  | nil => intro s _ h _ _; exact h
  | cons c calls ih =>
    intro s ht hinv hnull hsmall
    cases hc : s.call K logSize c with
    | error e =>
      simp only [LogManager.run, hc] at hnull hsmall ⊢
      exact ih s ht hinv hnull hsmall
    | ok r =>
      obtain ⟨lsn, s1⟩ := r
      simp only [LogManager.run, hc] at hnull hsmall ⊢
      obtain ⟨new, h1, _, h3, _⟩ := call_appends K logSize s lo ht c lsn s1 hc
      have hle := (Tiles_bounds logSize _ _ _ h3).1
      have ht1 : Tiles logSize lo s1.records s1.next_lsn_ := by
        rw [h1, Tiles_append]; exact ⟨s.next_lsn_, ht, h3⟩
      have hmono := run_next_mono K logSize lo calls s1 ht1
      have hinv1 : ChainInv K s1 :=
        call_ChainInv K logSize hpos s lo ht hinv c lsn s1 hc (by omega) (by omega)
      exact ih s1 ht1 hinv1 (by omega) hsmall

/-- The chains of `prev_lsn` while the log is short: after any sequence of calls on
a log manager that started with an empty log and an empty ATT (records of
positive size, no LSN equal to `NULL_LSN`, `next_lsn_` at most `2 ^ 32`), for every
xid in the ATT: following `prev_lsn` from `ATT[xid]` visits records of that
transaction in strictly decreasing LSN order and ends at `NULL_LSN` at a Begin
record; an appended Insert, Delete, Commit or Rollback record of xid, and a
NewPage record when xid is not `DDL_XID`, is stamped with `prev_lsn = ATT[xid]` as it
was before the append, and for Insert, Delete and that NewPage `ATT[xid]` becomes
the new LSN. A NewPage record of `DDL_XID` carries `NULL_XID` in the place of
`prev_lsn` and leaves the ATT unchanged. Each LSN names one record. -/
theorem prev_lsn_chain (K : Constants) (logSize : LogPayload → Nat)
    (hpos : ∀ p, 0 < logSize p) (s0 : LogManager) (hrec0 : s0.records = [])
    (hatt0 : s0.att_ = []) (calls : List LogCall)
    (hnull : K.NULL_LSN < s0.next_lsn_
      ∨ (s0.run K logSize calls).next_lsn_ ≤ K.NULL_LSN)
    (hsmall : (s0.run K logSize calls).next_lsn_ ≤ 4294967296) :
    (∀ xid prev, amFind (s0.run K logSize calls).att_ xid = some prev →
      GoodChain K (s0.run K logSize calls).records xid prev
      ∧ (∀ oid page_id slot_id offset size new_record,
          ∃ s1, (s0.run K logSize calls).AppendInsertLog K logSize xid oid page_id slot_id
              offset size new_record = .ok ((s0.run K logSize calls).next_lsn_, s1)
            ∧ s1.records = (s0.run K logSize calls).records
                ++ [⟨(s0.run K logSize calls).next_lsn_, xid, prev,
                      .INSERT oid page_id slot_id offset size new_record⟩]
            ∧ amFind s1.att_ xid = some (s0.run K logSize calls).next_lsn_)
      ∧ (∀ oid page_id slot_id,
          ∃ s1, (s0.run K logSize calls).AppendDeleteLog K logSize xid oid page_id slot_id
              = .ok ((s0.run K logSize calls).next_lsn_, s1)
            ∧ s1.records = (s0.run K logSize calls).records
                ++ [⟨(s0.run K logSize calls).next_lsn_, xid, prev,
                      .DELETE oid page_id slot_id⟩]
            ∧ amFind s1.att_ xid = some (s0.run K logSize calls).next_lsn_)
      ∧ (xid ≠ K.DDL_XID → ∀ oid prev_page_id page_id,
          ∃ s1, (s0.run K logSize calls).AppendNewPageLog K logSize xid oid prev_page_id
              page_id = .ok ((s0.run K logSize calls).next_lsn_, s1)
            ∧ s1.records = (s0.run K logSize calls).records
                ++ [⟨(s0.run K logSize calls).next_lsn_, xid, prev,
                      .NEW_PAGE oid prev_page_id page_id⟩]
            ∧ amFind s1.att_ xid = some (s0.run K logSize calls).next_lsn_)
      ∧ (∃ s1, (s0.run K logSize calls).AppendCommitLog K logSize xid
              = .ok ((s0.run K logSize calls).next_lsn_, s1)
            ∧ s1.records = (s0.run K logSize calls).records
                ++ [⟨(s0.run K logSize calls).next_lsn_, xid, prev, .COMMIT⟩])
      ∧ (∃ s1, (s0.run K logSize calls).AppendRollbackLog K logSize xid
              = .ok ((s0.run K logSize calls).next_lsn_, s1)
            ∧ s1.records = (s0.run K logSize calls).records
                ++ [⟨(s0.run K logSize calls).next_lsn_, xid, prev, .ROLLBACK⟩]))
    ∧ (∀ oid prev_page_id page_id,
        ∃ s1, (s0.run K logSize calls).AppendNewPageLog K logSize K.DDL_XID oid prev_page_id
            page_id = .ok ((s0.run K logSize calls).next_lsn_, s1)
          ∧ s1.records = (s0.run K logSize calls).records
              ++ [⟨(s0.run K logSize calls).next_lsn_, K.DDL_XID, K.NULL_XID,
                    .NEW_PAGE oid prev_page_id page_id⟩]
          ∧ s1.att_ = (s0.run K logSize calls).att_)
    ∧ (s0.run K logSize calls).records.Pairwise (fun a b => a.lsn_ < b.lsn_) := by
  have ht0 : Tiles logSize s0.next_lsn_ s0.records s0.next_lsn_ := by
    rw [hrec0]; rfl
  have hinv0 : ChainInv K s0 := by
    intro x l hx
    rw [hatt0] at hx
    simp [amFind] at hx
  have ht := run_Tiles K logSize s0.next_lsn_ calls s0 ht0
  have hinv := run_ChainInv K logSize hpos s0.next_lsn_ calls s0 ht0 hinv0 hnull hsmall
  refine ⟨?_, ?_, Tiles_strict logSize hpos _ _ _ ht⟩
  · intro xid prev hfind
    refine ⟨hinv xid prev hfind, ?_, ?_, ?_, ?_, ?_⟩
    · intro oid page_id slot_id offset size new_record
      obtain ⟨s1, h1, h2, _, h4⟩ := AppendInsertLog_ok K logSize _ xid oid page_id slot_id
        offset size new_record prev hfind
      exact ⟨s1, h1, h2, by rw [h4, amFind_amSet, if_pos rfl]⟩
    · intro oid page_id slot_id
      obtain ⟨s1, h1, h2, _, h4⟩ := AppendDeleteLog_ok K logSize _ xid oid page_id slot_id
        prev hfind
      exact ⟨s1, h1, h2, by rw [h4, amFind_amSet, if_pos rfl]⟩
    · intro hddl oid prev_page_id page_id
      obtain ⟨s1, h1, h2, _, h4⟩ := AppendNewPageLog_ok K logSize _ xid oid prev_page_id
        page_id prev hfind hddl
      obtain ⟨r0, hr0, hr1⟩ := GoodChain_start K _ xid prev (hinv xid prev hfind)
      have hprev : prev < (s0.run K logSize calls).next_lsn_ := by
        rw [← hr1]; exact records_lt_next logSize hpos _ _ ht r0 hr0
      rw [narrowXid_of_lt prev (by omega)] at h2
      exact ⟨s1, h1, h2, by rw [h4, amFind_amSet, if_pos rfl]⟩
    · obtain ⟨s1, h1, h2, _, _⟩ := AppendCommitLog_ok K logSize _ xid prev _ ht hfind
      exact ⟨s1, h1, h2⟩
    · obtain ⟨s1, h1, h2, _, _⟩ := AppendRollbackLog_ok K logSize _ xid prev _ ht hfind
      exact ⟨s1, h1, h2⟩
  · intro oid prev_page_id page_id
    obtain ⟨s1, h1, h2, _, h4⟩ := AppendNewPageLog_ddl K logSize _ oid prev_page_id page_id
    exact ⟨s1, h1, h2, h4⟩

/-- The NewPage record of `DDL_XID`: with `DDL_XID = 1` in the ATT at LSN 100, the
NewPage record appended for it carries `prev_lsn = 0` (`NULL_XID`), not 100, and
`ATT[1]` stays 100 instead of becoming the new LSN 124. -/
theorem prev_lsn_chain_counterexample :
    amFind ((LogManager.new 100).run exampleConstants exampleLogSize [.AppendBeginLog 1]).att_ 1
      = some 100
    ∧ ∃ s1 log,
        ((LogManager.new 100).run exampleConstants exampleLogSize
            [.AppendBeginLog 1]).AppendNewPageLog exampleConstants exampleLogSize 1 7 0 1
          = .ok (124, s1)
        ∧ s1.log_buffer_.getLast? = some log
        ∧ log.lsn_ = 124 ∧ log.xid_ = 1 ∧ log.payload = .NEW_PAGE 7 0 1
        ∧ log.prev_lsn_ ≠ 100
        ∧ amFind s1.att_ 1 ≠ some 124 :=
  ⟨rfl, _, _, rfl, rfl, rfl, rfl, rfl, by decide, by decide⟩

/-- On a fresh log manager, after transaction 2 began and appended an Insert
record, following `prev_lsn` from its ATT entry 24 gives a good chain. -/
theorem prev_lsn_chain_witness :
    GoodChain exampleConstants
      ((LogManager.new 0).run exampleConstants exampleLogSize
        [.AppendBeginLog 2, .AppendInsertLog 2 7 0 0 200 3 [0, 0, 0]]).records 2 24 :=
  ((prev_lsn_chain exampleConstants exampleLogSize
      (by intro p; cases p <;> simp [exampleLogSize]) (LogManager.new 0) rfl rfl
      [.AppendBeginLog 2, .AppendInsertLog 2 7 0 0 200 3 [0, 0, 0]]
      (Or.inr (by decide)) (by decide)).1 2 24 rfl).1

/-! ## Table heap: theorems -/

/-- `AppendInsertLog` for a transaction that is not in the ATT throws. -/
theorem AppendInsertLog_error (K : Constants) (logSize : LogPayload → Nat) (s : LogManager)
    (xid oid page_id slot_id offset size : Nat) (new_record : List Nat)
    (hfind : amFind s.att_ xid = none) :
    s.AppendInsertLog K logSize xid oid page_id slot_id offset size new_record
      = .error (.NotInAtt xid) := by
  unfold LogManager.AppendInsertLog
  rw [hfind]

/-- `AppendNewPageLog` for a transaction other than `DDL_XID` that is not in the
ATT throws. -/
theorem AppendNewPageLog_error (K : Constants) (logSize : LogPayload → Nat) (s : LogManager)
    (xid oid prev_page_id page_id : Nat) (hfind : amFind s.att_ xid = none)
    (hddl : xid ≠ K.DDL_XID) :
    s.AppendNewPageLog K logSize xid oid prev_page_id page_id = .error (.NotInAtt xid) := by
  unfold LogManager.AppendNewPageLog
  rw [if_pos ⟨hddl, hfind⟩]

/-- The two log appends of a page creation, one after the other: both return
when the transaction is in the ATT, and one of them throws when it is not. -/
theorem newPage_then_insert (K : Constants) (logSize : LogPayload → Nat) (s : LogManager)
    (xid oid prev_page_id page_id slot_id offset size : Nat) (new_record : List Nat) :
    (∀ prev, amFind s.att_ xid = some prev →
      ∃ l1 s1 l2 s2, s.AppendNewPageLog K logSize xid oid prev_page_id page_id = .ok (l1, s1)
        ∧ s1.AppendInsertLog K logSize xid oid page_id slot_id offset size new_record
            = .ok (l2, s2))
    ∧ (amFind s.att_ xid = none →
        s.AppendNewPageLog K logSize xid oid prev_page_id page_id = .error (.NotInAtt xid)
        ∨ ∃ l1 s1, s.AppendNewPageLog K logSize xid oid prev_page_id page_id = .ok (l1, s1)
            ∧ s1.AppendInsertLog K logSize xid oid page_id slot_id offset size new_record
                = .error (.NotInAtt xid)) := by
  constructor
  · intro prev hfind
    by_cases hddl : xid = K.DDL_XID
    · subst hddl
      obtain ⟨s1, h1, _, _, h4⟩ := AppendNewPageLog_ddl K logSize s oid prev_page_id page_id
      obtain ⟨s2, h5, _⟩ := AppendInsertLog_ok K logSize s1 K.DDL_XID oid page_id slot_id
        offset size new_record prev (by rw [h4]; exact hfind)
      exact ⟨_, s1, _, s2, h1, h5⟩
    · obtain ⟨s1, h1, _, _, h4⟩ := AppendNewPageLog_ok K logSize s xid oid prev_page_id page_id
        prev hfind hddl
      obtain ⟨s2, h5, _⟩ := AppendInsertLog_ok K logSize s1 xid oid page_id slot_id
        offset size new_record s.next_lsn_ (by rw [h4, amFind_amSet, if_pos rfl])
      exact ⟨_, s1, _, s2, h1, h5⟩
  · intro hfind
    by_cases hddl : xid = K.DDL_XID
    · subst hddl
      obtain ⟨s1, h1, _, _, h4⟩ := AppendNewPageLog_ddl K logSize s oid prev_page_id page_id
      exact Or.inr ⟨_, s1, h1, AppendInsertLog_error K logSize s1 _ _ _ _ _ _ _
        (by rw [h4]; exact hfind)⟩
    · exact Or.inl (AppendNewPageLog_error K logSize s xid oid prev_page_id page_id hfind hddl)

/-- The outcome of `insertInto` in full: the returned rid, the page id `q` and the
slot in page `q`, or the exception, and the state: page `q` is the page
`TablePage::InsertRecord` yields (with some page LSN). -/
theorem insertInto_outcome (K : Constants) (SerializeTo : Record → List Nat)
    (logSize : LogPayload → Nat) (t : Table) (q : Nat) (record : Record) (xid cid : Nat)
    (write_log : Bool) :
    ∃ l lm,
      ((t.insertInto K SerializeTo logSize q record xid cid write_log
          = (.ok ⟨q, ((t.pages q).InsertRecord K SerializeTo record xid cid).1⟩,
              ⟨t.oid_, t.first_page_id_,
                fun i => if i = q then
                    { ((t.pages q).InsertRecord K SerializeTo record xid cid).2 with
                      page_lsn_ := l }
                  else t.pages i, lm⟩)
          ∧ (write_log = false ∨ amFind t.log_manager_.att_ xid ≠ none))
      ∨ (t.insertInto K SerializeTo logSize q record xid cid write_log
          = (.error (.NotInAtt xid),
              ⟨t.oid_, t.first_page_id_,
                fun i => if i = q then
                    { ((t.pages q).InsertRecord K SerializeTo record xid cid).2 with
                      page_lsn_ := l }
                  else t.pages i, lm⟩)
          ∧ write_log = true ∧ amFind t.log_manager_.att_ xid = none)) := by
  have hpages2 : ∀ (p p1 : SlottedPage),
      (fun i => if i = q then p else if i = q then p1 else t.pages i)
      = fun i => if i = q then p else t.pages i := by
    intro p p1
    funext i
    by_cases h1 : i = q
    · simp [h1]
    · simp [h1]
  cases write_log with
  | false =>
    refine ⟨((t.pages q).InsertRecord K SerializeTo record xid cid).2.page_lsn_,
      t.log_manager_, Or.inl ⟨?_, Or.inl rfl⟩⟩
    unfold Table.insertInto
    simp only [Table.setPage, Bool.false_eq_true, if_false]
  | true =>
    cases hfind : amFind t.log_manager_.att_ xid with
    | none =>
      have herr := AppendInsertLog_error K logSize t.log_manager_ xid t.oid_ q
        ((t.pages q).InsertRecord K SerializeTo record xid cid).1
        ((t.pages q).InsertRecord K SerializeTo record xid cid).2.upper_
        (SerializeTo (record.stamp xid cid)).length
        (readBytes ((t.pages q).InsertRecord K SerializeTo record xid cid).2.page_data_
          ((t.pages q).InsertRecord K SerializeTo record xid cid).2.upper_
          (SerializeTo (record.stamp xid cid)).length) hfind
      refine ⟨((t.pages q).InsertRecord K SerializeTo record xid cid).2.page_lsn_,
        t.log_manager_, Or.inr ⟨?_, rfl, rfl⟩⟩
      unfold Table.insertInto
      simp only [Table.setPage, if_true]
      rw [herr]
    | some prev =>
      obtain ⟨s1, hok, _⟩ := AppendInsertLog_ok K logSize t.log_manager_ xid t.oid_ q
        ((t.pages q).InsertRecord K SerializeTo record xid cid).1
        ((t.pages q).InsertRecord K SerializeTo record xid cid).2.upper_
        (SerializeTo (record.stamp xid cid)).length
        (readBytes ((t.pages q).InsertRecord K SerializeTo record xid cid).2.page_data_
          ((t.pages q).InsertRecord K SerializeTo record xid cid).2.upper_
          (SerializeTo (record.stamp xid cid)).length) prev hfind
      refine ⟨t.log_manager_.next_lsn_, s1, Or.inl ⟨?_, Or.inr (by simp)⟩⟩
      unfold Table.insertInto
      simp only [Table.setPage, if_true]
      rw [hok]
      simp only []
      rw [hpages2]
      rfl

/-- The outcome of `insertNewPage` in full: the returned rid, made of the page id
`q` and the slot in page `q + 1`, or the exception, and the state: page `q + 1`
is the initialised page with the record inserted (with some page LSN), page `q`
is linked to it. -/
theorem insertNewPage_outcome (K : Constants) (SerializeTo : Record → List Nat)
    (logSize : LogPayload → Nat) (t : Table) (q : Nat) (record : Record) (xid cid : Nat)
    (write_log : Bool) :
    ∃ l lm,
      ((t.insertNewPage K SerializeTo logSize q record xid cid write_log
          = (.ok ⟨q, (((t.pages (q + 1)).Init K).InsertRecord K SerializeTo record xid cid).1⟩,
              ⟨t.oid_, t.first_page_id_,
                fun i => if i = q + 1 then
                    { (((t.pages (q + 1)).Init K).InsertRecord K SerializeTo record xid
                        cid).2 with page_lsn_ := l }
                  else if i = q then (t.pages q).SetNextPageId (q + 1)
                  else t.pages i, lm⟩)
          ∧ (write_log = false ∨ amFind t.log_manager_.att_ xid ≠ none))
      ∨ (t.insertNewPage K SerializeTo logSize q record xid cid write_log
          = (.error (.NotInAtt xid),
              ⟨t.oid_, t.first_page_id_,
                fun i => if i = q + 1 then
                    { (((t.pages (q + 1)).Init K).InsertRecord K SerializeTo record xid
                        cid).2 with page_lsn_ := l }
                  else if i = q then (t.pages q).SetNextPageId (q + 1)
                  else t.pages i, lm⟩)
          ∧ write_log = true ∧ amFind t.log_manager_.att_ xid = none)) := by
  have hq1 : ¬ (q + 1 = q) := Nat.succ_ne_self q
  have hq2 : ¬ (q = q + 1) := fun h => hq1 h.symm
  have hpages : ∀ (p : SlottedPage),
      (fun i => if i = q + 1 then p
        else if i = q then (t.pages q).SetNextPageId (q + 1)
        else if i = q + 1 then (t.pages (q + 1)).Init K else t.pages i)
      = fun i => if i = q + 1 then p
        else if i = q then (t.pages q).SetNextPageId (q + 1) else t.pages i := by
    intro p
    funext i
    by_cases h1 : i = q + 1
    · simp [h1]
    · simp [h1]
  have hpages2 : ∀ (p p1 : SlottedPage),
      (fun i => if i = q + 1 then p
        else if i = q + 1 then p1
        else if i = q then (t.pages q).SetNextPageId (q + 1)
        else if i = q + 1 then (t.pages (q + 1)).Init K else t.pages i)
      = fun i => if i = q + 1 then p
        else if i = q then (t.pages q).SetNextPageId (q + 1) else t.pages i := by
    intro p p1
    funext i
    by_cases h1 : i = q + 1
    · simp [h1]
    · simp [h1]
  cases write_log with
  | false =>
    refine ⟨(((t.pages (q + 1)).Init K).InsertRecord K SerializeTo record xid cid).2.page_lsn_,
      t.log_manager_, Or.inl ⟨?_, Or.inl rfl⟩⟩
    unfold Table.insertNewPage
    simp only [Table.setPage, if_neg hq1, if_neg hq2, if_pos, Bool.false_eq_true, if_false]
    rw [hpages]
  | true =>
    cases hfind : amFind t.log_manager_.att_ xid with
    | some prev =>
      obtain ⟨l1, s1, l2, s2, hA, hB⟩ := (newPage_then_insert K logSize t.log_manager_ xid
        t.oid_ q (q + 1)
        (((t.pages (q + 1)).Init K).InsertRecord K SerializeTo record xid cid).1
        (((t.pages (q + 1)).Init K).InsertRecord K SerializeTo record xid cid).2.upper_
        (SerializeTo (record.stamp xid cid)).length
        (readBytes (((t.pages (q + 1)).Init K).InsertRecord K SerializeTo record xid
            cid).2.page_data_
          (((t.pages (q + 1)).Init K).InsertRecord K SerializeTo record xid cid).2.upper_
          (SerializeTo (record.stamp xid cid)).length)).1 prev hfind
      refine ⟨l2, s2, Or.inl ⟨?_, Or.inr (by simp)⟩⟩
      unfold Table.insertNewPage
      simp only [Table.setPage, if_true, if_neg hq1, if_neg hq2, if_pos]
      rw [hA]
      simp only []
      rw [hB]
      simp only []
      rw [hpages2]
      rfl
    | none =>
      rcases (newPage_then_insert K logSize t.log_manager_ xid
        t.oid_ q (q + 1)
        (((t.pages (q + 1)).Init K).InsertRecord K SerializeTo record xid cid).1
        (((t.pages (q + 1)).Init K).InsertRecord K SerializeTo record xid cid).2.upper_
        (SerializeTo (record.stamp xid cid)).length
        (readBytes (((t.pages (q + 1)).Init K).InsertRecord K SerializeTo record xid
            cid).2.page_data_
          (((t.pages (q + 1)).Init K).InsertRecord K SerializeTo record xid cid).2.upper_
          (SerializeTo (record.stamp xid cid)).length)).2 hfind with hA | ⟨l1, s1, hA, hB⟩
      · refine ⟨(((t.pages (q + 1)).Init K).InsertRecord K SerializeTo record xid
          cid).2.page_lsn_, t.log_manager_, Or.inr ⟨?_, rfl, rfl⟩⟩
        unfold Table.insertNewPage
        simp only [Table.setPage, if_true, if_neg hq1, if_neg hq2, if_pos]
        rw [hA]
        simp only []
        rw [hpages]
      · refine ⟨(((t.pages (q + 1)).Init K).InsertRecord K SerializeTo record xid
          cid).2.page_lsn_, s1, Or.inr ⟨?_, rfl, rfl⟩⟩
        unfold Table.insertNewPage
        simp only [Table.setPage, if_true, if_neg hq1, if_neg hq2, if_pos]
        rw [hA]
        simp only []
        rw [hB]
        simp only []
        rw [hpages]

/-- The outcome of `insertFirst` in full: the returned rid `(0, slot)` or the
exception, and the state: `first_page_id_` is 0 and page 0 is the initialised
page with the record inserted (with some page LSN). -/
theorem insertFirst_outcome (K : Constants) (SerializeTo : Record → List Nat)
    (logSize : LogPayload → Nat) (t : Table) (record : Record) (xid cid : Nat)
    (write_log : Bool) :
    ∃ l lm,
      ((t.insertFirst K SerializeTo logSize record xid cid write_log
          = (.ok ⟨0, (((t.pages 0).Init K).InsertRecord K SerializeTo record xid cid).1⟩,
              ⟨t.oid_, 0,
                fun i => if i = 0 then
                    { (((t.pages 0).Init K).InsertRecord K SerializeTo record xid cid).2 with
                      page_lsn_ := l }
                  else t.pages i, lm⟩)
          ∧ (write_log = false ∨ amFind t.log_manager_.att_ xid ≠ none))
      ∨ (t.insertFirst K SerializeTo logSize record xid cid write_log
          = (.error (.NotInAtt xid),
              ⟨t.oid_, 0,
                fun i => if i = 0 then
                    { (((t.pages 0).Init K).InsertRecord K SerializeTo record xid cid).2 with
                      page_lsn_ := l }
                  else t.pages i, lm⟩)
          ∧ write_log = true ∧ amFind t.log_manager_.att_ xid = none)) := by
  have hpages2 : ∀ (p p1 : SlottedPage),
      (fun i => if i = 0 then p else if i = 0 then p1 else t.pages i)
      = fun i => if i = 0 then p else t.pages i := by
    intro p p1
    funext i
    by_cases h1 : i = 0
    · simp [h1]
    · simp [h1]
  cases write_log with
  | false =>
    refine ⟨(((t.pages 0).Init K).InsertRecord K SerializeTo record xid cid).2.page_lsn_,
      t.log_manager_, Or.inl ⟨?_, Or.inl rfl⟩⟩
    unfold Table.insertFirst
    simp only [Table.setPage, Bool.false_eq_true, if_false]
  | true =>
    cases hfind : amFind t.log_manager_.att_ xid with
    | some prev =>
      obtain ⟨l1, s1, l2, s2, hA, hB⟩ := (newPage_then_insert K logSize t.log_manager_ xid
        t.oid_ K.NULL_PAGE_ID 0
        (((t.pages 0).Init K).InsertRecord K SerializeTo record xid cid).1
        (((t.pages 0).Init K).InsertRecord K SerializeTo record xid cid).2.upper_
        (SerializeTo (record.stamp xid cid)).length
        (readBytes (((t.pages 0).Init K).InsertRecord K SerializeTo record xid
            cid).2.page_data_
          (((t.pages 0).Init K).InsertRecord K SerializeTo record xid cid).2.upper_
          (SerializeTo (record.stamp xid cid)).length)).1 prev hfind
      refine ⟨l2, s2, Or.inl ⟨?_, Or.inr (by simp)⟩⟩
      unfold Table.insertFirst
      simp only [Table.setPage, if_true]
      rw [hA]
      simp only []
      rw [hB]
      simp only []
      rw [hpages2]
      rfl
    | none =>
      rcases (newPage_then_insert K logSize t.log_manager_ xid
        t.oid_ K.NULL_PAGE_ID 0
        (((t.pages 0).Init K).InsertRecord K SerializeTo record xid cid).1
        (((t.pages 0).Init K).InsertRecord K SerializeTo record xid cid).2.upper_
        (SerializeTo (record.stamp xid cid)).length
        (readBytes (((t.pages 0).Init K).InsertRecord K SerializeTo record xid
            cid).2.page_data_
          (((t.pages 0).Init K).InsertRecord K SerializeTo record xid cid).2.upper_
          (SerializeTo (record.stamp xid cid)).length)).2 hfind with hA | ⟨l1, s1, hA, hB⟩
      · refine ⟨(((t.pages 0).Init K).InsertRecord K SerializeTo record xid
          cid).2.page_lsn_, t.log_manager_, Or.inr ⟨?_, rfl, rfl⟩⟩
        unfold Table.insertFirst
        simp only [Table.setPage, if_true]
        rw [hA]
      · refine ⟨(((t.pages 0).Init K).InsertRecord K SerializeTo record xid
          cid).2.page_lsn_, s1, Or.inr ⟨?_, rfl, rfl⟩⟩
        unfold Table.insertFirst
        simp only [Table.setPage, if_true]
        rw [hA]
        simp only []
        rw [hB]

/-- The loop of `Table::InsertRecord` over a finite chain of pages, with one unit
of fuel a page: it passes the pages without room and ends either at the first
page `q` with room, by `insertInto`, or at the last page, if that has no room
either, by `insertNewPage`. -/
theorem insertLoop_outcome (K : Constants) (SerializeTo : Record → List Nat)
    (logSize : LogPayload → Nat) (record : Record) (xid cid : Nat) (write_log : Bool)
    (t : Table) :
    ∀ (chain : List Nat) (fuel p : Nat), chain ≠ [] → IsHeapChain K t.pages p chain →
      chain.length ≤ fuel →
      ∃ pre q post, chain = pre ++ q :: post
        ∧ (∀ x ∈ pre, ¬ (t.pages x).GetFreeSpaceSize K ≥ (SerializeTo record).length)
        ∧ (((t.pages q).GetFreeSpaceSize K ≥ (SerializeTo record).length
            ∧ Table.insertLoop K SerializeTo logSize record xid cid write_log fuel t p
                = some (t.insertInto K SerializeTo logSize q record xid cid write_log))
          ∨ (¬ (t.pages q).GetFreeSpaceSize K ≥ (SerializeTo record).length
            ∧ post = [] ∧ (t.pages q).next_page_id_ = K.NULL_PAGE_ID
            ∧ Table.insertLoop K SerializeTo logSize record xid cid write_log fuel t p
                = some (t.insertNewPage K SerializeTo logSize q record xid cid write_log))) := by
  intro chain
  induction chain with
  | nil => intro _ _ h; exact absurd rfl h
  | cons a rest ih =>
    intro fuel p _ hchain hfuel
    have hp : p ≠ K.NULL_PAGE_ID := hchain.1
    have ha : a = p := hchain.2.1
    subst ha
    have hnext : IsHeapChain K t.pages (t.pages a).next_page_id_ rest := hchain.2.2
    cases fuel with
    | zero => simp at hfuel
    | succ f =>
      unfold Table.insertLoop
      rw [if_neg hp]
      dsimp only
      by_cases hroom : (t.pages a).GetFreeSpaceSize K ≥ (SerializeTo record).length
      · rw [if_pos hroom]
        exact ⟨[], a, rest, rfl, by simp, Or.inl ⟨hroom, rfl⟩⟩
      · rw [if_neg hroom]
        by_cases hlast : (t.pages a).next_page_id_ = K.NULL_PAGE_ID
        · rw [if_pos hlast]
          have hrest : rest = [] := by
            cases rest with
            | nil => rfl
            | cons b bs => exact absurd hlast hnext.1
          exact ⟨[], a, [], by rw [hrest]; rfl, by simp, Or.inr ⟨hroom, rfl, hlast, rfl⟩⟩
        · rw [if_neg hlast]
          have hrest : rest ≠ [] := by
            intro e
            rw [e] at hnext
            exact hlast hnext
          obtain ⟨pre, q, post, h1, h2, h3⟩ := ih f (t.pages a).next_page_id_ hrest hnext
            (by simpa using hfuel)
          refine ⟨a :: pre, q, post, by rw [h1]; rfl, ?_, h3⟩
          intro x hx
          rcases List.mem_cons.mp hx with rfl | hx
          · exact hroom
          · exact h2 x hx

/-- `TablePage::InsertRecord` into an initialised page: the record goes into slot
0 at the end of the page. -/
theorem InsertRecord_Init (K : Constants) (SerializeTo : Record → List Nat) (p : SlottedPage)
    (record : Record) (xid cid : Nat) :
    ((p.Init K).InsertRecord K SerializeTo record xid cid).1 = 0
    ∧ ((p.Init K).InsertRecord K SerializeTo record xid cid).2.next_page_id_ = K.NULL_PAGE_ID
    ∧ ((p.Init K).InsertRecord K SerializeTo record xid cid).2.lower_
        = K.PAGE_HEADER_SIZE + K.SLOT_SIZE
    ∧ ((p.Init K).InsertRecord K SerializeTo record xid cid).2.upper_
        = K.DB_PAGE_SIZE - (SerializeTo (record.stamp xid cid)).length
    ∧ ((p.Init K).InsertRecord K SerializeTo record xid cid).2.slots_ 0
        = ⟨K.DB_PAGE_SIZE - (SerializeTo (record.stamp xid cid)).length,
            (SerializeTo (record.stamp xid cid)).length⟩
    ∧ ((p.Init K).InsertRecord K SerializeTo record xid cid).2.recordBytes 0
        = SerializeTo (record.stamp xid cid) := by
  have h0 : (K.PAGE_HEADER_SIZE - K.PAGE_HEADER_SIZE) / K.SLOT_SIZE = 0 := by simp
  have hslot : ((p.Init K).InsertRecord K SerializeTo record xid cid).2.slots_ 0
      = ⟨K.DB_PAGE_SIZE - (SerializeTo (record.stamp xid cid)).length,
          (SerializeTo (record.stamp xid cid)).length⟩ := by
    simp [SlottedPage.InsertRecord, SlottedPage.Init, setSlot]
  refine ⟨h0, rfl, rfl, rfl, hslot, ?_⟩
  unfold SlottedPage.recordBytes
  rw [hslot]
  exact readBytes_writeBytes _ _ _

/-- The paths of `Table::InsertRecord` on a table that is empty or whose chain of
pages from page 0 is finite, with one unit of fuel a page: the size check, the
first page, a page with room, a new page after the last. -/
theorem InsertRecord_cases (K : Constants) (SerializeTo : Record → List Nat)
    (logSize : LogPayload → Nat) (fuel : Nat) (t : Table) (record : Record) (xid cid : Nat)
    (write_log : Bool) (chain : List Nat) (hnull : K.NULL_PAGE_ID ≠ 0)
    (hchain : t.first_page_id_ = K.NULL_PAGE_ID ∨ IsHeapChain K t.pages 0 chain)
    (hfuel : chain.length ≤ fuel) :
    ((SerializeTo record).length > K.MAX_RECORD_SIZE
      ∧ Table.InsertRecord K SerializeTo logSize fuel t record xid cid write_log
          = some (.error (.RecordTooLarge (SerializeTo record).length), t))
    ∨ (¬ (SerializeTo record).length > K.MAX_RECORD_SIZE
      ∧ t.first_page_id_ = K.NULL_PAGE_ID
      ∧ Table.InsertRecord K SerializeTo logSize fuel t record xid cid write_log
          = some (t.insertFirst K SerializeTo logSize record xid cid write_log))
    ∨ (¬ (SerializeTo record).length > K.MAX_RECORD_SIZE
      ∧ t.first_page_id_ ≠ K.NULL_PAGE_ID
      ∧ ∃ pre q post, chain = pre ++ q :: post
        ∧ (∀ x ∈ pre, ¬ (t.pages x).GetFreeSpaceSize K ≥ (SerializeTo record).length)
        ∧ (((t.pages q).GetFreeSpaceSize K ≥ (SerializeTo record).length
            ∧ Table.InsertRecord K SerializeTo logSize fuel t record xid cid write_log
                = some (t.insertInto K SerializeTo logSize q record xid cid write_log))
          ∨ (¬ (t.pages q).GetFreeSpaceSize K ≥ (SerializeTo record).length
            ∧ post = [] ∧ (t.pages q).next_page_id_ = K.NULL_PAGE_ID
            ∧ Table.InsertRecord K SerializeTo logSize fuel t record xid cid write_log
                = some (t.insertNewPage K SerializeTo logSize q record xid cid write_log)))) := by
  unfold Table.InsertRecord
  by_cases hbig : (SerializeTo record).length > K.MAX_RECORD_SIZE
  · rw [if_pos hbig]
    exact Or.inl ⟨hbig, rfl⟩
  · rw [if_neg hbig]
    by_cases hfirst : t.first_page_id_ = K.NULL_PAGE_ID
    · rw [if_pos hfirst]
      exact Or.inr (Or.inl ⟨hbig, hfirst, rfl⟩)
    · rw [if_neg hfirst]
      have hc : IsHeapChain K t.pages 0 chain := by
        rcases hchain with h | h
        · exact absurd h hfirst
        · exact h
      have hne : chain ≠ [] := by
        intro e
        rw [e] at hc
        exact hnull hc.symm
      exact Or.inr (Or.inr ⟨hbig, hfirst,
        insertLoop_outcome K SerializeTo logSize record xid cid write_log t chain fuel 0 hne hc
          hfuel⟩)

/-- C16 (as amended): on a table with `first_page_id = NULL_PAGE_ID` and for a
record of size at most `MAX_RECORD_SIZE`, `InsertRecord` comes back having created
and initialised page 0 (`next_page_id` null, one slot entry, the record at the
end of the page), stored the record in slot 0 of page 0, left the other pages
alone and `first_page_id = 0`; it returns rid (0, 0) when `write_log` is off or
xid is in the ATT, and throws the log manager's exception, after these effects,
when `write_log` is on and xid is not in the ATT. -/
theorem InsertRecord_empty_table (K : Constants) (SerializeTo : Record → List Nat)
    (logSize : LogPayload → Nat) (fuel : Nat) (t : Table) (record : Record) (xid cid : Nat)
    (write_log : Bool) (hfirst : t.first_page_id_ = K.NULL_PAGE_ID)
    (hsize : (SerializeTo record).length ≤ K.MAX_RECORD_SIZE) :
    ∃ res t1, Table.InsertRecord K SerializeTo logSize fuel t record xid cid write_log
        = some (res, t1)
      ∧ t1.first_page_id_ = 0
      ∧ (t1.pages 0).next_page_id_ = K.NULL_PAGE_ID
      ∧ (t1.pages 0).lower_ = K.PAGE_HEADER_SIZE + K.SLOT_SIZE
      ∧ (t1.pages 0).upper_ = K.DB_PAGE_SIZE - (SerializeTo (record.stamp xid cid)).length
      ∧ (0 < K.SLOT_SIZE → (t1.pages 0).GetRecordCount K = 1)
      ∧ (t1.pages 0).slots_ 0
          = ⟨K.DB_PAGE_SIZE - (SerializeTo (record.stamp xid cid)).length,
              (SerializeTo (record.stamp xid cid)).length⟩
      ∧ (t1.pages 0).recordBytes 0 = SerializeTo (record.stamp xid cid)
      ∧ (∀ i, i ≠ 0 → t1.pages i = t.pages i)
      ∧ ((write_log = false ∨ amFind t.log_manager_.att_ xid ≠ none) → res = .ok ⟨0, 0⟩)
      ∧ (write_log = true → amFind t.log_manager_.att_ xid = none →
          res = .error (.NotInAtt xid)) := by
  have hrun : Table.InsertRecord K SerializeTo logSize fuel t record xid cid write_log
      = some (t.insertFirst K SerializeTo logSize record xid cid write_log) := by
    unfold Table.InsertRecord
    rw [if_neg (by omega), if_pos hfirst]
  obtain ⟨h0, h1, h2, h3, h4, h5⟩ := InsertRecord_Init K SerializeTo (t.pages 0) record xid cid
  have hcount : 0 < K.SLOT_SIZE → (K.PAGE_HEADER_SIZE + K.SLOT_SIZE - K.PAGE_HEADER_SIZE)
      / K.SLOT_SIZE = 1 := by
    intro hs
    rw [Nat.add_sub_cancel_left, Nat.div_self hs]
  have hpage : ∀ (l : Nat) (lm : LogManager) (res : Except DbException Rid),
      t.insertFirst K SerializeTo logSize record xid cid write_log
        = (res, ⟨t.oid_, 0,
            fun i => if i = 0 then
              { (((t.pages 0).Init K).InsertRecord K SerializeTo record xid cid).2 with
                page_lsn_ := l }
            else t.pages i, lm⟩) →
      ∃ t1, Table.InsertRecord K SerializeTo logSize fuel t record xid cid write_log
          = some (res, t1)
        ∧ t1.first_page_id_ = 0
        ∧ (t1.pages 0).next_page_id_ = K.NULL_PAGE_ID
        ∧ (t1.pages 0).lower_ = K.PAGE_HEADER_SIZE + K.SLOT_SIZE
        ∧ (t1.pages 0).upper_ = K.DB_PAGE_SIZE - (SerializeTo (record.stamp xid cid)).length
        ∧ (0 < K.SLOT_SIZE → (t1.pages 0).GetRecordCount K = 1)
        ∧ (t1.pages 0).slots_ 0
            = ⟨K.DB_PAGE_SIZE - (SerializeTo (record.stamp xid cid)).length,
                (SerializeTo (record.stamp xid cid)).length⟩
        ∧ (t1.pages 0).recordBytes 0 = SerializeTo (record.stamp xid cid)
        ∧ (∀ i, i ≠ 0 → t1.pages i = t.pages i) := by
    intro l lm res heq
    refine ⟨_, by rw [hrun, heq], rfl, ?_, ?_, ?_, ?_, ?_, ?_, ?_⟩
    · simpa using h1
    · simpa using h2
    · simpa using h3
    · intro hs
      show ((((t.pages 0).Init K).InsertRecord K SerializeTo record xid cid).2.lower_
        - K.PAGE_HEADER_SIZE) / K.SLOT_SIZE = 1
      rw [h2]
      exact hcount hs
    · simpa using h4
    · simpa [SlottedPage.recordBytes] using h5
    · intro i hi
      simp [hi]
  obtain ⟨l, lm, ⟨heq, hc⟩ | ⟨heq, hw, hf⟩⟩ := insertFirst_outcome K SerializeTo logSize t
    record xid cid write_log
  · obtain ⟨t1, g1, g2⟩ := hpage l lm _ heq
    refine ⟨_, t1, g1, g2.1, g2.2.1, g2.2.2.1, g2.2.2.2.1, g2.2.2.2.2.1, g2.2.2.2.2.2.1,
      g2.2.2.2.2.2.2.1, g2.2.2.2.2.2.2.2, fun _ => by rw [h0], ?_⟩
    intro hw hf
    rcases hc with hc | hc
    · rw [hw] at hc; cases hc
    · exact absurd hf hc
  · obtain ⟨t1, g1, g2⟩ := hpage l lm _ heq
    refine ⟨_, t1, g1, g2.1, g2.2.1, g2.2.2.1, g2.2.2.2.1, g2.2.2.2.2.1, g2.2.2.2.2.2.1,
      g2.2.2.2.2.2.2.1, g2.2.2.2.2.2.2.2, ?_, fun _ _ => rfl⟩
    intro hc
    rcases hc with hc | hc
    · rw [hw] at hc; cases hc
    · exact absurd hf hc

/-- C16 fails as stated when logging is on for a transaction the log manager does
not know: on the empty example table the insert of a 33-byte record by
transaction 2, never begun, with `write_log` throws instead of returning (0, 0). -/
theorem InsertRecord_empty_table_counterexample :
    exampleTable.first_page_id_ = exampleConstants.NULL_PAGE_ID
    ∧ (exampleSerialize (exampleRecord 20 5)).length ≤ exampleConstants.MAX_RECORD_SIZE
    ∧ (Table.InsertRecord exampleConstants exampleSerialize exampleLogSize 0 exampleTable
        (exampleRecord 20 5) 2 0 true).map Prod.fst = some (.error (.NotInAtt 2)) :=
  ⟨rfl, by decide, rfl⟩

/-- C16 on the empty example table without logging: the insert of a 33-byte record
returns rid (0, 0). -/
theorem InsertRecord_empty_table_witness :
    ∃ t1, Table.InsertRecord exampleConstants exampleSerialize exampleLogSize 0 exampleTable
        (exampleRecord 20 5) 2 0 false = some (.ok ⟨0, 0⟩, t1)
      ∧ t1.first_page_id_ = 0 := by
  obtain ⟨res, t1, h1, h2, _, _, _, _, _, _, _, h3, _⟩ :=
    InsertRecord_empty_table exampleConstants exampleSerialize exampleLogSize 0 exampleTable
      (exampleRecord 20 5) 2 0 false rfl (by decide)
  exact ⟨t1, by rw [h1, h3 (Or.inl rfl)], h2⟩

/-- C17 (as amended): on a table that is empty or whose chain of pages is finite,
`Table::InsertRecord` comes back; it throws "record size too large" if and only
if the record size exceeds `MAX_RECORD_SIZE`, and then nothing (no page, no log
record, `first_page_id`, ATT or DPT) is modified; it throws at all if and only
if the size exceeds `MAX_RECORD_SIZE` or `write_log` is on and xid is not in the
ATT (the exception of the log manager). -/
theorem InsertRecord_error_iff (K : Constants) (SerializeTo : Record → List Nat)
    (logSize : LogPayload → Nat) (fuel : Nat) (t : Table) (record : Record) (xid cid : Nat)
    (write_log : Bool) (chain : List Nat) (hnull : K.NULL_PAGE_ID ≠ 0)
    (hchain : t.first_page_id_ = K.NULL_PAGE_ID ∨ IsHeapChain K t.pages 0 chain)
    (hfuel : chain.length ≤ fuel) :
    ∃ res t1, Table.InsertRecord K SerializeTo logSize fuel t record xid cid write_log
        = some (res, t1)
      ∧ (res = .error (.RecordTooLarge (SerializeTo record).length)
          ↔ (SerializeTo record).length > K.MAX_RECORD_SIZE)
      ∧ ((SerializeTo record).length > K.MAX_RECORD_SIZE → t1 = t)
      ∧ ((∃ e, res = .error e)
          ↔ ((SerializeTo record).length > K.MAX_RECORD_SIZE
              ∨ (write_log = true ∧ amFind t.log_manager_.att_ xid = none))) := by
  have fin : ∀ (body : Except DbException Rid × Table),
      Table.InsertRecord K SerializeTo logSize fuel t record xid cid write_log = some body →
      ((∃ rid, body.1 = .ok rid)
          ∧ (write_log = false ∨ amFind t.log_manager_.att_ xid ≠ none)
        ∨ body.1 = .error (.NotInAtt xid)
          ∧ write_log = true ∧ amFind t.log_manager_.att_ xid = none) →
      ¬ (SerializeTo record).length > K.MAX_RECORD_SIZE →
      ∃ res t1, Table.InsertRecord K SerializeTo logSize fuel t record xid cid write_log
          = some (res, t1)
        ∧ (res = .error (.RecordTooLarge (SerializeTo record).length)
            ↔ (SerializeTo record).length > K.MAX_RECORD_SIZE)
        ∧ ((SerializeTo record).length > K.MAX_RECORD_SIZE → t1 = t)
        ∧ ((∃ e, res = .error e)
            ↔ ((SerializeTo record).length > K.MAX_RECORD_SIZE
                ∨ (write_log = true ∧ amFind t.log_manager_.att_ xid = none))) := by
    intro body hrun hcl hbig
    refine ⟨body.1, body.2, hrun, ?_, fun h => absurd h hbig, ?_⟩
    · constructor
      · intro h
        rcases hcl with ⟨⟨rid, hr⟩, _⟩ | ⟨hr, _⟩
        · rw [hr] at h; cases h
        · rw [hr] at h; cases h
      · intro h; exact absurd h hbig
    · constructor
      · rintro ⟨e, he⟩
        rcases hcl with ⟨⟨rid, hr⟩, _⟩ | ⟨_, hw, hf⟩
        · rw [hr] at he; cases he
        · exact Or.inr ⟨hw, hf⟩
      · rintro (h | ⟨hw, hf⟩)
        · exact absurd h hbig
        · rcases hcl with ⟨_, hc⟩ | ⟨hr, _⟩
          · rcases hc with hc | hc
            · rw [hw] at hc; cases hc
            · exact absurd hf hc
          · exact ⟨_, hr⟩
  rcases InsertRecord_cases K SerializeTo logSize fuel t record xid cid write_log chain hnull
    hchain hfuel with ⟨hbig, hrun⟩ | ⟨hbig, _, hrun⟩ | ⟨hbig, _, pre, q, post, _, _, hq⟩
  · refine ⟨_, t, hrun, ⟨fun _ => hbig, fun _ => rfl⟩, fun _ => rfl, ?_⟩
    exact ⟨fun _ => Or.inl hbig, fun _ => ⟨_, rfl⟩⟩
  · obtain ⟨l, lm, ⟨heq, hc⟩ | ⟨heq, hw, hf⟩⟩ := insertFirst_outcome K SerializeTo logSize t
      record xid cid write_log
    · exact fin _ hrun (Or.inl ⟨⟨_, by rw [heq]⟩, hc⟩) hbig
    · exact fin _ hrun (Or.inr ⟨by rw [heq], hw, hf⟩) hbig
  · rcases hq with ⟨_, hrun⟩ | ⟨_, _, _, hrun⟩
    · obtain ⟨l, lm, ⟨heq, hc⟩ | ⟨heq, hw, hf⟩⟩ := insertInto_outcome K SerializeTo logSize t q
        record xid cid write_log
      · exact fin _ hrun (Or.inl ⟨⟨_, by rw [heq]⟩, hc⟩) hbig
      · exact fin _ hrun (Or.inr ⟨by rw [heq], hw, hf⟩) hbig
    · obtain ⟨l, lm, ⟨heq, hc⟩ | ⟨heq, hw, hf⟩⟩ := insertNewPage_outcome K SerializeTo logSize
        t q record xid cid write_log
      · exact fin _ hrun (Or.inl ⟨⟨_, by rw [heq]⟩, hc⟩) hbig
      · exact fin _ hrun (Or.inr ⟨by rw [heq], hw, hf⟩) hbig

/-- C17 fails as stated: on the one-page example table the insert of a 14-byte
record (`MAX_RECORD_SIZE` is 36) with `write_log` by transaction 3, which is not
in the ATT, throws. -/
theorem InsertRecord_error_iff_counterexample :
    ¬ (exampleSerialize (exampleRecord 1 9)).length > exampleConstants.MAX_RECORD_SIZE
    ∧ (Table.InsertRecord exampleConstants exampleSerialize exampleLogSize 1
        exampleTableOnePage (exampleRecord 1 9) 3 0 true).map Prod.fst
        = some (.error (.NotInAtt 3)) :=
  ⟨by decide, rfl⟩

/-- C17 on the one-page example table: a record of 37 bytes is refused. -/
theorem InsertRecord_error_iff_witness :
    (Table.InsertRecord exampleConstants exampleSerialize exampleLogSize 1
        exampleTableOnePage (exampleRecord 24 9) 3 0 false).map Prod.fst
      = some (.error (.RecordTooLarge 37)) := by
  obtain ⟨res, t1, h1, h2, _, _⟩ :=
    InsertRecord_error_iff exampleConstants exampleSerialize exampleLogSize 1
      exampleTableOnePage (exampleRecord 24 9) 3 0 false [0] (by decide)
      (Or.inr (by decide)) (by decide)
  rw [h1]
  exact congrArg some (h2.mpr (by decide))

/-- C18 fails on the one-page example table (page 0 holds a 15-byte record and has
13 bytes of free space, no next page): the insert of a 14-byte record creates
page 1 and writes the record into slot 0 of page 1, yet returns rid (0, 0); slot
0 of page 0 still holds the older record. -/
theorem InsertRecord_new_page_rid :
    (exampleTableOnePage.pages 0).GetFreeSpaceSize exampleConstants = 13
    ∧ (exampleTableOnePage.pages 0).next_page_id_ = exampleConstants.NULL_PAGE_ID
    ∧ (exampleSerialize (exampleRecord 1 9)).length = 14
    ∧ ∃ t1, Table.InsertRecord exampleConstants exampleSerialize exampleLogSize 1
          exampleTableOnePage (exampleRecord 1 9) 3 0 false = some (.ok ⟨0, 0⟩, t1)
        ∧ (t1.pages 1).recordBytes 0 = exampleSerialize ((exampleRecord 1 9).stamp 3 0)
        ∧ (t1.pages 0).recordBytes 0 = exampleSerialize ((exampleRecord 2 5).stamp 2 0)
        ∧ (t1.pages 0).recordBytes 0 ≠ exampleSerialize ((exampleRecord 1 9).stamp 3 0) :=
  ⟨by decide, rfl, by decide, _, rfl, by decide, by decide, by decide⟩

/-- In a chain that is `0, 1, ..., n - 1` the pages before a page are those of
smaller id and the pages after it those of greater id. -/
theorem range_split (n : Nat) (pre post : List Nat) (q : Nat)
    (h : List.range n = pre ++ q :: post) :
    q < n ∧ (∀ x, x < q → x ∈ pre) ∧ (∀ x ∈ pre, x < q) ∧ (∀ x ∈ post, q < x) := by
  have hsorted : (pre ++ q :: post).Pairwise (fun a b => a < b) := by
    rw [← h]; exact List.pairwise_lt_range n
  rw [List.pairwise_append] at hsorted
  obtain ⟨_, h2, h3⟩ := hsorted
  have hq : q < n := by
    have : q ∈ List.range n := by rw [h]; simp
    exact List.mem_range.mp this
  refine ⟨hq, ?_, fun x hx => h3 x hx q (List.mem_cons_self _ _), (List.pairwise_cons.mp h2).1⟩
  intro x hx
  have hmem : x ∈ pre ++ q :: post := by
    rw [← h]; exact List.mem_range.mpr (by omega)
  rcases List.mem_append.mp hmem with hm | hm
  · exact hm
  · rcases List.mem_cons.mp hm with rfl | hm
    · omega
    · have := (List.pairwise_cons.mp h2).1 x hm
      omega

/-- C12: `upper >= lower` is kept. It holds after `Init`; `DeleteRecord`,
`UndoDeleteRecord` and `UpdateRecordInPlace` keep it; and `Table::InsertRecord`, on
a table that is empty or whose chain of pages is finite, comes back with every
page that had `lower <= upper` still having it (the record has a positive size,
which stamping xid and cid does not change, and the constants leave an
initialised page room for a slot entry and a record of `MAX_RECORD_SIZE` bytes). -/
theorem lower_le_upper_kept (K : Constants) (SerializeTo : Record → List Nat)
    (logSize : LogPayload → Nat) (fuel : Nat) (t : Table) (record : Record) (xid cid : Nat)
    (write_log : Bool) (chain : List Nat) (hK : K.WellFormed)
    (hpos : 0 < (SerializeTo record).length)
    (hstamp : (SerializeTo (record.stamp xid cid)).length = (SerializeTo record).length)
    (hchain : t.first_page_id_ = K.NULL_PAGE_ID ∨ IsHeapChain K t.pages 0 chain)
    (hfuel : chain.length ≤ fuel) :
    (∀ p : SlottedPage, (p.Init K).lower_ ≤ (p.Init K).upper_)
    ∧ (∀ (p : SlottedPage) (slot_id x : Nat), p.lower_ ≤ p.upper_ →
        (p.DeleteRecord K slot_id x).lower_ ≤ (p.DeleteRecord K slot_id x).upper_)
    ∧ (∀ (p : SlottedPage) (slot_id : Nat), p.lower_ ≤ p.upper_ →
        (p.UndoDeleteRecord K slot_id).lower_ ≤ (p.UndoDeleteRecord K slot_id).upper_)
    ∧ (∀ (p : SlottedPage) (r : Record) (slot_id : Nat), p.lower_ ≤ p.upper_ →
        (p.UpdateRecordInPlace SerializeTo r slot_id).lower_
          ≤ (p.UpdateRecordInPlace SerializeTo r slot_id).upper_)
    ∧ ∃ res t1, Table.InsertRecord K SerializeTo logSize fuel t record xid cid write_log
          = some (res, t1)
        ∧ ∀ pid, (t.pages pid).lower_ ≤ (t.pages pid).upper_ →
            (t1.pages pid).lower_ ≤ (t1.pages pid).upper_ := by
  obtain ⟨hslot, hroom, hnull⟩ := hK
  refine ⟨fun p => ?_, fun p _ _ h => h, fun p _ h => h, fun p _ _ h => h, ?_⟩
  · show K.PAGE_HEADER_SIZE ≤ K.DB_PAGE_SIZE
    omega
  -- a page made by `Init` and one insertion
  have hnew : ∀ (p : SlottedPage) (l : Nat), ¬ (SerializeTo record).length > K.MAX_RECORD_SIZE →
      ({ ((p.Init K).InsertRecord K SerializeTo record xid cid).2 with
          page_lsn_ := l } : SlottedPage).lower_
      ≤ ({ ((p.Init K).InsertRecord K SerializeTo record xid cid).2 with
          page_lsn_ := l } : SlottedPage).upper_ := by
    intro p l hbig
    show K.PAGE_HEADER_SIZE + K.SLOT_SIZE
      ≤ K.DB_PAGE_SIZE - (SerializeTo (record.stamp xid cid)).length
    rw [hstamp]
    omega
  -- a page with room after one insertion
  have hins : ∀ (p : SlottedPage) (l : Nat),
      p.GetFreeSpaceSize K ≥ (SerializeTo record).length →
      ({ (p.InsertRecord K SerializeTo record xid cid).2 with page_lsn_ := l }
          : SlottedPage).lower_
      ≤ ({ (p.InsertRecord K SerializeTo record xid cid).2 with page_lsn_ := l }
          : SlottedPage).upper_ := by
    intro p l hfree
    show p.lower_ + K.SLOT_SIZE ≤ p.upper_ - (SerializeTo (record.stamp xid cid)).length
    rw [hstamp]
    unfold SlottedPage.GetFreeSpaceSize at hfree
    split at hfree
    · omega
    · omega
  rcases InsertRecord_cases K SerializeTo logSize fuel t record xid cid write_log chain hnull
    hchain hfuel with ⟨hbig, hrun⟩ | ⟨hbig, _, hrun⟩ | ⟨hbig, _, pre, q, post, _, _, hq⟩
  · exact ⟨_, t, hrun, fun _ h => h⟩
  · have hfin : ∀ (res : Except DbException Rid) (l : Nat) (lm : LogManager),
        t.insertFirst K SerializeTo logSize record xid cid write_log
          = (res, ⟨t.oid_, 0,
              fun i => if i = 0 then
                { (((t.pages 0).Init K).InsertRecord K SerializeTo record xid cid).2 with
                  page_lsn_ := l }
              else t.pages i, lm⟩) →
        ∃ res t1, Table.InsertRecord K SerializeTo logSize fuel t record xid cid write_log
            = some (res, t1)
          ∧ ∀ pid, (t.pages pid).lower_ ≤ (t.pages pid).upper_ →
              (t1.pages pid).lower_ ≤ (t1.pages pid).upper_ := by
      intro res l lm heq
      refine ⟨_, _, by rw [hrun, heq], ?_⟩
      intro pid hp
      by_cases h0 : pid = 0
      · simp only [h0, if_true]
        exact hnew _ l hbig
      · simp only [if_neg h0]
        exact hp
    obtain ⟨l, lm, ⟨heq, _⟩ | ⟨heq, _, _⟩⟩ := insertFirst_outcome K SerializeTo logSize t
      record xid cid write_log
    · exact hfin _ l lm heq
    · exact hfin _ l lm heq
  · rcases hq with ⟨hfree, hrun⟩ | ⟨_, _, _, hrun⟩
    · have hfin : ∀ (res : Except DbException Rid) (l : Nat) (lm : LogManager),
          t.insertInto K SerializeTo logSize q record xid cid write_log
            = (res, ⟨t.oid_, t.first_page_id_,
                fun i => if i = q then
                  { ((t.pages q).InsertRecord K SerializeTo record xid cid).2 with
                    page_lsn_ := l }
                else t.pages i, lm⟩) →
          ∃ res t1, Table.InsertRecord K SerializeTo logSize fuel t record xid cid write_log
              = some (res, t1)
            ∧ ∀ pid, (t.pages pid).lower_ ≤ (t.pages pid).upper_ →
                (t1.pages pid).lower_ ≤ (t1.pages pid).upper_ := by
        intro res l lm heq
        refine ⟨_, _, by rw [hrun, heq], ?_⟩
        intro pid hp
        by_cases h0 : pid = q
        · simp only [h0, if_true]
          exact hins _ l hfree
        · simp only [if_neg h0]
          exact hp
      obtain ⟨l, lm, ⟨heq, _⟩ | ⟨heq, _, _⟩⟩ := insertInto_outcome K SerializeTo logSize t q
        record xid cid write_log
      · exact hfin _ l lm heq
      · exact hfin _ l lm heq
    · have hfin : ∀ (res : Except DbException Rid) (l : Nat) (lm : LogManager),
          t.insertNewPage K SerializeTo logSize q record xid cid write_log
            = (res, ⟨t.oid_, t.first_page_id_,
                fun i => if i = q + 1 then
                  { (((t.pages (q + 1)).Init K).InsertRecord K SerializeTo record xid
                      cid).2 with page_lsn_ := l }
                else if i = q then (t.pages q).SetNextPageId (q + 1)
                else t.pages i, lm⟩) →
          ∃ res t1, Table.InsertRecord K SerializeTo logSize fuel t record xid cid write_log
              = some (res, t1)
            ∧ ∀ pid, (t.pages pid).lower_ ≤ (t.pages pid).upper_ →
                (t1.pages pid).lower_ ≤ (t1.pages pid).upper_ := by
        intro res l lm heq
        refine ⟨_, _, by rw [hrun, heq], ?_⟩
        intro pid hp
        by_cases h1 : pid = q + 1
        · simp only [h1, if_true]
          exact hnew _ l hbig
        · simp only [if_neg h1]
          by_cases h0 : pid = q
          · simp only [h0, if_true]
            rw [h0] at hp
            exact hp
          · simp only [if_neg h0]
            exact hp
      obtain ⟨l, lm, ⟨heq, _⟩ | ⟨heq, _, _⟩⟩ := insertNewPage_outcome K SerializeTo logSize t
        q record xid cid write_log
      · exact hfin _ l lm heq
      · exact hfin _ l lm heq

/-- C12 on the one-page example table: inserting a 14-byte record keeps
`lower <= upper` on every page that had it. -/
theorem lower_le_upper_kept_witness :
    ∃ res t1, Table.InsertRecord exampleConstants exampleSerialize exampleLogSize 1
        exampleTableOnePage (exampleRecord 1 9) 3 0 false = some (res, t1)
      ∧ ∀ pid, (exampleTableOnePage.pages pid).lower_ ≤ (exampleTableOnePage.pages pid).upper_ →
          (t1.pages pid).lower_ ≤ (t1.pages pid).upper_ :=
  (lower_le_upper_kept exampleConstants exampleSerialize exampleLogSize 1 exampleTableOnePage
    (exampleRecord 1 9) 3 0 false [0] (by decide) (by decide) (by decide)
    (Or.inr (by decide)) (by decide)).2.2.2.2

/-- `TablePage::InsertRecord` of a record of positive size that fits into the free
space of the page: the record goes into the next slot, below the records the
page holds, and nothing of the earlier records changes; `lower` stays at most
`upper`, and they meet when the record is exactly as large as the free space. -/
theorem InsertRecord_fits (K : Constants) (SerializeTo : Record → List Nat) (p : SlottedPage)
    (record : Record) (xid cid : Nat)
    (hpos : 0 < (SerializeTo (record.stamp xid cid)).length)
    (hfit : (SerializeTo (record.stamp xid cid)).length ≤ p.GetFreeSpaceSize K) :
    (p.InsertRecord K SerializeTo record xid cid).1 = p.GetRecordCount K
    ∧ (p.InsertRecord K SerializeTo record xid cid).2.lower_ = p.lower_ + K.SLOT_SIZE
    ∧ (p.InsertRecord K SerializeTo record xid cid).2.upper_
        + (SerializeTo (record.stamp xid cid)).length = p.upper_
    ∧ (p.InsertRecord K SerializeTo record xid cid).2.lower_
        ≤ (p.InsertRecord K SerializeTo record xid cid).2.upper_
    ∧ ((SerializeTo (record.stamp xid cid)).length = p.GetFreeSpaceSize K →
        (p.InsertRecord K SerializeTo record xid cid).2.lower_
          = (p.InsertRecord K SerializeTo record xid cid).2.upper_)
    ∧ (p.InsertRecord K SerializeTo record xid cid).2.slots_ (p.GetRecordCount K)
        = ⟨(p.InsertRecord K SerializeTo record xid cid).2.upper_,
            (SerializeTo (record.stamp xid cid)).length⟩
    ∧ (p.InsertRecord K SerializeTo record xid cid).2.recordBytes (p.GetRecordCount K)
        = SerializeTo (record.stamp xid cid)
    ∧ (∀ j, j ≠ p.GetRecordCount K →
        (p.InsertRecord K SerializeTo record xid cid).2.slots_ j = p.slots_ j)
    ∧ (∀ i, p.upper_ ≤ i →
        (p.InsertRecord K SerializeTo record xid cid).2.page_data_ i = p.page_data_ i) := by
  have hslot : (p.InsertRecord K SerializeTo record xid cid).2.slots_ (p.GetRecordCount K)
      = ⟨(p.InsertRecord K SerializeTo record xid cid).2.upper_,
          (SerializeTo (record.stamp xid cid)).length⟩ := by
    simp [SlottedPage.InsertRecord, SlottedPage.GetRecordCount, setSlot]
  have hfree : p.GetFreeSpaceSize K = p.upper_ - p.lower_ - K.SLOT_SIZE
      ∧ p.lower_ + K.SLOT_SIZE + (SerializeTo (record.stamp xid cid)).length ≤ p.upper_ := by
    unfold SlottedPage.GetFreeSpaceSize at hfit ⊢
    split at hfit
    · omega
    · rename_i hge
      rw [if_neg hge]
      omega
  refine ⟨rfl, rfl, ?_, ?_, ?_, hslot, ?_, ?_, ?_⟩
  · show p.upper_ - (SerializeTo (record.stamp xid cid)).length
      + (SerializeTo (record.stamp xid cid)).length = p.upper_
    omega
  · show p.lower_ + K.SLOT_SIZE ≤ p.upper_ - (SerializeTo (record.stamp xid cid)).length
    omega
  · intro he
    show p.lower_ + K.SLOT_SIZE = p.upper_ - (SerializeTo (record.stamp xid cid)).length
    omega
  · unfold SlottedPage.recordBytes
    rw [hslot]
    exact readBytes_writeBytes _ _ _
  · intro j hj
    exact if_neg hj
  · intro i hi
    show writeBytes p.page_data_ _ _ i = p.page_data_ i
    apply writeBytes_outside
    omega

/-- Where `Table::InsertRecord` puts a record within `MAX_RECORD_SIZE`, on a table whose
pages `0, ..., n - 1` are linked in this order: `TablePage::InsertRecord` puts it into
the first page whose free space is at least its size, the other pages staying
as they are; when no page has that much, into page `n`, initialised before, to
which page `n - 1` is then linked. The call comes back with a rid or with the
exception of the log manager. -/
theorem InsertRecord_placement (K : Constants) (SerializeTo : Record → List Nat)
    (logSize : LogPayload → Nat) (fuel : Nat) (t : Table) (record : Record) (xid cid : Nat)
    (write_log : Bool) (n : Nat) (hnull : K.NULL_PAGE_ID ≠ 0)
    (hfirst : t.first_page_id_ ≠ K.NULL_PAGE_ID)
    (hchain : IsHeapChain K t.pages 0 (List.range n)) (hfuel : n ≤ fuel)
    (hsize : (SerializeTo record).length ≤ K.MAX_RECORD_SIZE) :
    ∃ res t1 l, Table.InsertRecord K SerializeTo logSize fuel t record xid cid write_log
        = some (res, t1)
      ∧ (∀ e, res = .error e → e = .NotInAtt xid)
      ∧ ((∃ q, q < n ∧ (t.pages q).GetFreeSpaceSize K ≥ (SerializeTo record).length
            ∧ (∀ x, x < q → (t.pages x).GetFreeSpaceSize K < (SerializeTo record).length)
            ∧ t1.pages = fun i => if i = q then
                  { ((t.pages q).InsertRecord K SerializeTo record xid cid).2 with
                    page_lsn_ := l }
                else t.pages i)
        ∨ (∃ q, q + 1 = n
            ∧ (∀ x, x < n → (t.pages x).GetFreeSpaceSize K < (SerializeTo record).length)
            ∧ t1.pages = fun i => if i = q + 1 then
                  { (((t.pages (q + 1)).Init K).InsertRecord K SerializeTo record xid
                      cid).2 with page_lsn_ := l }
                else if i = q then (t.pages q).SetNextPageId (q + 1)
                else t.pages i)) := by
  have herr : ∀ (res : Except DbException Rid) (e : DbException) (rid : Rid),
      (res = .ok rid ∨ res = .error (.NotInAtt xid)) → res = .error e → e = .NotInAtt xid := by
    intro res e rid h he
    rcases h with h | h
    · rw [h] at he; cases he
    · rw [h] at he; cases he; rfl
  rcases InsertRecord_cases K SerializeTo logSize fuel t record xid cid write_log
    (List.range n) hnull (Or.inr hchain) (by simpa using hfuel)
    with ⟨hbig, _⟩ | ⟨_, h0, _⟩ | ⟨_, _, pre, q1, post, hsplit, hpre, hq⟩
  · omega
  · exact absurd h0 hfirst
  · obtain ⟨hq1, hbefore, hpre_lt, hpost_gt⟩ := range_split n pre post q1 hsplit
    rcases hq with ⟨hfree, hrun⟩ | ⟨hfree, hpost, _, hrun⟩
    · have hsmall : ∀ x, x < q1 →
          (t.pages x).GetFreeSpaceSize K < (SerializeTo record).length := by
        intro x hx
        exact Nat.lt_of_not_ge (hpre x (hbefore x hx))
      obtain ⟨l, lm, ⟨heq, _⟩ | ⟨heq, _, _⟩⟩ := insertInto_outcome K SerializeTo logSize t q1
        record xid cid write_log
      · exact ⟨_, _, l, by rw [hrun, heq], fun e he => herr _ e _ (Or.inl rfl) he,
          Or.inl ⟨q1, hq1, hfree, hsmall, rfl⟩⟩
      · exact ⟨_, _, l, by rw [hrun, heq], fun e he => herr _ e ⟨0, 0⟩ (Or.inr rfl) he,
          Or.inl ⟨q1, hq1, hfree, hsmall, rfl⟩⟩
    · have hlast : ∀ q, q < n → q ≤ q1 := by
        intro q hq
        have hmem : q ∈ pre ++ q1 :: post := by
          rw [← hsplit]; exact List.mem_range.mpr hq
        rw [hpost] at hmem
        rcases List.mem_append.mp hmem with hm | hm
        · exact Nat.le_of_lt (hpre_lt q hm)
        · simp at hm; omega
      have hn : q1 + 1 = n := by
        have := hlast (n - 1) (by omega)
        omega
      have hnoroom : ∀ q, q < n →
          (t.pages q).GetFreeSpaceSize K < (SerializeTo record).length := by
        intro q hq
        rcases Nat.lt_or_ge q q1 with h | h
        · exact Nat.lt_of_not_ge (hpre q (hbefore q h))
        · have : q = q1 := Nat.le_antisymm (hlast q hq) h
          rw [this]; exact Nat.lt_of_not_ge hfree
      obtain ⟨l, lm, ⟨heq, _⟩ | ⟨heq, _, _⟩⟩ := insertNewPage_outcome K SerializeTo logSize
        t q1 record xid cid write_log
      · exact ⟨_, _, l, by rw [hrun, heq], fun e he => herr _ e _ (Or.inl rfl) he,
          Or.inr ⟨q1, hn, hnoroom, rfl⟩⟩
      · exact ⟨_, _, l, by rw [hrun, heq], fun e he => herr _ e ⟨0, 0⟩ (Or.inr rfl) he,
          Or.inr ⟨q1, hn, hnoroom, rfl⟩⟩

/-- C11 (as amended): on a page with `PAGE_HEADER_SIZE <= lower` and
`upper <= DB_PAGE_SIZE`, `TablePage::InsertRecord` of a record whose size is exactly
the free space of the page (or less; the size is positive, stamping xid and cid
does not change it) succeeds: it returns the next slot id, the slot holds the
record, the earlier slots and records are untouched, and `lower <= upper`
afterwards, with `lower = upper` when the size is exactly the free space. A
record larger than the free space of a page, by one byte say, is not put into
that page: `Table::InsertRecord`, on a table whose pages are 0, ..., n - 1 linked
in this order and for a record within `MAX_RECORD_SIZE`, comes back with a rid or
with the exception of the log manager, never for lack of space; each page whose
free space is smaller than the record keeps `lower`, `upper`, its slot array, its
bytes and its page LSN; the record goes into the first page whose free space
is at least its size, and when no page has that much into the newly
initialised page n, which page n - 1 is linked to. The pages keep
`PAGE_HEADER_SIZE <= lower` and `upper <= DB_PAGE_SIZE`. -/
theorem InsertRecord_free_space (K : Constants) (SerializeTo : Record → List Nat)
    (logSize : LogPayload → Nat) (fuel : Nat) (t : Table) (record : Record) (xid cid : Nat)
    (write_log : Bool) (n : Nat) (hK : K.WellFormed)
    (hpos : 0 < (SerializeTo record).length)
    (hstamp : (SerializeTo (record.stamp xid cid)).length = (SerializeTo record).length)
    (hfirst : t.first_page_id_ ≠ K.NULL_PAGE_ID)
    (hchain : IsHeapChain K t.pages 0 (List.range n)) (hfuel : n ≤ fuel)
    (hsize : (SerializeTo record).length ≤ K.MAX_RECORD_SIZE)
    (hpages : ∀ q, q < n →
      K.PAGE_HEADER_SIZE ≤ (t.pages q).lower_ ∧ (t.pages q).upper_ ≤ K.DB_PAGE_SIZE) :
    (∀ p : SlottedPage, K.PAGE_HEADER_SIZE ≤ p.lower_ → p.upper_ ≤ K.DB_PAGE_SIZE →
      (SerializeTo record).length ≤ p.GetFreeSpaceSize K →
      (p.InsertRecord K SerializeTo record xid cid).1 = p.GetRecordCount K
      ∧ (p.InsertRecord K SerializeTo record xid cid).2.lower_ = p.lower_ + K.SLOT_SIZE
      ∧ (p.InsertRecord K SerializeTo record xid cid).2.upper_
          + (SerializeTo record).length = p.upper_
      ∧ (p.InsertRecord K SerializeTo record xid cid).2.lower_
          ≤ (p.InsertRecord K SerializeTo record xid cid).2.upper_
      ∧ ((SerializeTo record).length = p.GetFreeSpaceSize K →
          (p.InsertRecord K SerializeTo record xid cid).2.lower_
            = (p.InsertRecord K SerializeTo record xid cid).2.upper_)
      ∧ (p.InsertRecord K SerializeTo record xid cid).2.slots_ (p.GetRecordCount K)
          = ⟨(p.InsertRecord K SerializeTo record xid cid).2.upper_,
              (SerializeTo record).length⟩
      ∧ (p.InsertRecord K SerializeTo record xid cid).2.recordBytes (p.GetRecordCount K)
          = SerializeTo (record.stamp xid cid)
      ∧ (∀ j, j ≠ p.GetRecordCount K →
          (p.InsertRecord K SerializeTo record xid cid).2.slots_ j = p.slots_ j)
      ∧ (∀ i, p.upper_ ≤ i →
          (p.InsertRecord K SerializeTo record xid cid).2.page_data_ i = p.page_data_ i)
      ∧ K.PAGE_HEADER_SIZE ≤ (p.InsertRecord K SerializeTo record xid cid).2.lower_
      ∧ (p.InsertRecord K SerializeTo record xid cid).2.upper_ ≤ K.DB_PAGE_SIZE)
    ∧ ∃ res t1, Table.InsertRecord K SerializeTo logSize fuel t record xid cid write_log
          = some (res, t1)
        ∧ (∀ e, res = .error e → e = .NotInAtt xid)
        ∧ (∀ q, q < n → (t.pages q).GetFreeSpaceSize K < (SerializeTo record).length →
            (t1.pages q).lower_ = (t.pages q).lower_
            ∧ (t1.pages q).upper_ = (t.pages q).upper_
            ∧ (t1.pages q).slots_ = (t.pages q).slots_
            ∧ (t1.pages q).page_data_ = (t.pages q).page_data_
            ∧ (t1.pages q).page_lsn_ = (t.pages q).page_lsn_)
        ∧ (∀ q, q < n → (t.pages q).GetFreeSpaceSize K ≥ (SerializeTo record).length →
            (∀ x, x < q → (t.pages x).GetFreeSpaceSize K < (SerializeTo record).length) →
            (∃ l, t1.pages q
              = { ((t.pages q).InsertRecord K SerializeTo record xid cid).2 with
                  page_lsn_ := l })
            ∧ (t1.pages q).recordBytes ((t.pages q).GetRecordCount K)
                = SerializeTo (record.stamp xid cid)
            ∧ K.PAGE_HEADER_SIZE ≤ (t1.pages q).lower_
            ∧ (t1.pages q).lower_ ≤ (t1.pages q).upper_
            ∧ (t1.pages q).upper_ ≤ K.DB_PAGE_SIZE)
        ∧ ((∀ q, q < n → (t.pages q).GetFreeSpaceSize K < (SerializeTo record).length) →
            (∃ l, t1.pages n
              = { (((t.pages n).Init K).InsertRecord K SerializeTo record xid cid).2 with
                  page_lsn_ := l })
            ∧ (t1.pages n).recordBytes 0 = SerializeTo (record.stamp xid cid)
            ∧ (t1.pages n).next_page_id_ = K.NULL_PAGE_ID
            ∧ K.PAGE_HEADER_SIZE ≤ (t1.pages n).lower_
            ∧ (t1.pages n).lower_ ≤ (t1.pages n).upper_
            ∧ (t1.pages n).upper_ ≤ K.DB_PAGE_SIZE
            ∧ 0 < n ∧ (t1.pages (n - 1)).next_page_id_ = n) := by
  have hpage : ∀ p : SlottedPage, (SerializeTo record).length ≤ p.GetFreeSpaceSize K → _ :=
    fun p hfit => InsertRecord_fits K SerializeTo p record xid cid
      (by rw [hstamp]; exact hpos) (by rw [hstamp]; exact hfit)
  have hwf : ∀ p : SlottedPage, K.PAGE_HEADER_SIZE ≤ p.lower_ → p.upper_ ≤ K.DB_PAGE_SIZE →
      (SerializeTo record).length ≤ p.GetFreeSpaceSize K →
      K.PAGE_HEADER_SIZE ≤ (p.InsertRecord K SerializeTo record xid cid).2.lower_
      ∧ (p.InsertRecord K SerializeTo record xid cid).2.lower_
          ≤ (p.InsertRecord K SerializeTo record xid cid).2.upper_
      ∧ (p.InsertRecord K SerializeTo record xid cid).2.upper_ ≤ K.DB_PAGE_SIZE := by
    intro p hlo hup hfit
    obtain ⟨_, h2, h3, h4, _⟩ := hpage p hfit
    exact ⟨by omega, h4, by omega⟩
  constructor
  · intro p hlo hup hfit
    have h := hpage p hfit
    rw [hstamp] at h
    obtain ⟨g1, g2, g3, g4, g5, g6, g7, g8, g9⟩ := h
    exact ⟨g1, g2, g3, g4, g5, g6, g7, g8, g9, (hwf p hlo hup hfit).1, (hwf p hlo hup hfit).2.2⟩
  · obtain ⟨res, t1, l, hrun, herr, hplace⟩ := InsertRecord_placement K SerializeTo logSize
      fuel t record xid cid write_log n hK.2.2 hfirst hchain hfuel hsize
    refine ⟨res, t1, hrun, herr, ?_⟩
    rcases hplace with ⟨q1, hq1, hroom, hsmall, hfun⟩ | ⟨q1, hn, hnoroom, hfun⟩
    · refine ⟨?_, ?_, ?_⟩
      · intro q _ hq
        have hne : q ≠ q1 := by
          intro e; rw [e] at hq; omega
        have hpg : t1.pages q = t.pages q := by
          rw [hfun]; exact if_neg hne
        rw [hpg]
        exact ⟨rfl, rfl, rfl, rfl, rfl⟩
      · intro q hqn hroomq hsmallq
        have hqq : q = q1 := by
          rcases Nat.lt_trichotomy q q1 with h | h | h
          · have := hsmall q h
            omega
          · exact h
          · have := hsmallq q1 h
            omega
        subst hqq
        have hpg : t1.pages q
            = { ((t.pages q).InsertRecord K SerializeTo record xid cid).2 with
                page_lsn_ := l } := by
          rw [hfun]; exact if_pos rfl
        have hq := hpages q hqn
        refine ⟨⟨l, hpg⟩, ?_, ?_⟩
        · rw [hpg]
          exact (hpage (t.pages q) hroomq).2.2.2.2.2.2.1
        · rw [hpg]
          exact hwf (t.pages q) hq.1 hq.2 hroomq
      · intro hall
        have := hall q1 hq1
        omega
    · have hq1 : q1 < n := by omega
      refine ⟨?_, ?_, ?_⟩
      · intro q hq _
        have hne : q ≠ q1 + 1 := by omega
        by_cases hqq : q = q1
        · have hpg : t1.pages q = (t.pages q).SetNextPageId (q1 + 1) := by
            rw [hfun]
            show (if q = q1 + 1 then _ else if q = q1 then _ else _) = _
            rw [if_neg hne, if_pos hqq, hqq]
          rw [hpg]
          exact ⟨rfl, rfl, rfl, rfl, rfl⟩
        · have hpg : t1.pages q = t.pages q := by
            rw [hfun]
            show (if q = q1 + 1 then _ else if q = q1 then _ else _) = _
            rw [if_neg hne, if_neg hqq]
          rw [hpg]
          exact ⟨rfl, rfl, rfl, rfl, rfl⟩
      · intro q hq hroomq _
        have := hnoroom q hq
        omega
      · intro _
        have hpg : t1.pages n
            = { (((t.pages n).Init K).InsertRecord K SerializeTo record xid cid).2 with
                page_lsn_ := l } := by
          rw [hfun, ← hn]; exact if_pos rfl
        have hprev : t1.pages (n - 1) = (t.pages q1).SetNextPageId (q1 + 1) := by
          have h1 : n - 1 = q1 := by omega
          rw [hfun, h1]
          show (if q1 = q1 + 1 then _ else if q1 = q1 then _ else _) = _
          rw [if_neg (by omega), if_pos rfl]
        have hinit := InsertRecord_Init K SerializeTo (t.pages n) record xid cid
        have hfree : (SerializeTo record).length ≤ ((t.pages n).Init K).GetFreeSpaceSize K := by
          have hroom := hK.2.1
          show _ ≤ (if K.DB_PAGE_SIZE < K.PAGE_HEADER_SIZE + K.SLOT_SIZE then 0
            else K.DB_PAGE_SIZE - K.PAGE_HEADER_SIZE - K.SLOT_SIZE)
          rw [if_neg (by omega)]
          omega
        obtain ⟨w1, w2, w3⟩ := hwf ((t.pages n).Init K) (Nat.le_refl _) (Nat.le_refl _) hfree
        refine ⟨⟨l, hpg⟩, ?_, ?_, ?_, ?_, ?_, by omega, ?_⟩
        · rw [hpg]
          exact hinit.2.2.2.2.2
        · rw [hpg]
          exact hinit.2.1
        · rw [hpg]
          exact w1
        · rw [hpg]
          exact w2
        · rw [hpg]
          exact w3
        · rw [hprev]
          exact hn

/-- C11 fails as stated. Page 0 of the one-page example table has 13 bytes of free
space; `TablePage::InsertRecord` of a 14-byte record does not fail but returns
slot 1 and changes the page, leaving `lower = 36 > upper = 35` (the slot id and
the two header fields are computed before anything is written and lie outside
the bytes 28 to 48 that the slot entry and the record take); and
`Table::InsertRecord` of that record does not fail either: it returns a rid. -/
theorem InsertRecord_free_space_counterexample :
    (exampleTableOnePage.pages 0).GetFreeSpaceSize exampleConstants = 13
    ∧ (exampleSerialize ((exampleRecord 1 9).stamp 3 0)).length = 13 + 1
    ∧ ((exampleTableOnePage.pages 0).InsertRecord exampleConstants exampleSerialize
        (exampleRecord 1 9) 3 0).1 = 1
    ∧ ((exampleTableOnePage.pages 0).InsertRecord exampleConstants exampleSerialize
        (exampleRecord 1 9) 3 0).2.lower_ = 36
    ∧ ((exampleTableOnePage.pages 0).InsertRecord exampleConstants exampleSerialize
        (exampleRecord 1 9) 3 0).2.upper_ = 35
    ∧ (exampleTableOnePage.pages 0).lower_ = 28
    ∧ (Table.InsertRecord exampleConstants exampleSerialize exampleLogSize 1
        exampleTableOnePage (exampleRecord 1 9) 3 0 false).map Prod.fst = some (.ok ⟨0, 0⟩) :=
  ⟨by decide, by decide, by decide, by decide, by decide, by decide, rfl⟩

/-- C11 (as amended) on the one-page example table, page 0 of which has 13 bytes
of free space: a 14-byte record leaves page 0 as it is and goes into slot 0 of
the new page 1, which page 0 is linked to. -/
theorem InsertRecord_free_space_witness :
    ∃ res t1, Table.InsertRecord exampleConstants exampleSerialize exampleLogSize 1
        exampleTableOnePage (exampleRecord 1 9) 3 0 false = some (res, t1)
      ∧ (t1.pages 0).upper_ = (exampleTableOnePage.pages 0).upper_
      ∧ (t1.pages 0).lower_ = (exampleTableOnePage.pages 0).lower_
      ∧ (t1.pages 1).recordBytes 0 = exampleSerialize ((exampleRecord 1 9).stamp 3 0)
      ∧ (t1.pages 0).next_page_id_ = 1 := by
  obtain ⟨_, res, t1, h1, _, h3, _, h5⟩ :=
    InsertRecord_free_space exampleConstants exampleSerialize exampleLogSize 1
      exampleTableOnePage (exampleRecord 1 9) 3 0 false 1 (by decide) (by decide)
      (by decide) (by decide) (by decide) (by decide) (by decide) (fun q hq => by
        have h0 : q = 0 := by omega
        rw [h0]
        decide)
  have h6 := h5 (fun q hq => by
    have h0 : q = 0 := by omega
    rw [h0]
    decide)
  exact ⟨res, t1, h1, (h3 0 (by decide) (by decide)).2.1, (h3 0 (by decide) (by decide)).1,
    h6.2.1, h6.2.2.2.2.2.2.2⟩

/-! ## Log manager: errors, flushing and the dirty page table -/

/-- C21: for a transaction `xid` that is not in the ATT, `AppendInsertLog`,
`AppendDeleteLog`, `AppendCommitLog` and `AppendRollbackLog`, and `AppendNewPageLog`
when `xid` is not `DDL_XID`, throw (the test of the ATT is their first statement)
and return otherwise; `AppendBeginLog` throws exactly when `xid` is in the ATT.
A call that throws has assigned nothing before: the manager after it is the
manager before it, with the same `next_lsn_`, log buffer, ATT, DPT and
`flushed_lsn_`. -/
theorem Append_error_unchanged (K : Constants) (logSize : LogPayload → Nat) (s : LogManager)
    (xid : Nat) :
    (∀ oid page_id slot_id offset size new_record,
      (amFind s.att_ xid = none →
        s.AppendInsertLog K logSize xid oid page_id slot_id offset size new_record
          = .error (.NotInAtt xid))
      ∧ (amFind s.att_ xid ≠ none →
        ∃ r, s.AppendInsertLog K logSize xid oid page_id slot_id offset size new_record = .ok r))
    ∧ (∀ oid page_id slot_id,
      (amFind s.att_ xid = none →
        s.AppendDeleteLog K logSize xid oid page_id slot_id = .error (.NotInAtt xid))
      ∧ (amFind s.att_ xid ≠ none →
        ∃ r, s.AppendDeleteLog K logSize xid oid page_id slot_id = .ok r))
    ∧ ((amFind s.att_ xid = none → s.AppendCommitLog K logSize xid = .error (.NotInAtt xid))
      ∧ (amFind s.att_ xid ≠ none → ∃ r, s.AppendCommitLog K logSize xid = .ok r))
    ∧ ((amFind s.att_ xid = none → s.AppendRollbackLog K logSize xid = .error (.NotInAtt xid))
      ∧ (amFind s.att_ xid ≠ none → ∃ r, s.AppendRollbackLog K logSize xid = .ok r))
    ∧ (∀ oid prev_page_id page_id,
      (xid ≠ K.DDL_XID ∧ amFind s.att_ xid = none →
        s.AppendNewPageLog K logSize xid oid prev_page_id page_id = .error (.NotInAtt xid))
      ∧ (¬ (xid ≠ K.DDL_XID ∧ amFind s.att_ xid = none) →
        ∃ r, s.AppendNewPageLog K logSize xid oid prev_page_id page_id = .ok r))
    ∧ ((amFind s.att_ xid ≠ none → s.AppendBeginLog K logSize xid = .error (.AlreadyInAtt xid))
      ∧ (amFind s.att_ xid = none → ∃ r, s.AppendBeginLog K logSize xid = .ok r))
    ∧ (∀ (c : LogCall) (e : DbException), s.call K logSize c = .error e →
        s.run K logSize [c] = s
        ∧ (s.run K logSize [c]).next_lsn_ = s.next_lsn_
        ∧ (s.run K logSize [c]).log_buffer_ = s.log_buffer_
        ∧ (s.run K logSize [c]).att_ = s.att_
        ∧ (s.run K logSize [c]).dpt_ = s.dpt_
        ∧ (s.run K logSize [c]).flushed_lsn_ = s.flushed_lsn_) := by
  have hsome : ∀ o : Option Nat, o ≠ none → ∃ v, o = some v := by
    intro o h
    cases o with
    | none => exact absurd rfl h
    | some v => exact ⟨v, rfl⟩
  refine ⟨?_, ?_, ⟨?_, ?_⟩, ⟨?_, ?_⟩, ?_, ⟨?_, ?_⟩, ?_⟩
  · intro oid page_id slot_id offset size new_record
    constructor
    · intro h
      unfold LogManager.AppendInsertLog
      rw [h]
    · intro h
      obtain ⟨v, hv⟩ := hsome _ h
      unfold LogManager.AppendInsertLog
      rw [hv]
      exact ⟨_, rfl⟩
  · intro oid page_id slot_id
    constructor
    · intro h
      unfold LogManager.AppendDeleteLog
      rw [h]
    · intro h
      obtain ⟨v, hv⟩ := hsome _ h
      unfold LogManager.AppendDeleteLog
      rw [hv]
      exact ⟨_, rfl⟩
  · intro h
    unfold LogManager.AppendCommitLog
    rw [h]
  · intro h
    obtain ⟨v, hv⟩ := hsome _ h
    unfold LogManager.AppendCommitLog
    rw [hv]
    exact ⟨_, rfl⟩
  · intro h
    unfold LogManager.AppendRollbackLog
    rw [h]
  · intro h
    obtain ⟨v, hv⟩ := hsome _ h
    unfold LogManager.AppendRollbackLog
    rw [hv]
    exact ⟨_, rfl⟩
  · intro oid prev_page_id page_id
    constructor
    · intro h
      unfold LogManager.AppendNewPageLog
      rw [if_pos h]
    · intro h
      unfold LogManager.AppendNewPageLog
      rw [if_neg h]
      exact ⟨_, rfl⟩
  · intro h
    unfold LogManager.AppendBeginLog
    rw [if_pos h]
  · intro h
    unfold LogManager.AppendBeginLog
    rw [if_neg (by rw [h]; simp)]
    exact ⟨_, rfl⟩
  · intro c e h
    have hrun : s.run K logSize [c] = s := by
      unfold LogManager.run
      rw [h]
      rfl
    rw [hrun]
    exact ⟨rfl, rfl, rfl, rfl, rfl, rfl⟩

/-- The values of `max_lsn` and `max_log_size` after the loop of `Flush`, when
no written record bears `NULL_LSN` as its LSN: `max_lsn` is at least the LSN of
every written record and at least its initial value (when that is an LSN), and
it is the initial value or the LSN of a written record, `max_log_size` being the
size that goes with it. -/
theorem flushLoop_max (K : Constants) (logSize : LogPayload → Nat) (lsn : Nat)
    (l : List LogRecord) :
    ∀ (m0 sz0 : Nat),
      (∀ r ∈ l, ¬ flushKeeps K lsn r → r.lsn_ ≠ K.NULL_LSN) →
      (∀ r ∈ l, ¬ flushKeeps K lsn r → r.lsn_ ≤ (flushLoop K logSize lsn l m0 sz0).2.2.1)
      ∧ (m0 ≠ K.NULL_LSN → m0 ≤ (flushLoop K logSize lsn l m0 sz0).2.2.1)
      ∧ (((flushLoop K logSize lsn l m0 sz0).2.2.1 = m0
            ∧ (flushLoop K logSize lsn l m0 sz0).2.2.2 = sz0
            ∧ (m0 = K.NULL_LSN → ∀ r ∈ l, flushKeeps K lsn r))
          ∨ ∃ r ∈ l, ¬ flushKeeps K lsn r
              ∧ r.lsn_ = (flushLoop K logSize lsn l m0 sz0).2.2.1
              ∧ r.GetSize logSize = (flushLoop K logSize lsn l m0 sz0).2.2.2) := by
  induction l with
  | nil =>
    intro m0 sz0 _
    refine ⟨by simp, fun _ => Nat.le_refl _, Or.inl ⟨rfl, rfl, by simp⟩⟩
  | cons r rest ih =>
    intro m0 sz0 hv
    have hv1 : ∀ x ∈ rest, ¬ flushKeeps K lsn x → x.lsn_ ≠ K.NULL_LSN :=
      fun x hx => hv x (List.mem_cons_of_mem _ hx)
    unfold flushLoop
    by_cases hk : flushKeeps K lsn r
    · rw [if_pos hk]
      dsimp only
      obtain ⟨h1, h2, h3⟩ := ih m0 sz0 hv1
      refine ⟨?_, h2, ?_⟩
      · intro x hx hnk
        rcases List.mem_cons.mp hx with rfl | hx
        · exact absurd hk hnk
        · exact h1 x hx hnk
      · rcases h3 with ⟨e1, e2, e3⟩ | ⟨x, hx, hnk, e1, e2⟩
        · refine Or.inl ⟨e1, e2, ?_⟩
          intro hm x hx
          rcases List.mem_cons.mp hx with rfl | hx
          · exact hk
          · exact e3 hm x hx
        · exact Or.inr ⟨x, List.mem_cons_of_mem _ hx, hnk, e1, e2⟩
    · rw [if_neg hk]
      dsimp only
      have hr : r.lsn_ ≠ K.NULL_LSN := hv r (List.mem_cons_self _ _) hk
      by_cases hc : m0 = K.NULL_LSN ∨ r.lsn_ > m0
      · rw [if_pos hc]
        obtain ⟨h1, h2, h3⟩ := ih r.lsn_ (r.GetSize logSize) hv1
        have h2 := h2 hr
        refine ⟨?_, ?_, Or.inr ?_⟩
        · intro x hx hnk
          rcases List.mem_cons.mp hx with rfl | hx
          · exact h2
          · exact h1 x hx hnk
        · intro hm
          rcases hc with hc | hc
          · exact absurd hc hm
          · omega
        · rcases h3 with ⟨e1, e2, _⟩ | ⟨x, hx, hnk, e1, e2⟩
          · exact ⟨r, List.mem_cons_self _ _, hk, e1.symm, e2.symm⟩
          · exact ⟨x, List.mem_cons_of_mem _ hx, hnk, e1, e2⟩
      · rw [if_neg hc]
        have hm0 : m0 ≠ K.NULL_LSN := fun e => hc (Or.inl e)
        have hle : r.lsn_ ≤ m0 := by
          by_contra hlt
          exact hc (Or.inr (by omega))
        obtain ⟨h1, h2, h3⟩ := ih m0 sz0 hv1
        have h2 := h2 hm0
        refine ⟨?_, fun _ => h2, ?_⟩
        · intro x hx hnk
          rcases List.mem_cons.mp hx with rfl | hx
          · omega
          · exact h1 x hx hnk
        · rcases h3 with ⟨e1, e2, _⟩ | ⟨x, hx, hnk, e1, e2⟩
          · exact Or.inl ⟨e1, e2, fun e => absurd e hm0⟩
          · exact Or.inr ⟨x, List.mem_cons_of_mem _ hx, hnk, e1, e2⟩

/-- The value of `flushed_lsn_` after `Flush(lsn)` when no record of the buffer
bears `NULL_LSN`: unchanged when nothing was written; otherwise, `m` being the
greatest LSN written, it is `m` when it was `NULL_LSN` or smaller than `m`, and
unchanged when not. -/
theorem Flush_flushed_lsn (K : Constants) (logSize : LogPayload → Nat) (s : LogManager)
    (lsn : Nat) (hvalid : ∀ r ∈ s.log_buffer_, r.lsn_ ≠ K.NULL_LSN) :
    ((∀ r ∈ s.log_buffer_, flushKeeps K lsn r) →
      (s.Flush K logSize lsn).flushed_lsn_ = s.flushed_lsn_)
    ∧ (∀ m, (∃ r ∈ s.log_buffer_, ¬ flushKeeps K lsn r ∧ r.lsn_ = m) →
        (∀ r ∈ s.log_buffer_, ¬ flushKeeps K lsn r → r.lsn_ ≤ m) →
        (s.Flush K logSize lsn).flushed_lsn_
          = if s.flushed_lsn_ = K.NULL_LSN ∨ m > s.flushed_lsn_ then m else s.flushed_lsn_) := by
  obtain ⟨h1, _, h3⟩ := flushLoop_max K logSize lsn s.log_buffer_ K.NULL_LSN 0
    (fun r hr _ => hvalid r hr)
  have hfl : ∀ (c : Prop) [Decidable c] (a b : LogManager),
      (if c then a else b).flushed_lsn_ = if c then a.flushed_lsn_ else b.flushed_lsn_ := by
    intro c _ a b; split <;> rfl
  have hval : (s.Flush K logSize lsn).flushed_lsn_
      = if (flushLoop K logSize lsn s.log_buffer_ K.NULL_LSN 0).2.2.1 ≠ K.NULL_LSN
            ∧ (s.flushed_lsn_ = K.NULL_LSN
              ∨ (flushLoop K logSize lsn s.log_buffer_ K.NULL_LSN 0).2.2.1 > s.flushed_lsn_)
        then (flushLoop K logSize lsn s.log_buffer_ K.NULL_LSN 0).2.2.1
        else s.flushed_lsn_ := by
    unfold LogManager.Flush
    dsimp only
    split
    · split <;> rfl
    · rfl
  constructor
  · intro hall
    rw [hval]
    rcases h3 with ⟨e1, _, _⟩ | ⟨x, hx, hnk, _, _⟩
    · rw [if_neg (fun h => h.1 e1)]
    · exact absurd (hall x hx) hnk
  · rintro m ⟨r, hr, hnk, rfl⟩ hmax
    have hm : (flushLoop K logSize lsn s.log_buffer_ K.NULL_LSN 0).2.2.1 = r.lsn_ := by
      rcases h3 with ⟨_, _, e3⟩ | ⟨x, hx, hxk, e1, _⟩
      · exact absurd (e3 rfl r hr) hnk
      · have a := h1 r hr hnk
        have b := hmax x hx hxk
        omega
    rw [hval, hm]
    by_cases hc : s.flushed_lsn_ = K.NULL_LSN ∨ r.lsn_ > s.flushed_lsn_
    · rw [if_pos hc, if_pos ⟨hvalid r hr, hc⟩]
    · rw [if_neg hc, if_neg (fun h => hc h.2)]

/-- C24 as the code has it: after `Flush(lsn)` the buffer holds exactly the
records that had an LSN greater than `lsn`, in their order (none when `lsn` is
`NULL_LSN`), and the others were written to the log file, each at its LSN, in
their order. When no record of the buffer bears `NULL_LSN`: `flushed_lsn_` is
unchanged when nothing was written; and when `m` is the greatest LSN written, it
becomes `m` if it was `NULL_LSN` (nothing flushed so far) or smaller than `m`, and
is unchanged if not. So `flushed_lsn_` does not decrease from a value other than
`NULL_LSN`. -/
theorem Flush_spec (K : Constants) (logSize : LogPayload → Nat) (s : LogManager) (lsn : Nat)
    (hvalid : ∀ r ∈ s.log_buffer_, r.lsn_ ≠ K.NULL_LSN) :
    (s.Flush K logSize lsn).log_buffer_
        = s.log_buffer_.filter (fun r => decide (lsn ≠ K.NULL_LSN ∧ r.lsn_ > lsn))
    ∧ (lsn = K.NULL_LSN → (s.Flush K logSize lsn).log_buffer_ = [])
    ∧ (s.Flush K logSize lsn).disk_log_
        = s.disk_log_
          ++ s.log_buffer_.filter (fun r => decide (¬ (lsn ≠ K.NULL_LSN ∧ r.lsn_ > lsn)))
    ∧ ((∀ r ∈ s.log_buffer_, lsn ≠ K.NULL_LSN ∧ r.lsn_ > lsn) →
        (s.Flush K logSize lsn).flushed_lsn_ = s.flushed_lsn_)
    ∧ (∀ m, (∃ r ∈ s.log_buffer_, ¬ (lsn ≠ K.NULL_LSN ∧ r.lsn_ > lsn) ∧ r.lsn_ = m) →
        (∀ r ∈ s.log_buffer_, ¬ (lsn ≠ K.NULL_LSN ∧ r.lsn_ > lsn) → r.lsn_ ≤ m) →
        (s.Flush K logSize lsn).flushed_lsn_
          = if s.flushed_lsn_ = K.NULL_LSN ∨ m > s.flushed_lsn_ then m else s.flushed_lsn_)
    ∧ (s.flushed_lsn_ ≠ K.NULL_LSN → s.flushed_lsn_ ≤ (s.Flush K logSize lsn).flushed_lsn_) := by
  obtain ⟨_, _, _, hb, hd⟩ := Flush_fields K logSize s lsn
  obtain ⟨f1, f2⟩ := Flush_flushed_lsn K logSize s lsn hvalid
  refine ⟨hb, ?_, hd, f1, f2, ?_⟩
  · intro hl
    rw [hb, List.filter_eq_nil_iff]
    intro r _
    simp [flushKeeps, hl]
  · intro hne
    by_cases hall : ∀ r ∈ s.log_buffer_, flushKeeps K lsn r
    · rw [f1 hall]
    · obtain ⟨h1, _, h3⟩ := flushLoop_max K logSize lsn s.log_buffer_ K.NULL_LSN 0
        (fun r hr _ => hvalid r hr)
      rcases h3 with ⟨_, _, e3⟩ | ⟨x, hx, hxk, e1, _⟩
      · exact absurd (e3 rfl) hall
      · rw [f2 _ ⟨x, hx, hxk, e1⟩ h1]
        split
        · rename_i hc
          rcases hc with hc | hc
          · exact absurd hc hne
          · omega
        · exact Nat.le_refl _

/-- C24, the part the code does not have: on a fresh log manager (its
`flushed_lsn_` is `next_lsn - 1` for `next_lsn = 0`, the greatest `lsn_t`, which is
`NULL_LSN`) with a Begin record at LSN 0 in the buffer, `Flush(NULL_LSN)` writes
that record and sets `flushed_lsn_` to 0: not the maximum of its previous value
and the greatest flushed LSN, and smaller than before. -/
theorem Flush_spec_counterexample :
    ((LogManager.new 0).run exampleConstants exampleLogSize [.AppendBeginLog 2]).flushed_lsn_
      = 18446744073709551615
    ∧ ((LogManager.new 0).run exampleConstants exampleLogSize [.AppendBeginLog 2]).log_buffer_
      = [⟨0, 2, 18446744073709551615, .BEGIN⟩]
    ∧ ((((LogManager.new 0).run exampleConstants exampleLogSize [.AppendBeginLog 2]).Flush
          exampleConstants exampleLogSize exampleConstants.NULL_LSN).disk_log_
      = [⟨0, 2, 18446744073709551615, .BEGIN⟩])
    ∧ (((LogManager.new 0).run exampleConstants exampleLogSize [.AppendBeginLog 2]).Flush
          exampleConstants exampleLogSize exampleConstants.NULL_LSN).flushed_lsn_ = 0
    ∧ (((LogManager.new 0).run exampleConstants exampleLogSize [.AppendBeginLog 2]).Flush
          exampleConstants exampleLogSize exampleConstants.NULL_LSN).flushed_lsn_
        ≠ max ((LogManager.new 0).run exampleConstants exampleLogSize
                [.AppendBeginLog 2]).flushed_lsn_ 0 :=
  ⟨rfl, rfl, rfl, rfl, by decide⟩

/-- C24 on a log manager that flushed before: with `flushed_lsn_ = 24` and the
records at LSN 48 and 72 in the buffer, `Flush(48)` leaves the record at 72 in the
buffer and does not decrease `flushed_lsn_`. -/
theorem Flush_spec_witness :
    ((⟨96, 24, [], [], [⟨48, 2, 24, .COMMIT⟩, ⟨72, 3, 18446744073709551615, .BEGIN⟩], [],
        some 48, none⟩ : LogManager).Flush exampleConstants exampleLogSize 48).log_buffer_
      = [⟨72, 3, 18446744073709551615, .BEGIN⟩]
    ∧ 24 ≤ ((⟨96, 24, [], [], [⟨48, 2, 24, .COMMIT⟩, ⟨72, 3, 18446744073709551615, .BEGIN⟩], [],
        some 48, none⟩ : LogManager).Flush exampleConstants exampleLogSize 48).flushed_lsn_ :=
  ⟨((Flush_spec exampleConstants exampleLogSize
      ⟨96, 24, [], [], [⟨48, 2, 24, .COMMIT⟩, ⟨72, 3, 18446744073709551615, .BEGIN⟩], [],
        some 48, none⟩ 48 (by decide)).1).trans (by decide),
   (Flush_spec exampleConstants exampleLogSize
      ⟨96, 24, [], [], [⟨48, 2, 24, .COMMIT⟩, ⟨72, 3, 18446744073709551615, .BEGIN⟩], [],
        some 48, none⟩ 48 (by decide)).2.2.2.2.2 (by decide)⟩

/-- What `Flush(c)` does right after a record with LSN `c` was pushed to the
buffer, `c` not being `NULL_LSN` and no record of the buffer bearing `NULL_LSN`:
no record with an LSN up to `c` is left in the buffer, those records are in the
log file, and `flushed_lsn_` is at least `c`. -/
theorem Flush_after_push (K : Constants) (logSize : LogPayload → Nat) (t : LogManager)
    (log : LogRecord) (hc : log.lsn_ ≠ K.NULL_LSN)
    (hvalid : ∀ r ∈ t.log_buffer_, r.lsn_ ≠ K.NULL_LSN) :
    (∀ r ∈ (({ t with log_buffer_ := t.log_buffer_ ++ [log] } : LogManager).Flush K logSize
        log.lsn_).log_buffer_, ¬ r.lsn_ ≤ log.lsn_)
    ∧ (∀ r ∈ t.log_buffer_ ++ [log], r.lsn_ ≤ log.lsn_ →
        r ∈ (({ t with log_buffer_ := t.log_buffer_ ++ [log] } : LogManager).Flush K logSize
          log.lsn_).disk_log_)
    ∧ log.lsn_ ≤ (({ t with log_buffer_ := t.log_buffer_ ++ [log] } : LogManager).Flush K logSize
        log.lsn_).flushed_lsn_ := by
  have hv : ∀ r ∈ ({ t with log_buffer_ := t.log_buffer_ ++ [log] } : LogManager).log_buffer_,
      r.lsn_ ≠ K.NULL_LSN := by
    intro r hr
    rcases List.mem_append.mp hr with h | h
    · exact hvalid r h
    · rw [List.mem_singleton.mp h]; exact hc
  obtain ⟨_, _, _, hb, hd⟩ := Flush_fields K logSize
    ({ t with log_buffer_ := t.log_buffer_ ++ [log] } : LogManager) log.lsn_
  obtain ⟨_, f2⟩ := Flush_flushed_lsn K logSize
    ({ t with log_buffer_ := t.log_buffer_ ++ [log] } : LogManager) log.lsn_ hv
  have hnk : ¬ flushKeeps K log.lsn_ log := fun h => Nat.lt_irrefl _ h.2
  refine ⟨?_, ?_, ?_⟩
  · intro r hr hle
    rw [hb, List.mem_filter] at hr
    have hk : flushKeeps K log.lsn_ r := by simpa using hr.2
    exact absurd hk.2 (by omega)
  · intro r hr hle
    rw [hd]
    refine List.mem_append_right _ (List.mem_filter.mpr ⟨hr, ?_⟩)
    have : ¬ flushKeeps K log.lsn_ r := fun h => by have := h.2; omega
    simpa using this
  · obtain ⟨h1, _, h3⟩ := flushLoop_max K logSize log.lsn_
      ({ t with log_buffer_ := t.log_buffer_ ++ [log] } : LogManager).log_buffer_ K.NULL_LSN 0
      (fun r hr _ => hv r hr)
    have hmem : log ∈ ({ t with log_buffer_ := t.log_buffer_ ++ [log] } : LogManager).log_buffer_ :=
      List.mem_append_right _ (List.mem_singleton.mpr rfl)
    rcases h3 with ⟨_, _, e3⟩ | ⟨x, hx, hxk, e1, _⟩
    · exact absurd (e3 rfl log hmem) hnk
    · rw [f2 _ ⟨x, hx, hxk, e1⟩ h1]
      have hge := h1 log hmem hnk
      split
      · exact hge
      · rename_i hcnd
        have : ¬ (flushLoop K logSize log.lsn_
            ({ t with log_buffer_ := t.log_buffer_ ++ [log] } : LogManager).log_buffer_
            K.NULL_LSN 0).2.2.1 > t.flushed_lsn_ := fun h => hcnd (Or.inr h)
        have e : ({ t with log_buffer_ := t.log_buffer_ ++ [log] } : LogManager).flushed_lsn_
            = t.flushed_lsn_ := rfl
        omega

/-- C22: for a transaction `xid` of the ATT, `next_lsn_` not being `NULL_LSN` and
no record of the buffer bearing `NULL_LSN`, `AppendCommitLog(xid)` and likewise
`AppendRollbackLog(xid)` return the LSN `c` of the record they append (the old
`next_lsn_`), after which `xid` is not in the ATT, the buffer holds no record
with an LSN up to `c`, every record the buffer held with an LSN up to `c` and the
Commit (Rollback) record itself are in the log file, and `flushed_lsn_` is at
least `c`. -/
theorem AppendCommitLog_durable (K : Constants) (logSize : LogPayload → Nat) (s : LogManager)
    (xid prev : Nat) (hfind : amFind s.att_ xid = some prev)
    (hnext : s.next_lsn_ ≠ K.NULL_LSN)
    (hvalid : ∀ r ∈ s.log_buffer_, r.lsn_ ≠ K.NULL_LSN) :
    (∃ s1, s.AppendCommitLog K logSize xid = .ok (s.next_lsn_, s1)
      ∧ amFind s1.att_ xid = none
      ∧ (∀ r ∈ s1.log_buffer_, ¬ r.lsn_ ≤ s.next_lsn_)
      ∧ (∀ r ∈ s.log_buffer_, r.lsn_ ≤ s.next_lsn_ → r ∈ s1.disk_log_)
      ∧ (⟨s.next_lsn_, xid, prev, .COMMIT⟩ : LogRecord) ∈ s1.disk_log_
      ∧ s.next_lsn_ ≤ s1.flushed_lsn_)
    ∧ (∃ s1, s.AppendRollbackLog K logSize xid = .ok (s.next_lsn_, s1)
      ∧ amFind s1.att_ xid = none
      ∧ (∀ r ∈ s1.log_buffer_, ¬ r.lsn_ ≤ s.next_lsn_)
      ∧ (∀ r ∈ s.log_buffer_, r.lsn_ ≤ s.next_lsn_ → r ∈ s1.disk_log_)
      ∧ (⟨s.next_lsn_, xid, prev, .ROLLBACK⟩ : LogRecord) ∈ s1.disk_log_
      ∧ s.next_lsn_ ≤ s1.flushed_lsn_) := by
  constructor
  · obtain ⟨g1, g2, g3⟩ := Flush_after_push K logSize
      (s.allocate logSize ⟨K.NULL_LSN, xid, prev, .COMMIT⟩).2
      ⟨s.next_lsn_, xid, prev, .COMMIT⟩ hnext hvalid
    unfold LogManager.AppendCommitLog
    rw [hfind]
    refine ⟨_, rfl, ?_, g1, ?_, ?_, g3⟩
    · rw [amFind_amErase, if_pos rfl]
    · intro r hr hle
      exact g2 r (List.mem_append_left _ hr) hle
    · exact g2 _ (List.mem_append_right _ (List.mem_singleton.mpr rfl)) (Nat.le_refl _)
  · obtain ⟨g1, g2, g3⟩ := Flush_after_push K logSize
      (s.allocate logSize ⟨K.NULL_LSN, xid, prev, .ROLLBACK⟩).2
      ⟨s.next_lsn_, xid, prev, .ROLLBACK⟩ hnext hvalid
    unfold LogManager.AppendRollbackLog
    rw [hfind]
    refine ⟨_, rfl, ?_, g1, ?_, ?_, g3⟩
    · rw [amFind_amErase, if_pos rfl]
    · intro r hr hle
      exact g2 r (List.mem_append_left _ hr) hle
    · exact g2 _ (List.mem_append_right _ (List.mem_singleton.mpr rfl)) (Nat.le_refl _)

/-- C22 on a fresh log manager after a Begin and an Insert of transaction 2:
`AppendCommitLog(2)` and `AppendRollbackLog(2)` return, and leave transaction 2
out of the ATT, the buffer free of records up to the returned LSN and
`flushed_lsn_` at least that LSN. -/
theorem AppendCommitLog_durable_witness :
    (∃ s1, ((LogManager.new 0).run exampleConstants exampleLogSize
          [.AppendBeginLog 2, .AppendInsertLog 2 7 0 0 200 3 [0, 0, 0]]).AppendCommitLog
          exampleConstants exampleLogSize 2 = .ok (71, s1)
      ∧ amFind s1.att_ 2 = none
      ∧ (∀ r ∈ s1.log_buffer_, ¬ r.lsn_ ≤ 71)
      ∧ (∀ r ∈ ((LogManager.new 0).run exampleConstants exampleLogSize
          [.AppendBeginLog 2, .AppendInsertLog 2 7 0 0 200 3 [0, 0, 0]]).log_buffer_,
          r.lsn_ ≤ 71 → r ∈ s1.disk_log_)
      ∧ (⟨71, 2, 24, .COMMIT⟩ : LogRecord) ∈ s1.disk_log_
      ∧ 71 ≤ s1.flushed_lsn_)
    ∧ (∃ s1, ((LogManager.new 0).run exampleConstants exampleLogSize
          [.AppendBeginLog 2, .AppendInsertLog 2 7 0 0 200 3 [0, 0, 0]]).AppendRollbackLog
          exampleConstants exampleLogSize 2 = .ok (71, s1)
      ∧ amFind s1.att_ 2 = none
      ∧ (∀ r ∈ s1.log_buffer_, ¬ r.lsn_ ≤ 71)
      ∧ (∀ r ∈ ((LogManager.new 0).run exampleConstants exampleLogSize
          [.AppendBeginLog 2, .AppendInsertLog 2 7 0 0 200 3 [0, 0, 0]]).log_buffer_,
          r.lsn_ ≤ 71 → r ∈ s1.disk_log_)
      ∧ (⟨71, 2, 24, .ROLLBACK⟩ : LogRecord) ∈ s1.disk_log_
      ∧ 71 ≤ s1.flushed_lsn_) :=
  AppendCommitLog_durable exampleConstants exampleLogSize
    ((LogManager.new 0).run exampleConstants exampleLogSize
      [.AppendBeginLog 2, .AppendInsertLog 2 7 0 0 200 3 [0, 0, 0]]) 2 24 rfl (by decide)
    (by decide)

/-- The DPT after `SetDirty`: the entry of the page is added, with `lsn`, when
there was none; every entry there was keeps its value. -/
theorem SetDirty_dpt (s : LogManager) (oid page_id lsn : Nat) (key : Nat × Nat) :
    amFind (s.SetDirty oid page_id lsn).dpt_ key
      = if amFind s.dpt_ key = none ∧ key = (oid, page_id) then some lsn
        else amFind s.dpt_ key := by
  unfold LogManager.SetDirty
  by_cases h : amFind s.dpt_ (oid, page_id) = none
  · rw [if_pos h]
    show amFind (amSet s.dpt_ (oid, page_id) lsn) key = _
    rw [amFind_amSet]
    by_cases hk : key = (oid, page_id)
    · rw [if_pos hk, if_pos ⟨by rw [hk]; exact h, hk⟩]
    · rw [if_neg hk, if_neg (fun c => hk c.2)]
  · rw [if_neg h, if_neg]
    rintro ⟨h1, h2⟩
    rw [h2] at h1
    exact h h1

/-- C23: `AppendInsertLog`, `AppendDeleteLog` and `SetDirty` add the entry
`(oid, page_id) → lsn` to the DPT when the page has none, `lsn` being the LSN of
the appended record (the given one for `SetDirty`), and `AppendNewPageLog` adds it
for `page_id` and, when `prev_page_id` is not `NULL_PAGE_ID`, for `prev_page_id`; an
entry the DPT has keeps its value, so the entry of a page is the LSN of the
oldest record that dirtied it. `FlushPage` removes the entry of the flushed page
and leaves every other entry as it is. -/
theorem DPT_oldest_record (K : Constants) (logSize : LogPayload → Nat) (s : LogManager) :
    (∀ xid oid page_id slot_id offset size new_record lsn s1,
      s.AppendInsertLog K logSize xid oid page_id slot_id offset size new_record = .ok (lsn, s1) →
      lsn = s.next_lsn_
      ∧ ∀ key, amFind s1.dpt_ key
          = if amFind s.dpt_ key = none ∧ key = (oid, page_id) then some lsn
            else amFind s.dpt_ key)
    ∧ (∀ xid oid page_id slot_id lsn s1,
      s.AppendDeleteLog K logSize xid oid page_id slot_id = .ok (lsn, s1) →
      lsn = s.next_lsn_
      ∧ ∀ key, amFind s1.dpt_ key
          = if amFind s.dpt_ key = none ∧ key = (oid, page_id) then some lsn
            else amFind s.dpt_ key)
    ∧ (∀ xid oid prev_page_id page_id lsn s1,
      s.AppendNewPageLog K logSize xid oid prev_page_id page_id = .ok (lsn, s1) →
      lsn = s.next_lsn_
      ∧ ∀ key, amFind s1.dpt_ key
          = if amFind s.dpt_ key = none
                ∧ (key = (oid, page_id)
                  ∨ (prev_page_id ≠ K.NULL_PAGE_ID ∧ key = (oid, prev_page_id)))
            then some lsn
            else amFind s.dpt_ key)
    ∧ (∀ oid page_id lsn key, amFind (s.SetDirty oid page_id lsn).dpt_ key
          = if amFind s.dpt_ key = none ∧ key = (oid, page_id) then some lsn
            else amFind s.dpt_ key)
    ∧ (∀ table_oid page_id page_lsn key,
        amFind (s.FlushPage K logSize table_oid page_id page_lsn).dpt_ key
          = if key = (table_oid, page_id) then none else amFind s.dpt_ key) := by
  refine ⟨?_, ?_, ?_, ?_, ?_⟩
  · intro xid oid page_id slot_id offset size new_record lsn s1 h
    unfold LogManager.AppendInsertLog at h
    cases hf : amFind s.att_ xid with
    | none => rw [hf] at h; cases h
    | some prev =>
      rw [hf] at h
      injection h with h
      injection h with h1 h2
      subst h1 h2
      refine ⟨rfl, ?_⟩
      intro key
      rw [SetDirty_dpt]
      rfl
  · intro xid oid page_id slot_id lsn s1 h
    unfold LogManager.AppendDeleteLog at h
    cases hf : amFind s.att_ xid with
    | none => rw [hf] at h; cases h
    | some prev =>
      rw [hf] at h
      injection h with h
      injection h with h1 h2
      subst h1 h2
      refine ⟨rfl, ?_⟩
      intro key
      rw [SetDirty_dpt]
      rfl
  · intro xid oid prev_page_id page_id lsn s1 h
    unfold LogManager.AppendNewPageLog at h
    by_cases hc : xid ≠ K.DDL_XID ∧ amFind s.att_ xid = none
    · rw [if_pos hc] at h; cases h
    · rw [if_neg hc] at h
      injection h with h
      injection h with h1 h2
      subst h1 h2
      refine ⟨rfl, ?_⟩
      intro key
      have hfin : ∀ (t : LogManager), t.dpt_ = s.dpt_ →
          amFind (if prev_page_id ≠ K.NULL_PAGE_ID then
              (t.SetDirty oid page_id s.next_lsn_).SetDirty oid prev_page_id s.next_lsn_
            else t.SetDirty oid page_id s.next_lsn_).dpt_ key
            = if amFind s.dpt_ key = none
                  ∧ (key = (oid, page_id)
                    ∨ (prev_page_id ≠ K.NULL_PAGE_ID ∧ key = (oid, prev_page_id)))
              then some s.next_lsn_
              else amFind s.dpt_ key := by
        intro t ht
        by_cases hp : prev_page_id ≠ K.NULL_PAGE_ID
        · rw [if_pos hp, SetDirty_dpt, SetDirty_dpt, ht]
          by_cases hn : amFind s.dpt_ key = none
          · by_cases h1 : key = (oid, page_id)
            · have hI : (if amFind s.dpt_ key = none ∧ key = (oid, page_id) then some s.next_lsn_
                  else amFind s.dpt_ key) = some s.next_lsn_ := if_pos ⟨hn, h1⟩
              rw [hI, if_neg (by simp), if_pos ⟨hn, Or.inl h1⟩]
            · have hI : (if amFind s.dpt_ key = none ∧ key = (oid, page_id) then some s.next_lsn_
                  else amFind s.dpt_ key) = amFind s.dpt_ key := if_neg (fun c => h1 c.2)
              rw [hI]
              by_cases h2 : key = (oid, prev_page_id)
              · rw [if_pos ⟨hn, h2⟩, if_pos ⟨hn, Or.inr ⟨hp, h2⟩⟩]
              · rw [if_neg (fun c => h2 c.2), if_neg]
                rintro ⟨_, c | c⟩
                · exact h1 c
                · exact h2 c.2
          · have hI : (if amFind s.dpt_ key = none ∧ key = (oid, page_id) then some s.next_lsn_
                else amFind s.dpt_ key) = amFind s.dpt_ key := if_neg (fun c => hn c.1)
            rw [hI, if_neg (fun c => hn c.1), if_neg (fun c => hn c.1)]
        · rw [if_neg hp, SetDirty_dpt, ht]
          by_cases hn : amFind s.dpt_ key = none
          · by_cases h1 : key = (oid, page_id)
            · rw [if_pos ⟨hn, h1⟩, if_pos ⟨hn, Or.inl h1⟩]
            · rw [if_neg (fun c => h1 c.2), if_neg]
              rintro ⟨_, c | c⟩
              · exact h1 c
              · exact hp c.1
          · rw [if_neg (fun c => hn c.1), if_neg (fun c => hn c.1)]
      refine hfin _ ?_
      by_cases hx : xid ≠ K.DDL_XID
      · simp only [if_pos hx]
        rfl
      · simp only [if_neg hx]
        rfl
  · intro oid page_id lsn key
    exact SetDirty_dpt s oid page_id lsn key
  · intro table_oid page_id page_lsn key
    unfold LogManager.FlushPage
    show amFind (amErase (LogManager.Flush K logSize s page_lsn).dpt_ (table_oid, page_id)) key = _
    rw [amFind_amErase, (Flush_fields K logSize s page_lsn).2.2.1]

/-! ## Recovery: theorems -/

/-- C25, where the code departs from it: transaction 2 begins, inserts and rolls
back, which takes it out of the ATT and writes its three records to the log
file; `Analyze` on a log manager reopened over that log file reads the three
records from LSN 0 and ends with transaction 2 in the ATT, at the LSN 24 of its
Insert record: its loop erases a transaction at a Commit record only. With a
Commit record in the place of the Rollback record the ATT ends empty. -/
theorem Analyze_rolled_back_in_att :
    amFind ((LogManager.new 0).run exampleConstants exampleLogSize
        [.AppendBeginLog 2, .AppendInsertLog 2 7 0 0 200 3 [0, 0, 0],
          .AppendRollbackLog 2]).att_ 2 = none
    ∧ ((LogManager.new 0).run exampleConstants exampleLogSize
        [.AppendBeginLog 2, .AppendInsertLog 2 7 0 0 200 3 [0, 0, 0],
          .AppendRollbackLog 2]).disk_log_
      = [⟨0, 2, 18446744073709551615, .BEGIN⟩, ⟨24, 2, 0, .INSERT 7 0 0 200 3 [0, 0, 0]⟩,
          ⟨71, 2, 24, .ROLLBACK⟩]
    ∧ (LogManager.Analyze exampleConstants exampleLogSize 4
        (((LogManager.new 0).run exampleConstants exampleLogSize
          [.AppendBeginLog 2, .AppendInsertLog 2 7 0 0 200 3 [0, 0, 0],
            .AppendRollbackLog 2]).reopen 0)).map (fun r => r.1.att_)
      = some [(2, 24)]
    ∧ (LogManager.Analyze exampleConstants exampleLogSize 4
        (((LogManager.new 0).run exampleConstants exampleLogSize
          [.AppendBeginLog 2, .AppendInsertLog 2 7 0 0 200 3 [0, 0, 0],
            .AppendCommitLog 2]).reopen 0)).map (fun r => r.1.att_)
      = some [] :=
  ⟨rfl, rfl, rfl, rfl⟩

/-- The start position of `Redo` is at most `smallest_sequence_num_` and at most
the `rec_lsn` of every DPT entry, and it is one of these values. -/
theorem redoStart_le (dpt : List ((Nat × Nat) × Nat)) :
    ∀ (n : Nat), redoStart n dpt ≤ n ∧ (∀ e ∈ dpt, redoStart n dpt ≤ e.2)
      ∧ (redoStart n dpt = n ∨ ∃ e ∈ dpt, redoStart n dpt = e.2) := by
  induction dpt with
  | nil => intro n; exact ⟨Nat.le_refl _, by simp, Or.inl rfl⟩
  | cons e es ih =>
    intro n
    have hfold : redoStart n (e :: es) = redoStart (if e.2 < n then e.2 else n) es := rfl
    rw [hfold]
    by_cases hlt : e.2 < n
    · rw [if_pos hlt]
      obtain ⟨h1, h2, h3⟩ := ih e.2
      refine ⟨by omega, ?_, ?_⟩
      · intro x hx
        rcases List.mem_cons.mp hx with rfl | hx
        · exact h1
        · exact h2 x hx
      · rcases h3 with h3 | ⟨x, hx, h3⟩
        · exact Or.inr ⟨e, List.mem_cons_self _ _, h3⟩
        · exact Or.inr ⟨x, List.mem_cons_of_mem _ hx, h3⟩
    · rw [if_neg hlt]
      obtain ⟨h1, h2, h3⟩ := ih n
      refine ⟨h1, ?_, ?_⟩
      · intro x hx
        rcases List.mem_cons.mp hx with rfl | hx
        · omega
        · exact h2 x hx
      · rcases h3 with h3 | ⟨x, hx, h3⟩
        · exact Or.inl h3
        · exact Or.inr ⟨x, List.mem_cons_of_mem _ hx, h3⟩

/-- The test of the loop of `Redo` for the record read at its own LSN is the
condition of the specification. -/
theorem redoTest_iff (dpt : List ((Nat × Nat) × Nat)) (pages : Pages) (log : LogRecord) :
    (if log.payload.isModification = true then
        match amFind dpt ((ExtractRecordCoordinates log).1, (ExtractRecordCoordinates log).2) with
        | some recovery_lsn =>
          if log.lsn_ ≥ recovery_lsn then
            if log.payload.isNewPage = true then true
            else
              if log.lsn_ > (pages (ExtractRecordCoordinates log).1
                  (ExtractRecordCoordinates log).2).page_lsn_ then true else false
          else false
        | none => false
      else false) = decide (RedoWanted dpt pages log) := by
  by_cases hw : RedoWanted dpt pages log
  · rw [decide_eq_true hw]
    obtain ⟨hm, v, hv, hge, hor⟩ := hw
    have hv1 : amFind dpt ((ExtractRecordCoordinates log).1, (ExtractRecordCoordinates log).2)
        = some v := hv
    rw [if_pos hm, hv1]
    simp only []
    rw [if_pos hge]
    rcases hor with hn | hp
    · rw [if_pos hn]
    · by_cases hn : log.payload.isNewPage = true
      · rw [if_pos hn]
      · rw [if_neg hn, if_pos hp]
  · rw [decide_eq_false hw]
    by_cases hm : log.payload.isModification = true
    · rw [if_pos hm]
      cases hf : amFind dpt ((ExtractRecordCoordinates log).1, (ExtractRecordCoordinates log).2) with
      | none => rfl
      | some v =>
        have hv : amFind dpt (ExtractRecordCoordinates log) = some v := hf
        simp only []
        by_cases hge : log.lsn_ ≥ v
        · rw [if_pos hge]
          by_cases hn : log.payload.isNewPage = true
          · exact absurd ⟨hm, v, hv, hge, Or.inl hn⟩ hw
          · rw [if_neg hn]
            by_cases hp : log.lsn_ > (pages (ExtractRecordCoordinates log).1
                (ExtractRecordCoordinates log).2).page_lsn_
            · exact absurd ⟨hm, v, hv, hge, Or.inr hp⟩ hw
            · rw [if_neg hp]
        · rw [if_neg hge]
    · rw [if_neg hm]

/-- The loop of `Redo` over a gap-free stretch of the log file that ends at
`next_lsn_`, with fuel for one iteration more than it has records: it reads the
records in their order and calls `Redo` as the specification says. -/
theorem redoLoop_spec (logSize : LogPayload → Nat) (hpos : ∀ p, 0 < logSize p)
    (Redo : LogRecord → Pages → Pages) (disk_log : List LogRecord)
    (dpt : List ((Nat × Nat) × Nat)) (next_lsn : Nat) (recs : List LogRecord) :
    ∀ (fuel current_lsn : Nat) (pages : Pages),
      Tiles logSize current_lsn recs next_lsn →
      (∀ r ∈ recs, ReadLog disk_log r.lsn_ = some r) →
      recs.length < fuel →
      redoLoop logSize Redo disk_log dpt next_lsn fuel current_lsn pages
        = some (redoSpec Redo dpt recs pages) := by
  induction recs with
  | nil =>
    intro fuel current_lsn pages ht _ hf
    have he : current_lsn = next_lsn := ht
    cases fuel with
    | zero => simp at hf
    | succ f =>
      unfold redoLoop
      rw [if_neg (by omega)]
      rfl
  | cons r rs ih =>
    intro fuel current_lsn pages ht hread hf
    have h0 : r.lsn_ = current_lsn := ht.1
    have ht2 : Tiles logSize (current_lsn + r.GetSize logSize) rs next_lsn := ht.2
    have hb := (Tiles_bounds logSize rs _ _ ht2).1
    have hsz : 0 < r.GetSize logSize := hpos _
    cases fuel with
    | zero => simp at hf
    | succ f =>
      have hrd : ReadLog disk_log current_lsn = some r := by
        rw [← h0]; exact hread r (List.mem_cons_self _ _)
      have hrec := fun pages1 => ih f (current_lsn + r.GetSize logSize) pages1 ht2
        (fun x hx => hread x (List.mem_cons_of_mem _ hx)) (by simpa using hf)
      have htest := redoTest_iff dpt pages r
      rw [h0] at htest
      unfold redoLoop
      rw [if_pos (by omega), hrd]
      dsimp only
      rw [htest]
      unfold redoSpec
      by_cases hw : RedoWanted dpt pages r
      · simp only [hw, decide_True, if_true]
        rw [hrec]
      · simp only [hw, decide_False, if_false, Bool.false_eq_true]
        rw [hrec]

/-- The records redone are among the records read, in their order. -/
theorem redoSpec_sublist (Redo : LogRecord → Pages → Pages) (dpt : List ((Nat × Nat) × Nat))
    (recs : List LogRecord) :
    ∀ (pages : Pages), (redoSpec Redo dpt recs pages).2.Sublist recs := by
  induction recs with
  | nil => intro _; exact List.Sublist.slnil
  | cons r rs ih =>
    intro pages
    unfold redoSpec
    by_cases hw : RedoWanted dpt pages r
    · rw [if_pos hw]
      exact (ih _).cons₂ r
    · rw [if_neg hw]
      exact (ih _).cons r

/-- The redo pass over two stretches of records, one after the other. -/
theorem redoSpec_append (Redo : LogRecord → Pages → Pages) (dpt : List ((Nat × Nat) × Nat))
    (a b : List LogRecord) :
    ∀ (pages : Pages), redoSpec Redo dpt (a ++ b) pages
      = ((redoSpec Redo dpt b (redoSpec Redo dpt a pages).1).1,
          (redoSpec Redo dpt a pages).2 ++ (redoSpec Redo dpt b (redoSpec Redo dpt a pages).1).2) := by
  induction a with
  | nil => intro pages; rfl
  | cons r rs ih =>
    intro pages
    have hc : ∀ (l : List LogRecord), redoSpec Redo dpt (r :: l) pages
        = if RedoWanted dpt pages r then
            ((redoSpec Redo dpt l (Redo r pages)).1, r :: (redoSpec Redo dpt l (Redo r pages)).2)
          else redoSpec Redo dpt l pages := fun _ => rfl
    show redoSpec Redo dpt (r :: (rs ++ b)) pages = _
    rw [hc, hc]
    by_cases hw : RedoWanted dpt pages r
    · rw [if_pos hw, if_pos hw, ih]
      rfl
    · rw [if_neg hw, if_neg hw, ih]

/-- Among records of strictly increasing LSN, a record is redone exactly when
the condition of the specification holds of it on the pages as the records
before it left them. -/
theorem redoSpec_mem_iff (Redo : LogRecord → Pages → Pages) (dpt : List ((Nat × Nat) × Nat))
    (a b : List LogRecord) (r : LogRecord) (pages : Pages)
    (hs : (a ++ r :: b).Pairwise (fun x y => x.lsn_ < y.lsn_)) :
    r ∈ (redoSpec Redo dpt (a ++ r :: b) pages).2
      ↔ RedoWanted dpt (redoSpec Redo dpt a pages).1 r := by
  rw [List.pairwise_append] at hs
  obtain ⟨_, hrb, hab⟩ := hs
  rw [List.pairwise_cons] at hrb
  have hna : r ∉ (redoSpec Redo dpt a pages).2 := by
    intro hmem
    have := hab r ((redoSpec_sublist Redo dpt a pages).subset hmem) r (List.mem_cons_self _ _)
    exact Nat.lt_irrefl _ this
  have hnb : ∀ (p : Pages), r ∉ (redoSpec Redo dpt b p).2 := by
    intro p hmem
    have := hrb.1 r ((redoSpec_sublist Redo dpt b p).subset hmem)
    exact Nat.lt_irrefl _ this
  rw [redoSpec_append]
  show r ∈ (redoSpec Redo dpt a pages).2
      ++ (redoSpec Redo dpt (r :: b) (redoSpec Redo dpt a pages).1).2 ↔ _
  rw [List.mem_append]
  have hc : redoSpec Redo dpt (r :: b) (redoSpec Redo dpt a pages).1
      = if RedoWanted dpt (redoSpec Redo dpt a pages).1 r then
          ((redoSpec Redo dpt b (Redo r (redoSpec Redo dpt a pages).1)).1,
            r :: (redoSpec Redo dpt b (Redo r (redoSpec Redo dpt a pages).1)).2)
        else redoSpec Redo dpt b (redoSpec Redo dpt a pages).1 := rfl
  rw [hc]
  by_cases hw : RedoWanted dpt (redoSpec Redo dpt a pages).1 r
  · rw [if_pos hw]
    exact ⟨fun _ => hw, fun _ => Or.inr (List.mem_cons_self _ _)⟩
  · rw [if_neg hw]
    constructor
    · rintro (h | h)
      · exact absurd h hna
      · exact absurd h (hnb _)
    · intro h
      exact absurd h hw

/-- C26: with log records of positive size, the log file holding the records
`recs` gap-free from the start position of `Redo` to `next_lsn_`, and fuel for one
iteration more than there are records, `Redo` returns, having read the records
in increasing LSN order, and it called the `Redo` of a record exactly when that
is a mutation record whose page is in the DPT with `rec_lsn` at most the LSN of
the record and that is a NewPage record or has an LSN greater than the
`page_lsn` the page had when the record was read. The start position is at
most `smallest_sequence_num_` and at most every `rec_lsn` of the DPT, so no record
from the smallest `rec_lsn` on is left out. -/
theorem Redo_spec (logSize : LogPayload → Nat) (hpos : ∀ p, 0 < logSize p)
    (Redo : LogRecord → Pages → Pages) (s : LogManager) (smallest_sequence_num : Nat)
    (recs : List LogRecord) (fuel : Nat) (pages : Pages)
    (htiles : Tiles logSize (redoStart smallest_sequence_num s.dpt_) recs s.next_lsn_)
    (hread : ∀ r ∈ recs, ReadLog s.disk_log_ r.lsn_ = some r)
    (hfuel : recs.length < fuel) :
    s.Redo logSize Redo smallest_sequence_num fuel pages
        = some (redoSpec Redo s.dpt_ recs pages)
    ∧ (∀ a r b, recs = a ++ r :: b →
        (r ∈ (redoSpec Redo s.dpt_ recs pages).2
          ↔ RedoWanted s.dpt_ (redoSpec Redo s.dpt_ a pages).1 r))
    ∧ (redoSpec Redo s.dpt_ recs pages).2.Sublist recs
    ∧ recs.Pairwise (fun a b => a.lsn_ < b.lsn_)
    ∧ (∀ r ∈ recs, redoStart smallest_sequence_num s.dpt_ ≤ r.lsn_ ∧ r.lsn_ < s.next_lsn_)
    ∧ redoStart smallest_sequence_num s.dpt_ ≤ smallest_sequence_num
    ∧ (∀ e ∈ s.dpt_, redoStart smallest_sequence_num s.dpt_ ≤ e.2) := by
  have hstrict := Tiles_strict logSize hpos recs _ _ htiles
  obtain ⟨s1, s2, _⟩ := redoStart_le s.dpt_ smallest_sequence_num
  refine ⟨?_, ?_, redoSpec_sublist Redo s.dpt_ recs pages, hstrict, ?_, s1, s2⟩
  · exact redoLoop_spec logSize hpos Redo s.disk_log_ s.dpt_ s.next_lsn_ recs fuel _ pages
      htiles hread hfuel
  · intro a r b he
    subst he
    exact redoSpec_mem_iff Redo s.dpt_ a b r pages hstrict
  · intro r hr
    have := (Tiles_bounds logSize recs _ _ htiles).2 r hr
    have hsz : 0 < r.GetSize logSize := hpos _
    omega

/-- C26 on the log of a transaction that made page 0 of table 7, inserted a
record and committed, read after a restart with the DPT entry `(7, 0) → 24` and
pages whose `page_lsn` is 0: `Redo` starts at LSN 0 and redoes the NewPage record
and the Insert record. -/
theorem Redo_spec_witness :
    (LogManager.Redo exampleLogSize exampleRedo
        ⟨119, 118, [], [((7, 0), 24)], [],
          [⟨0, 2, 18446744073709551615, .BEGIN⟩, ⟨24, 2, 0, .NEW_PAGE 7 4294967295 0⟩,
            ⟨48, 2, 24, .INSERT 7 0 0 61 3 [0, 0, 0]⟩, ⟨95, 2, 48, .COMMIT⟩],
          some 119, none⟩ 0 5 examplePages0).map (fun r => r.2)
      = some [⟨24, 2, 0, .NEW_PAGE 7 4294967295 0⟩, ⟨48, 2, 24, .INSERT 7 0 0 61 3 [0, 0, 0]⟩] :=
  (congrArg (Option.map (fun r => r.2))
    (Redo_spec exampleLogSize (by intro p; cases p <;> simp [exampleLogSize]) exampleRedo
      ⟨119, 118, [], [((7, 0), 24)], [],
        [⟨0, 2, 18446744073709551615, .BEGIN⟩, ⟨24, 2, 0, .NEW_PAGE 7 4294967295 0⟩,
          ⟨48, 2, 24, .INSERT 7 0 0 61 3 [0, 0, 0]⟩, ⟨95, 2, 48, .COMMIT⟩],
        some 119, none⟩ 0
      [⟨0, 2, 18446744073709551615, .BEGIN⟩, ⟨24, 2, 0, .NEW_PAGE 7 4294967295 0⟩,
        ⟨48, 2, 24, .INSERT 7 0 0 61 3 [0, 0, 0]⟩, ⟨95, 2, 48, .COMMIT⟩]
      5 examplePages0 (by decide) (by decide) (by decide)).1).trans rfl

/-- The loop of `Rollback` along a chain of records each of which is where the
loop looks for it, with fuel for one iteration more than the chain has records:
it calls `Undo` on the records of the chain in their order until one throws. -/
theorem rollbackLoop_spec {ε : Type} (K : Constants) (Undo : LogRecord → Pages → Except ε Pages)
    (s : LogManager) (chain : List LogRecord) :
    ∀ (fuel lsn : Nat) (pages : Pages),
      IsUndoChain K s lsn chain → chain.length < fuel →
      rollbackLoop K Undo s fuel lsn pages = some (undoChain Undo chain pages) := by
  induction chain with
  | nil =>
    intro fuel lsn pages hc hf
    have he : lsn = K.NULL_LSN := hc
    cases fuel with
    | zero => simp at hf
    | succ f =>
      unfold rollbackLoop
      rw [if_neg (by simp [he])]
      rfl
  | cons r rs ih =>
    intro fuel lsn pages hc hf
    obtain ⟨hne, hlook, hrest⟩ := hc
    cases fuel with
    | zero => simp at hf
    | succ f =>
      have hrec := fun p => ih f r.prev_lsn_ p hrest (by simpa using hf)
      have hu : undoChain Undo (r :: rs) pages
          = match Undo r pages with
            | .error e => (.error (.UndoFailed e), pages, [r])
            | .ok pages1 =>
              ((undoChain Undo rs pages1).1, (undoChain Undo rs pages1).2.1,
                r :: (undoChain Undo rs pages1).2.2) := rfl
      unfold rollbackLoop
      rw [if_pos hne, hu]
      by_cases hfl : lsn > s.flushed_lsn_
      · rw [if_pos hfl] at hlook
        rw [if_pos hfl, hlook]
        dsimp only
        cases hundo : Undo r pages with
        | error e => rfl
        | ok p =>
          dsimp only
          rw [hrec]
      · rw [if_neg hfl] at hlook
        rw [if_neg hfl, hlook]
        dsimp only
        cases hundo : Undo r pages with
        | error e => rfl
        | ok p =>
          dsimp only
          rw [hrec]

/-- The records `Undo` was called on are a front part of the chain; they are
the whole chain when no call threw, and when a call threw it was the call
on the last of them. -/
theorem undoChain_called {ε : Type} (Undo : LogRecord → Pages → Except ε Pages)
    (chain : List LogRecord) :
    ∀ (pages : Pages),
      (undoChain Undo chain pages).2.2 <+: chain
      ∧ ((undoChain Undo chain pages).1 = .ok () → (undoChain Undo chain pages).2.2 = chain)
      ∧ (∀ f, (undoChain Undo chain pages).1 = .error f →
          ∃ r p e, f = .UndoFailed e ∧ (undoChain Undo chain pages).2.2.getLast? = some r
            ∧ Undo r p = .error e)
      ∧ ((∀ r ∈ chain, ∀ p, ∃ p1, Undo r p = .ok p1) →
          (undoChain Undo chain pages).1 = .ok ()) := by
  induction chain with
  | nil =>
    intro pages
    refine ⟨List.prefix_refl _, fun _ => rfl, ?_, fun _ => rfl⟩
    intro f hf
    cases hf
  | cons r rs ih =>
    intro pages
    have hu : undoChain Undo (r :: rs) pages
        = match Undo r pages with
          | .error e => (.error (.UndoFailed e), pages, [r])
          | .ok pages1 =>
            ((undoChain Undo rs pages1).1, (undoChain Undo rs pages1).2.1,
              r :: (undoChain Undo rs pages1).2.2) := rfl
    rw [hu]
    cases hundo : Undo r pages with
    | error e =>
      dsimp only
      refine ⟨?_, ?_, ?_, ?_⟩
      · exact ⟨rs, rfl⟩
      · intro h; cases h
      · intro f hf
        injection hf with hf
        exact ⟨r, pages, e, hf.symm, rfl, hundo⟩
      · intro hall
        obtain ⟨p1, hp1⟩ := hall r (List.mem_cons_self _ _) pages
        rw [hundo] at hp1
        cases hp1
    | ok p =>
      dsimp only
      obtain ⟨h1, h2, h3, h4⟩ := ih p
      refine ⟨?_, ?_, ?_, ?_⟩
      · obtain ⟨t, ht⟩ := h1
        exact ⟨t, by rw [List.cons_append, ht]⟩
      · intro h
        rw [h2 h]
      · intro f hf
        obtain ⟨x, q, e, he, hl, hx⟩ := h3 f hf
        refine ⟨x, q, e, he, ?_, hx⟩
        cases hc : (undoChain Undo rs p).2.2 with
        | nil => rw [hc] at hl; cases hl
        | cons y ys =>
          rw [hc] at hl
          rw [List.getLast?_cons_cons]
          exact hl
      · intro hall
        exact h4 (fun x hx => hall x (List.mem_cons_of_mem _ hx))

/-- C27 as the code has it: for a transaction of the ATT whose chain from its
ATT entry is made of records each of which is where `Rollback` looks for it (in
the buffer when its LSN is greater than `flushed_lsn_`, in the log file when not),
strictly decreasing in LSN and ending at `NULL_LSN`, `Rollback(xid)` with fuel for
one iteration more than the chain has records returns, having called `Undo` on
the records of the chain in their order, each at most once, as long as no call
threw: on all of them when no call throws, and when a call throws `Rollback`
ends with what was thrown and the records after that one are not undone. -/
theorem Rollback_spec {ε : Type} (K : Constants) (Undo : LogRecord → Pages → Except ε Pages)
    (s : LogManager) (fuel xid lsn : Nat) (chain : List LogRecord) (pages : Pages)
    (hfind : amFind s.att_ xid = some lsn) (hchain : IsUndoChain K s lsn chain)
    (hdec : chain.Pairwise (fun a b => b.lsn_ < a.lsn_)) (hfuel : chain.length < fuel) :
    s.Rollback K Undo fuel xid pages = some (undoChain Undo chain pages)
    ∧ (undoChain Undo chain pages).2.2 <+: chain
    ∧ (undoChain Undo chain pages).2.2.Nodup
    ∧ ((undoChain Undo chain pages).1 = .ok () → (undoChain Undo chain pages).2.2 = chain)
    ∧ ((∀ r ∈ chain, ∀ p, ∃ p1, Undo r p = .ok p1) →
        (undoChain Undo chain pages).1 = .ok () ∧ (undoChain Undo chain pages).2.2 = chain)
    ∧ (∀ f, (undoChain Undo chain pages).1 = .error f →
        ∃ r p e, f = .UndoFailed e ∧ (undoChain Undo chain pages).2.2.getLast? = some r
          ∧ Undo r p = .error e) := by
  obtain ⟨h1, h2, h3, h4⟩ := undoChain_called Undo chain pages
  have hnd : chain.Nodup := by
    refine hdec.imp ?_
    intro a b hlt he
    rw [he] at hlt
    exact Nat.lt_irrefl _ hlt
  refine ⟨?_, h1, (h1.sublist).nodup hnd, h2, fun hall => ⟨h4 hall, h2 (h4 hall)⟩, h3⟩
  unfold LogManager.Rollback
  rw [hfind]
  exact rollbackLoop_spec K Undo s chain fuel lsn pages hchain hfuel

/-- C27, the part the code does not have: transaction 2 has the records Begin
at LSN 0 and Insert at LSN 24 in the log file and Insert at LSN 71 in the buffer,
its chain from the ATT entry 71 is these three records; the `Undo` of the record at
71 throws, and `Rollback(2)` ends with what was thrown, having called `Undo` on
that record only: the records at 24 and 0 are not undone. -/
theorem Rollback_spec_counterexample :
    amFind ((LogManager.new 0).run exampleConstants exampleLogSize
        [.AppendBeginLog 2, .AppendInsertLog 2 7 0 0 61 3 [0, 0, 0], .Flush 24,
          .AppendInsertLog 2 7 0 1 58 3 [1, 1, 1]]).att_ 2 = some 71
    ∧ IsUndoChain exampleConstants
        ((LogManager.new 0).run exampleConstants exampleLogSize
          [.AppendBeginLog 2, .AppendInsertLog 2 7 0 0 61 3 [0, 0, 0], .Flush 24,
            .AppendInsertLog 2 7 0 1 58 3 [1, 1, 1]]) 71
        [⟨71, 2, 24, .INSERT 7 0 1 58 3 [1, 1, 1]⟩, ⟨24, 2, 0, .INSERT 7 0 0 61 3 [0, 0, 0]⟩,
          ⟨0, 2, 18446744073709551615, .BEGIN⟩]
    ∧ exampleUndo ⟨71, 2, 24, .INSERT 7 0 1 58 3 [1, 1, 1]⟩ examplePages0 = .error 1
    ∧ (LogManager.Rollback exampleConstants exampleUndo
        ((LogManager.new 0).run exampleConstants exampleLogSize
          [.AppendBeginLog 2, .AppendInsertLog 2 7 0 0 61 3 [0, 0, 0], .Flush 24,
            .AppendInsertLog 2 7 0 1 58 3 [1, 1, 1]]) 4 2 examplePages0).map
        (fun r => (r.1, r.2.2))
      = some (.error (.UndoFailed 1), [⟨71, 2, 24, .INSERT 7 0 1 58 3 [1, 1, 1]⟩]) :=
  ⟨rfl, by decide, rfl, rfl⟩

/-- C27 on the same log with an `Undo` that does not throw: `Rollback(2)` calls
`Undo` on the records at 71, 24 and 0, in this order. -/
theorem Rollback_spec_witness :
    (LogManager.Rollback exampleConstants (fun _ p => (.ok p : Except Nat Pages))
        ((LogManager.new 0).run exampleConstants exampleLogSize
          [.AppendBeginLog 2, .AppendInsertLog 2 7 0 0 61 3 [0, 0, 0], .Flush 24,
            .AppendInsertLog 2 7 0 1 58 3 [1, 1, 1]]) 4 2 examplePages0).map
        (fun r => r.2.2)
      = some [⟨71, 2, 24, .INSERT 7 0 1 58 3 [1, 1, 1]⟩, ⟨24, 2, 0, .INSERT 7 0 0 61 3 [0, 0, 0]⟩,
          ⟨0, 2, 18446744073709551615, .BEGIN⟩] :=
  (congrArg (Option.map (fun r => r.2.2))
    (Rollback_spec exampleConstants (fun _ p => (.ok p : Except Nat Pages))
      ((LogManager.new 0).run exampleConstants exampleLogSize
        [.AppendBeginLog 2, .AppendInsertLog 2 7 0 0 61 3 [0, 0, 0], .Flush 24,
          .AppendInsertLog 2 7 0 1 58 3 [1, 1, 1]]) 4 2 71
      [⟨71, 2, 24, .INSERT 7 0 1 58 3 [1, 1, 1]⟩, ⟨24, 2, 0, .INSERT 7 0 0 61 3 [0, 0, 0]⟩,
        ⟨0, 2, 18446744073709551615, .BEGIN⟩]
      examplePages0 rfl (by decide) (by decide) (by decide)).1).trans rfl

/-! ## Executors: theorems -/

/-- A child after `n` calls of `Next` has its sequence less the first `n` records
still to give. -/
theorem skip_rest (n : Nat) :
    ∀ (c : ChildExecutor), (ChildExecutor.skip n c).rest = c.rest.drop n
      ∧ (ChildExecutor.skip n c).rows = c.rows := by
  induction n with
  | zero => intro c; exact ⟨rfl, rfl⟩
  | succ k ih =>
    intro c
    show (ChildExecutor.skip k c.Next.2).rest = _ ∧ (ChildExecutor.skip k c.Next.2).rows = _
    obtain ⟨h1, h2⟩ := ih c.Next.2
    rw [h1, h2]
    unfold ChildExecutor.Next
    cases hc : c.rest with
    | nil => simp [hc]
    | cons r rs => simp

/-- What `LimitExecutor::Next` returns when the child, after the `offset_` calls
that skip, still has the records `m` to give. -/
theorem Limit_Next_eq (e : LimitExecutor) (m : List Record)
    (hm : (ChildExecutor.skip e.offset_ e.children_0).rest = m) :
    (e.Next.1 = if e.count_ = 0 then none else m.head?)
    ∧ e.Next.2.offset_ = 0
    ∧ e.Next.2.count_
        = (if e.count_ = 0 ∨ e.count_ = 4294967295 then e.count_ else e.count_ - 1)
    ∧ (e.count_ ≠ 0 → e.Next.2.children_0.rest = m.tail) := by
  have hnext : (ChildExecutor.skip e.offset_ e.children_0).Next.1 = m.head?
      ∧ (ChildExecutor.skip e.offset_ e.children_0).Next.2.rest = m.tail := by
    unfold ChildExecutor.Next
    rw [hm]
    cases m with
    | nil => simp [hm]
    | cons r rs => exact ⟨rfl, rfl⟩
  unfold LimitExecutor.Next
  dsimp only
  by_cases h0 : e.count_ = 0
  · rw [if_pos h0, if_pos h0, if_pos (Or.inl h0)]
    exact ⟨rfl, rfl, rfl, fun h => absurd h0 h⟩
  · rw [if_neg h0, if_neg h0]
    by_cases h1 : e.count_ = 4294967295
    · rw [if_pos h1, if_pos (Or.inr h1)]
      exact ⟨hnext.1, rfl, rfl, fun _ => hnext.2⟩
    · rw [if_neg h1, if_neg (by rintro (h | h); exact h0 h; exact h1 h)]
      exact ⟨hnext.1, rfl, rfl, fun _ => hnext.2⟩

/-- The records `LimitExecutor::Next` returns up to the first null pointer, when
the child, after the `offset_` calls that skip, still has the records `m` to give
and `count_` is a `uint32_t`: all of `m` when `count_` is the greatest `uint32_t`, the
first `count_` of them otherwise. -/
theorem Limit_pullAll (m : List Record) :
    ∀ (e : LimitExecutor) (fuel : Nat),
      (ChildExecutor.skip e.offset_ e.children_0).rest = m →
      e.count_ ≤ 4294967295 → m.length < fuel →
      pullAll LimitExecutor.Next fuel e
        = some (if e.count_ = 4294967295 then m else m.take e.count_) := by
  induction m with
  | nil =>
    intro e fuel hm _ hf
    obtain ⟨h1, _, _, _⟩ := Limit_Next_eq e [] hm
    cases fuel with
    | zero => simp at hf
    | succ f =>
      have hn : e.Next.1 = none := by
        rw [h1]; split <;> rfl
      unfold pullAll
      have : e.Next = (none, e.Next.2) := Prod.ext hn rfl
      rw [this]
      simp
  | cons r rs ih =>
    intro e fuel hm hc hf
    obtain ⟨h1, h2, h3, h4⟩ := Limit_Next_eq e (r :: rs) hm
    cases fuel with
    | zero => simp at hf
    | succ f =>
      unfold pullAll
      by_cases h0 : e.count_ = 0
      · rw [if_pos h0] at h1
        have : e.Next = (none, e.Next.2) := Prod.ext h1 rfl
        rw [this]
        simp [h0]
      · rw [if_neg h0] at h1
        have hn : e.Next = (some r, e.Next.2) := Prod.ext h1 rfl
        have hrest : (ChildExecutor.skip e.Next.2.offset_ e.Next.2.children_0).rest = rs := by
          rw [h2]
          exact h4 h0
        rw [hn]
        dsimp only
        by_cases hs : e.count_ = 4294967295
        · rw [if_pos (Or.inr hs)] at h3
          rw [ih e.Next.2 f hrest (by omega) (by simpa using hf), h3, if_pos hs, if_pos hs]
          rfl
        · rw [if_neg (by rintro (h | h); exact h0 h; exact hs h)] at h3
          rw [ih e.Next.2 f hrest (by omega) (by simpa using hf), h3, if_neg hs,
            if_neg (by omega)]
          obtain ⟨k, hk⟩ : ∃ k, e.count_ = k + 1 := ⟨e.count_ - 1, by omega⟩
          rw [hk]
          rfl

/-- C28 as the code has it: for a child with the sequence `c`, an offset `o` (0
when the plan has none) and a count of the plan that is a `uint32_t` when there
is one, the records the calls of `Next` after `Init` return up to the first null
pointer are `c[o], c[o+1], ...` to the end of `c` when the plan has no count or
the count `4294967295` (the value `count_` has for a plan without count), and the
first `n` of them for any other count `n`; with enough fuel (more than the
length of `c`) the first null pointer is reached. With the count 0 the first
`Next` returns the null pointer. -/
theorem Limit_Next_sequence (c rest0 : List Record) (limit_offset_ limit_count_ : Option Nat)
    (hcount : ∀ n, limit_count_ = some n → n ≤ 4294967295) (fuel : Nat)
    (hfuel : c.length < fuel) :
    pullAll LimitExecutor.Next fuel
        ((LimitExecutor.new limit_offset_ limit_count_ ⟨c, rest0⟩).Init)
      = some (match limit_count_ with
          | none => c.drop (limit_offset_.getD 0)
          | some n =>
            if n = 4294967295 then c.drop (limit_offset_.getD 0)
            else (c.drop (limit_offset_.getD 0)).take n)
    ∧ (limit_count_ = some 0 →
        ((LimitExecutor.new limit_offset_ limit_count_ ⟨c, rest0⟩).Init).Next.1 = none) := by
  have hoff : ((LimitExecutor.new limit_offset_ limit_count_ ⟨c, rest0⟩).Init).offset_
      = limit_offset_.getD 0 := by
    cases limit_offset_ <;> rfl
  have hm : (ChildExecutor.skip
        ((LimitExecutor.new limit_offset_ limit_count_ ⟨c, rest0⟩).Init).offset_
        ((LimitExecutor.new limit_offset_ limit_count_ ⟨c, rest0⟩).Init).children_0).rest
      = c.drop (limit_offset_.getD 0) := by
    rw [(skip_rest _ _).1, hoff]
    rfl
  constructor
  · have hlen : (c.drop (limit_offset_.getD 0)).length < fuel := by
      rw [List.length_drop]; omega
    cases limit_count_ with
    | none =>
      have hcnt : ((LimitExecutor.new limit_offset_ none ⟨c, rest0⟩).Init).count_
          = 4294967295 := rfl
      rw [Limit_pullAll _ _ fuel hm (Nat.le_of_eq hcnt) hlen, if_pos hcnt]
    | some n =>
      have hcnt : ((LimitExecutor.new limit_offset_ (some n) ⟨c, rest0⟩).Init).count_ = n := rfl
      have hle : ((LimitExecutor.new limit_offset_ (some n) ⟨c, rest0⟩).Init).count_
          ≤ 4294967295 := by
        rw [hcnt]; exact hcount n rfl
      rw [Limit_pullAll _ _ fuel hm hle hlen, hcnt]
  · intro h0
    subst h0
    obtain ⟨h1, _, _, _⟩ := Limit_Next_eq _ _ hm
    rw [h1]
    have hcnt : ((LimitExecutor.new limit_offset_ (some 0) ⟨c, rest0⟩).Init).count_ = 0 := rfl
    rw [if_pos hcnt]

/-- C28, where the code departs from it: with the count `4294967295` given by the
plan and a child of `4294967296` records, the calls of `Next` return all the
`4294967296` records of the child, not the first `4294967295` of them. -/
theorem Limit_Next_sequence_counterexample :
    pullAll LimitExecutor.Next 4294967297
        ((LimitExecutor.new none (some 4294967295)
          ⟨List.replicate 4294967296 (exampleRow [1]), []⟩).Init)
      = some (List.replicate 4294967296 (exampleRow [1]))
    ∧ (List.replicate 4294967296 (exampleRow [1])).length = 4294967296
    ∧ ((List.replicate 4294967296 (exampleRow [1])).take 4294967295).length = 4294967295 := by
  have hcnt : ((LimitExecutor.new none (some 4294967295)
      ⟨List.replicate 4294967296 (exampleRow [1]), []⟩).Init).count_ = 4294967295 := rfl
  have hm : (ChildExecutor.skip
      ((LimitExecutor.new none (some 4294967295)
        ⟨List.replicate 4294967296 (exampleRow [1]), []⟩).Init).offset_
      ((LimitExecutor.new none (some 4294967295)
        ⟨List.replicate 4294967296 (exampleRow [1]), []⟩).Init).children_0).rest
      = List.replicate 4294967296 (exampleRow [1]) := rfl
  have hlen : (List.replicate 4294967296 (exampleRow [1])).length < 4294967297 := by
    rw [List.length_replicate]
    exact Nat.lt_succ_self _
  refine ⟨?_, List.length_replicate _ _, ?_⟩
  · rw [Limit_pullAll _ _ _ hm (Nat.le_of_eq hcnt) hlen, if_pos hcnt]
  · rw [List.length_take, List.length_replicate]
    exact Nat.min_eq_left (Nat.le_succ _)

/-- C28 on a child of four records with offset 1 and count 2: the second and the
third record are returned, then the null pointer. -/
theorem Limit_Next_sequence_witness :
    pullAll LimitExecutor.Next 5
        ((LimitExecutor.new (some 1) (some 2)
          ⟨[exampleRow [1], exampleRow [2], exampleRow [3], exampleRow [4]], []⟩).Init)
      = some [exampleRow [2], exampleRow [3]] :=
  (Limit_Next_sequence [exampleRow [1], exampleRow [2], exampleRow [3], exampleRow [4]] []
    (some 1) (some 2) (by intro n h; cases h; decide) 5 (by decide)).1.trans
    (congrArg some (if_neg (by decide)))

/-- C29, where the code departs from it: `LimitExecutor::Init` initialises the
child and leaves `offset_` and `count_` as the calls of `Next` left them. With
offset 1, count 2 and a child of four records, the calls of `Next` after the
first `Init` return the second and the third record; after one call of `Next` and
a second `Init` (the child starts over), `offset_` is 0 and `count_` is 1, and the
calls of `Next` return the first record only. -/
theorem Limit_Init_keeps_offset_count :
    pullAll LimitExecutor.Next 5
        ((LimitExecutor.new (some 1) (some 2)
          ⟨[exampleRow [1], exampleRow [2], exampleRow [3], exampleRow [4]], []⟩).Init)
      = some [exampleRow [2], exampleRow [3]]
    ∧ ((LimitExecutor.new (some 1) (some 2)
          ⟨[exampleRow [1], exampleRow [2], exampleRow [3], exampleRow [4]], []⟩).Init).Next.1
      = some (exampleRow [2])
    ∧ ((LimitExecutor.new (some 1) (some 2)
          ⟨[exampleRow [1], exampleRow [2], exampleRow [3], exampleRow [4]],
            []⟩).Init).Next.2.Init.children_0.rest
      = [exampleRow [1], exampleRow [2], exampleRow [3], exampleRow [4]]
    ∧ ((LimitExecutor.new (some 1) (some 2)
          ⟨[exampleRow [1], exampleRow [2], exampleRow [3], exampleRow [4]],
            []⟩).Init).Next.2.Init.offset_ = 0
    ∧ ((LimitExecutor.new (some 1) (some 2)
          ⟨[exampleRow [1], exampleRow [2], exampleRow [3], exampleRow [4]],
            []⟩).Init).Next.2.Init.count_ = 1
    ∧ pullAll LimitExecutor.Next 5
        ((LimitExecutor.new (some 1) (some 2)
          ⟨[exampleRow [1], exampleRow [2], exampleRow [3], exampleRow [4]],
            []⟩).Init).Next.2.Init
      = some [exampleRow [1]] := by
  refine ⟨?_, ?_, ?_, ?_, ?_, ?_⟩ <;> decide

/-- C30, where the code departs from it: for the rows `(1,1,2)` and `(2,1,1)` and the
keys `a ASC, b ASC, c ASC`, the sort on `a` gives `(1,1,2), (2,1,1)`, the partitions by
`a` are single rows, and the partitions for the third key are made from the runs
of equal values of `b` alone: both rows are in one, which the sort on `c` turns
into `(2,1,1), (1,1,2)`. The rows come out in descending order of the first key.
Each range sorted holds no two rows with equal keys, so every `std::sort` gives
this result. -/
theorem OrderBy_three_keys_not_sorted :
    (pullAll OrderByExecutor.Next 3
        (OrderByExecutor.Init intValueOps
          [(.ASC, columnValue 0), (.ASC, columnValue 1), (.ASC, columnValue 2)]
          ⟨⟨[exampleRow [1, 1, 2], exampleRow [2, 1, 1]], []⟩, [], [], 0⟩))
      = some [exampleRow [2, 1, 1], exampleRow [1, 1, 2]]
    ∧ (OrderByExecutor.Init intValueOps [(.ASC, columnValue 0)]
          ⟨⟨[exampleRow [1, 1, 2], exampleRow [2, 1, 1]], []⟩, [], [], 0⟩).sorted_records_.map
        (fun p => p.1)
      = [exampleRow [1, 1, 2], exampleRow [2, 1, 1]]
    ∧ (OrderByExecutor.Init intValueOps [(.ASC, columnValue 0), (.ASC, columnValue 1)]
          ⟨⟨[exampleRow [1, 1, 2], exampleRow [2, 1, 1]], []⟩, [], [], 0⟩).indices_ = [0]
    ∧ (pullAll OrderByExecutor.Next 4
        (OrderByExecutor.Init intValueOps [(.ASC, columnValue 0), (.DESC, columnValue 1)]
          ⟨⟨[exampleRow [1, 2], exampleRow [1, 1], exampleRow [2, 1]], []⟩, [], [], 0⟩))
      = some [exampleRow [1, 2], exampleRow [1, 1], exampleRow [2, 1]] := by
  refine ⟨?_, ?_, ?_, ?_⟩ <;> decide

/-! ## Optimizer: theorems -/

/-- C36, where the code departs from it: `SplitPredicates` looks at the children
of the node it is given and, for a child it has split, at the lower one of the
two new Filters. For a Projection over a Filter with the predicate
`a AND (b AND c)` the result is a Filter with the predicate `b AND c` over a Filter
with the predicate `a`: the upper Filter has a logical AND for predicate. A Filter
that is the root of the plan is left as it is, and so is a Filter below a Filter
the predicate of which is not an AND. -/
theorem SplitPredicates_leaves_and :
    SplitPredicates
        (.PROJECTION [] (.FILTER [] (.SEQSCAN [] "t")
          (.LOGIC .AND "" (.COMPARISON "a" (.COLUMN_VALUE "t.a") (.CONST "1"))
            (.LOGIC .AND "" (.COMPARISON "b" (.COLUMN_VALUE "t.b") (.CONST "2"))
              (.COMPARISON "c" (.COLUMN_VALUE "t.c") (.CONST "3"))))))
      = .PROJECTION []
          (.FILTER []
            (.FILTER [] (.SEQSCAN [] "t") (.COMPARISON "a" (.COLUMN_VALUE "t.a") (.CONST "1")))
            (.LOGIC .AND "" (.COMPARISON "b" (.COLUMN_VALUE "t.b") (.CONST "2"))
              (.COMPARISON "c" (.COLUMN_VALUE "t.c") (.CONST "3"))))
    ∧ SplitPredicates
        (.FILTER [] (.SEQSCAN [] "t")
          (.LOGIC .AND "" (.COMPARISON "a" (.COLUMN_VALUE "t.a") (.CONST "1"))
            (.COMPARISON "b" (.COLUMN_VALUE "t.b") (.CONST "2"))))
      = .FILTER [] (.SEQSCAN [] "t")
          (.LOGIC .AND "" (.COMPARISON "a" (.COLUMN_VALUE "t.a") (.CONST "1"))
            (.COMPARISON "b" (.COLUMN_VALUE "t.b") (.CONST "2")))
    ∧ SplitPredicates
        (.PROJECTION []
          (.FILTER []
            (.FILTER [] (.SEQSCAN [] "t")
              (.LOGIC .AND "" (.COMPARISON "a" (.COLUMN_VALUE "t.a") (.CONST "1"))
                (.COMPARISON "b" (.COLUMN_VALUE "t.b") (.CONST "2"))))
            (.COMPARISON "c" (.COLUMN_VALUE "t.c") (.CONST "3"))))
      = .PROJECTION []
          (.FILTER []
            (.FILTER [] (.SEQSCAN [] "t")
              (.LOGIC .AND "" (.COMPARISON "a" (.COLUMN_VALUE "t.a") (.CONST "1"))
                (.COMPARISON "b" (.COLUMN_VALUE "t.b") (.CONST "2"))))
            (.COMPARISON "c" (.COLUMN_VALUE "t.c") (.CONST "3")))
    ∧ SplitPredicates
        (.PROJECTION [] (.FILTER [] (.SEQSCAN [] "t")
          (.LOGIC .AND ""
            (.LOGIC .AND "" (.COMPARISON "a" (.COLUMN_VALUE "t.a") (.CONST "1"))
              (.COMPARISON "b" (.COLUMN_VALUE "t.b") (.CONST "2")))
            (.COMPARISON "c" (.COLUMN_VALUE "t.c") (.CONST "3")))))
      = .PROJECTION []
          (.FILTER []
            (.FILTER []
              (.FILTER [] (.SEQSCAN [] "t")
                (.COMPARISON "a" (.COLUMN_VALUE "t.a") (.CONST "1")))
              (.COMPARISON "b" (.COLUMN_VALUE "t.b") (.CONST "2")))
            (.COMPARISON "c" (.COLUMN_VALUE "t.c") (.CONST "3"))) :=
  ⟨rfl, rfl, rfl, rfl⟩

/-- C37, where the code departs from it: for the Filters with the predicates
`t1.a = 1`, `t1.b = 2` and `t2.c = 3`, in this order from the root, over a
NestedLoopJoin of the scans of `t1` and `t2`, `PushDown` returns the join of a
Filter `t1.a = 1` over the scan of `t1` and a Filter `t2.c = 3` over the scan of `t2`.
The predicate `t1.b = 2` was not placed (its mark is `false`) and its Filter is
removed: each Filter reads the mark of the last entry of `filter_conditions_`,
which is that of `t2.c = 3`. -/
theorem PushDown_loses_predicate :
    PushDown
        (.FILTER []
          (.FILTER []
            (.FILTER []
              (.NESTEDLOOP [] (.SEQSCAN [] "t1") (.SEQSCAN [] "t2") (.CONST "true"))
              (.COMPARISON "t2.c = 3" (.COLUMN_VALUE "t2.c") (.CONST "3")))
            (.COMPARISON "t1.b = 2" (.COLUMN_VALUE "t1.b") (.CONST "2")))
          (.COMPARISON "t1.a = 1" (.COLUMN_VALUE "t1.a") (.CONST "1")))
        none ⟨[], [], []⟩
      = (.NESTEDLOOP []
          (.FILTER [] (.SEQSCAN [] "t1")
            (.COMPARISON "t1.a = 1" (.COLUMN_VALUE "t1.a") (.CONST "1")))
          (.FILTER [] (.SEQSCAN [] "t2")
            (.COMPARISON "t2.c = 3" (.COLUMN_VALUE "t2.c") (.CONST "3")))
          (.CONST "true"),
        ⟨[],
          [(.COMPARISON "t1.a = 1" (.COLUMN_VALUE "t1.a") (.CONST "1"), true),
            (.COMPARISON "t1.b = 2" (.COLUMN_VALUE "t1.b") (.CONST "2"), false),
            (.COMPARISON "t2.c = 3" (.COLUMN_VALUE "t2.c") (.CONST "3"), true)],
          ["t1", "t2"]⟩) := by
  decide

/-- C38: `ReorderJoin` with the algorithm `NONE` or `DP` returns the plan it is
given, whatever the plan, and with `GREEDY` it returns a plan the root of which is
an Insert node as it is given. -/
theorem ReorderJoin_unchanged (plan : Operator) :
    ReorderJoin .NONE plan = some plan
    ∧ ReorderJoin .DP plan = some plan
    ∧ ∀ (column_list_ : List String) (child : Operator),
        ReorderJoin .GREEDY (.INSERT column_list_ child) = some (.INSERT column_list_ child) :=
  ⟨rfl, rfl, fun _ _ => rfl⟩

/-! ## Lock manager: compatibility of the held locks -/

/-- A mode compatible with two modes is compatible with their upgrade. -/
theorem Compatible_Upgrade (o h c : LockType) (h1 : Compatible o h = true)
    (h2 : Compatible o c = true) : Compatible o (Upgrade h c) = true := by
  cases o <;> cases h <;> cases c <;> first | rfl | exact h1 | exact h2

/-- The entries after the second loop of `LockTable` found a lock to upgrade: the
entries there were, but for one table lock of `xid` that has its mode upgraded. -/
theorem tableUpgrade_mem (xid : Nat) (lock_type : LockType) (l : List ResourceLock) :
    ∀ (l1 : List ResourceLock), tableUpgrade xid lock_type l = some l1 →
      ∀ x ∈ l1, x ∈ l ∨ ∃ e ∈ l, e.xid_t_ = xid ∧ e.lock_granularity_ = .TABLE
        ∧ x = { e with lock_type_ := Upgrade e.lock_type_ lock_type } := by
  induction l with
  | nil => intro l1 h; cases h
  | cons entry rest ih =>
    intro l1 h x hx
    unfold tableUpgrade at h
    by_cases hc : entry.xid_t_ = xid ∧ entry.lock_granularity_ = LockGranularity.TABLE
    · rw [if_pos hc] at h
      injection h with h
      subst h
      rcases List.mem_cons.mp hx with rfl | hx
      · exact Or.inr ⟨entry, List.mem_cons_self _ _, hc.1, hc.2, rfl⟩
      · exact Or.inl (List.mem_cons_of_mem _ hx)
    · rw [if_neg hc] at h
      cases hr : tableUpgrade xid lock_type rest with
      | none => rw [hr] at h; cases h
      | some r =>
        rw [hr] at h
        injection h with h
        subst h
        rcases List.mem_cons.mp hx with rfl | hx
        · exact Or.inl (List.mem_cons_self _ _)
        · rcases ih r hr x hx with h1 | ⟨e, he, h1, h2, h3⟩
          · exact Or.inl (List.mem_cons_of_mem _ h1)
          · exact Or.inr ⟨e, List.mem_cons_of_mem _ he, h1, h2, h3⟩

/-- The entries after the second loop of `LockRow` found a lock to upgrade. -/
theorem rowUpgrade_mem (xid : Nat) (lock_type : LockType) (rid : Rid) (l : List ResourceLock) :
    ∀ (l1 : List ResourceLock), rowUpgrade xid lock_type rid l = some l1 →
      ∀ x ∈ l1, x ∈ l ∨ ∃ e ∈ l, e.xid_t_ = xid ∧ sameRow rid e
        ∧ x = { e with lock_type_ := Upgrade e.lock_type_ lock_type } := by
  induction l with
  | nil => intro l1 h; cases h
  | cons entry rest ih =>
    intro l1 h x hx
    unfold rowUpgrade at h
    by_cases hc : sameRow rid entry ∧ entry.xid_t_ = xid
    · rw [if_pos hc] at h
      injection h with h
      subst h
      rcases List.mem_cons.mp hx with rfl | hx
      · exact Or.inr ⟨entry, List.mem_cons_self _ _, hc.2, hc.1, rfl⟩
      · exact Or.inl (List.mem_cons_of_mem _ hx)
    · rw [if_neg hc] at h
      cases hr : rowUpgrade xid lock_type rid rest with
      | none => rw [hr] at h; cases h
      | some r =>
        rw [hr] at h
        injection h with h
        subst h
        rcases List.mem_cons.mp hx with rfl | hx
        · exact Or.inl (List.mem_cons_self _ _)
        · rcases ih r hr x hx with h1 | ⟨e, he, h1, h2, h3⟩
          · exact Or.inl (List.mem_cons_of_mem _ h1)
          · exact Or.inr ⟨e, List.mem_cons_of_mem _ he, h1, h2, h3⟩

/-- The entries of an object after `LockTable`: the entries there were, or a table
lock of `xid` the mode of which is the requested one or the upgrade by it of the
mode of a table lock `xid` held, and these only when no table lock of another
transaction is incompatible with the request. -/
theorem LockTable_mem (m : LockMap) (xid : Nat) (lock_type : LockType) (oid o : Nat)
    (x : ResourceLock) (hx : x ∈ (LockTable m xid lock_type oid).2 o) :
    x ∈ m o
    ∨ (o = oid ∧ x.xid_t_ = xid ∧ x.lock_granularity_ = .TABLE
      ∧ (∀ e ∈ m oid, e.lock_granularity_ = .TABLE → e.xid_t_ ≠ xid →
          Compatible e.lock_type_ lock_type = true)
      ∧ (x.lock_type_ = lock_type
        ∨ ∃ e ∈ m oid, e.xid_t_ = xid ∧ e.lock_granularity_ = .TABLE
            ∧ x.lock_type_ = Upgrade e.lock_type_ lock_type)) := by
  unfold LockTable at hx
  by_cases hc : tableConflict xid lock_type (m oid) = true
  · rw [if_pos hc] at hx
    exact Or.inl hx
  · rw [if_neg hc] at hx
    have hcompat : ∀ e ∈ m oid, e.lock_granularity_ = .TABLE → e.xid_t_ ≠ xid →
        Compatible e.lock_type_ lock_type = true := by
      intro e he hg hne
      by_contra hn
      exact hc ((tableConflict_iff _ _ _).mpr ⟨e, he, hg, hne, by simpa using hn⟩)
    by_cases ho : o = oid
    · subst ho
      cases hu : tableUpgrade xid lock_type (m o) with
      | none =>
        rw [hu] at hx
        have hx1 : x ∈ m o ++ [⟨lock_type, .TABLE, xid, ⟨0, 0⟩⟩] := by
          simpa [LockMap.set] using hx
        rcases List.mem_append.mp hx1 with h | h
        · exact Or.inl h
        · rw [List.mem_singleton.mp h]
          exact Or.inr ⟨rfl, rfl, rfl, hcompat, Or.inl rfl⟩
      | some l1 =>
        rw [hu] at hx
        have hx1 : x ∈ l1 := by simpa [LockMap.set] using hx
        rcases tableUpgrade_mem xid lock_type (m o) l1 hu x hx1 with h | ⟨e, he, h1, h2, h3⟩
        · exact Or.inl h
        · refine Or.inr ⟨rfl, ?_, ?_, hcompat, Or.inr ⟨e, he, h1, h2, ?_⟩⟩
          · rw [h3]; exact h1
          · rw [h3]; exact h2
          · rw [h3]
    · left
      cases hu : tableUpgrade xid lock_type (m oid) with
      | none => rw [hu] at hx; simpa [LockMap.set, ho] using hx
      | some l1 => rw [hu] at hx; simpa [LockMap.set, ho] using hx

/-- The entries of an object after `LockRow`: the entries there were, or a lock of
`xid` on the row the mode of which is the requested one or the upgrade by it of
the mode of a lock `xid` held on the row, and these only when no lock of another
transaction on the row is incompatible with the request. -/
theorem LockRow_mem (m : LockMap) (xid : Nat) (lock_type : LockType) (oid : Nat) (rid : Rid)
    (o : Nat) (x : ResourceLock) (hx : x ∈ (LockRow m xid lock_type oid rid).2 o) :
    x ∈ m o
    ∨ (o = oid ∧ x.xid_t_ = xid ∧ sameRow rid x
      ∧ (∀ e ∈ m oid, sameRow rid e → e.xid_t_ ≠ xid →
          Compatible e.lock_type_ lock_type = true)
      ∧ (x.lock_type_ = lock_type
        ∨ ∃ e ∈ m oid, e.xid_t_ = xid ∧ sameRow rid e
            ∧ x.lock_type_ = Upgrade e.lock_type_ lock_type)) := by
  unfold LockRow at hx
  by_cases hc : rowConflict xid lock_type rid (m oid) = true
  · rw [if_pos hc] at hx
    exact Or.inl hx
  · rw [if_neg hc] at hx
    have hcompat : ∀ e ∈ m oid, sameRow rid e → e.xid_t_ ≠ xid →
        Compatible e.lock_type_ lock_type = true := by
      intro e he hg hne
      by_contra hn
      exact hc ((rowConflict_iff _ _ _ _).mpr ⟨e, he, hg, hne, by simpa using hn⟩)
    by_cases ho : o = oid
    · subst ho
      cases hu : rowUpgrade xid lock_type rid (m o) with
      | none =>
        rw [hu] at hx
        have hx1 : x ∈ m o ++ [⟨lock_type, .ROW, xid, rid⟩] := by
          simpa [LockMap.set] using hx
        rcases List.mem_append.mp hx1 with h | h
        · exact Or.inl h
        · rw [List.mem_singleton.mp h]
          exact Or.inr ⟨rfl, rfl, ⟨rfl, rfl, rfl⟩, hcompat, Or.inl rfl⟩
      | some l1 =>
        rw [hu] at hx
        have hx1 : x ∈ l1 := by simpa [LockMap.set] using hx
        rcases rowUpgrade_mem xid lock_type rid (m o) l1 hu x hx1 with h | ⟨e, he, h1, h2, h3⟩
        · exact Or.inl h
        · refine Or.inr ⟨rfl, ?_, ?_, hcompat, Or.inr ⟨e, he, h1, h2, ?_⟩⟩
          · rw [h3]; exact h1
          · rw [h3]; exact h2
          · rw [h3]
    · left
      cases hu : rowUpgrade xid lock_type rid (m oid) with
      | none => rw [hu] at hx; simpa [LockMap.set, ho] using hx
      | some l1 => rw [hu] at hx; simpa [LockMap.set, ho] using hx

/-- Two record identifiers with the same slot and page are the same. -/
theorem sameRow_rid (rid : Rid) (a b : ResourceLock) (ha : sameRow rid a) (hb : sameRow rid b) :
    a.rid_ = b.rid_ := by
  obtain ⟨a1, a2, _⟩ := ha
  obtain ⟨b1, b2, _⟩ := hb
  cases hra : a.rid_ with
  | mk pa sa =>
    cases hrb : b.rid_ with
    | mk pb sb =>
      rw [hra] at a1 a2
      rw [hrb] at b1 b2
      simp only at a1 a2 b1 b2
      rw [a1, a2, b1, b2]

/-- A call of `LockTable` keeps the held locks compatible. -/
theorem LockTable_compatible (m : LockMap) (xid : Nat) (lock_type : LockType) (oid : Nat)
    (hinv : LocksCompatible m) : LocksCompatible (LockTable m xid lock_type oid).2 := by
  have key : ∀ (o : Nat) (a b : ResourceLock),
      (o = oid ∧ a.xid_t_ = xid ∧ a.lock_granularity_ = .TABLE
        ∧ (∀ e ∈ m oid, e.lock_granularity_ = .TABLE → e.xid_t_ ≠ xid →
            Compatible e.lock_type_ lock_type = true)
        ∧ (a.lock_type_ = lock_type
          ∨ ∃ e ∈ m oid, e.xid_t_ = xid ∧ e.lock_granularity_ = .TABLE
              ∧ a.lock_type_ = Upgrade e.lock_type_ lock_type)) →
      b ∈ m o → a.xid_t_ ≠ b.xid_t_ → b.lock_granularity_ = .TABLE →
      Compatible b.lock_type_ a.lock_type_ = true := by
    rintro o a b ⟨ho, hax, _, hcompat, hty⟩ hb hne hbg
    subst ho
    have hbx : b.xid_t_ ≠ xid := fun h => hne (hax.trans h.symm)
    have hbt := hcompat b hb hbg hbx
    rcases hty with h | ⟨e, he, hex, heg, h⟩
    · rw [h]; exact hbt
    · rw [h]
      have hbe : b.xid_t_ ≠ e.xid_t_ := fun h => hbx (h.trans hex)
      exact Compatible_Upgrade _ _ _ ((hinv o b hb e he hbe).1 hbg heg) hbt
  intro o a ha b hb hne
  rcases LockTable_mem m xid lock_type oid o a ha with ha1 | ha2
  · rcases LockTable_mem m xid lock_type oid o b hb with hb1 | hb2
    · exact hinv o a ha1 b hb1 hne
    · refine ⟨fun hag _ => ?_, fun _ hbg _ => ?_⟩
      · exact key o b a hb2 ha1 (fun h => hne h.symm) hag
      · rw [hb2.2.2.1] at hbg; cases hbg
  · rcases LockTable_mem m xid lock_type oid o b hb with hb1 | hb2
    · refine ⟨fun _ hbg => ?_, fun hag _ _ => ?_⟩
      · rw [Compatible_symm]
        exact key o a b ha2 hb1 hne hbg
      · rw [ha2.2.2.1] at hag; cases hag
    · exact absurd (ha2.2.1.trans hb2.2.1.symm) hne

/-- A call of `LockRow` keeps the held locks compatible. -/
theorem LockRow_compatible (m : LockMap) (xid : Nat) (lock_type : LockType) (oid : Nat)
    (rid : Rid) (hinv : LocksCompatible m) :
    LocksCompatible (LockRow m xid lock_type oid rid).2 := by
  have key : ∀ (o : Nat) (a b : ResourceLock),
      (o = oid ∧ a.xid_t_ = xid ∧ sameRow rid a
        ∧ (∀ e ∈ m oid, sameRow rid e → e.xid_t_ ≠ xid →
            Compatible e.lock_type_ lock_type = true)
        ∧ (a.lock_type_ = lock_type
          ∨ ∃ e ∈ m oid, e.xid_t_ = xid ∧ sameRow rid e
              ∧ a.lock_type_ = Upgrade e.lock_type_ lock_type)) →
      b ∈ m o → a.xid_t_ ≠ b.xid_t_ → b.lock_granularity_ = .ROW → a.rid_ = b.rid_ →
      Compatible b.lock_type_ a.lock_type_ = true := by
    rintro o a b ⟨ho, hax, harow, hcompat, hty⟩ hb hne hbg hrid
    subst ho
    have hbx : b.xid_t_ ≠ xid := fun h => hne (hax.trans h.symm)
    have hbrow : sameRow rid b := by
      obtain ⟨a1, a2, _⟩ := harow
      exact ⟨by rw [← hrid]; exact a1, by rw [← hrid]; exact a2, hbg⟩
    have hbt := hcompat b hb hbrow hbx
    rcases hty with h | ⟨e, he, hex, herow, h⟩
    · rw [h]; exact hbt
    · rw [h]
      have hbe : b.xid_t_ ≠ e.xid_t_ := fun h => hbx (h.trans hex)
      exact Compatible_Upgrade _ _ _
        ((hinv o b hb e he hbe).2 hbg herow.2.2 (sameRow_rid rid b e hbrow herow)) hbt
  intro o a ha b hb hne
  rcases LockRow_mem m xid lock_type oid rid o a ha with ha1 | ha2
  · rcases LockRow_mem m xid lock_type oid rid o b hb with hb1 | hb2
    · exact hinv o a ha1 b hb1 hne
    · refine ⟨fun _ hbg => ?_, fun hag _ hrid => ?_⟩
      · rw [hb2.2.2.1.2.2] at hbg; cases hbg
      · exact key o b a hb2 ha1 (fun h => hne h.symm) hag hrid.symm
  · rcases LockRow_mem m xid lock_type oid rid o b hb with hb1 | hb2
    · refine ⟨fun hag _ => ?_, fun _ hbg hrid => ?_⟩
      · rw [ha2.2.2.1.2.2] at hag; cases hag
      · rw [Compatible_symm]
        exact key o a b ha2 hb1 hne hbg hrid
    · exact absurd (ha2.2.1.trans hb2.2.1.symm) hne

/-- A call of `ReleaseLocks` keeps the held locks compatible. -/
theorem ReleaseLocks_compatible (m : LockMap) (xid : Nat) (hinv : LocksCompatible m) :
    LocksCompatible (ReleaseLocks m xid) := by
  intro o a ha b hb hne
  have hsub : ∀ x ∈ ReleaseLocks m xid o, x ∈ m o := by
    intro x hx
    unfold ReleaseLocks at hx
    rw [eraseLocksOf_eq_filter] at hx
    exact (List.mem_filter.mp hx).1
  exact hinv o a (hsub a ha) b (hsub b hb) hne

/-- A sequence of calls keeps the held locks compatible. -/
theorem run_compatible (calls : List LockCall) :
    ∀ (m : LockMap), LocksCompatible m → LocksCompatible (m.run calls) := by
  induction calls with
  | nil => intro m h; exact h
  | cons c cs ih =>
    intro m h
    show LocksCompatible ((m.call c).run cs)
    apply ih
    cases c with
    | LockTable xid lock_type oid => exact LockTable_compatible m xid lock_type oid h
    | LockRow xid lock_type oid rid => exact LockRow_compatible m xid lock_type oid rid h
    | ReleaseLocks xid => exact ReleaseLocks_compatible m xid h

/-- C39: in every state of the lock manager reached from the state without
locks by calls of `LockTable`, `LockRow` and `ReleaseLocks` (granted or refused), any
two table locks on the same object held by different transactions have
compatible modes, and so have any two row locks on the same row of the same
object held by different transactions; a mode replaced by `Upgrade(held,
requested)` is one of the modes this is said of. -/
theorem held_locks_compatible (calls : List LockCall) :
    LocksCompatible (LockMap.empty.run calls)
    ∧ ∀ (oid : Nat) (a b : ResourceLock),
        a ∈ LockMap.empty.run calls oid → b ∈ LockMap.empty.run calls oid →
        a.xid_t_ ≠ b.xid_t_ →
        (a.lock_granularity_ = .TABLE → b.lock_granularity_ = .TABLE →
          Compatible a.lock_type_ b.lock_type_ = true)
        ∧ (a.lock_granularity_ = .ROW → b.lock_granularity_ = .ROW → a.rid_ = b.rid_ →
          Compatible a.lock_type_ b.lock_type_ = true) := by
  have h : LocksCompatible (LockMap.empty.run calls) :=
    run_compatible calls LockMap.empty (by intro o a ha; cases ha)
  exact ⟨h, fun oid a b ha hb hne => h oid a ha b hb hne⟩

/-! ## OrderBy: the records yielded are those of the child -/

/-- Putting an element into a list gives a permutation of the list with the
element. -/
theorem insertSorted_perm {α : Type} (comp : α → α → Bool) (x : α) (l : List α) :
    (insertSorted comp x l).Perm (x :: l) := by
  induction l with
  | nil => exact List.Perm.refl _
  | cons y ys ih =>
    unfold insertSorted
    split
    · exact ((List.Perm.cons y ih).trans (List.Perm.swap x y ys))
    · exact List.Perm.refl _

/-- The sort gives a permutation of the list. -/
theorem stdSort_perm {α : Type} (comp : α → α → Bool) (l : List α) :
    (stdSort comp l).Perm l := by
  induction l with
  | nil => exact List.Perm.refl _
  | cons x xs ih =>
    show (insertSorted comp x (stdSort comp xs)).Perm (x :: xs)
    exact (insertSorted_perm comp x _).trans (List.Perm.cons x ih)

/-- Sorting a range with `lo ≤ hi` gives a permutation of the list. -/
theorem sortRange_perm {α : Type} (comp : α → α → Bool) (v : List α) (lo hi : Nat)
    (h : lo ≤ hi) : (sortRange comp v lo hi).Perm v := by
  have hsplit : v = v.take lo ++ ((v.take hi).drop lo ++ v.drop hi) := by
    have h1 : (v.take hi).drop lo ++ v.drop hi = v.drop lo := by
      have h2 : v.drop lo = (v.take hi ++ v.drop hi).drop lo := by rw [List.take_append_drop]
      rw [h2, List.drop_append_eq_append_drop]
      have h3 : lo - (v.take hi).length = 0 ∨ v.drop hi = [] := by
        rw [List.length_take]
        by_cases hl : hi ≤ v.length
        · left; omega
        · right
          exact List.drop_eq_nil_of_le (by omega)
      rcases h3 with h3 | h3
      · rw [h3, List.drop_zero]
      · rw [h3, List.drop_nil]
    rw [h1, List.take_append_drop]
  unfold sortRange
  rw [List.append_assoc]
  exact (List.Perm.append_left _ (List.Perm.append_right _ (stdSort_perm comp _))).trans
    (by rw [← hsplit])

/-- Sorting the partitions between non-decreasing boundaries gives a permutation
of the list. -/
theorem sortPartitions_perm {α : Type} (comp : α → α → Bool) (indices : List Nat) :
    ∀ (v : List α), indices.Pairwise (fun a b => a ≤ b) →
      (∀ i ∈ indices, i ≤ v.length) → (sortPartitions comp v indices).Perm v := by
  induction indices with
  | nil => intro v _ _; exact List.Perm.refl _
  | cons a rest ih =>
    intro v hs hb
    cases rest with
    | nil =>
      exact sortRange_perm comp v a v.length (hb a (List.mem_cons_self _ _))
    | cons b rest2 =>
      rw [List.pairwise_cons] at hs
      have hab : a ≤ b := hs.1 b (List.mem_cons_self _ _)
      have hp := sortRange_perm comp v a b hab
      show (sortPartitions comp (sortRange comp v a b) (b :: rest2)).Perm v
      refine (ih (sortRange comp v a b) hs.2 ?_).trans hp
      intro i hi
      rw [hp.length_eq]
      exact hb i (List.mem_cons_of_mem _ hi)

/-- The boundaries pushed from position `i` on are at least `i`, below the
position after the last value, and increasing. -/
theorem boundariesFrom_sorted {ν : Type} (Equal : ν → ν → Bool) (vs : List ν) :
    ∀ (i : Nat) (prev : ν),
      (∀ j ∈ boundariesFrom Equal i prev vs, i ≤ j ∧ j < i + vs.length)
      ∧ (boundariesFrom Equal i prev vs).Pairwise (fun a b => a ≤ b) := by
  induction vs with
  | nil => intro i prev; exact ⟨by simp [boundariesFrom], List.Pairwise.nil⟩
  | cons v rest ih =>
    intro i prev
    obtain ⟨h1, h2⟩ := ih (i + 1) v
    unfold boundariesFrom
    split
    · refine ⟨?_, h2⟩
      intro j hj
      have := h1 j hj
      simp only [List.length_cons]
      omega
    · refine ⟨?_, ?_⟩
      · intro j hj
        simp only [List.length_cons]
        rcases List.mem_cons.mp hj with rfl | hj
        · omega
        · have := h1 j hj
          omega
      · rw [List.pairwise_cons]
        refine ⟨?_, h2⟩
        intro j hj
        have := h1 j hj
        omega

/-- The value of `indices_` after a key: non-decreasing positions, none beyond the
number of values. -/
theorem boundaries_sorted {ν : Type} (Equal : ν → ν → Bool) (values : List ν) :
    (boundaries Equal values).Pairwise (fun a b => a ≤ b)
    ∧ ∀ i ∈ boundaries Equal values, i ≤ values.length := by
  unfold boundaries
  cases values with
  | nil => simp
  | cons v vs =>
    obtain ⟨h1, h2⟩ := boundariesFrom_sorted Equal vs 1 v
    refine ⟨?_, ?_⟩
    · rw [List.pairwise_cons]
      exact ⟨fun j _ => Nat.zero_le _, h2⟩
    · intro i hi
      simp only [List.length_cons]
      rcases List.mem_cons.mp hi with rfl | hi
      · omega
      · have := h1 i hi
        omega

/-- A key of the `ORDER BY` list rearranges the records and leaves `indices_` made
of non-decreasing positions within the records. -/
theorem orderByStep_perm {ν : Type} (V : ValueOps ν)
    (state : List (Record × ν) × List Nat × Nat) (sortSpec : OrderByType × (Record → ν))
    (hs : state.2.1.Pairwise (fun a b => a ≤ b)) (hb : ∀ i ∈ state.2.1, i ≤ state.1.length) :
    ((orderByStep V state sortSpec).1.map (fun p => p.1)).Perm (state.1.map (fun p => p.1))
    ∧ (orderByStep V state sortSpec).2.1.Pairwise (fun a b => a ≤ b)
    ∧ ∀ i ∈ (orderByStep V state sortSpec).2.1, i ≤ (orderByStep V state sortSpec).1.length := by
  have hmap : (state.1.map (fun recordPair => (recordPair.1, sortSpec.2 recordPair.1))).map
      (fun p => p.1) = state.1.map (fun p => p.1) := by
    rw [List.map_map]; rfl
  have hlen : (state.1.map (fun recordPair => (recordPair.1, sortSpec.2 recordPair.1))).length
      = state.1.length := List.length_map _ _
  have hperm : (orderByStep V state sortSpec).1.Perm
      (state.1.map (fun recordPair => (recordPair.1, sortSpec.2 recordPair.1))) := by
    unfold orderByStep
    dsimp only
    split
    · split
      · exact stdSort_perm _ _
      · split
        · exact stdSort_perm _ _
        · exact List.Perm.refl _
    · split
      · exact sortPartitions_perm _ _ _ hs (by rw [hlen]; exact hb)
      · split
        · exact sortPartitions_perm _ _ _ hs (by rw [hlen]; exact hb)
        · exact List.Perm.refl _
  have hbd := boundaries_sorted V.Equal ((orderByStep V state sortSpec).1.map (fun p => p.2))
  refine ⟨?_, hbd.1, ?_⟩
  · rw [← hmap]
    exact hperm.map _
  · intro i hi
    have := hbd.2 i hi
    rwa [List.length_map] at this

/-- The loop over the `ORDER BY` list rearranges the records. -/
theorem orderBy_foldl_perm {ν : Type} (V : ValueOps ν)
    (order_bys : List (OrderByType × (Record → ν))) :
    ∀ (state : List (Record × ν) × List Nat × Nat),
      state.2.1.Pairwise (fun a b => a ≤ b) → (∀ i ∈ state.2.1, i ≤ state.1.length) →
      ((order_bys.foldl (orderByStep V) state).1.map (fun p => p.1)).Perm
        (state.1.map (fun p => p.1)) := by
  induction order_bys with
  | nil => intro state _ _; exact List.Perm.refl _
  | cons k ks ih =>
    intro state hs hb
    obtain ⟨h1, h2, h3⟩ := orderByStep_perm V state k hs hb
    exact (ih _ h2 h3).trans h1

/-- The records `OrderByExecutor::Next` returns up to the first null pointer: those
of `sorted_records_` from `index_` on. -/
theorem OrderBy_pullAll {ν : Type} (n : Nat) :
    ∀ (e : OrderByExecutor ν) (fuel : Nat),
      e.sorted_records_.length - e.index_ = n → n < fuel →
      pullAll OrderByExecutor.Next fuel e
        = some ((e.sorted_records_.drop e.index_).map (fun p => p.1)) := by
  induction n with
  | zero =>
    intro e fuel hn hf
    cases fuel with
    | zero => simp at hf
    | succ f =>
      have hlt : ¬ e.index_ < e.sorted_records_.length := by omega
      have hnext : OrderByExecutor.Next e = (none, e) := by
        unfold OrderByExecutor.Next
        rw [dif_neg hlt]
      have hd : e.sorted_records_.drop e.index_ = [] := List.drop_eq_nil_of_le (by omega)
      unfold pullAll
      rw [hnext, hd]
      rfl
  | succ k ih =>
    intro e fuel hn hf
    cases fuel with
    | zero => simp at hf
    | succ f =>
      have hlt : e.index_ < e.sorted_records_.length := by omega
      have hnext : OrderByExecutor.Next e
          = (some (e.sorted_records_.get ⟨e.index_, hlt⟩).1,
              { e with index_ := e.index_ + 1 }) := by
        unfold OrderByExecutor.Next
        rw [dif_pos hlt]
      have hrec := ih { e with index_ := e.index_ + 1 } f
        (by show e.sorted_records_.length - (e.index_ + 1) = k; omega) (by omega)
      unfold pullAll
      rw [hnext]
      dsimp only
      rw [hrec]
      show some (_ :: List.map _ (List.drop (e.index_ + 1) e.sorted_records_)) = _
      rw [List.drop_eq_getElem_cons hlt]
      rfl

/-- C40: for every child sequence and every list of `ORDER BY` keys, the empty one
included, the calls of `Next` after `Init` reach the null pointer (with fuel for
one call more than the child has records) and the records they return before
it are a permutation of the records of the child, as many as these; with no
key they are the records of the child in their order, and for a child without
records the first `Next` returns the null pointer. -/
theorem OrderBy_permutation {ν : Type} (V : ValueOps ν)
    (order_bys : List (OrderByType × (Record → ν))) (e : OrderByExecutor ν) (fuel : Nat)
    (hfuel : e.children_0.rows.length < fuel) :
    ∃ out, pullAll OrderByExecutor.Next fuel (OrderByExecutor.Init V order_bys e) = some out
      ∧ out.Perm e.children_0.rows
      ∧ out.length = e.children_0.rows.length
      ∧ (order_bys = [] → out = e.children_0.rows)
      ∧ (e.children_0.rows = [] → (OrderByExecutor.Init V order_bys e).Next.1 = none) := by
  have hcol : (e.children_0.rows.map (fun current => (current, V.null))).map (fun p => p.1)
      = e.children_0.rows := by
    rw [List.map_map]
    exact List.map_id _
  have hperm : ((OrderByExecutor.Init V order_bys e).sorted_records_.map (fun p => p.1)).Perm
      e.children_0.rows := by
    have h := orderBy_foldl_perm V order_bys
      (e.children_0.rows.map (fun current => (current, V.null)), [], 1)
      List.Pairwise.nil (by intro i hi; cases hi)
    rw [hcol] at h
    exact h
  have hlen : (OrderByExecutor.Init V order_bys e).sorted_records_.length
      = e.children_0.rows.length := by
    have := hperm.length_eq
    rwa [List.length_map] at this
  have hidx : (OrderByExecutor.Init V order_bys e).index_ = 0 := rfl
  have hpull := OrderBy_pullAll
    ((OrderByExecutor.Init V order_bys e).sorted_records_.length
      - (OrderByExecutor.Init V order_bys e).index_)
    (OrderByExecutor.Init V order_bys e) fuel rfl (by rw [hidx, hlen]; omega)
  rw [hidx, List.drop_zero] at hpull
  refine ⟨_, hpull, hperm, ?_, ?_, ?_⟩
  · rw [List.length_map, hlen]
  · intro hk
    subst hk
    exact hcol
  · intro hc
    have hnil : (OrderByExecutor.Init V order_bys e).sorted_records_ = [] := by
      apply List.eq_nil_of_length_eq_zero
      rw [hlen, hc]
      rfl
    unfold OrderByExecutor.Next
    rw [dif_neg (by rw [hnil, hidx]; exact Nat.lt_irrefl 0)]

/-- C40 on the rows `(1,2), (1,1), (2,1)` with the keys `a ASC, b DESC`: the calls of
`Next` return a permutation of the three rows. -/
theorem OrderBy_permutation_witness :
    ∃ out, pullAll OrderByExecutor.Next 4
        (OrderByExecutor.Init intValueOps [(.ASC, columnValue 0), (.DESC, columnValue 1)]
          ⟨⟨[exampleRow [1, 2], exampleRow [1, 1], exampleRow [2, 1]], []⟩, [], [], 0⟩)
        = some out
      ∧ out.Perm [exampleRow [1, 2], exampleRow [1, 1], exampleRow [2, 1]]
      ∧ out.length = 3 :=
  (OrderBy_permutation intValueOps [(.ASC, columnValue 0), (.DESC, columnValue 1)]
    ⟨⟨[exampleRow [1, 2], exampleRow [1, 1], exampleRow [2, 1]], []⟩, [], [], 0⟩ 4
    (by decide)).imp (fun _ h => ⟨h.1, h.2.1, h.2.2.1⟩)

/-! ## Loops with fuel: more fuel gives the same result -/

/-- A loop that returns with some fuel returns the same with more. -/
theorem runLoop_mono {σ ρ : Type} (step : σ → Sum σ (ρ × σ)) :
    ∀ (n : Nat) (e : σ) (x : ρ × σ), runLoop step n e = some x →
      ∀ n1, n ≤ n1 → runLoop step n1 e = some x := by
  intro n
  induction n with
  | zero => intro e x h; cases h
  | succ n ih =>
    intro e x h n1 hn
    obtain ⟨k, rfl⟩ : ∃ k, n1 = k + 1 := ⟨n1 - 1, by omega⟩
    unfold runLoop at h ⊢
    cases hs : step e with
    | inl e1 =>
      rw [hs] at h
      exact ih e1 x h k (by omega)
    | inr out =>
      rw [hs] at h
      exact h

/-- The records pulled with calls of `Next` that have some fuel are pulled with
calls that have more. -/
theorem pullAllF_mono_next {σ : Type} (step : σ → Sum σ (Option Record × σ)) (n n1 : Nat)
    (hn : n ≤ n1) :
    ∀ (m : Nat) (e : σ) (out : List Record), pullAllF (runLoop step n) m e = some out →
      pullAllF (runLoop step n1) m e = some out := by
  intro m
  induction m with
  | zero => intro e out h; cases h
  | succ m ih =>
    intro e out h
    unfold pullAllF at h ⊢
    cases hr : runLoop step n e with
    | none => rw [hr] at h; cases h
    | some x =>
      rw [hr] at h
      rw [runLoop_mono step n e x hr n1 hn]
      obtain ⟨r, e1⟩ := x
      cases r with
      | none => exact h
      | some r =>
        dsimp only at h ⊢
        cases hp : pullAllF (runLoop step n) m e1 with
        | none => rw [hp] at h; cases h
        | some l =>
          rw [hp] at h
          rw [ih e1 l hp]
          exact h

/-- The records pulled with some calls are pulled when more calls are allowed. -/
theorem pullAllF_mono_fuel {σ : Type} (next : σ → Option (Option Record × σ)) :
    ∀ (m : Nat) (e : σ) (out : List Record), pullAllF next m e = some out →
      ∀ m1, m ≤ m1 → pullAllF next m1 e = some out := by
  intro m
  induction m with
  | zero => intro e out h; cases h
  | succ m ih =>
    intro e out h m1 hm
    obtain ⟨k, rfl⟩ : ∃ k, m1 = k + 1 := ⟨m1 - 1, by omega⟩
    unfold pullAllF at h ⊢
    cases hr : next e with
    | none => rw [hr] at h; cases h
    | some x =>
      rw [hr] at h
      obtain ⟨r, e1⟩ := x
      cases r with
      | none => exact h
      | some r =>
        dsimp only at h ⊢
        cases hp : pullAllF next m e1 with
        | none => rw [hp] at h; cases h
        | some l =>
          rw [hp] at h
          rw [ih e1 l hp k (by omega)]
          exact h

/-- The passes through a loop seen as one run return the same records with
more fuel. -/
theorem pullSteps_mono {σ : Type} (step : σ → Sum σ (Option Record × σ)) :
    ∀ (k : Nat) (e : σ) (out : List Record), pullSteps step k e = some out →
      ∀ k1, k ≤ k1 → pullSteps step k1 e = some out := by
  intro k
  induction k with
  | zero => intro e out h; cases h
  | succ k ih =>
    intro e out h k1 hk
    obtain ⟨j, rfl⟩ : ∃ j, k1 = j + 1 := ⟨k1 - 1, by omega⟩
    unfold pullSteps at h ⊢
    cases hs : step e with
    | inl e1 =>
      rw [hs] at h
      exact ih e1 out h j (by omega)
    | inr x =>
      rw [hs] at h
      obtain ⟨r, e1⟩ := x
      cases r with
      | none => exact h
      | some r =>
        dsimp only at h ⊢
        cases hp : pullSteps step k e1 with
        | none => rw [hp] at h; cases h
        | some l =>
          rw [hp] at h
          rw [ih e1 l hp j (by omega)]
          exact h

/-- A pass that goes on is one unit of fuel. -/
theorem pullSteps_inl {σ : Type} (step : σ → Sum σ (Option Record × σ)) (k : Nat) (e e1 : σ)
    (hs : step e = .inl e1) : pullSteps step (k + 1) e = pullSteps step k e1 := by
  rw [pullSteps, hs]

/-- A pass that returns a record is one unit of fuel. -/
theorem pullSteps_emit {σ : Type} (step : σ → Sum σ (Option Record × σ)) (k : Nat) (e e1 : σ)
    (r : Record) (hs : step e = .inr (some r, e1)) :
    pullSteps step (k + 1) e = (pullSteps step k e1).map (fun l => r :: l) := by
  rw [pullSteps, hs]

/-- A pass that returns the null pointer ends the run. -/
theorem pullSteps_done {σ : Type} (step : σ → Sum σ (Option Record × σ)) (k : Nat) (e e1 : σ)
    (hs : step e = .inr (none, e1)) : pullSteps step (k + 1) e = some [] := by
  rw [pullSteps, hs]

/-- The records of a run of `k` passes are those the calls of `Next` return up to
the first null pointer, when every call may make `k` passes and one call more
is allowed than records are returned. -/
theorem pullSteps_pullAllF_eq {σ : Type} (step : σ → Sum σ (Option Record × σ)) :
    ∀ (k : Nat) (e : σ) (out : List Record), pullSteps step k e = some out →
      pullAllF (runLoop step k) (out.length + 1) e = some out := by
  intro k
  induction k with
  | zero => intro e out h; cases h
  | succ k ih =>
    intro e out h
    cases hs : step e with
    | inl e1 =>
      rw [pullSteps_inl step k e e1 hs] at h
      have h1 := ih e1 out h
      have h2 := pullAllF_mono_next step k (k + 1) (Nat.le_succ k) _ e1 out h1
      have hr : runLoop step (k + 1) e = runLoop step k e1 := by
        rw [runLoop, hs]
      cases hx : runLoop step k e1 with
      | none =>
        unfold pullAllF at h1
        rw [hx] at h1
        cases h1
      | some x =>
        have hr1 : runLoop step (k + 1) e1 = some x :=
          runLoop_mono step k e1 x hx (k + 1) (Nat.le_succ k)
        unfold pullAllF at h2 ⊢
        rw [hr1] at h2
        rw [hr, hx]
        exact h2
    | inr x =>
      obtain ⟨r, e1⟩ := x
      have hr : runLoop step (k + 1) e = some (r, e1) := by
        rw [runLoop, hs]
      cases r with
      | none =>
        rw [pullSteps_done step k e e1 hs] at h
        cases h
        unfold pullAllF
        rw [hr]
      | some r =>
        rw [pullSteps_emit step k e e1 r hs] at h
        cases hp : pullSteps step k e1 with
        | none => rw [hp] at h; cases h
        | some l =>
          rw [hp] at h
          cases h
          have h1 := ih e1 l hp
          have h2 := pullAllF_mono_next step k (k + 1) (Nat.le_succ k) _ e1 l h1
          show pullAllF (runLoop step (k + 1)) (l.length + 1 + 1) e = some (r :: l)
          rw [pullAllF, hr]
          dsimp only
          rw [h2]
          rfl

/-- The records of a run of `k` passes are those the calls of `Next` return up to
the first null pointer, whenever every call may make at least `k` passes and
more calls are allowed than records are returned. -/
theorem pullSteps_pullAllF {σ : Type} (step : σ → Sum σ (Option Record × σ)) (k : Nat) (e : σ)
    (out : List Record) (h : pullSteps step k e = some out) (n m : Nat) (hn : k ≤ n)
    (hm : out.length < m) : pullAllF (runLoop step n) m e = some out :=
  pullAllF_mono_fuel _ _ e out
    (pullAllF_mono_next step k n hn _ e out (pullSteps_pullAllF_eq step k e out h)) m hm

/-! ## NestedLoopJoin: the state after `Init` and the case `INNER` -/

/-- The table `Init` builds has one entry per record, numbered from the index
the loop starts with, none of them marked. -/
theorem storeRecords_table (l : List Record) :
    ∀ (table : List (Nat × Bool)) (index : Nat),
      (storeRecords l table index).1 = table ++ tableFrom index (l.map (fun _ => false)) := by
  induction l with
  | nil => intro table index; exact (List.append_nil table).symm
  | cons r l ih =>
    intro table index
    show (storeRecords l (table ++ [(index, false)]) (index + 1)).1 = _
    rw [ih, List.append_assoc]
    rfl

/-- After `Init` the records at hand are the first ones of the children, the
value sizes are those of these records and the tables have an unmarked entry
for each record. -/
theorem NestedLoopJoin_Init_eq (e : NestedLoopJoinExecutor) :
    e.Init = streamState e.children_0.rows e.children_1.rows e.children_0.rows
      e.children_1.rows (valueSize e.children_0.rows) (valueSize e.children_1.rows)
      (tableFrom 0 (e.children_0.rows.map (fun _ => false)))
      (tableFrom 0 (e.children_1.rows.map (fun _ => false))) 0 0 := by
  obtain ⟨⟨L, l0⟩, ⟨R, r0⟩, a, b, c, d, f, g, h, i⟩ := e
  have hL : (storeRecords (recordsFrom (ChildExecutor.Init ⟨L, l0⟩).Next.1
      (ChildExecutor.Init ⟨L, l0⟩).Next.2) [] 0).1 = tableFrom 0 (L.map (fun _ => false)) := by
    rw [storeRecords_table]
    cases L <;> rfl
  have hR : (storeRecords (recordsFrom (ChildExecutor.Init ⟨R, r0⟩).Next.1
      (ChildExecutor.Init ⟨R, r0⟩).Next.2) [] 0).1 = tableFrom 0 (R.map (fun _ => false)) := by
    rw [storeRecords_table]
    cases R <;> rfl
  unfold NestedLoopJoinExecutor.Init
  dsimp only
  rw [hL, hR]
  cases L <;> cases R <;> rfl

/-- `INNER`, a pass with a left and a right record at hand. -/
theorem stepINNER_both (condition : Record → Record → Bool) (L R ls Rs : List Record)
    (l s : Record) (a b : Nat) (rt st : List (Nat × Bool)) (ri si : Nat) :
    NestedLoopJoinExecutor.step .INNER condition
        (streamState L R (l :: ls) (s :: Rs) a b rt st ri si)
      = if condition l s = true then
          .inr (some (l.Append s), streamState L R (l :: ls) Rs a b rt st ri si)
        else .inl (streamState L R (l :: ls) Rs a b rt st ri si) := by
  cases Rs <;> rfl

/-- `INNER`, a pass with a left record and no right record at hand. -/
theorem stepINNER_right_done (condition : Record → Record → Bool) (L R ls : List Record)
    (l : Record) (a b : Nat) (rt st : List (Nat × Bool)) (ri si : Nat) :
    NestedLoopJoinExecutor.step .INNER condition (streamState L R (l :: ls) [] a b rt st ri si)
      = .inl (streamState L R ls R a b rt st ri si) := by
  cases ls <;> cases R <;> rfl

/-- `INNER`, the pass without a left record at hand. -/
theorem stepINNER_left_done (condition : Record → Record → Bool) (L R Rs : List Record)
    (a b : Nat) (rt st : List (Nat × Bool)) (ri si : Nat) :
    ∃ e1, NestedLoopJoinExecutor.step .INNER condition
      (streamState L R [] Rs a b rt st ri si) = .inr (none, e1) :=
  ⟨_, rfl⟩

/-- The records of `joinRow` for a right sequence with a first record. -/
theorem joinRow_cons (condition : Record → Record → Bool) (l s : Record) (Rs : List Record) :
    joinRow condition l (s :: Rs)
      = if condition l s = true then l.Append s :: joinRow condition l Rs
        else joinRow condition l Rs := by
  unfold joinRow
  by_cases h : condition l s = true
  · rw [List.filter_cons_of_pos h, if_pos h]
    rfl
  · rw [List.filter_cons_of_neg h, if_neg h]

/-- `INNER`: the passes over the right records to come return the matches of the
left record at hand among them. -/
theorem INNER_scan (condition : Record → Record → Bool) (L R ls : List Record) (l : Record)
    (a b : Nat) (rt st : List (Nat × Bool)) (ri si : Nat) (k : Nat) (out : List Record)
    (h : pullSteps (NestedLoopJoinExecutor.step .INNER condition) k
      (streamState L R (l :: ls) [] a b rt st ri si) = some out) :
    ∀ Rs : List Record, pullSteps (NestedLoopJoinExecutor.step .INNER condition) (k + Rs.length)
      (streamState L R (l :: ls) Rs a b rt st ri si) = some (joinRow condition l Rs ++ out) := by
  intro Rs
  induction Rs with
  | nil => exact h
  | cons s Rs ih =>
    have hs := stepINNER_both condition L R ls Rs l s a b rt st ri si
    rw [joinRow_cons]
    by_cases hc : condition l s = true
    · rw [if_pos hc] at hs ⊢
      show pullSteps _ (k + Rs.length + 1) _ = _
      rw [pullSteps_emit _ _ _ _ _ hs, ih]
      rfl
    · rw [if_neg hc] at hs ⊢
      show pullSteps _ (k + Rs.length + 1) _ = _
      rw [pullSteps_inl _ _ _ _ hs, ih]

/-- `INNER`: the run from a left record at hand with all right records to come. -/
theorem INNER_run (condition : Record → Record → Bool) (L R : List Record)
    (a b : Nat) (rt st : List (Nat × Bool)) (ri si : Nat) :
    ∀ (ls : List Record) (l : Record),
      pullSteps (NestedLoopJoinExecutor.step .INNER condition)
        ((ls.length + 1) * (R.length + 1) + 1)
        (streamState L R (l :: ls) R a b rt st ri si)
        = some ((l :: ls).flatMap (fun x => joinRow condition x R)) := by
  intro ls
  induction ls with
  | nil =>
    intro l
    have h2 : pullSteps (NestedLoopJoinExecutor.step .INNER condition) 2
        (streamState L R [l] [] a b rt st ri si) = some [] := by
      rw [pullSteps_inl _ 1 _ _ (stepINNER_right_done condition L R [] l a b rt st ri si)]
      obtain ⟨e1, he⟩ := stepINNER_left_done condition L R R a b rt st ri si
      exact pullSteps_done _ 0 _ e1 he
    have h := INNER_scan condition L R [] l a b rt st ri si 2 [] h2 R
    rw [List.flatMap_cons, List.flatMap_nil]
    have hk : ([] : List Record).length = 0 := rfl
    rw [hk]
    have hb : (0 + 1) * (R.length + 1) + 1 = 2 + R.length := by omega
    rw [hb]
    exact h
  | cons x ls ih =>
    intro l
    have h1 : pullSteps (NestedLoopJoinExecutor.step .INNER condition)
        ((ls.length + 1) * (R.length + 1) + 1 + 1)
        (streamState L R (l :: x :: ls) [] a b rt st ri si)
        = some ((x :: ls).flatMap (fun y => joinRow condition y R)) := by
      rw [pullSteps_inl _ _ _ _ (stepINNER_right_done condition L R (x :: ls) l a b rt st ri si)]
      exact ih x
    have h := INNER_scan condition L R (x :: ls) l a b rt st ri si _ _ h1 R
    rw [List.flatMap_cons]
    have hb : ((x :: ls).length + 1) * (R.length + 1) + 1
        = (ls.length + 1) * (R.length + 1) + 1 + 1 + R.length := by
      show (ls.length + 1 + 1) * (R.length + 1) + 1 = _
      rw [Nat.succ_mul]
      omega
    rw [hb]
    exact h

/-- `INNER`: the run after `Init`. -/
theorem INNER_run_Init (condition : Record → Record → Bool) (e : NestedLoopJoinExecutor) :
    pullSteps (NestedLoopJoinExecutor.step .INNER condition)
      ((e.children_0.rows.length + 1) * (e.children_1.rows.length + 1) + 1) e.Init
      = some (e.children_0.rows.flatMap (fun x => joinRow condition x e.children_1.rows)) := by
  rw [NestedLoopJoin_Init_eq]
  cases hL : e.children_0.rows with
  | nil =>
    obtain ⟨e1, he⟩ := stepINNER_left_done condition [] e.children_1.rows e.children_1.rows
      (valueSize []) (valueSize e.children_1.rows) (tableFrom 0 (List.map (fun _ => false) []))
      (tableFrom 0 (e.children_1.rows.map (fun _ => false))) 0 0
    exact pullSteps_done _ _ _ e1 he
  | cons l ls =>
    have h := INNER_run condition (l :: ls) e.children_1.rows (valueSize (l :: ls))
      (valueSize e.children_1.rows) (tableFrom 0 ((l :: ls).map (fun _ => false)))
      (tableFrom 0 (e.children_1.rows.map (fun _ => false))) 0 0 ls l
    exact pullSteps_mono _ _ _ _ h _ (by
      show (ls.length + 1) * _ + 1 ≤ (ls.length + 1 + 1) * _ + 1
      rw [Nat.succ_mul (ls.length + 1)]
      omega)

/-- C31: for every pair of child sequences `L` and `R` and every join condition,
the calls of `Next` of an `INNER` join after `Init` return, for the records `l` of
`L` in their order and for each of them the records `s` of `R` in their order
that `EvaluateJoin(l, s)` holds of, the record `l` with the values of `s` appended,
each pair once, and then the null pointer. Every call is given fuel for
`(|L| + 1) * (|R| + 1) + 1` passes through the loops, and more calls are allowed
than there are pairs. -/
theorem INNER_join_spec (condition : Record → Record → Bool) (e : NestedLoopJoinExecutor)
    (n m : Nat)
    (hn : (e.children_0.rows.length + 1) * (e.children_1.rows.length + 1) + 1 ≤ n)
    (hm : (e.children_0.rows.flatMap (fun l =>
      (e.children_1.rows.filter (fun s => condition l s)).map (fun s => l.Append s))).length < m) :
    pullAllF (NestedLoopJoinExecutor.Next .INNER condition n) m e.Init
      = some (e.children_0.rows.flatMap (fun l =>
          (e.children_1.rows.filter (fun s => condition l s)).map (fun s => l.Append s))) :=
  pullSteps_pullAllF _ _ _ _ (INNER_run_Init condition e) n m hn hm

/-- C31 on the left records `(1), (2), (1)` and the right records `(1), (3), (1)` with
the condition that the first values are equal: four records `(1, 1)`. -/
theorem INNER_join_spec_witness :
    pullAllF (NestedLoopJoinExecutor.Next .INNER
        (fun l s => decide (l.GetValue 0 = s.GetValue 0)) 17) 5
      (NestedLoopJoinExecutor.new [exampleRow [1], exampleRow [2], exampleRow [1]]
        [exampleRow [1], exampleRow [3], exampleRow [1]]).Init
      = some [exampleRow [1, 1], exampleRow [1, 1], exampleRow [1, 1], exampleRow [1, 1]] :=
  (INNER_join_spec (fun l s => decide (l.GetValue 0 = s.GetValue 0))
    (NestedLoopJoinExecutor.new [exampleRow [1], exampleRow [2], exampleRow [1]]
      [exampleRow [1], exampleRow [3], exampleRow [1]]) 17 5 (by decide) (by decide)).trans
    (by decide)

/-! ## NestedLoopJoin: the case `LEFT` -/

/-- The mark of the entry after the entries for `A` in a table with the marks
`A ++ f :: B`. -/
theorem getSecond_tableFrom (f : Bool) (B : List Bool) :
    ∀ (A : List Bool) (i : Nat), getSecond (tableFrom i (A ++ f :: B)) A.length = f := by
  intro A
  induction A with
  | nil => intro i; rfl
  | cons a A ih => intro i; exact ih (i + 1)

/-- Marking the entry after the entries for `A` in a table with the marks
`A ++ f :: B` gives the table with the marks `A ++ true :: B`. -/
theorem setSecond_tableFrom (f : Bool) (B : List Bool) :
    ∀ (A : List Bool) (i : Nat),
      setSecond (tableFrom i (A ++ f :: B)) A.length = tableFrom i (A ++ true :: B) := by
  intro A
  induction A with
  | nil => intro i; rfl
  | cons a A ih =>
    intro i
    show (i, a) :: setSecond (tableFrom (i + 1) (A ++ f :: B)) A.length = _
    rw [ih (i + 1)]
    rfl

/-- `LEFT`, a pass with a left and a right record at hand. -/
theorem stepLEFT_both (condition : Record → Record → Bool) (L R ls Rs : List Record)
    (l s : Record) (a b : Nat) (rt st : List (Nat × Bool)) (ri si : Nat) :
    NestedLoopJoinExecutor.step .LEFT condition
        (streamState L R (l :: ls) (s :: Rs) a b rt st ri si)
      = if condition l s = true then
          .inr (some (l.Append s),
            streamState L R (l :: ls) Rs a b (setSecond rt ri) st ri (si + 1))
        else .inl (streamState L R (l :: ls) Rs a b rt st ri (si + 1)) := by
  cases Rs <;> rfl

/-- `LEFT`, a pass with a left record and no right record at hand. -/
theorem stepLEFT_right_done (condition : Record → Record → Bool) (L R ls : List Record)
    (l : Record) (a b : Nat) (rt st : List (Nat × Bool)) (ri si : Nat) :
    NestedLoopJoinExecutor.step .LEFT condition
        (streamState L R (l :: ls) [] a b rt st ri si)
      = if getSecond rt ri = false ∧ b > 0 then
          .inr (some (nullExtend l b), streamState L R ls R a b rt st (ri + 1) 0)
        else .inl (streamState L R ls R a b rt st (ri + 1) 0) := by
  cases ls <;> cases R <;> rfl

/-- `LEFT`, the pass without a left record at hand. -/
theorem stepLEFT_left_done (condition : Record → Record → Bool) (L R Rs : List Record)
    (a b : Nat) (rt st : List (Nat × Bool)) (ri si : Nat) :
    ∃ e1, NestedLoopJoinExecutor.step .LEFT condition
      (streamState L R [] Rs a b rt st ri si) = .inr (none, e1) :=
  ⟨_, rfl⟩

/-- `LEFT`: the passes over the right records to come return the matches of the
left record at hand among them and mark its entry when there is one. -/
theorem LEFT_scan (condition : Record → Record → Bool) (L R ls : List Record) (l : Record)
    (a b : Nat) (st : List (Nat × Bool)) (A B : List Bool) (k : Nat) (out : List Record) :
    ∀ (Rs : List Record) (f : Bool) (si : Nat),
      pullSteps (NestedLoopJoinExecutor.step .LEFT condition) k
        (streamState L R (l :: ls) [] a b
          (tableFrom 0 (A ++ (f || Rs.any (fun s => condition l s)) :: B)) st A.length
          (si + Rs.length)) = some out →
      pullSteps (NestedLoopJoinExecutor.step .LEFT condition) (k + Rs.length)
        (streamState L R (l :: ls) Rs a b (tableFrom 0 (A ++ f :: B)) st A.length si)
        = some (joinRow condition l Rs ++ out) := by
  intro Rs
  induction Rs with
  | nil =>
    intro f si h
    rw [List.any_nil, Bool.or_false] at h
    exact h
  | cons s Rs ih =>
    intro f si h
    have hs := stepLEFT_both condition L R ls Rs l s a b (tableFrom 0 (A ++ f :: B)) st
      A.length si
    rw [joinRow_cons]
    have hlen : si + (s :: Rs).length = si + 1 + Rs.length := by
      show si + (Rs.length + 1) = _
      omega
    rw [hlen, List.any_cons] at h
    by_cases hc : condition l s = true
    · rw [if_pos hc, setSecond_tableFrom] at hs
      rw [if_pos hc]
      rw [hc, Bool.true_or, Bool.or_true] at h
      show pullSteps _ (k + Rs.length + 1) _ = _
      rw [pullSteps_emit _ _ _ _ _ hs, ih true (si + 1) (by rw [Bool.true_or]; exact h)]
      rfl
    · rw [if_neg hc] at hs ⊢
      rw [Bool.eq_false_iff.mpr hc, Bool.false_or] at h
      show pullSteps _ (k + Rs.length + 1) _ = _
      rw [pullSteps_inl _ _ _ _ hs, ih f (si + 1) h]

/-- `LEFT`: the run from a left record at hand with all right records to come. -/
theorem LEFT_run (condition : Record → Record → Bool) (L R : List Record)
    (a b : Nat) (st : List (Nat × Bool)) :
    ∀ (ls : List Record) (l : Record) (A : List Bool),
      pullSteps (NestedLoopJoinExecutor.step .LEFT condition)
        ((ls.length + 1) * (R.length + 1) + 1)
        (streamState L R (l :: ls) R a b
          (tableFrom 0 (A ++ false :: ls.map (fun _ => false))) st A.length 0)
        = some ((l :: ls).flatMap (fun x => joinRow condition x R
            ++ if R.any (fun s => condition x s) = false ∧ b > 0 then [nullExtend x b]
              else [])) := by
  intro ls
  induction ls with
  | nil =>
    intro l A
    have h2 : pullSteps (NestedLoopJoinExecutor.step .LEFT condition) 2
        (streamState L R [l] [] a b
          (tableFrom 0 (A ++ (R.any (fun s => condition l s)) :: [])) st A.length
          (0 + R.length))
        = some (if R.any (fun s => condition l s) = false ∧ b > 0 then [nullExtend l b]
            else []) := by
      have hs := stepLEFT_right_done condition L R [] l a b
        (tableFrom 0 (A ++ (R.any (fun s => condition l s)) :: [])) st A.length
        (0 + R.length)
      rw [getSecond_tableFrom] at hs
      obtain ⟨e1, he⟩ := stepLEFT_left_done condition L R R a b
        (tableFrom 0 (A ++ (R.any (fun s => condition l s)) :: [])) st
        (A.length + 1) 0
      by_cases hc : R.any (fun s => condition l s) = false ∧ b > 0
      · rw [if_pos hc] at hs ⊢
        rw [pullSteps_emit _ 1 _ _ _ hs, pullSteps_done _ 0 _ e1 he]
        rfl
      · rw [if_neg hc] at hs ⊢
        rw [pullSteps_inl _ 1 _ _ hs, pullSteps_done _ 0 _ e1 he]
    have h := LEFT_scan condition L R [] l a b st A [] 2 _ R false 0
      (by rw [Bool.false_or]; exact h2)
    rw [List.flatMap_cons, List.flatMap_nil, List.append_nil]
    have hb : (([] : List Record).length + 1) * (R.length + 1) + 1 = 2 + R.length := by
      show (0 + 1) * (R.length + 1) + 1 = _
      omega
    rw [hb]
    exact h
  | cons x ls ih =>
    intro l A
    have h1 : pullSteps (NestedLoopJoinExecutor.step .LEFT condition)
        ((ls.length + 1) * (R.length + 1) + 1 + 1)
        (streamState L R (l :: x :: ls) [] a b
          (tableFrom 0 (A ++ (R.any (fun s => condition l s))
            :: (x :: ls).map (fun _ => false))) st A.length (0 + R.length))
        = some ((if R.any (fun s => condition l s) = false ∧ b > 0 then [nullExtend l b]
            else [])
          ++ (x :: ls).flatMap (fun y => joinRow condition y R
            ++ if R.any (fun s => condition y s) = false ∧ b > 0 then [nullExtend y b]
              else [])) := by
      have hs := stepLEFT_right_done condition L R (x :: ls) l a b
        (tableFrom 0 (A ++ (R.any (fun s => condition l s))
          :: (x :: ls).map (fun _ => false))) st A.length (0 + R.length)
      rw [getSecond_tableFrom] at hs
      have hi := ih x (A ++ [R.any (fun s => condition l s)])
      rw [List.append_assoc, List.length_append] at hi
      by_cases hc : R.any (fun s => condition l s) = false ∧ b > 0
      · rw [if_pos hc] at hs ⊢
        rw [pullSteps_emit _ _ _ _ _ hs]
        exact congrArg (Option.map _) hi
      · rw [if_neg hc] at hs ⊢
        rw [pullSteps_inl _ _ _ _ hs]
        exact hi
    have h := LEFT_scan condition L R (x :: ls) l a b st A _ _ _ R false 0
      (by rw [Bool.false_or]; exact h1)
    rw [List.flatMap_cons, List.append_assoc]
    have hb : ((x :: ls).length + 1) * (R.length + 1) + 1
        = (ls.length + 1) * (R.length + 1) + 1 + 1 + R.length := by
      show (ls.length + 1 + 1) * (R.length + 1) + 1 = _
      rw [Nat.succ_mul]
      omega
    rw [hb]
    exact h

/-- `LEFT`: the run after `Init`. -/
theorem LEFT_run_Init (condition : Record → Record → Bool) (e : NestedLoopJoinExecutor) :
    pullSteps (NestedLoopJoinExecutor.step .LEFT condition)
      ((e.children_0.rows.length + 1) * (e.children_1.rows.length + 1) + 1) e.Init
      = some (e.children_0.rows.flatMap (fun x => joinRow condition x e.children_1.rows
          ++ if e.children_1.rows.any (fun s => condition x s) = false
                ∧ valueSize e.children_1.rows > 0 then
              [nullExtend x (valueSize e.children_1.rows)]
            else [])) := by
  rw [NestedLoopJoin_Init_eq]
  cases hL : e.children_0.rows with
  | nil =>
    obtain ⟨e1, he⟩ := stepLEFT_left_done condition [] e.children_1.rows e.children_1.rows
      (valueSize []) (valueSize e.children_1.rows) (tableFrom 0 (List.map (fun _ => false) []))
      (tableFrom 0 (e.children_1.rows.map (fun _ => false))) 0 0
    exact pullSteps_done _ _ _ e1 he
  | cons l ls =>
    have h := LEFT_run condition (l :: ls) e.children_1.rows (valueSize (l :: ls))
      (valueSize e.children_1.rows) (tableFrom 0 (e.children_1.rows.map (fun _ => false)))
      ls l []
    exact pullSteps_mono _ _ _ _ h _ (by
      show (ls.length + 1) * _ + 1 ≤ (ls.length + 1 + 1) * _ + 1
      rw [Nat.succ_mul (ls.length + 1)]
      omega)

/-- C32, where the code departs from it and from its own comment: a `LEFT` join of
the left record `(1)` with a right child that returns no record returns the null
pointer at the first call of `Next`. The left record matches no right record and
is not returned: the record with nulls is built under `s_value_size_ > 0`, which
the comment in the source reads as the right table having columns, while `Init`
sets `s_value_size_` from the first right record and leaves it `0` when the right
input has no record, whatever the columns of the right table. -/
theorem LEFT_join_spec_counterexample :
    pullAllF (NestedLoopJoinExecutor.Next .LEFT (fun _ _ => true) 3) 2
      (NestedLoopJoinExecutor.new [exampleRow [1]] []).Init = some [] := by
  decide

/-- The records of a `LEFT` join as the code returns them: for the left records `L`, the right records `R` and
`n` the number of values of the first right record (`0` when there is none), the
calls of `Next` of a `LEFT` join after `Init` return, for the records `l` of `L` in
their order, the records `l ++ s` for the records `s` of `R` matching `l`, once per
match and in the order of `R`, and after them, when `l` has no match and `n > 0`,
once the record `l` followed by `n` nulls; a left record without match is not
returned at all when `n = 0`, which is so for every empty right input. -/
theorem LEFT_join_spec (condition : Record → Record → Bool) (e : NestedLoopJoinExecutor)
    (n m : Nat) (out : List Record)
    (hout : out = e.children_0.rows.flatMap (fun l =>
      (e.children_1.rows.filter (fun s => condition l s)).map (fun s => l.Append s)
        ++ if e.children_1.rows.any (fun s => condition l s) = false
              ∧ valueSize e.children_1.rows > 0 then
            [l.Append (Record.ofValues (List.replicate (valueSize e.children_1.rows) none))]
          else []))
    (hn : (e.children_0.rows.length + 1) * (e.children_1.rows.length + 1) + 1 ≤ n)
    (hm : out.length < m) :
    pullAllF (NestedLoopJoinExecutor.Next .LEFT condition n) m e.Init = some out := by
  subst hout
  exact pullSteps_pullAllF _ _ _ _ (LEFT_run_Init condition e) n m hn hm

/-- The `LEFT` join on the left records `(1), (2)` and the right records
`(1, 10), (3, 30)` with the condition that the first values are equal: the record
`(1, 1, 10)` and the record `(2, null, null)`. -/
theorem LEFT_join_spec_witness :
    pullAllF (NestedLoopJoinExecutor.Next .LEFT
        (fun l s => decide (l.GetValue 0 = s.GetValue 0)) 10) 3
      (NestedLoopJoinExecutor.new [exampleRow [1], exampleRow [2]]
        [exampleRow [1, 10], exampleRow [3, 30]]).Init
      = some [exampleRow [1, 1, 10], ⟨false, 0, 0, 0, [some 2, none, none], ⟨0, 0⟩⟩] :=
  (LEFT_join_spec (fun l s => decide (l.GetValue 0 = s.GetValue 0))
    (NestedLoopJoinExecutor.new [exampleRow [1], exampleRow [2]]
      [exampleRow [1, 10], exampleRow [3, 30]]) 10 3 _ rfl (by decide) (by decide)).trans
    (by decide)

/-! ## NestedLoopJoin: the cases `RIGHT` and `FULL` -/

/-- The state with the marks `(A ++ [f]) ++ B` in the right table and the right index
after the entries for `A ++ [f]`, written with the marks `A ++ f :: B`. -/
theorem streamState_snoc (L R ls Rs : List Record) (a b : Nat) (rt : List (Nat × Bool))
    (ri : Nat) (A B : List Bool) (f : Bool) :
    streamState L R ls Rs a b rt (tableFrom 0 ((A ++ [f]) ++ B)) ri (A ++ [f]).length
      = streamState L R ls Rs a b rt (tableFrom 0 (A ++ f :: B)) ri (A.length + 1) := by
  rw [List.append_assoc, List.length_append]
  rfl

/-- `RIGHT` and `FULL`, a pass without a left record at hand, with a right record at
hand and a left value size that is not zero. -/
theorem stepRIGHT_unmatched (join_type : JoinType) (hj : join_type = .RIGHT ∨ join_type = .FULL)
    (condition : Record → Record → Bool) (L R Rs : List Record)
    (s : Record) (a b : Nat) (ha : a > 0) (rt st : List (Nat × Bool)) (ri si : Nat) :
    NestedLoopJoinExecutor.step join_type condition
        (streamState L R [] (s :: Rs) a b rt st ri si)
      = if getSecond st si = false then
          .inr (some (rightOuterRecord a s),
            streamState L R [] Rs a b rt (setSecond st si) ri (si + 1))
        else .inl (streamState L R [] Rs a b rt st ri (si + 1)) := by
  have h : NestedLoopJoinExecutor.step join_type condition
      (streamState L R [] (s :: Rs) a b rt st ri si)
      = (streamState L R [] (s :: Rs) a b rt st ri si).stepUnmatchedRight := by
    rcases hj with hj | hj <;> subst hj <;> rfl
  rw [h]
  unfold NestedLoopJoinExecutor.stepUnmatchedRight
  show (if a > 0 then _ else _) = _
  rw [if_pos ha]
  cases Rs <;> rfl

/-- `RIGHT` and `FULL`, a pass without a left record at hand when the left value size
is zero or there is no right record at hand: the null pointer. -/
theorem stepRIGHT_done (join_type : JoinType) (hj : join_type = .RIGHT ∨ join_type = .FULL)
    (condition : Record → Record → Bool) (L R Rs : List Record)
    (a b : Nat) (h0 : a = 0 ∨ Rs = []) (rt st : List (Nat × Bool)) (ri si : Nat) :
    ∃ e1, NestedLoopJoinExecutor.step join_type condition
      (streamState L R [] Rs a b rt st ri si) = .inr (none, e1) := by
  have h : NestedLoopJoinExecutor.step join_type condition
      (streamState L R [] Rs a b rt st ri si)
      = (streamState L R [] Rs a b rt st ri si).stepUnmatchedRight := by
    rcases hj with hj | hj <;> subst hj <;> rfl
  rw [h]
  rcases h0 with h0 | h0
  · subst h0
    cases Rs with
    | nil => exact ⟨_, rfl⟩
    | cons s Rs => exact ⟨_, rfl⟩
  · subst h0
    exact ⟨_, rfl⟩

/-- `RIGHT` and `FULL`: the passes after the left child is exhausted return, for the
right records to come that are not marked, the record built from them, in
their order, and then the null pointer. -/
theorem RIGHT_unmatched_run (join_type : JoinType)
    (hj : join_type = .RIGHT ∨ join_type = .FULL)
    (condition : Record → Record → Bool) (L R : List Record) (a b : Nat) (ha : a > 0)
    (rt : List (Nat × Bool)) (ri : Nat) (g : Record → Bool) :
    ∀ (Rs : List Record) (A : List Bool),
      pullSteps (NestedLoopJoinExecutor.step join_type condition) (Rs.length + 1)
        (streamState L R [] Rs a b rt (tableFrom 0 (A ++ Rs.map g)) ri A.length)
        = some ((Rs.filter (fun s => !g s)).map (fun s => rightOuterRecord a s)) := by
  intro Rs
  induction Rs with
  | nil =>
    intro A
    obtain ⟨e1, he⟩ := stepRIGHT_done join_type hj condition L R [] a b (Or.inr rfl) rt
      (tableFrom 0 (A ++ List.map g [])) ri A.length
    exact pullSteps_done _ _ _ e1 he
  | cons s Rs ih =>
    intro A
    have hs := stepRIGHT_unmatched join_type hj condition L R Rs s a b ha rt
      (tableFrom 0 (A ++ g s :: Rs.map g)) ri A.length
    rw [getSecond_tableFrom, setSecond_tableFrom] at hs
    show pullSteps _ (Rs.length + 1 + 1)
      (streamState L R [] (s :: Rs) a b rt (tableFrom 0 (A ++ g s :: Rs.map g)) ri A.length) = _
    by_cases hg : g s = false
    · rw [if_pos hg] at hs
      have hi := ih (A ++ [true])
      rw [streamState_snoc] at hi
      rw [pullSteps_emit _ _ _ _ _ hs, hi, List.filter_cons_of_pos (by rw [hg]; rfl)]
      rfl
    · rw [if_neg hg] at hs
      have hi := ih (A ++ [g s])
      rw [streamState_snoc] at hi
      rw [pullSteps_inl _ _ _ _ hs, hi, List.filter_cons_of_neg (by
        rw [Bool.not_eq_false] at hg
        rw [hg]
        decide)]

/-- `RIGHT` and `FULL`: the passes after the left child is exhausted, whatever the left
value size. -/
theorem RIGHT_unmatched_any (join_type : JoinType)
    (hj : join_type = .RIGHT ∨ join_type = .FULL)
    (condition : Record → Record → Bool) (L R : List Record) (a b : Nat)
    (rt : List (Nat × Bool)) (ri : Nat) (g : Record → Bool) (Rs : List Record) :
    pullSteps (NestedLoopJoinExecutor.step join_type condition) (Rs.length + 1)
      (streamState L R [] Rs a b rt (tableFrom 0 (Rs.map g)) ri 0)
      = some (if a > 0 then (Rs.filter (fun s => !g s)).map (fun s => rightOuterRecord a s)
          else []) := by
  by_cases ha : a > 0
  · rw [if_pos ha]
    exact RIGHT_unmatched_run join_type hj condition L R a b ha rt ri g Rs []
  · rw [if_neg ha]
    obtain ⟨e1, he⟩ := stepRIGHT_done join_type hj condition L R Rs a b
      (Or.inl (by omega)) rt (tableFrom 0 (Rs.map g)) ri 0
    exact pullSteps_done _ _ _ e1 he

/-- `RIGHT`, a pass with a left and a right record at hand. -/
theorem stepRIGHT_both (condition : Record → Record → Bool) (L R ls Rs : List Record)
    (l s : Record) (a b : Nat) (rt st : List (Nat × Bool)) (ri si : Nat) :
    NestedLoopJoinExecutor.step .RIGHT condition
        (streamState L R (l :: ls) (s :: Rs) a b rt st ri si)
      = if condition l s = true then
          .inr (some (l.Append s),
            streamState L R (l :: ls) Rs a b rt (setSecond st si) ri (si + 1))
        else .inl (streamState L R (l :: ls) Rs a b rt st ri (si + 1)) := by
  cases Rs <;> rfl

/-- `RIGHT`, a pass with a left record and no right record at hand. -/
theorem stepRIGHT_right_done (condition : Record → Record → Bool) (L R ls : List Record)
    (l : Record) (a b : Nat) (rt st : List (Nat × Bool)) (ri si : Nat) :
    NestedLoopJoinExecutor.step .RIGHT condition
        (streamState L R (l :: ls) [] a b rt st ri si)
      = .inl (streamState L R ls R a b rt st (ri + 1) 0) := by
  cases ls <;> cases R <;> rfl

/-- `RIGHT`: the passes over the right records to come return the matches of the
left record at hand among them and mark their entries. -/
theorem RIGHT_scan (condition : Record → Record → Bool) (L R ls : List Record) (l : Record)
    (a b : Nat) (rt : List (Nat × Bool)) (ri : Nat) (g : Record → Bool) (k : Nat)
    (out : List Record) :
    ∀ (Rs : List Record) (A : List Bool),
      pullSteps (NestedLoopJoinExecutor.step .RIGHT condition) k
        (streamState L R (l :: ls) [] a b rt
          (tableFrom 0 (A ++ Rs.map (fun s => g s || condition l s))) ri
          (A.length + Rs.length)) = some out →
      pullSteps (NestedLoopJoinExecutor.step .RIGHT condition) (k + Rs.length)
        (streamState L R (l :: ls) Rs a b rt (tableFrom 0 (A ++ Rs.map g)) ri A.length)
        = some (joinRow condition l Rs ++ out) := by
  intro Rs
  induction Rs with
  | nil =>
    intro A h
    exact h
  | cons s Rs ih =>
    intro A h
    have hs := stepRIGHT_both condition L R ls Rs l s a b rt
      (tableFrom 0 (A ++ g s :: Rs.map g)) ri A.length
    rw [setSecond_tableFrom] at hs
    rw [joinRow_cons]
    have hlen : A.length + (s :: Rs).length = A.length + 1 + Rs.length := by
      show A.length + (Rs.length + 1) = _
      omega
    rw [hlen, List.map_cons] at h
    show pullSteps _ (k + Rs.length + 1)
      (streamState L R (l :: ls) (s :: Rs) a b rt (tableFrom 0 (A ++ g s :: Rs.map g)) ri
        A.length) = _
    by_cases hc : condition l s = true
    · rw [if_pos hc] at hs
      rw [if_pos hc]
      rw [hc, Bool.or_true] at h
      have hi := ih (A ++ [true])
      rw [streamState_snoc] at hi
      rw [pullSteps_emit _ _ _ _ _ hs,
        hi (by rw [List.append_assoc, List.length_append]; exact h)]
      rfl
    · rw [if_neg hc] at hs
      rw [if_neg hc]
      rw [Bool.eq_false_iff.mpr hc, Bool.or_false] at h
      have hi := ih (A ++ [g s])
      rw [streamState_snoc] at hi
      rw [pullSteps_inl _ _ _ _ hs,
        hi (by rw [List.append_assoc, List.length_append]; exact h)]

/-- `RIGHT`: the run from a left record at hand with all right records to come, the
entry of a right record `s` being marked when `g s` holds. -/
theorem RIGHT_run (condition : Record → Record → Bool) (L R : List Record)
    (a b : Nat) (rt : List (Nat × Bool)) :
    ∀ (ls : List Record) (l : Record) (g : Record → Bool) (ri : Nat),
      pullSteps (NestedLoopJoinExecutor.step .RIGHT condition)
        ((ls.length + 1) * (R.length + 1) + (R.length + 1))
        (streamState L R (l :: ls) R a b rt (tableFrom 0 (R.map g)) ri 0)
        = some ((l :: ls).flatMap (fun x => joinRow condition x R)
          ++ if a > 0 then
              (R.filter (fun s => !(g s || (l :: ls).any (fun x => condition x s)))).map
                (fun s => rightOuterRecord a s)
            else []) := by
  intro ls
  induction ls with
  | nil =>
    intro l g ri
    have h2 : pullSteps (NestedLoopJoinExecutor.step .RIGHT condition) (R.length + 1 + 1)
        (streamState L R [l] [] a b rt
          (tableFrom 0 ([] ++ R.map (fun s => g s || condition l s))) ri
          (([] : List Bool).length + R.length))
        = some (if a > 0 then
            (R.filter (fun s => !(g s || [l].any (fun x => condition x s)))).map
              (fun s => rightOuterRecord a s)
          else []) := by
      rw [pullSteps_inl _ _ _ _ (stepRIGHT_right_done condition L R [] l a b rt _ ri _)]
      have h := RIGHT_unmatched_any .RIGHT (Or.inl rfl) condition L R a b rt (ri + 1)
        (fun s => g s || condition l s) R
      have hg : (fun s => !(g s || [l].any (fun x => condition x s)))
          = (fun s => !(g s || condition l s)) := by
        funext s
        rw [List.any_cons, List.any_nil, Bool.or_false]
      rw [hg]
      exact h
    have h := RIGHT_scan condition L R [] l a b rt ri g _ _ R [] h2
    rw [List.flatMap_cons, List.flatMap_nil, List.append_nil]
    have hb : (([] : List Record).length + 1) * (R.length + 1) + (R.length + 1)
        = R.length + 1 + 1 + R.length := by
      show (0 + 1) * (R.length + 1) + (R.length + 1) = _
      omega
    rw [hb]
    exact h
  | cons x ls ih =>
    intro l g ri
    have h1 : pullSteps (NestedLoopJoinExecutor.step .RIGHT condition)
        ((ls.length + 1) * (R.length + 1) + (R.length + 1) + 1)
        (streamState L R (l :: x :: ls) [] a b rt
          (tableFrom 0 ([] ++ R.map (fun s => g s || condition l s))) ri
          (([] : List Bool).length + R.length))
        = some ((x :: ls).flatMap (fun y => joinRow condition y R)
          ++ if a > 0 then
              (R.filter (fun s => !(g s || (l :: x :: ls).any (fun y => condition y s)))).map
                (fun s => rightOuterRecord a s)
            else []) := by
      rw [pullSteps_inl _ _ _ _ (stepRIGHT_right_done condition L R (x :: ls) l a b rt _ ri _)]
      have hi := ih x (fun s => g s || condition l s) (ri + 1)
      have hg : (fun s => !(g s || (l :: x :: ls).any (fun y => condition y s)))
          = (fun s => !((g s || condition l s) || (x :: ls).any (fun y => condition y s))) := by
        funext s
        rw [List.any_cons, Bool.or_assoc]
      rw [hg]
      exact hi
    have h := RIGHT_scan condition L R (x :: ls) l a b rt ri g _ _ R [] h1
    rw [List.flatMap_cons, List.append_assoc]
    have hb : ((x :: ls).length + 1) * (R.length + 1) + (R.length + 1)
        = (ls.length + 1) * (R.length + 1) + (R.length + 1) + 1 + R.length := by
      show (ls.length + 1 + 1) * (R.length + 1) + (R.length + 1) = _
      rw [Nat.succ_mul]
      omega
    rw [hb]
    exact h

/-- `RIGHT`: the run after `Init`. -/
theorem RIGHT_run_Init (condition : Record → Record → Bool) (e : NestedLoopJoinExecutor) :
    pullSteps (NestedLoopJoinExecutor.step .RIGHT condition)
      ((e.children_0.rows.length + 1) * (e.children_1.rows.length + 1) + 1) e.Init
      = some (e.children_0.rows.flatMap (fun x => joinRow condition x e.children_1.rows)
          ++ if valueSize e.children_0.rows > 0 then
              (e.children_1.rows.filter
                (fun s => !e.children_0.rows.any (fun x => condition x s))).map
                (fun s => rightOuterRecord (valueSize e.children_0.rows) s)
            else []) := by
  rw [NestedLoopJoin_Init_eq]
  cases hL : e.children_0.rows with
  | nil =>
    obtain ⟨e1, he⟩ := stepRIGHT_done .RIGHT (Or.inl rfl) condition [] e.children_1.rows
      e.children_1.rows (valueSize []) (valueSize e.children_1.rows) (Or.inl rfl)
      (tableFrom 0 (List.map (fun _ => false) []))
      (tableFrom 0 (e.children_1.rows.map (fun _ => false))) 0 0
    rw [pullSteps_done _ _ _ e1 he]
    rfl
  | cons l ls =>
    have h := RIGHT_run condition (l :: ls) e.children_1.rows (valueSize (l :: ls))
      (valueSize e.children_1.rows) (tableFrom 0 ((l :: ls).map (fun _ => false)))
      ls l (fun _ => false) 0
    have hg : (fun s => !(false || (l :: ls).any (fun x => condition x s)))
        = (fun s => !(l :: ls).any (fun x => condition x s)) := by
      funext s
      rw [Bool.false_or]
    rw [hg] at h
    have hb : ((l :: ls).length + 1) * (e.children_1.rows.length + 1) + 1
        = (ls.length + 1) * (e.children_1.rows.length + 1) + (e.children_1.rows.length + 1)
          + 1 := by
      show (ls.length + 1 + 1) * _ + 1 = _
      rw [Nat.succ_mul]
    rw [hb]
    exact pullSteps_mono _ _ _ _ h _ (Nat.le_succ _)

/-- `FULL`, a pass with a left and a right record at hand. -/
theorem stepFULL_both (condition : Record → Record → Bool) (L R ls Rs : List Record)
    (l s : Record) (a b : Nat) (rt st : List (Nat × Bool)) (ri si : Nat) :
    NestedLoopJoinExecutor.step .FULL condition
        (streamState L R (l :: ls) (s :: Rs) a b rt st ri si)
      = if condition l s = true then
          .inr (some (l.Append s),
            streamState L R (l :: ls) Rs a b (setSecond rt ri) (setSecond st si) ri (si + 1))
        else .inl (streamState L R (l :: ls) Rs a b rt st ri (si + 1)) := by
  cases Rs <;> rfl

/-- `FULL`, a pass with a left record and no right record at hand. -/
theorem stepFULL_right_done (condition : Record → Record → Bool) (L R ls : List Record)
    (l : Record) (a b : Nat) (rt st : List (Nat × Bool)) (ri si : Nat) :
    NestedLoopJoinExecutor.step .FULL condition
        (streamState L R (l :: ls) [] a b rt st ri si)
      = if getSecond rt ri = false ∧ b > 0 then
          .inr (some (nullExtend l b), streamState L R ls R a b rt st (ri + 1) 0)
        else .inl (streamState L R ls R a b rt st (ri + 1) 0) := by
  cases ls <;> cases R <;> rfl

/-- `FULL`: the passes over the right records to come return the matches of the
left record at hand among them and mark the entries of both records of a
match. -/
theorem FULL_scan (condition : Record → Record → Bool) (L R ls : List Record) (l : Record)
    (a b : Nat) (Al Bl : List Bool) (g : Record → Bool) (k : Nat) (out : List Record) :
    ∀ (Rs : List Record) (f : Bool) (A : List Bool),
      pullSteps (NestedLoopJoinExecutor.step .FULL condition) k
        (streamState L R (l :: ls) [] a b
          (tableFrom 0 (Al ++ (f || Rs.any (fun s => condition l s)) :: Bl))
          (tableFrom 0 (A ++ Rs.map (fun s => g s || condition l s))) Al.length
          (A.length + Rs.length)) = some out →
      pullSteps (NestedLoopJoinExecutor.step .FULL condition) (k + Rs.length)
        (streamState L R (l :: ls) Rs a b (tableFrom 0 (Al ++ f :: Bl))
          (tableFrom 0 (A ++ Rs.map g)) Al.length A.length)
        = some (joinRow condition l Rs ++ out) := by
  intro Rs
  induction Rs with
  | nil =>
    intro f A h
    rw [List.any_nil, Bool.or_false] at h
    exact h
  | cons s Rs ih =>
    intro f A h
    have hs := stepFULL_both condition L R ls Rs l s a b (tableFrom 0 (Al ++ f :: Bl))
      (tableFrom 0 (A ++ g s :: Rs.map g)) Al.length A.length
    rw [setSecond_tableFrom, setSecond_tableFrom] at hs
    rw [joinRow_cons]
    have hlen : A.length + (s :: Rs).length = A.length + 1 + Rs.length := by
      show A.length + (Rs.length + 1) = _
      omega
    rw [hlen, List.map_cons, List.any_cons] at h
    show pullSteps _ (k + Rs.length + 1)
      (streamState L R (l :: ls) (s :: Rs) a b (tableFrom 0 (Al ++ f :: Bl))
        (tableFrom 0 (A ++ g s :: Rs.map g)) Al.length A.length) = _
    by_cases hc : condition l s = true
    · rw [if_pos hc] at hs
      rw [if_pos hc]
      rw [hc, Bool.or_true, Bool.true_or, Bool.or_true] at h
      have hi := ih true (A ++ [true])
      rw [streamState_snoc, Bool.true_or] at hi
      rw [pullSteps_emit _ _ _ _ _ hs,
        hi (by rw [List.append_assoc, List.length_append]; exact h)]
      rfl
    · rw [if_neg hc] at hs
      rw [if_neg hc]
      rw [Bool.eq_false_iff.mpr hc, Bool.or_false, Bool.false_or] at h
      have hi := ih f (A ++ [g s])
      rw [streamState_snoc] at hi
      rw [pullSteps_inl _ _ _ _ hs,
        hi (by rw [List.append_assoc, List.length_append]; exact h)]

/-- `FULL`: the run from a left record at hand with all right records to come, the
entry of a right record `s` being marked when `g s` holds. -/
theorem FULL_run (condition : Record → Record → Bool) (L R : List Record) (a b : Nat) :
    ∀ (ls : List Record) (l : Record) (g : Record → Bool) (Al : List Bool),
      pullSteps (NestedLoopJoinExecutor.step .FULL condition)
        ((ls.length + 1) * (R.length + 1) + (R.length + 1))
        (streamState L R (l :: ls) R a b
          (tableFrom 0 (Al ++ false :: ls.map (fun _ => false))) (tableFrom 0 (R.map g))
          Al.length 0)
        = some ((l :: ls).flatMap (fun x => joinRow condition x R
            ++ if R.any (fun s => condition x s) = false ∧ b > 0 then [nullExtend x b]
              else [])
          ++ if a > 0 then
              (R.filter (fun s => !(g s || (l :: ls).any (fun x => condition x s)))).map
                (fun s => rightOuterRecord a s)
            else []) := by
  intro ls
  induction ls with
  | nil =>
    intro l g Al
    have h2 : pullSteps (NestedLoopJoinExecutor.step .FULL condition) (R.length + 1 + 1)
        (streamState L R [l] [] a b
          (tableFrom 0 (Al ++ (R.any (fun s => condition l s)) :: []))
          (tableFrom 0 ([] ++ R.map (fun s => g s || condition l s))) Al.length
          (([] : List Bool).length + R.length))
        = some ((if R.any (fun s => condition l s) = false ∧ b > 0 then [nullExtend l b]
            else [])
          ++ if a > 0 then
            (R.filter (fun s => !(g s || [l].any (fun x => condition x s)))).map
              (fun s => rightOuterRecord a s)
          else []) := by
      have hs := stepFULL_right_done condition L R [] l a b
        (tableFrom 0 (Al ++ (R.any (fun s => condition l s)) :: []))
        (tableFrom 0 ([] ++ R.map (fun s => g s || condition l s))) Al.length
        (([] : List Bool).length + R.length)
      rw [getSecond_tableFrom] at hs
      have h := RIGHT_unmatched_any .FULL (Or.inr rfl) condition L R a b
        (tableFrom 0 (Al ++ (R.any (fun s => condition l s)) :: [])) (Al.length + 1)
        (fun s => g s || condition l s) R
      have hg : (fun s => !(g s || [l].any (fun x => condition x s)))
          = (fun s => !(g s || condition l s)) := by
        funext s
        rw [List.any_cons, List.any_nil, Bool.or_false]
      rw [hg]
      by_cases hc : R.any (fun s => condition l s) = false ∧ b > 0
      · rw [if_pos hc] at hs ⊢
        rw [pullSteps_emit _ _ _ _ _ hs]
        exact congrArg (Option.map _) h
      · rw [if_neg hc] at hs ⊢
        rw [pullSteps_inl _ _ _ _ hs]
        exact h
    have h := FULL_scan condition L R [] l a b Al [] g _ _ R false []
      (by rw [Bool.false_or]; exact h2)
    rw [List.flatMap_cons, List.flatMap_nil, List.append_nil, List.append_assoc]
    have hb : (([] : List Record).length + 1) * (R.length + 1) + (R.length + 1)
        = R.length + 1 + 1 + R.length := by
      show (0 + 1) * (R.length + 1) + (R.length + 1) = _
      omega
    rw [hb]
    exact h
  | cons x ls ih =>
    intro l g Al
    have h1 : pullSteps (NestedLoopJoinExecutor.step .FULL condition)
        ((ls.length + 1) * (R.length + 1) + (R.length + 1) + 1)
        (streamState L R (l :: x :: ls) [] a b
          (tableFrom 0 (Al ++ (R.any (fun s => condition l s))
            :: (x :: ls).map (fun _ => false)))
          (tableFrom 0 ([] ++ R.map (fun s => g s || condition l s))) Al.length
          (([] : List Bool).length + R.length))
        = some ((if R.any (fun s => condition l s) = false ∧ b > 0 then [nullExtend l b]
            else [])
          ++ ((x :: ls).flatMap (fun y => joinRow condition y R
              ++ if R.any (fun s => condition y s) = false ∧ b > 0 then [nullExtend y b]
                else [])
            ++ if a > 0 then
              (R.filter (fun s => !(g s || (l :: x :: ls).any (fun y => condition y s)))).map
                (fun s => rightOuterRecord a s)
            else [])) := by
      have hs := stepFULL_right_done condition L R (x :: ls) l a b
        (tableFrom 0 (Al ++ (R.any (fun s => condition l s))
          :: (x :: ls).map (fun _ => false)))
        (tableFrom 0 ([] ++ R.map (fun s => g s || condition l s))) Al.length
        (([] : List Bool).length + R.length)
      rw [getSecond_tableFrom] at hs
      have hi := ih x (fun s => g s || condition l s)
        (Al ++ [R.any (fun s => condition l s)])
      rw [List.append_assoc, List.length_append] at hi
      have hg : (fun s => !(g s || (l :: x :: ls).any (fun y => condition y s)))
          = (fun s => !((g s || condition l s) || (x :: ls).any (fun y => condition y s))) := by
        funext s
        rw [List.any_cons, Bool.or_assoc]
      rw [hg]
      by_cases hc : R.any (fun s => condition l s) = false ∧ b > 0
      · rw [if_pos hc] at hs ⊢
        rw [pullSteps_emit _ _ _ _ _ hs]
        exact congrArg (Option.map _) hi
      · rw [if_neg hc] at hs ⊢
        rw [pullSteps_inl _ _ _ _ hs]
        exact hi
    have h := FULL_scan condition L R (x :: ls) l a b Al _ g _ _ R false []
      (by rw [Bool.false_or]; exact h1)
    rw [List.flatMap_cons, List.append_assoc, List.append_assoc]
    have hb : ((x :: ls).length + 1) * (R.length + 1) + (R.length + 1)
        = (ls.length + 1) * (R.length + 1) + (R.length + 1) + 1 + R.length := by
      show (ls.length + 1 + 1) * (R.length + 1) + (R.length + 1) = _
      rw [Nat.succ_mul]
      omega
    rw [hb]
    exact h

/-- `FULL`: the run after `Init`. -/
theorem FULL_run_Init (condition : Record → Record → Bool) (e : NestedLoopJoinExecutor) :
    pullSteps (NestedLoopJoinExecutor.step .FULL condition)
      ((e.children_0.rows.length + 1) * (e.children_1.rows.length + 1) + 1) e.Init
      = some (e.children_0.rows.flatMap (fun x => joinRow condition x e.children_1.rows
            ++ if e.children_1.rows.any (fun s => condition x s) = false
                  ∧ valueSize e.children_1.rows > 0 then
                [nullExtend x (valueSize e.children_1.rows)]
              else [])
          ++ if valueSize e.children_0.rows > 0 then
              (e.children_1.rows.filter
                (fun s => !e.children_0.rows.any (fun x => condition x s))).map
                (fun s => rightOuterRecord (valueSize e.children_0.rows) s)
            else []) := by
  rw [NestedLoopJoin_Init_eq]
  cases hL : e.children_0.rows with
  | nil =>
    obtain ⟨e1, he⟩ := stepRIGHT_done .FULL (Or.inr rfl) condition [] e.children_1.rows
      e.children_1.rows (valueSize []) (valueSize e.children_1.rows) (Or.inl rfl)
      (tableFrom 0 (List.map (fun _ => false) []))
      (tableFrom 0 (e.children_1.rows.map (fun _ => false))) 0 0
    rw [pullSteps_done _ _ _ e1 he]
    rfl
  | cons l ls =>
    have h := FULL_run condition (l :: ls) e.children_1.rows (valueSize (l :: ls))
      (valueSize e.children_1.rows) ls l (fun _ => false) []
    have hg : (fun s => !(false || (l :: ls).any (fun x => condition x s)))
        = (fun s => !(l :: ls).any (fun x => condition x s)) := by
      funext s
      rw [Bool.false_or]
    rw [hg] at h
    have hb : ((l :: ls).length + 1) * (e.children_1.rows.length + 1) + 1
        = (ls.length + 1) * (e.children_1.rows.length + 1) + (e.children_1.rows.length + 1)
          + 1 := by
      show (ls.length + 1 + 1) * _ + 1 = _
      rw [Nat.succ_mul]
    rw [hb]
    exact pullSteps_mono _ _ _ _ h _ (Nat.le_succ _)

/-- A bound on the number of records a sequence of lists has together. -/
theorem flatMap_length_le (f : Record → List Record) (c : Nat)
    (h : ∀ x, (f x).length ≤ c) :
    ∀ L : List Record, (L.flatMap f).length ≤ L.length * c := by
  intro L
  induction L with
  | nil => exact Nat.zero_le _
  | cons x L ih =>
    rw [List.flatMap_cons, List.length_append]
    show _ ≤ (L.length + 1) * c
    rw [Nat.succ_mul]
    have := h x
    omega

/-- C33, where the code departs from it and from its own comments: for the left
record `(1)` and the right record `(2)`, which do not match, a `RIGHT` join and a `FULL`
join return for the right record the record `(2, 2)`, the first value of which is
not null but the first value of the right record (the `FULL` join after the record
`(1, null)`), although the comments in the source speak of null left sides and the
`LEFT` case fills the right side with nulls only; and for a left child without
records both return the null pointer at the first call, the right record `(2)`
being returned in no form. -/
theorem RIGHT_FULL_join_spec_counterexample :
    pullAllF (NestedLoopJoinExecutor.Next .RIGHT
        (fun l s => decide (l.GetValue 0 = s.GetValue 0)) 5) 3
      (NestedLoopJoinExecutor.new [exampleRow [1]] [exampleRow [2]]).Init
      = some [exampleRow [2, 2]]
    ∧ pullAllF (NestedLoopJoinExecutor.Next .FULL
        (fun l s => decide (l.GetValue 0 = s.GetValue 0)) 5) 3
      (NestedLoopJoinExecutor.new [exampleRow [1]] [exampleRow [2]]).Init
      = some [⟨false, 0, 0, 0, [some 1, none], ⟨0, 0⟩⟩, exampleRow [2, 2]]
    ∧ pullAllF (NestedLoopJoinExecutor.Next .RIGHT
        (fun l s => decide (l.GetValue 0 = s.GetValue 0)) 5) 3
      (NestedLoopJoinExecutor.new [] [exampleRow [2]]).Init = some []
    ∧ pullAllF (NestedLoopJoinExecutor.Next .FULL
        (fun l s => decide (l.GetValue 0 = s.GetValue 0)) 5) 3
      (NestedLoopJoinExecutor.new [] [exampleRow [2]]).Init = some [] := by
  refine ⟨?_, ?_, ?_, ?_⟩ <;> decide

/-- The records of a `RIGHT` and of a `FULL` join as the code returns them: for the left records `L`, the right records `R` and `n`
the number of values of the first left record (`0` when there is none), the
calls of `Next` of a `RIGHT` and of a `FULL` join after `Init` return first the records
of the phase in which a left record is at hand (those of the `INNER` join for
`RIGHT`, those of the `LEFT` join for `FULL`) and then the records `unmatched`: when
`n > 0`, for the right records `s` that no left record matches, in the order of `R`
and once each, the record of `n` nulls followed by the values of `s` in which the
first value is replaced by the first value of `s`; when `n = 0` none. No record
is returned in this phase for a right record that a left record matches. -/
theorem RIGHT_FULL_join_spec (condition : Record → Record → Bool)
    (e : NestedLoopJoinExecutor) (n m : Nat) (unmatched : List Record)
    (hu : unmatched = if valueSize e.children_0.rows > 0 then
        (e.children_1.rows.filter
          (fun s => !e.children_0.rows.any (fun l => condition l s))).map
          (fun s => ((Record.ofValues
            (List.replicate (valueSize e.children_0.rows) none)).Append s).SetValue 0
              (s.GetValue 0))
      else [])
    (hn : (e.children_0.rows.length + 1) * (e.children_1.rows.length + 1) + 1 ≤ n)
    (hm : e.children_0.rows.length * (e.children_1.rows.length + 1)
      + e.children_1.rows.length < m) :
    pullAllF (NestedLoopJoinExecutor.Next .RIGHT condition n) m e.Init
      = some (e.children_0.rows.flatMap (fun l =>
          (e.children_1.rows.filter (fun s => condition l s)).map (fun s => l.Append s))
        ++ unmatched)
    ∧ pullAllF (NestedLoopJoinExecutor.Next .FULL condition n) m e.Init
      = some (e.children_0.rows.flatMap (fun l =>
          (e.children_1.rows.filter (fun s => condition l s)).map (fun s => l.Append s)
            ++ if e.children_1.rows.any (fun s => condition l s) = false
                  ∧ valueSize e.children_1.rows > 0 then
                [l.Append (Record.ofValues (List.replicate (valueSize e.children_1.rows) none))]
              else [])
        ++ unmatched) := by
  have hlu : unmatched.length ≤ e.children_1.rows.length := by
    rw [hu]
    by_cases ha : valueSize e.children_0.rows > 0
    · rw [if_pos ha, List.length_map]
      exact List.length_filter_le _ _
    · rw [if_neg ha]
      exact Nat.zero_le _
  have hj : ∀ l : Record,
      ((e.children_1.rows.filter (fun s => condition l s)).map (fun s => l.Append s)).length
        ≤ e.children_1.rows.length := by
    intro l
    rw [List.length_map]
    exact List.length_filter_le _ _
  subst hu
  constructor
  · refine pullSteps_pullAllF _ _ _ _ (RIGHT_run_Init condition e) n m hn ?_
    rw [List.length_append]
    have h1 := flatMap_length_le (fun l =>
      (e.children_1.rows.filter (fun s => condition l s)).map (fun s => l.Append s))
      (e.children_1.rows.length + 1) (fun l => Nat.le_succ_of_le (hj l)) e.children_0.rows
    exact Nat.lt_of_le_of_lt (Nat.add_le_add h1 hlu) hm
  · refine pullSteps_pullAllF _ _ _ _ (FULL_run_Init condition e) n m hn ?_
    rw [List.length_append]
    have h1 := flatMap_length_le (fun l =>
      (e.children_1.rows.filter (fun s => condition l s)).map (fun s => l.Append s)
        ++ if e.children_1.rows.any (fun s => condition l s) = false
              ∧ valueSize e.children_1.rows > 0 then
            [l.Append (Record.ofValues (List.replicate (valueSize e.children_1.rows) none))]
          else [])
      (e.children_1.rows.length + 1) (fun l => by
        rw [List.length_append]
        have h2 := hj l
        by_cases hc : e.children_1.rows.any (fun s => condition l s) = false
            ∧ valueSize e.children_1.rows > 0
        · rw [if_pos hc]
          exact Nat.succ_le_succ h2
        · rw [if_neg hc]
          exact Nat.le_succ_of_le h2) e.children_0.rows
    exact Nat.lt_of_le_of_lt (Nat.add_le_add h1 hlu) hm

/-- The `RIGHT` and the `FULL` join on the left records `(1), (4)` and the right records
`(1, 10), (3, 30)` with the condition that the first values are equal: a `RIGHT` join
returns `(1, 1, 10)` and then, for the right record `(3, 30)`, the record `(3, 3, 30)`; a
`FULL` join returns `(1, 1, 10)`, `(4, null, null)` and then `(3, 3, 30)`. -/
theorem RIGHT_FULL_join_spec_witness :
    pullAllF (NestedLoopJoinExecutor.Next .RIGHT
        (fun l s => decide (l.GetValue 0 = s.GetValue 0)) 10) 9
      (NestedLoopJoinExecutor.new [exampleRow [1], exampleRow [4]]
        [exampleRow [1, 10], exampleRow [3, 30]]).Init
      = some [exampleRow [1, 1, 10], exampleRow [3, 3, 30]]
    ∧ pullAllF (NestedLoopJoinExecutor.Next .FULL
        (fun l s => decide (l.GetValue 0 = s.GetValue 0)) 10) 9
      (NestedLoopJoinExecutor.new [exampleRow [1], exampleRow [4]]
        [exampleRow [1, 10], exampleRow [3, 30]]).Init
      = some [exampleRow [1, 1, 10], ⟨false, 0, 0, 0, [some 4, none, none], ⟨0, 0⟩⟩,
          exampleRow [3, 3, 30]] :=
  (RIGHT_FULL_join_spec (fun l s => decide (l.GetValue 0 = s.GetValue 0))
    (NestedLoopJoinExecutor.new [exampleRow [1], exampleRow [4]]
      [exampleRow [1, 10], exampleRow [3, 30]]) 10 9 _ rfl (by decide) (by decide)).imp
    (fun h => h.trans (by decide)) (fun h => h.trans (by decide))

/-! ## MergeJoin -/

/-- A pass that goes on yields what the run after it yields. -/
theorem Yields_inl {σ : Type} (step : σ → Sum σ (Option Record × σ)) (e e1 : σ)
    (out : List Record) (hs : step e = .inl e1) (h : Yields step e1 out) :
    Yields step e out := by
  obtain ⟨k, hk⟩ := h
  exact ⟨k + 1, by rw [pullSteps_inl step k e e1 hs, hk]⟩

/-- A pass that returns a record yields it before what the run after it yields. -/
theorem Yields_emit {σ : Type} (step : σ → Sum σ (Option Record × σ)) (e e1 : σ)
    (r : Record) (out : List Record) (hs : step e = .inr (some r, e1))
    (h : Yields step e1 out) : Yields step e (r :: out) := by
  obtain ⟨k, hk⟩ := h
  exact ⟨k + 1, by rw [pullSteps_emit step k e e1 r hs, hk]; rfl⟩

/-- A pass that returns the null pointer yields no record. -/
theorem Yields_done {σ : Type} (step : σ → Sum σ (Option Record × σ)) (e e1 : σ)
    (hs : step e = .inr (none, e1)) : Yields step e [] :=
  ⟨1, pullSteps_done step 0 e e1 hs⟩

/-- What a run yields is what the calls of `Next` return up to the first null
pointer, when every call has enough fuel and more calls are allowed than
records are returned. -/
theorem Yields_pullAllF {σ : Type} (step : σ → Sum σ (Option Record × σ)) (e : σ)
    (out : List Record) (h : Yields step e out) :
    ∃ N, ∀ n m, N ≤ n → out.length < m → pullAllF (runLoop step n) m e = some out := by
  obtain ⟨k, hk⟩ := h
  exact ⟨k, fun n m hn hm => pullSteps_pullAllF step k e out hk n m hn hm⟩

/-- No record of an empty right sequence is joined. -/
theorem joinRows_nil (condition : Record → Record → Bool) (Ls : List Record) :
    Ls.flatMap (fun x => joinRow condition x []) = [] := by
  induction Ls with
  | nil => rfl
  | cons l ls ih =>
    rw [List.flatMap_cons, ih]
    rfl

/-- A left record is joined with no record of a sequence none of which it
matches. -/
theorem joinRow_none (condition : Record → Record → Bool) (l : Record) (Rs : List Record)
    (h : ∀ s ∈ Rs, condition l s = false) : joinRow condition l Rs = [] := by
  induction Rs with
  | nil => rfl
  | cons s rs ih =>
    rw [joinRow_cons, if_neg (by rw [h s (List.mem_cons_self s rs)]; decide)]
    exact ih (fun x hx => h x (List.mem_cons_of_mem s hx))

/-- The records joined with a left record in two right sequences one after the
other. -/
theorem joinRow_append (condition : Record → Record → Bool) (l : Record)
    (M Rs : List Record) :
    joinRow condition l (M ++ Rs) = joinRow condition l M ++ joinRow condition l Rs := by
  unfold joinRow
  rw [List.filter_append, List.map_append]

/-- A left record is joined with every record of a sequence all of which it
matches. -/
theorem joinRow_all (condition : Record → Record → Bool) (l : Record) (M : List Record)
    (h : ∀ s ∈ M, condition l s = true) :
    joinRow condition l M = M.map (fun s => l.Append s) := by
  induction M with
  | nil => rfl
  | cons s rs ih =>
    rw [joinRow_cons, if_pos (h s (List.mem_cons_self s rs)),
      ih (fun x hx => h x (List.mem_cons_of_mem s hx))]
    rfl

/-- Right records that no left record matches can be left out. -/
theorem joinRows_drop (condition : Record → Record → Bool) (M Rs : List Record) :
    ∀ Ls : List Record, (∀ x ∈ Ls, ∀ s ∈ M, condition x s = false) →
      Ls.flatMap (fun x => joinRow condition x (M ++ Rs))
        = Ls.flatMap (fun x => joinRow condition x Rs) := by
  intro Ls
  induction Ls with
  | nil => intro _; rfl
  | cons l ls ih =>
    intro h
    rw [List.flatMap_cons, List.flatMap_cons, joinRow_append,
      joinRow_none condition l M (h l (List.mem_cons_self l ls)),
      ih (fun x hx => h x (List.mem_cons_of_mem l hx))]
    rfl

/-- `matchLoop` with no right records kept: on to `mergeLoop`. -/
theorem mergeStep_match_empty {ν : Type} (V : ValueOps ν) (lhs_key rhs_key : Record → ν)
    (L R Ls Rs : List Record) (i : Nat) :
    MergeJoinExecutor.step V lhs_key rhs_key (mergeState L R Ls Rs [] i .matchLoop)
      = .inl (mergeState L R Ls Rs [] i .mergeLoop) := rfl

/-- `matchLoop` with a right record kept at the index: the left record joined with
it is returned. -/
theorem mergeStep_match_emit {ν : Type} (V : ValueOps ν) (lhs_key rhs_key : Record → ν)
    (L R ls Rs M : List Record) (l : Record) (i : Nat) (hM : M ≠ []) (hi : i < M.length) :
    MergeJoinExecutor.step V lhs_key rhs_key (mergeState L R (l :: ls) Rs M i .matchLoop)
      = .inr (some (l.Append (M.get ⟨i, hi⟩)),
          mergeState L R (l :: ls) Rs M (i + 1) .matchLoop) := by
  unfold MergeJoinExecutor.step
  show (if M ≠ [] then _ else _) = _
  rw [if_pos hM]
  show (if h : i < M.length then _ else _) = _
  rw [dif_pos hi]
  rfl

/-- `matchLoop` with the index past the right records kept and no left record to
come: the records kept are dropped. -/
theorem mergeStep_match_end {ν : Type} (V : ValueOps ν) (lhs_key rhs_key : Record → ν)
    (L R Rs M : List Record) (l : Record) (i : Nat) (hM : M ≠ []) (hi : ¬ i < M.length) :
    MergeJoinExecutor.step V lhs_key rhs_key (mergeState L R [l] Rs M i .matchLoop)
      = .inl (mergeState L R [] Rs [] 0 .matchLoop) := by
  unfold MergeJoinExecutor.step
  show (if M ≠ [] then _ else _) = _
  rw [if_pos hM]
  show (if h : i < M.length then _ else _) = _
  rw [dif_neg hi]
  rfl

/-- `matchLoop` with the index past the right records kept and a left record to
come: the records kept are kept for it when its key is equal to the key of
the left record before it. -/
theorem mergeStep_match_next {ν : Type} (V : ValueOps ν) (lhs_key rhs_key : Record → ν)
    (L R xs Rs M : List Record) (l x : Record) (i : Nat) (hM : M ≠ [])
    (hi : ¬ i < M.length) :
    MergeJoinExecutor.step V lhs_key rhs_key
        (mergeState L R (l :: x :: xs) Rs M i .matchLoop)
      = .inl (mergeState L R (x :: xs) Rs
          (if V.Equal (lhs_key x) (lhs_key l) = false then [] else M) 0 .matchLoop) := by
  unfold MergeJoinExecutor.step
  show (if M ≠ [] then _ else _) = _
  rw [if_pos hM]
  show (if h : i < M.length then _ else _) = _
  rw [dif_neg hi]
  rfl

/-- `mergeLoop` with records at hand on both sides: on to `lessLoop`. -/
theorem mergeStep_merge {ν : Type} (V : ValueOps ν) (lhs_key rhs_key : Record → ν)
    (L R ls rs M : List Record) (l s : Record) (i : Nat) :
    MergeJoinExecutor.step V lhs_key rhs_key
        (mergeState L R (l :: ls) (s :: rs) M i .mergeLoop)
      = .inl (mergeState L R (l :: ls) (s :: rs) M i (.lessLoop (lhs_key l) (rhs_key s))) :=
  rfl

/-- `mergeLoop` with no record at hand on a side: the null pointer. -/
theorem mergeStep_merge_done {ν : Type} (V : ValueOps ν) (lhs_key rhs_key : Record → ν)
    (L R Ls Rs M : List Record) (i : Nat) (h : Ls = [] ∨ Rs = []) :
    ∃ e1, MergeJoinExecutor.step V lhs_key rhs_key (mergeState L R Ls Rs M i .mergeLoop)
      = .inr (none, e1) := by
  rcases h with h | h
  · subst h
    exact ⟨_, rfl⟩
  · subst h
    cases Ls with
    | nil => exact ⟨_, rfl⟩
    | cons l ls => exact ⟨_, rfl⟩

/-- `lessLoop` with a smaller left key and no left record to come: the null
pointer. -/
theorem mergeStep_less_end {ν : Type} (V : ValueOps ν) (lhs_key rhs_key : Record → ν)
    (L R Rs M : List Record) (l : Record) (i : Nat) (lv rv : ν) (h : V.Less lv rv = true) :
    ∃ e1, MergeJoinExecutor.step V lhs_key rhs_key
      (mergeState L R [l] Rs M i (.lessLoop lv rv)) = .inr (none, e1) := by
  unfold MergeJoinExecutor.step
  show ∃ e1, (if V.Less lv rv = true then _ else _) = _
  rw [if_pos h]
  exact ⟨_, rfl⟩

/-- `lessLoop` with a smaller left key and a left record to come: on to it. -/
theorem mergeStep_less_next {ν : Type} (V : ValueOps ν) (lhs_key rhs_key : Record → ν)
    (L R xs Rs M : List Record) (l x : Record) (i : Nat) (lv rv : ν)
    (h : V.Less lv rv = true) :
    MergeJoinExecutor.step V lhs_key rhs_key
        (mergeState L R (l :: x :: xs) Rs M i (.lessLoop lv rv))
      = .inl (mergeState L R (x :: xs) Rs M i (.lessLoop (lhs_key x) rv)) := by
  unfold MergeJoinExecutor.step
  show (if V.Less lv rv = true then _ else _) = _
  rw [if_pos h]
  rfl

/-- `lessLoop` with a left key that is not smaller: on to `greaterLoop`. -/
theorem mergeStep_less_exit {ν : Type} (V : ValueOps ν) (lhs_key rhs_key : Record → ν)
    (L R Ls Rs M : List Record) (i : Nat) (lv rv : ν) (h : V.Less lv rv = false) :
    MergeJoinExecutor.step V lhs_key rhs_key (mergeState L R Ls Rs M i (.lessLoop lv rv))
      = .inl (mergeState L R Ls Rs M i (.greaterLoop lv rv)) := by
  unfold MergeJoinExecutor.step
  show (if V.Less lv rv = true then _ else _) = _
  rw [if_neg (by rw [h]; decide)]
  rfl

/-- `greaterLoop` with a greater left key and no right record to come: the null
pointer. -/
theorem mergeStep_greater_end {ν : Type} (V : ValueOps ν) (lhs_key rhs_key : Record → ν)
    (L R Ls M : List Record) (s : Record) (i : Nat) (lv rv : ν)
    (h : V.Greater lv rv = true) :
    ∃ e1, MergeJoinExecutor.step V lhs_key rhs_key
      (mergeState L R Ls [s] M i (.greaterLoop lv rv)) = .inr (none, e1) := by
  unfold MergeJoinExecutor.step
  show ∃ e1, (if V.Greater lv rv = true then _ else _) = _
  rw [if_pos h]
  exact ⟨_, rfl⟩

/-- `greaterLoop` with a greater left key and a right record to come: on to it. -/
theorem mergeStep_greater_next {ν : Type} (V : ValueOps ν) (lhs_key rhs_key : Record → ν)
    (L R Ls ys M : List Record) (s y : Record) (i : Nat) (lv rv : ν)
    (h : V.Greater lv rv = true) :
    MergeJoinExecutor.step V lhs_key rhs_key
        (mergeState L R Ls (s :: y :: ys) M i (.greaterLoop lv rv))
      = .inl (mergeState L R Ls (y :: ys) M i (.greaterLoop lv (rhs_key y))) := by
  unfold MergeJoinExecutor.step
  show (if V.Greater lv rv = true then _ else _) = _
  rw [if_pos h]
  rfl

/-- `greaterLoop` with equal keys: the right record is kept and `collectLoop` is
entered with the joined record. -/
theorem mergeStep_greater_equal {ν : Type} (V : ValueOps ν) (lhs_key rhs_key : Record → ν)
    (L R ls rs M : List Record) (l s : Record) (i : Nat) (lv rv : ν)
    (h : V.Greater lv rv = false) (h1 : V.Equal lv rv = true) :
    MergeJoinExecutor.step V lhs_key rhs_key
        (mergeState L R (l :: ls) (s :: rs) M i (.greaterLoop lv rv))
      = .inl (mergeState L R (l :: ls) rs (M ++ [s]) i (.collectLoop lv (l.Append s))) := by
  unfold MergeJoinExecutor.step
  show (if V.Greater lv rv = true then _ else _) = _
  rw [if_neg (by rw [h]; decide), if_pos h1]
  cases rs <;> rfl

/-- `greaterLoop` with a left key that is neither greater nor equal: back to
`mergeLoop`. -/
theorem mergeStep_greater_exit {ν : Type} (V : ValueOps ν) (lhs_key rhs_key : Record → ν)
    (L R Ls Rs M : List Record) (i : Nat) (lv rv : ν)
    (h : V.Greater lv rv = false) (h1 : V.Equal lv rv = false) :
    MergeJoinExecutor.step V lhs_key rhs_key (mergeState L R Ls Rs M i (.greaterLoop lv rv))
      = .inl (mergeState L R Ls Rs M i .mergeLoop) := by
  unfold MergeJoinExecutor.step
  show (if V.Greater lv rv = true then _ else _) = _
  rw [if_neg (by rw [h]; decide), if_neg (by rw [h1]; decide)]
  rfl

/-- `collectLoop` with a right record at hand of an equal key: it is kept. -/
theorem mergeStep_collect_next {ν : Type} (V : ValueOps ν) (lhs_key rhs_key : Record → ν)
    (L R Ls rs M : List Record) (s : Record) (i : Nat) (lv : ν) (jr : Record)
    (h : V.Equal (rhs_key s) lv = true) :
    MergeJoinExecutor.step V lhs_key rhs_key
        (mergeState L R Ls (s :: rs) M i (.collectLoop lv jr))
      = .inl (mergeState L R Ls rs (M ++ [s]) i (.collectLoop lv jr)) := by
  unfold MergeJoinExecutor.step
  show (if V.Equal (rhs_key s) lv = true then _ else _) = _
  rw [if_pos h]
  cases rs <;> rfl

/-- `collectLoop` with a right record at hand of another key: the joined record is
returned. -/
theorem mergeStep_collect_exit {ν : Type} (V : ValueOps ν) (lhs_key rhs_key : Record → ν)
    (L R Ls rs M : List Record) (s : Record) (i : Nat) (lv : ν) (jr : Record)
    (h : V.Equal (rhs_key s) lv = false) :
    MergeJoinExecutor.step V lhs_key rhs_key
        (mergeState L R Ls (s :: rs) M i (.collectLoop lv jr))
      = .inr (some jr, mergeState L R Ls (s :: rs) M (i + 1) .matchLoop) := by
  unfold MergeJoinExecutor.step
  show (if V.Equal (rhs_key s) lv = true then _ else _) = _
  rw [if_neg (by rw [h]; decide)]
  rfl

/-- `collectLoop` with no right record at hand: the joined record is returned. -/
theorem mergeStep_collect_end {ν : Type} (V : ValueOps ν) (lhs_key rhs_key : Record → ν)
    (L R Ls M : List Record) (i : Nat) (lv : ν) (jr : Record) :
    MergeJoinExecutor.step V lhs_key rhs_key (mergeState L R Ls [] M i (.collectLoop lv jr))
      = .inr (some jr, mergeState L R Ls [] M (i + 1) .matchLoop) := rfl

/-- The comparisons ranked on two sequences are ranked on sequences of records
of these. -/
theorem KeysRanked_mono {ν : Type} (V : ValueOps ν) (lhs_key rhs_key : Record → ν)
    (kl kr : Record → Int) (Ls Rs Ls1 Rs1 : List Record)
    (H : KeysRanked V lhs_key rhs_key kl kr Ls Rs) (hL : ∀ x ∈ Ls1, x ∈ Ls)
    (hR : ∀ s ∈ Rs1, s ∈ Rs) : KeysRanked V lhs_key rhs_key kl kr Ls1 Rs1 :=
  ⟨fun l hl s hs => H.1 l (hL l hl) s (hR s hs),
    fun l hl x hx => H.2 l (hL l hl) x (hL x hx)⟩

/-- `matchLoop`: the left record at hand is returned joined with the right
records kept from the index on. -/
theorem Merge_emits {ν : Type} (V : ValueOps ν) (lhs_key rhs_key : Record → ν)
    (L R ls Rs M : List Record) (l : Record) (out : List Record) (hM : M ≠ [])
    (h : Yields (MergeJoinExecutor.step V lhs_key rhs_key)
      (mergeState L R (l :: ls) Rs M M.length .matchLoop) out) :
    ∀ (d i : Nat), i + d = M.length →
      Yields (MergeJoinExecutor.step V lhs_key rhs_key)
        (mergeState L R (l :: ls) Rs M i .matchLoop)
        ((M.drop i).map (fun s => l.Append s) ++ out) := by
  intro d
  induction d with
  | zero =>
    intro i hi
    have : i = M.length := by omega
    subst this
    rw [List.drop_length]
    exact h
  | succ d ih =>
    intro i hi
    have hlt : i < M.length := by omega
    rw [List.drop_eq_getElem_cons hlt]
    exact Yields_emit _ _ _ _ _
      (mergeStep_match_emit V lhs_key rhs_key L R ls Rs M l i hM hlt)
      (ih (i + 1) (by omega))

/-- `matchLoop` with right records kept, all of the key of the left record at
hand, and greater keys in the right records to come: the left records of
this key are returned joined with the records kept, and the run goes on in
`mergeLoop` with the first left record of another key. -/
theorem Merge_inmatch {ν : Type} (V : ValueOps ν) (lhs_key rhs_key : Record → ν)
    (kl kr : Record → Int) (L R Rs M : List Record) (hM : M ≠ []) :
    ∀ (ls : List Record) (l : Record),
      KeysRanked V lhs_key rhs_key kl kr (l :: ls) (M ++ Rs) →
      (l :: ls).Pairwise (fun a b => kl a ≤ kl b) →
      (∀ m ∈ M, kr m = kl l) → (∀ s ∈ Rs, kl l < kr s) →
      (∀ x xs, (x :: xs) <:+ ls →
        Yields (MergeJoinExecutor.step V lhs_key rhs_key)
          (mergeState L R (x :: xs) Rs [] 0 .mergeLoop)
          ((x :: xs).flatMap (fun y =>
            joinRow (fun a b => V.Equal (lhs_key a) (rhs_key b)) y Rs))) →
      ∀ i, i ≤ M.length →
        Yields (MergeJoinExecutor.step V lhs_key rhs_key)
          (mergeState L R (l :: ls) Rs M i .matchLoop)
          ((M.drop i).map (fun s => l.Append s)
            ++ ls.flatMap (fun y =>
              joinRow (fun a b => V.Equal (lhs_key a) (rhs_key b)) y (M ++ Rs))) := by
  intro ls
  induction ls with
  | nil =>
    intro l _ _ _ _ _ i hi
    refine Merge_emits V lhs_key rhs_key L R [] Rs M l _ hM ?_ (M.length - i) i (by omega)
    refine Yields_inl _ _ _ _
      (mergeStep_match_end V lhs_key rhs_key L R Rs M l M.length hM (Nat.lt_irrefl _)) ?_
    refine Yields_inl _ _ _ _ (mergeStep_match_empty V lhs_key rhs_key L R [] Rs 0) ?_
    obtain ⟨e1, he⟩ := mergeStep_merge_done V lhs_key rhs_key L R [] Rs [] 0 (Or.inl rfl)
    exact Yields_done _ _ e1 he
  | cons x xs ih =>
    intro l H sL hMk hRk cont i hi
    refine Merge_emits V lhs_key rhs_key L R (x :: xs) Rs M l _ hM ?_ (M.length - i) i
      (by omega)
    refine Yields_inl _ _ _ _
      (mergeStep_match_next V lhs_key rhs_key L R xs Rs M l x M.length hM
        (Nat.lt_irrefl _)) ?_
    have hxl : x ∈ l :: x :: xs := List.mem_cons_of_mem l (List.mem_cons_self x xs)
    have hE : V.Equal (lhs_key x) (lhs_key l) = decide (kl x = kl l) :=
      H.2 l (List.mem_cons_self l _) x hxl
    have hlx : kl l ≤ kl x := List.rel_of_pairwise_cons sL (List.mem_cons_self x xs)
    have sL1 : (x :: xs).Pairwise (fun a b => kl a ≤ kl b) := (List.pairwise_cons.mp sL).2
    have H1 : KeysRanked V lhs_key rhs_key kl kr (x :: xs) (M ++ Rs) :=
      KeysRanked_mono V lhs_key rhs_key kl kr _ _ _ _ H
        (fun y hy => List.mem_cons_of_mem l hy) (fun s hs => hs)
    rw [List.flatMap_cons]
    by_cases hk : kl x = kl l
    · rw [hE, decide_eq_true hk, if_neg (by decide)]
      have hall : ∀ s ∈ M, (fun a b => V.Equal (lhs_key a) (rhs_key b)) x s = true := by
        intro s hs
        show V.Equal (lhs_key x) (rhs_key s) = true
        rw [(H1.1 x (List.mem_cons_self x xs) s (List.mem_append_left Rs hs)).2.2.1]
        exact decide_eq_true (by rw [hMk s hs, hk])
      have hnone : ∀ s ∈ Rs, (fun a b => V.Equal (lhs_key a) (rhs_key b)) x s = false := by
        intro s hs
        show V.Equal (lhs_key x) (rhs_key s) = false
        rw [(H1.1 x (List.mem_cons_self x xs) s (List.mem_append_right M hs)).2.2.1]
        exact decide_eq_false (by have := hRk s hs; omega)
      rw [joinRow_append, joinRow_all _ x M hall, joinRow_none _ x Rs hnone, List.append_nil]
      exact ih x H1 sL1 (fun m hm => by rw [hMk m hm, hk])
        (fun s hs => by have := hRk s hs; omega)
        (fun y ys hsuf => cont y ys (hsuf.trans (List.suffix_cons x xs))) 0 (Nat.zero_le _)
    · rw [hE, decide_eq_false hk, if_pos rfl]
      refine Yields_inl _ _ _ _
        (mergeStep_match_empty V lhs_key rhs_key L R (x :: xs) Rs 0) ?_
      have hdrop := joinRows_drop (fun a b => V.Equal (lhs_key a) (rhs_key b)) M Rs (x :: xs)
        (by
          intro y hy s hs
          show V.Equal (lhs_key y) (rhs_key s) = false
          rw [(H1.1 y hy s (List.mem_append_left Rs hs)).2.2.1]
          have hxy : kl x ≤ kl y := by
            rcases List.mem_cons.mp hy with h | h
            · rw [h]
            · exact List.rel_of_pairwise_cons sL1 h
          exact decide_eq_false (by have := hMk s hs; omega))
      rw [List.flatMap_cons] at hdrop
      rw [hdrop]
      exact cont x xs (List.suffix_refl _)

/-- `collectLoop`: the right records of the key of the left record at hand are
kept, the joined record is returned, and the run goes on in `matchLoop` at
index `1` with greater keys in the right records to come. -/
theorem Merge_collect {ν : Type} (V : ValueOps ν) (lhs_key rhs_key : Record → ν)
    (kl kr : Record → Int) (L R ls : List Record) (l jr : Record) (X : List Record) :
    ∀ (Rs M : List Record), M ≠ [] →
      KeysRanked V lhs_key rhs_key kl kr [l] (M ++ Rs) →
      (∀ m ∈ M, kr m = kl l) → (M ++ Rs).Pairwise (fun a b => kr a ≤ kr b) →
      (∀ M1 Rs1, M1 ++ Rs1 = M ++ Rs → M1 ≠ [] → (∀ m ∈ M1, kr m = kl l) →
        (∀ s ∈ Rs1, kl l < kr s) →
        Yields (MergeJoinExecutor.step V lhs_key rhs_key)
          (mergeState L R (l :: ls) Rs1 M1 1 .matchLoop) X) →
      Yields (MergeJoinExecutor.step V lhs_key rhs_key)
        (mergeState L R (l :: ls) Rs M 0 (.collectLoop (lhs_key l) jr)) (jr :: X) := by
  intro Rs
  induction Rs with
  | nil =>
    intro M hM _ hMk _ cont
    exact Yields_emit _ _ _ _ _
      (mergeStep_collect_end V lhs_key rhs_key L R (l :: ls) M 0 (lhs_key l) jr)
      (cont M [] rfl hM hMk (fun s hs => by cases hs))
  | cons s rs ih =>
    intro M hM H hMk sR cont
    have hE : V.Equal (rhs_key s) (lhs_key l) = decide (kr s = kl l) :=
      (H.1 l (List.mem_singleton_self l) s
        (List.mem_append_right M (List.mem_cons_self s rs))).2.2.2
    have happ : (M ++ [s]) ++ rs = M ++ s :: rs := by
      rw [List.append_assoc]
      rfl
    by_cases hk : kr s = kl l
    · refine Yields_inl _ _ _ _
        (mergeStep_collect_next V lhs_key rhs_key L R (l :: ls) rs M s 0 (lhs_key l) jr
          (by rw [hE]; exact decide_eq_true hk)) ?_
      refine ih (M ++ [s]) (by intro h; cases M <;> cases h) (by rw [happ]; exact H) ?_
        (by rw [happ]; exact sR) ?_
      · intro m hm
        rcases List.mem_append.mp hm with h | h
        · exact hMk m h
        · rw [List.mem_singleton.mp h]
          exact hk
      · intro M1 Rs1 hsplit hne h1 h2
        exact cont M1 Rs1 (hsplit.trans happ) hne h1 h2
    · refine Yields_emit _ _ _ _ _
        (mergeStep_collect_exit V lhs_key rhs_key L R (l :: ls) rs M s 0 (lhs_key l) jr
          (by rw [hE]; exact decide_eq_false hk)) ?_
      refine cont M (s :: rs) rfl hM hMk ?_
      obtain ⟨m0, hm0⟩ := List.exists_mem_of_ne_nil M hM
      have hp := List.pairwise_append.mp sR
      have hms : kr m0 ≤ kr s := hp.2.2 m0 hm0 s (List.mem_cons_self s rs)
      have hm0k := hMk m0 hm0
      intro s1 hs1
      rcases List.mem_cons.mp hs1 with h | h
      · rw [h]
        omega
      · have := List.rel_of_pairwise_cons hp.2.1 h
        omega

/-- `greaterLoop`: the right records of keys smaller than the key of the left
record at hand are passed; they are joined with no left record. -/
theorem Merge_greater {ν : Type} (V : ValueOps ν) (lhs_key rhs_key : Record → ν)
    (kl kr : Record → Int) (L R ls : List Record) (l : Record) :
    ∀ (rs : List Record) (s : Record),
      KeysRanked V lhs_key rhs_key kl kr (l :: ls) (s :: rs) →
      (∀ x ∈ l :: ls, kl l ≤ kl x) →
      (∀ s1 rs1, (s1 :: rs1) <:+ (s :: rs) → kl l < kr s1 →
        Yields (MergeJoinExecutor.step V lhs_key rhs_key)
          (mergeState L R (l :: ls) (s1 :: rs1) [] 0 .mergeLoop)
          ((l :: ls).flatMap (fun y =>
            joinRow (fun a b => V.Equal (lhs_key a) (rhs_key b)) y (s1 :: rs1)))) →
      (∀ s1 rs1, (s1 :: rs1) <:+ (s :: rs) → kl l = kr s1 →
        Yields (MergeJoinExecutor.step V lhs_key rhs_key)
          (mergeState L R (l :: ls) rs1 [s1] 0 (.collectLoop (lhs_key l) (l.Append s1)))
          ((l :: ls).flatMap (fun y =>
            joinRow (fun a b => V.Equal (lhs_key a) (rhs_key b)) y (s1 :: rs1)))) →
      Yields (MergeJoinExecutor.step V lhs_key rhs_key)
        (mergeState L R (l :: ls) (s :: rs) [] 0 (.greaterLoop (lhs_key l) (rhs_key s)))
        ((l :: ls).flatMap (fun y =>
          joinRow (fun a b => V.Equal (lhs_key a) (rhs_key b)) y (s :: rs))) := by
  intro rs
  induction rs with
  | nil =>
    intro s H hmin contM contE
    have hK := H.1 l (List.mem_cons_self l ls) s (List.mem_cons_self s [])
    by_cases hgt : kr s < kl l
    · obtain ⟨e1, he⟩ := mergeStep_greater_end V lhs_key rhs_key L R (l :: ls) [] s 0
        (lhs_key l) (rhs_key s) (by rw [hK.2.1]; exact decide_eq_true hgt)
      have hdrop := joinRows_drop (fun a b => V.Equal (lhs_key a) (rhs_key b)) [s] []
        (l :: ls) (by
          intro y hy s1 hs1
          rw [List.mem_singleton.mp hs1]
          show V.Equal (lhs_key y) (rhs_key s) = false
          rw [(H.1 y hy s (List.mem_cons_self s [])).2.2.1]
          exact decide_eq_false (by have := hmin y hy; omega))
      rw [joinRows_nil] at hdrop
      have hd : (l :: ls).flatMap (fun y =>
          joinRow (fun a b => V.Equal (lhs_key a) (rhs_key b)) y [s]) = [] := hdrop
      rw [hd]
      exact Yields_done _ _ e1 he
    · by_cases heq : kl l = kr s
      · exact Yields_inl _ _ _ _
          (mergeStep_greater_equal V lhs_key rhs_key L R ls [] [] l s 0 (lhs_key l)
            (rhs_key s) (by rw [hK.2.1]; exact decide_eq_false hgt)
            (by rw [hK.2.2.1]; exact decide_eq_true heq))
          (contE s [] (List.suffix_refl _) heq)
      · exact Yields_inl _ _ _ _
          (mergeStep_greater_exit V lhs_key rhs_key L R (l :: ls) [s] [] 0 (lhs_key l)
            (rhs_key s) (by rw [hK.2.1]; exact decide_eq_false hgt)
            (by rw [hK.2.2.1]; exact decide_eq_false heq))
          (contM s [] (List.suffix_refl _) (by omega))
  | cons y ys ih =>
    intro s H hmin contM contE
    have hK := H.1 l (List.mem_cons_self l ls) s (List.mem_cons_self s (y :: ys))
    by_cases hgt : kr s < kl l
    · have hdrop := joinRows_drop (fun a b => V.Equal (lhs_key a) (rhs_key b)) [s] (y :: ys)
        (l :: ls) (by
          intro z hz s1 hs1
          rw [List.mem_singleton.mp hs1]
          show V.Equal (lhs_key z) (rhs_key s) = false
          rw [(H.1 z hz s (List.mem_cons_self s _)).2.2.1]
          exact decide_eq_false (by have := hmin z hz; omega))
      have hd : (l :: ls).flatMap (fun z =>
          joinRow (fun a b => V.Equal (lhs_key a) (rhs_key b)) z (s :: y :: ys))
          = (l :: ls).flatMap (fun z =>
            joinRow (fun a b => V.Equal (lhs_key a) (rhs_key b)) z (y :: ys)) := hdrop
      rw [hd]
      refine Yields_inl _ _ _ _
        (mergeStep_greater_next V lhs_key rhs_key L R (l :: ls) ys [] s y 0 (lhs_key l)
          (rhs_key s) (by rw [hK.2.1]; exact decide_eq_true hgt)) ?_
      exact ih y
        (KeysRanked_mono V lhs_key rhs_key kl kr _ _ _ _ H (fun x hx => hx)
          (fun x hx => List.mem_cons_of_mem s hx))
        hmin
        (fun s1 rs1 hsuf => contM s1 rs1 (hsuf.trans (List.suffix_cons s (y :: ys))))
        (fun s1 rs1 hsuf => contE s1 rs1 (hsuf.trans (List.suffix_cons s (y :: ys))))
    · by_cases heq : kl l = kr s
      · exact Yields_inl _ _ _ _
          (mergeStep_greater_equal V lhs_key rhs_key L R ls (y :: ys) [] l s 0 (lhs_key l)
            (rhs_key s) (by rw [hK.2.1]; exact decide_eq_false hgt)
            (by rw [hK.2.2.1]; exact decide_eq_true heq))
          (contE s (y :: ys) (List.suffix_refl _) heq)
      · exact Yields_inl _ _ _ _
          (mergeStep_greater_exit V lhs_key rhs_key L R (l :: ls) (s :: y :: ys) [] 0
            (lhs_key l) (rhs_key s) (by rw [hK.2.1]; exact decide_eq_false hgt)
            (by rw [hK.2.2.1]; exact decide_eq_false heq))
          (contM s (y :: ys) (List.suffix_refl _) (by omega))

/-- `lessLoop`: the left records of keys smaller than the key of the right record
at hand are passed; they are joined with no right record to come. -/
theorem Merge_less {ν : Type} (V : ValueOps ν) (lhs_key rhs_key : Record → ν)
    (kl kr : Record → Int) (L R rs : List Record) (s : Record) :
    ∀ (ls : List Record) (l : Record),
      KeysRanked V lhs_key rhs_key kl kr (l :: ls) (s :: rs) →
      (∀ s1 ∈ s :: rs, kr s ≤ kr s1) →
      (∀ l1 ls1, (l1 :: ls1) <:+ (l :: ls) → ¬ kl l1 < kr s →
        Yields (MergeJoinExecutor.step V lhs_key rhs_key)
          (mergeState L R (l1 :: ls1) (s :: rs) [] 0 (.greaterLoop (lhs_key l1) (rhs_key s)))
          ((l1 :: ls1).flatMap (fun y =>
            joinRow (fun a b => V.Equal (lhs_key a) (rhs_key b)) y (s :: rs)))) →
      Yields (MergeJoinExecutor.step V lhs_key rhs_key)
        (mergeState L R (l :: ls) (s :: rs) [] 0 (.lessLoop (lhs_key l) (rhs_key s)))
        ((l :: ls).flatMap (fun y =>
          joinRow (fun a b => V.Equal (lhs_key a) (rhs_key b)) y (s :: rs))) := by
  intro ls
  induction ls with
  | nil =>
    intro l H hmin cont
    have hK := H.1 l (List.mem_cons_self l []) s (List.mem_cons_self s rs)
    by_cases hlt : kl l < kr s
    · obtain ⟨e1, he⟩ := mergeStep_less_end V lhs_key rhs_key L R (s :: rs) [] l 0
        (lhs_key l) (rhs_key s) (by rw [hK.1]; exact decide_eq_true hlt)
      rw [List.flatMap_cons, List.flatMap_nil, List.append_nil,
        joinRow_none _ l (s :: rs) (by
          intro s1 hs1
          show V.Equal (lhs_key l) (rhs_key s1) = false
          rw [(H.1 l (List.mem_cons_self l []) s1 hs1).2.2.1]
          exact decide_eq_false (by have := hmin s1 hs1; omega))]
      exact Yields_done _ _ e1 he
    · exact Yields_inl _ _ _ _
        (mergeStep_less_exit V lhs_key rhs_key L R [l] (s :: rs) [] 0 (lhs_key l) (rhs_key s)
          (by rw [hK.1]; exact decide_eq_false hlt))
        (cont l [] (List.suffix_refl _) hlt)
  | cons x xs ih =>
    intro l H hmin cont
    have hK := H.1 l (List.mem_cons_self l (x :: xs)) s (List.mem_cons_self s rs)
    by_cases hlt : kl l < kr s
    · rw [List.flatMap_cons,
        joinRow_none _ l (s :: rs) (by
          intro s1 hs1
          show V.Equal (lhs_key l) (rhs_key s1) = false
          rw [(H.1 l (List.mem_cons_self l _) s1 hs1).2.2.1]
          exact decide_eq_false (by have := hmin s1 hs1; omega)), List.nil_append]
      refine Yields_inl _ _ _ _
        (mergeStep_less_next V lhs_key rhs_key L R xs (s :: rs) [] l x 0 (lhs_key l)
          (rhs_key s) (by rw [hK.1]; exact decide_eq_true hlt)) ?_
      exact ih x
        (KeysRanked_mono V lhs_key rhs_key kl kr _ _ _ _ H
          (fun y hy => List.mem_cons_of_mem l hy) (fun y hy => hy))
        hmin
        (fun l1 ls1 hsuf => cont l1 ls1 (hsuf.trans (List.suffix_cons l (x :: xs))))
    · exact Yields_inl _ _ _ _
        (mergeStep_less_exit V lhs_key rhs_key L R (l :: x :: xs) (s :: rs) [] 0 (lhs_key l)
          (rhs_key s) (by rw [hK.1]; exact decide_eq_false hlt))
        (cont l (x :: xs) (List.suffix_refl _) hlt)

/-- A sequence that ends another and differs from it is shorter. -/
theorem suffix_length_lt (s s1 : Record) (rs rs1 : List Record)
    (h : (s1 :: rs1) <:+ (s :: rs)) (hne : s1 ≠ s) : (s1 :: rs1).length < (s :: rs).length := by
  obtain ⟨t, ht⟩ := h
  cases t with
  | nil =>
    exfalso
    apply hne
    have := List.head_eq_of_cons_eq ht
    exact this
  | cons a t =>
    have hl := congrArg List.length ht
    rw [List.length_append] at hl
    rw [← hl]
    show _ < (t.length + 1) + _
    omega

/-- `mergeLoop` with no right record kept: the run returns the left records
joined with the right records of an equal key, in the order of the left
records and then of the right records. -/
theorem Merge_top {ν : Type} (V : ValueOps ν) (lhs_key rhs_key : Record → ν)
    (kl kr : Record → Int) (L R : List Record) :
    ∀ (n : Nat) (Ls Rs : List Record), Ls.length + Rs.length ≤ n →
      KeysRanked V lhs_key rhs_key kl kr Ls Rs →
      Ls.Pairwise (fun a b => kl a ≤ kl b) → Rs.Pairwise (fun a b => kr a ≤ kr b) →
      Yields (MergeJoinExecutor.step V lhs_key rhs_key)
        (mergeState L R Ls Rs [] 0 .mergeLoop)
        (Ls.flatMap (fun y =>
          joinRow (fun a b => V.Equal (lhs_key a) (rhs_key b)) y Rs)) := by
  intro n
  induction n with
  | zero =>
    intro Ls Rs hn _ _ _
    have hL : Ls = [] := List.eq_nil_of_length_eq_zero (by omega)
    subst hL
    obtain ⟨e1, he⟩ := mergeStep_merge_done V lhs_key rhs_key L R [] Rs [] 0 (Or.inl rfl)
    exact Yields_done _ _ e1 he
  | succ n ih =>
    intro Ls Rs hn H sL sR
    cases Ls with
    | nil =>
      obtain ⟨e1, he⟩ := mergeStep_merge_done V lhs_key rhs_key L R [] Rs [] 0 (Or.inl rfl)
      exact Yields_done _ _ e1 he
    | cons l ls =>
      cases Rs with
      | nil =>
        obtain ⟨e1, he⟩ := mergeStep_merge_done V lhs_key rhs_key L R (l :: ls) [] [] 0
          (Or.inr rfl)
        rw [joinRows_nil]
        exact Yields_done _ _ e1 he
      | cons s rs =>
        have hlen : (l :: ls).length + (s :: rs).length ≤ n + 1 := hn
        refine Yields_inl _ _ _ _ (mergeStep_merge V lhs_key rhs_key L R ls rs [] l s 0) ?_
        refine Merge_less V lhs_key rhs_key kl kr L R rs s ls l H ?_ ?_
        · intro s1 hs1
          rcases List.mem_cons.mp hs1 with h | h
          · rw [h]
          · exact List.rel_of_pairwise_cons sR h
        · intro l1 ls1 hsufL hge
          have H1 : KeysRanked V lhs_key rhs_key kl kr (l1 :: ls1) (s :: rs) :=
            KeysRanked_mono V lhs_key rhs_key kl kr _ _ _ _ H (fun x hx => hsufL.subset hx)
              (fun x hx => hx)
          have sL1 : (l1 :: ls1).Pairwise (fun a b => kl a ≤ kl b) := sL.sublist hsufL.sublist
          have hlenL : (l1 :: ls1).length ≤ (l :: ls).length := hsufL.length_le
          refine Merge_greater V lhs_key rhs_key kl kr L R ls1 l1 rs s H1 ?_ ?_ ?_
          · intro x hx
            rcases List.mem_cons.mp hx with h | h
            · rw [h]
            · exact List.rel_of_pairwise_cons sL1 h
          · intro s1 rs1 hsufR hlt
            have hne : s1 ≠ s := by
              intro h
              rw [h] at hlt
              exact hge hlt
            have hlenR := suffix_length_lt s s1 rs rs1 hsufR hne
            exact ih (l1 :: ls1) (s1 :: rs1) (by omega)
              (KeysRanked_mono V lhs_key rhs_key kl kr _ _ _ _ H1 (fun x hx => hx)
                (fun x hx => hsufR.subset hx))
              sL1 (sR.sublist hsufR.sublist)
          · intro s1 rs1 hsufR heq
            have H2 : KeysRanked V lhs_key rhs_key kl kr (l1 :: ls1) (s1 :: rs1) :=
              KeysRanked_mono V lhs_key rhs_key kl kr _ _ _ _ H1 (fun x hx => hx)
                (fun x hx => hsufR.subset hx)
            have sR1 : (s1 :: rs1).Pairwise (fun a b => kr a ≤ kr b) :=
              sR.sublist hsufR.sublist
            have hlenR : (s1 :: rs1).length ≤ (s :: rs).length := hsufR.length_le
            have hc : V.Equal (lhs_key l1) (rhs_key s1) = true := by
              rw [(H2.1 l1 (List.mem_cons_self l1 ls1) s1 (List.mem_cons_self s1 rs1)).2.2.1]
              exact decide_eq_true heq
            rw [List.flatMap_cons, joinRow_cons, if_pos hc, List.cons_append]
            refine Merge_collect V lhs_key rhs_key kl kr L R ls1 l1 (l1.Append s1) _ rs1 [s1]
              (by intro h; cases h)
              (KeysRanked_mono V lhs_key rhs_key kl kr _ _ _ _ H2
                (fun x hx => by rw [List.mem_singleton.mp hx]; exact List.mem_cons_self l1 ls1)
                (fun x hx => hx))
              (fun m hm => by rw [List.mem_singleton.mp hm]; exact heq.symm) sR1 ?_
            intro M1 Rs1 hsplit hne hMk hRk
            have hsplit1 : M1 ++ Rs1 = s1 :: rs1 := hsplit
            cases M1 with
            | nil => exact absurd rfl hne
            | cons m0 M2 =>
              have hm0 : m0 = s1 := List.head_eq_of_cons_eq hsplit1
              have htl : M2 ++ Rs1 = rs1 := List.tail_eq_of_cons_eq hsplit1
              subst hm0
              have hin := Merge_inmatch V lhs_key rhs_key kl kr L R Rs1 (m0 :: M2) hne ls1 l1
                (by rw [hsplit1]; exact H2) sL1 hMk hRk
                (by
                  intro x xs hsuf
                  have hl1 : (x :: xs).length ≤ ls1.length := hsuf.length_le
                  have hl2 : Rs1.length ≤ rs1.length := by
                    rw [← htl, List.length_append]
                    omega
                  have hsufR1 : Rs1 <:+ (m0 :: rs1) := ⟨m0 :: M2, by rw [← htl]; rfl⟩
                  have hsufL1 : (x :: xs) <:+ (l1 :: ls1) :=
                    hsuf.trans (List.suffix_cons l1 ls1)
                  exact ih (x :: xs) Rs1
                    (by
                      have h1 : (l1 :: ls1).length = ls1.length + 1 := rfl
                      have h2 : (m0 :: rs1).length = rs1.length + 1 := rfl
                      omega)
                    (KeysRanked_mono V lhs_key rhs_key kl kr _ _ _ _ H2
                      (fun y hy => hsufL1.subset hy) (fun y hy => hsufR1.subset hy))
                    (sL1.sublist hsufL1.sublist) (sR1.sublist hsufR1.sublist))
                1 (Nat.succ_le_succ (Nat.zero_le _))
              rw [hsplit1] at hin
              have hj : joinRow (fun a b => V.Equal (lhs_key a) (rhs_key b)) l1 rs1
                  = M2.map (fun s => l1.Append s) := by
                rw [← htl, joinRow_append,
                  joinRow_all _ l1 M2 (by
                    intro s2 hs2
                    show V.Equal (lhs_key l1) (rhs_key s2) = true
                    rw [(H2.1 l1 (List.mem_cons_self l1 ls1) s2 (by
                      rw [← htl]
                      exact List.mem_cons_of_mem m0 (List.mem_append_left Rs1 hs2))).2.2.1]
                    exact decide_eq_true (hMk s2 (List.mem_cons_of_mem m0 hs2)).symm),
                  joinRow_none _ l1 Rs1 (by
                    intro s2 hs2
                    show V.Equal (lhs_key l1) (rhs_key s2) = false
                    rw [(H2.1 l1 (List.mem_cons_self l1 ls1) s2 (by
                      rw [← htl]
                      exact List.mem_cons_of_mem m0 (List.mem_append_right M2 hs2))).2.2.1]
                    exact decide_eq_false (by have := hRk s2 hs2; omega)),
                  List.append_nil]
              rw [hj]
              exact hin

/-- After `Init` of a new executor the records at hand are the first ones of the
children and no right record is kept. -/
theorem MergeJoin_Init_eq (ν : Type) (L R : List Record) :
    (MergeJoinExecutor.new ν L R).Init = mergeState L R L R [] 0 .matchLoop := by
  cases L <;> cases R <;> rfl

/-- C34: for every pair of child sequences `L` and `R` whose join keys are linearly
ordered by the comparisons of `Value` (they compare as the integers `kl l` and
`kr s` do) and that are each sorted ascending on the join key, the calls of
`Next` of a new `MergeJoinExecutor` after `Init` return, for the records `l` of `L` in
their order and for each of them the records `s` of `R` in their order whose key
is equal to the key of `l`, the record `l` with the values of `s` appended, each
pair once, and then the null pointer, whenever every call has enough fuel for
its loops and more calls are allowed than there are pairs. -/
theorem MergeJoin_spec {ν : Type} (V : ValueOps ν) (lhs_key rhs_key : Record → ν)
    (kl kr : Record → Int) (L R : List Record) (out : List Record)
    (hout : out = L.flatMap (fun l =>
      (R.filter (fun s => V.Equal (lhs_key l) (rhs_key s))).map (fun s => l.Append s)))
    (H : KeysRanked V lhs_key rhs_key kl kr L R)
    (sL : L.Pairwise (fun a b => kl a ≤ kl b)) (sR : R.Pairwise (fun a b => kr a ≤ kr b)) :
    ∃ N, ∀ n m, N ≤ n → out.length < m →
      pullAllF (MergeJoinExecutor.Next V lhs_key rhs_key n) m (MergeJoinExecutor.new ν L R).Init
        = some out := by
  subst hout
  rw [MergeJoin_Init_eq]
  exact Yields_pullAllF _ _ _
    (Yields_inl _ _ _ _ (mergeStep_match_empty V lhs_key rhs_key L R L R 0)
      (Merge_top V lhs_key rhs_key kl kr L R _ L R (Nat.le_refl _) H sL sR))

/-- C34 on the left records `(1, 10), (1, 11), (2, 12)` and the right records
`(1, 20), (1, 21), (3, 22)` joined on their first values: the four records
`(1, 10, 1, 20), (1, 10, 1, 21), (1, 11, 1, 20), (1, 11, 1, 21)` and nothing for the keys `2` and
`3`; with fuel `30` for every call they are what five calls return. -/
theorem MergeJoin_spec_witness :
    (∃ N, ∀ n m, N ≤ n → 4 < m →
      pullAllF (MergeJoinExecutor.Next intValueOps (columnValue 0) (columnValue 0) n) m
        (MergeJoinExecutor.new (Option Int)
          [exampleRow [1, 10], exampleRow [1, 11], exampleRow [2, 12]]
          [exampleRow [1, 20], exampleRow [1, 21], exampleRow [3, 22]]).Init
        = some [exampleRow [1, 10, 1, 20], exampleRow [1, 10, 1, 21],
            exampleRow [1, 11, 1, 20], exampleRow [1, 11, 1, 21]])
    ∧ pullAllF (MergeJoinExecutor.Next intValueOps (columnValue 0) (columnValue 0) 30) 5
        (MergeJoinExecutor.new (Option Int)
          [exampleRow [1, 10], exampleRow [1, 11], exampleRow [2, 12]]
          [exampleRow [1, 20], exampleRow [1, 21], exampleRow [3, 22]]).Init
        = some [exampleRow [1, 10, 1, 20], exampleRow [1, 10, 1, 21],
            exampleRow [1, 11, 1, 20], exampleRow [1, 11, 1, 21]] :=
  ⟨MergeJoin_spec intValueOps (columnValue 0) (columnValue 0) (columnRank 0) (columnRank 0)
      [exampleRow [1, 10], exampleRow [1, 11], exampleRow [2, 12]]
      [exampleRow [1, 20], exampleRow [1, 21], exampleRow [3, 22]]
      [exampleRow [1, 10, 1, 20], exampleRow [1, 10, 1, 21],
        exampleRow [1, 11, 1, 20], exampleRow [1, 11, 1, 21]]
      (by decide) (by decide) (by decide) (by decide),
    by decide⟩

/-! ## Insert executor: locks -/

/-- The second loop of `LockTable` keeps every entry, the first table lock of `xid`
with its mode upgraded. -/
theorem tableUpgrade_keeps (xid : Nat) (lock_type : LockType) (l : List ResourceLock) :
    ∀ (l1 : List ResourceLock), tableUpgrade xid lock_type l = some l1 →
      ∀ x ∈ l, x ∈ l1 ∨ (x.xid_t_ = xid ∧ x.lock_granularity_ = .TABLE
        ∧ { x with lock_type_ := Upgrade x.lock_type_ lock_type } ∈ l1) := by
  induction l with
  | nil => intro l1 h; cases h
  | cons entry rest ih =>
    intro l1 h x hx
    unfold tableUpgrade at h
    by_cases hc : entry.xid_t_ = xid ∧ entry.lock_granularity_ = LockGranularity.TABLE
    · rw [if_pos hc] at h
      injection h with h
      subst h
      rcases List.mem_cons.mp hx with rfl | hx
      · exact Or.inr ⟨hc.1, hc.2, List.mem_cons_self _ _⟩
      · exact Or.inl (List.mem_cons_of_mem _ hx)
    · rw [if_neg hc] at h
      cases hr : tableUpgrade xid lock_type rest with
      | none => rw [hr] at h; cases h
      | some r =>
        rw [hr] at h
        injection h with h
        subst h
        rcases List.mem_cons.mp hx with rfl | hx
        · exact Or.inl (List.mem_cons_self _ _)
        · rcases ih r hr x hx with h1 | ⟨h1, h2, h3⟩
          · exact Or.inl (List.mem_cons_of_mem _ h1)
          · exact Or.inr ⟨h1, h2, List.mem_cons_of_mem _ h3⟩

/-- The second loop of `LockTable` finds a table lock of `xid` exactly when there is
one, and then the entries hold it with its mode upgraded. -/
theorem tableUpgrade_some (xid : Nat) (lock_type : LockType) (l : List ResourceLock) :
    ∀ (l1 : List ResourceLock), tableUpgrade xid lock_type l = some l1 →
      ∃ e ∈ l, e.xid_t_ = xid ∧ e.lock_granularity_ = .TABLE
        ∧ { e with lock_type_ := Upgrade e.lock_type_ lock_type } ∈ l1 := by
  induction l with
  | nil => intro l1 h; cases h
  | cons entry rest ih =>
    intro l1 h
    unfold tableUpgrade at h
    by_cases hc : entry.xid_t_ = xid ∧ entry.lock_granularity_ = LockGranularity.TABLE
    · rw [if_pos hc] at h
      injection h with h
      subst h
      exact ⟨entry, List.mem_cons_self _ _, hc.1, hc.2, List.mem_cons_self _ _⟩
    · rw [if_neg hc] at h
      cases hr : tableUpgrade xid lock_type rest with
      | none => rw [hr] at h; cases h
      | some r =>
        rw [hr] at h
        injection h with h
        subst h
        obtain ⟨e, he, h1, h2, h3⟩ := ih r hr
        exact ⟨e, List.mem_cons_of_mem _ he, h1, h2, List.mem_cons_of_mem _ h3⟩

/-- The second loop of `LockRow` keeps every entry, the first lock of `xid` on the
row with its mode upgraded. -/
theorem rowUpgrade_keeps (xid : Nat) (lock_type : LockType) (rid : Rid)
    (l : List ResourceLock) :
    ∀ (l1 : List ResourceLock), rowUpgrade xid lock_type rid l = some l1 →
      ∀ x ∈ l, x ∈ l1 ∨ (x.xid_t_ = xid ∧ sameRow rid x
        ∧ { x with lock_type_ := Upgrade x.lock_type_ lock_type } ∈ l1) := by
  induction l with
  | nil => intro l1 h; cases h
  | cons entry rest ih =>
    intro l1 h x hx
    unfold rowUpgrade at h
    by_cases hc : sameRow rid entry ∧ entry.xid_t_ = xid
    · rw [if_pos hc] at h
      injection h with h
      subst h
      rcases List.mem_cons.mp hx with rfl | hx
      · exact Or.inr ⟨hc.2, hc.1, List.mem_cons_self _ _⟩
      · exact Or.inl (List.mem_cons_of_mem _ hx)
    · rw [if_neg hc] at h
      cases hr : rowUpgrade xid lock_type rid rest with
      | none => rw [hr] at h; cases h
      | some r =>
        rw [hr] at h
        injection h with h
        subst h
        rcases List.mem_cons.mp hx with rfl | hx
        · exact Or.inl (List.mem_cons_self _ _)
        · rcases ih r hr x hx with h1 | ⟨h1, h2, h3⟩
          · exact Or.inl (List.mem_cons_of_mem _ h1)
          · exact Or.inr ⟨h1, h2, List.mem_cons_of_mem _ h3⟩

/-- The second loop of `LockRow` finds a lock of `xid` on the row exactly when there
is one, and then the entries hold it with its mode upgraded. -/
theorem rowUpgrade_some (xid : Nat) (lock_type : LockType) (rid : Rid)
    (l : List ResourceLock) :
    ∀ (l1 : List ResourceLock), rowUpgrade xid lock_type rid l = some l1 →
      ∃ e ∈ l, e.xid_t_ = xid ∧ sameRow rid e
        ∧ { e with lock_type_ := Upgrade e.lock_type_ lock_type } ∈ l1 := by
  induction l with
  | nil => intro l1 h; cases h
  | cons entry rest ih =>
    intro l1 h
    unfold rowUpgrade at h
    by_cases hc : sameRow rid entry ∧ entry.xid_t_ = xid
    · rw [if_pos hc] at h
      injection h with h
      subst h
      exact ⟨entry, List.mem_cons_self _ _, hc.2, hc.1, List.mem_cons_self _ _⟩
    · rw [if_neg hc] at h
      cases hr : rowUpgrade xid lock_type rid rest with
      | none => rw [hr] at h; cases h
      | some r =>
        rw [hr] at h
        injection h with h
        subst h
        obtain ⟨e, he, h1, h2, h3⟩ := ih r hr
        exact ⟨e, List.mem_cons_of_mem _ he, h1, h2, List.mem_cons_of_mem _ h3⟩

/-- `LockTable` grants a request that no table lock of another transaction is
incompatible with. -/
theorem LockTable_granted (m : LockMap) (xid : Nat) (lock_type : LockType) (oid : Nat)
    (h : ∀ e ∈ m oid, e.lock_granularity_ = .TABLE → e.xid_t_ ≠ xid →
      Compatible e.lock_type_ lock_type = true) :
    (LockTable m xid lock_type oid).1 = true := by
  have hc : ¬ tableConflict xid lock_type (m oid) = true := by
    intro hc
    obtain ⟨e, he, h1, h2, h3⟩ := (tableConflict_iff _ _ _).mp hc
    rw [h e he h1 h2] at h3
    cases h3
  unfold LockTable
  rw [if_neg hc]
  cases tableUpgrade xid lock_type (m oid) <;> rfl

/-- `LockRow` grants a request on a row that only the transaction itself holds
locks on. -/
theorem LockRow_granted (m : LockMap) (xid : Nat) (lock_type : LockType) (oid : Nat)
    (rid : Rid) (h : ∀ e ∈ m oid, sameRow rid e → e.xid_t_ = xid) :
    (LockRow m xid lock_type oid rid).1 = true := by
  have hc : ¬ rowConflict xid lock_type rid (m oid) = true := by
    intro hc
    obtain ⟨e, he, h1, h2, _⟩ := (rowConflict_iff _ _ _ _).mp hc
    exact h2 (h e he h1)
  unfold LockRow
  rw [if_neg hc]
  cases rowUpgrade xid lock_type rid (m oid) <;> rfl

/-- After a granted `LockTable` the transaction holds a table lock the mode of
which is the requested one, when it held no table lock before, or the
upgrade by it of a mode held. -/
theorem LockTable_holds (m : LockMap) (xid : Nat) (lock_type : LockType) (oid : Nat)
    (h : (LockTable m xid lock_type oid).1 = true) :
    ((∀ e ∈ m oid, e.lock_granularity_ = .TABLE → e.xid_t_ ≠ xid) →
      holdsTable (LockTable m xid lock_type oid).2 oid xid lock_type)
    ∧ ∃ held, holdsTable (LockTable m xid lock_type oid).2 oid xid (Upgrade held lock_type) := by
  unfold LockTable at h ⊢
  by_cases hc : tableConflict xid lock_type (m oid) = true
  · rw [if_pos hc] at h
    cases h
  · rw [if_neg hc]
    cases hu : tableUpgrade xid lock_type (m oid) with
    | none =>
      have hmem : (⟨lock_type, .TABLE, xid, ⟨0, 0⟩⟩ : ResourceLock)
          ∈ (m.set oid (m oid ++ [⟨lock_type, .TABLE, xid, ⟨0, 0⟩⟩])) oid := by
        simp [LockMap.set]
      refine ⟨fun _ => ⟨_, hmem, rfl, rfl, rfl⟩, lock_type, _, hmem, rfl, rfl, ?_⟩
      cases lock_type <;> rfl
    | some l1 =>
      obtain ⟨e, he, h1, h2, h3⟩ := tableUpgrade_some xid lock_type (m oid) l1 hu
      have hmem : ({ e with lock_type_ := Upgrade e.lock_type_ lock_type } : ResourceLock)
          ∈ (m.set oid l1) oid := by
        simpa [LockMap.set] using h3
      exact ⟨fun hno => absurd h1 (hno e he h2), e.lock_type_, _, hmem, h1, h2, rfl⟩

/-- After a granted `LockRow` in mode `X` the transaction holds the row in mode `X`. -/
theorem LockRow_holds (m : LockMap) (xid oid : Nat) (rid : Rid)
    (h : (LockRow m xid .X oid rid).1 = true) :
    holdsRow (LockRow m xid .X oid rid).2 oid xid rid .X := by
  unfold LockRow at h ⊢
  by_cases hc : rowConflict xid .X rid (m oid) = true
  · rw [if_pos hc] at h
    cases h
  · rw [if_neg hc]
    cases hu : rowUpgrade xid .X rid (m oid) with
    | none =>
      have hmem : (⟨.X, .ROW, xid, rid⟩ : ResourceLock)
          ∈ (m.set oid (m oid ++ [⟨.X, .ROW, xid, rid⟩])) oid := by
        simp [LockMap.set]
      exact ⟨_, hmem, rfl, ⟨rfl, rfl, rfl⟩, rfl⟩
    | some l1 =>
      obtain ⟨e, he, h1, h2, h3⟩ := rowUpgrade_some xid .X rid (m oid) l1 hu
      have hmem : ({ e with lock_type_ := Upgrade e.lock_type_ .X } : ResourceLock)
          ∈ (m.set oid l1) oid := by
        simpa [LockMap.set] using h3
      refine ⟨_, hmem, h1, h2, ?_⟩
      show Upgrade e.lock_type_ .X = .X
      cases e.lock_type_ <;> rfl

/-- `LockTable` keeps every entry, a table lock of the transaction possibly with
its mode upgraded. -/
theorem LockTable_keeps (m : LockMap) (xid : Nat) (lock_type : LockType) (oid o : Nat)
    (x : ResourceLock) (hx : x ∈ m o) :
    x ∈ (LockTable m xid lock_type oid).2 o
    ∨ (x.xid_t_ = xid ∧ x.lock_granularity_ = .TABLE
      ∧ { x with lock_type_ := Upgrade x.lock_type_ lock_type }
          ∈ (LockTable m xid lock_type oid).2 o) := by
  unfold LockTable
  by_cases hc : tableConflict xid lock_type (m oid) = true
  · rw [if_pos hc]
    exact Or.inl hx
  · rw [if_neg hc]
    by_cases ho : o = oid
    · subst ho
      cases hu : tableUpgrade xid lock_type (m o) with
      | none =>
        left
        simp only [LockMap.set, if_true]
        exact List.mem_append_left _ hx
      | some l1 =>
        simp only [LockMap.set, if_true]
        exact tableUpgrade_keeps xid lock_type (m o) l1 hu x hx
    · left
      cases hu : tableUpgrade xid lock_type (m oid) with
      | none => simpa [LockMap.set, ho] using hx
      | some l1 => simpa [LockMap.set, ho] using hx

/-- `LockRow` keeps every entry, a lock of the transaction on the row possibly with
its mode upgraded. -/
theorem LockRow_keeps (m : LockMap) (xid : Nat) (lock_type : LockType) (oid : Nat) (rid : Rid)
    (o : Nat) (x : ResourceLock) (hx : x ∈ m o) :
    x ∈ (LockRow m xid lock_type oid rid).2 o
    ∨ (x.xid_t_ = xid ∧ sameRow rid x
      ∧ { x with lock_type_ := Upgrade x.lock_type_ lock_type }
          ∈ (LockRow m xid lock_type oid rid).2 o) := by
  unfold LockRow
  by_cases hc : rowConflict xid lock_type rid (m oid) = true
  · rw [if_pos hc]
    exact Or.inl hx
  · rw [if_neg hc]
    by_cases ho : o = oid
    · subst ho
      cases hu : rowUpgrade xid lock_type rid (m o) with
      | none =>
        left
        simp only [LockMap.set, if_true]
        exact List.mem_append_left _ hx
      | some l1 =>
        simp only [LockMap.set, if_true]
        exact rowUpgrade_keeps xid lock_type rid (m o) l1 hu x hx
    · left
      cases hu : rowUpgrade xid lock_type rid (m oid) with
      | none => simpa [LockMap.set, ho] using hx
      | some l1 => simpa [LockMap.set, ho] using hx

/-- A row lock held in mode `X` is held in mode `X` after `LockTable`. -/
theorem holdsRow_LockTable (m : LockMap) (xid xid1 : Nat) (lock_type : LockType)
    (oid o : Nat) (rid : Rid) (h : holdsRow m o xid rid .X) :
    holdsRow (LockTable m xid1 lock_type oid).2 o xid rid .X := by
  obtain ⟨y, hy, h1, h2, h3⟩ := h
  rcases LockTable_keeps m xid1 lock_type oid o y hy with hk | ⟨_, hg, _⟩
  · exact ⟨y, hk, h1, h2, h3⟩
  · rw [h2.2.2] at hg
    cases hg

/-- A row lock held in mode `X` is held in mode `X` after `LockRow`. -/
theorem holdsRow_LockRow (m : LockMap) (xid xid1 : Nat) (lock_type : LockType)
    (oid o : Nat) (rid rid1 : Rid) (h : holdsRow m o xid rid .X) :
    holdsRow (LockRow m xid1 lock_type oid rid1).2 o xid rid .X := by
  obtain ⟨y, hy, h1, h2, h3⟩ := h
  rcases LockRow_keeps m xid1 lock_type oid rid1 o y hy with hk | ⟨_, _, hk⟩
  · exact ⟨y, hk, h1, h2, h3⟩
  · refine ⟨_, hk, h1, h2, ?_⟩
    show Upgrade y.lock_type_ lock_type = .X
    rw [h3]
    cases lock_type <;> rfl

/-- A table lock held in a mode that `IX` does not upgrade is held in this mode
after `LockTable` in mode `IX`. -/
theorem holdsTable_LockTable (m : LockMap) (xid xid1 oid o : Nat) (held : LockType)
    (hu : Upgrade held .IX = held) (h : holdsTable m o xid held) :
    holdsTable (LockTable m xid1 .IX oid).2 o xid held := by
  obtain ⟨y, hy, h1, h2, h3⟩ := h
  rcases LockTable_keeps m xid1 .IX oid o y hy with hk | ⟨_, _, hk⟩
  · exact ⟨y, hk, h1, h2, h3⟩
  · refine ⟨_, hk, h1, h2, ?_⟩
    show Upgrade y.lock_type_ .IX = held
    rw [h3]
    exact hu

/-- A table lock held is held in the same mode after `LockRow`. -/
theorem holdsTable_LockRow (m : LockMap) (xid xid1 : Nat) (lock_type : LockType)
    (oid o : Nat) (rid1 : Rid) (held : LockType) (h : holdsTable m o xid held) :
    holdsTable (LockRow m xid1 lock_type oid rid1).2 o xid held := by
  obtain ⟨y, hy, h1, h2, h3⟩ := h
  rcases LockRow_keeps m xid1 lock_type oid rid1 o y hy with hk | ⟨_, hs, _⟩
  · exact ⟨y, hk, h1, h2, h3⟩
  · rw [hs.2.2] at h2
    cases h2

/-- `Table::InsertRecord` leaves the object id of the table as it is. -/
theorem insertFirst_oid (K : Constants) (SerializeTo : Record → List Nat)
    (logSize : LogPayload → Nat) (t : Table) (record : Record) (xid cid : Nat)
    (write_log : Bool) :
    (t.insertFirst K SerializeTo logSize record xid cid write_log).2.oid_ = t.oid_ := by
  unfold Table.insertFirst
  dsimp only
  split
  · split
    · rfl
    · split <;> rfl
  · rfl

/-- The branch of `Table::InsertRecord` for a page with room leaves the object id
of the table as it is. -/
theorem insertInto_oid (K : Constants) (SerializeTo : Record → List Nat)
    (logSize : LogPayload → Nat) (t : Table) (p : Nat) (record : Record) (xid cid : Nat)
    (write_log : Bool) :
    (t.insertInto K SerializeTo logSize p record xid cid write_log).2.oid_ = t.oid_ := by
  unfold Table.insertInto
  dsimp only
  split
  · split <;> rfl
  · rfl

/-- The branch of `Table::InsertRecord` for a new page leaves the object id of the
table as it is. -/
theorem insertNewPage_oid (K : Constants) (SerializeTo : Record → List Nat)
    (logSize : LogPayload → Nat) (t : Table) (p : Nat) (record : Record) (xid cid : Nat)
    (write_log : Bool) :
    (t.insertNewPage K SerializeTo logSize p record xid cid write_log).2.oid_ = t.oid_ := by
  unfold Table.insertNewPage
  dsimp only
  split
  · split
    · rfl
    · split <;> rfl
  · rfl

/-- The loop of `Table::InsertRecord` leaves the object id of the table as it
is. -/
theorem insertLoop_oid (K : Constants) (SerializeTo : Record → List Nat)
    (logSize : LogPayload → Nat) (record : Record) (xid cid : Nat) (write_log : Bool) :
    ∀ (fuel : Nat) (t : Table) (p : Nat) (res : Except DbException Rid × Table),
      Table.insertLoop K SerializeTo logSize record xid cid write_log fuel t p = some res →
      res.2.oid_ = t.oid_ := by
  intro fuel
  induction fuel with
  | zero => intro t p res h; cases h
  | succ fuel ih =>
    intro t p res h
    unfold Table.insertLoop at h
    by_cases h1 : p = K.NULL_PAGE_ID
    · rw [if_pos h1] at h
      cases h
      rfl
    · rw [if_neg h1] at h
      dsimp only at h
      by_cases h2 : (t.pages p).GetFreeSpaceSize K ≥ (SerializeTo record).length
      · rw [if_pos h2] at h
        cases h
        exact insertInto_oid K SerializeTo logSize t p record xid cid write_log
      · rw [if_neg h2] at h
        by_cases h3 : (t.pages p).next_page_id_ = K.NULL_PAGE_ID
        · rw [if_pos h3] at h
          cases h
          exact insertNewPage_oid K SerializeTo logSize t p record xid cid write_log
        · rw [if_neg h3] at h
          exact ih t _ res h

/-- `Table::InsertRecord` leaves the object id of the table as it is. -/
theorem InsertRecord_oid (K : Constants) (SerializeTo : Record → List Nat)
    (logSize : LogPayload → Nat) (fuel : Nat) (t : Table) (record : Record) (xid cid : Nat)
    (write_log : Bool) (res : Except DbException Rid × Table)
    (h : Table.InsertRecord K SerializeTo logSize fuel t record xid cid write_log = some res) :
    res.2.oid_ = t.oid_ := by
  unfold Table.InsertRecord at h
  by_cases h1 : (SerializeTo record).length > K.MAX_RECORD_SIZE
  · rw [if_pos h1] at h
    cases h
    rfl
  · rw [if_neg h1] at h
    by_cases h2 : t.first_page_id_ = K.NULL_PAGE_ID
    · rw [if_pos h2] at h
      cases h
      exact insertFirst_oid K SerializeTo logSize t record xid cid write_log
    · rw [if_neg h2] at h
      exact insertLoop_oid K SerializeTo logSize record xid cid write_log fuel t 0 res h

/-- The loop of `InsertExecutor::Next` when every `Table::InsertRecord` returns a rid, no
table lock of another transaction is incompatible with `IX` and no other
transaction holds a lock on a row a record goes to: the loop ends with the
number of records added to `count`, the table is the table after the inserts,
every returned rid is held in mode `X`, the locks held before are held, and
when there was a record the transaction holds a table lock upgraded by `IX`. -/
theorem insertLoop_spec (K : Constants) (SerializeTo : Record → List Nat)
    (logSize : LogPayload → Nat) (xid cid length : Nat) (column_indexes : List Nat)
    (fuel : Nat) :
    ∀ (records : List Record) (count : Nat) (e : InsertExecutor) (rids : List Rid)
      (t1 : Table),
      Table.insertAll K SerializeTo logSize xid cid fuel e.table_
        (records.map (tableRecord length column_indexes)) = some (rids, t1) →
      count < 4294967296 →
      (∀ x ∈ e.lock_manager e.table_.oid_, x.lock_granularity_ = .TABLE → x.xid_t_ ≠ xid →
        Compatible x.lock_type_ .IX = true) →
      (∀ rid ∈ rids, ∀ x ∈ e.lock_manager e.table_.oid_, sameRow rid x → x.xid_t_ = xid) →
      ∃ m1,
        InsertExecutor.insertLoop K SerializeTo logSize xid cid length column_indexes fuel
            records count e
          = some (.ok ((count + records.length) % 4294967296),
              { children_0 := { e.children_0 with rest := [] }
                finished_ := e.finished_
                table_ := t1
                lock_manager := m1 })
        ∧ t1.oid_ = e.table_.oid_
        ∧ (records = [] → m1 = e.lock_manager)
        ∧ (∀ rid ∈ rids, holdsRow m1 e.table_.oid_ xid rid .X)
        ∧ (∀ rid, holdsRow e.lock_manager e.table_.oid_ xid rid .X →
            holdsRow m1 e.table_.oid_ xid rid .X)
        ∧ (∀ held, Upgrade held .IX = held → holdsTable e.lock_manager e.table_.oid_ xid held →
            holdsTable m1 e.table_.oid_ xid held)
        ∧ (records ≠ [] → ∃ held, holdsTable m1 e.table_.oid_ xid (Upgrade held .IX))
        ∧ (records ≠ [] →
            (∀ x ∈ e.lock_manager e.table_.oid_, x.lock_granularity_ = .TABLE → x.xid_t_ ≠ xid) →
            holdsTable m1 e.table_.oid_ xid .IX) := by
  intro records
  induction records with
  | nil =>
    intro count e rids t1 hins hcount _ _
    have h1 : (rids, t1) = ([], e.table_) := by
      have : some ([], e.table_) = some (rids, t1) := hins
      injection this with this
      exact this.symm
    injection h1 with hr ht
    subst hr
    subst ht
    refine ⟨e.lock_manager, ?_, rfl, fun _ => rfl, fun rid h => (by cases h), fun _ h => h,
      fun _ _ h => h, fun h => absurd rfl h, fun h => absurd rfl h⟩
    have hc : (count + ([] : List Record).length) % 4294967296 = count :=
      Nat.mod_eq_of_lt hcount
    rw [hc]
    rfl
  | cons r rest ih =>
    intro count e rids t1 hins hcount hT hR
    have hI : Table.insertAll K SerializeTo logSize xid cid fuel e.table_
        (tableRecord length column_indexes r :: rest.map (tableRecord length column_indexes))
        = some (rids, t1) := hins
    unfold Table.insertAll at hI
    cases hrec : Table.InsertRecord K SerializeTo logSize fuel e.table_
        (tableRecord length column_indexes r) xid cid true with
    | none =>
      rw [hrec] at hI
      cases hI
    | some res =>
      obtain ⟨res1, t2⟩ := res
      cases res1 with
      | error ex =>
        rw [hrec] at hI
        cases hI
      | ok rid =>
        rw [hrec] at hI
        dsimp only at hI
        cases hall : Table.insertAll K SerializeTo logSize xid cid fuel t2
            (rest.map (tableRecord length column_indexes)) with
        | none =>
          rw [hall] at hI
          cases hI
        | some p =>
          obtain ⟨rids1, t3⟩ := p
          rw [hall] at hI
          have hI1 : (rid :: rids1, t3) = (rids, t1) := by
            have : some (rid :: rids1, t3) = some (rids, t1) := hI
            injection this
          injection hI1 with hr ht
          subst hr
          subst ht
          have hoid : t2.oid_ = e.table_.oid_ :=
            InsertRecord_oid K SerializeTo logSize fuel e.table_ _ xid cid true (.ok rid, t2) hrec
          have hg1 : (LockTable e.lock_manager xid .IX e.table_.oid_).1 = true :=
            LockTable_granted e.lock_manager xid .IX e.table_.oid_ hT
          have hR1 : ∀ rid1 ∈ rid :: rids1,
              ∀ x ∈ (LockTable e.lock_manager xid .IX e.table_.oid_).2 e.table_.oid_,
                sameRow rid1 x → x.xid_t_ = xid := by
            intro rid1 hrid1 x hx hs
            rcases LockTable_mem e.lock_manager xid .IX e.table_.oid_ e.table_.oid_ x hx with
              h | ⟨_, h, _⟩
            · exact hR rid1 hrid1 x h hs
            · exact h
          have hg2 : (LockRow (LockTable e.lock_manager xid .IX e.table_.oid_).2 xid .X
              e.table_.oid_ rid).1 = true :=
            LockRow_granted _ xid .X e.table_.oid_ rid (hR1 rid (List.mem_cons_self rid rids1))
          have hT2 : ∀ x ∈ (LockRow (LockTable e.lock_manager xid .IX e.table_.oid_).2 xid .X
              e.table_.oid_ rid).2 e.table_.oid_,
              x.lock_granularity_ = .TABLE → x.xid_t_ ≠ xid →
                Compatible x.lock_type_ .IX = true := by
            intro x hx hgr hne
            rcases LockRow_mem _ xid .X e.table_.oid_ rid e.table_.oid_ x hx with
              h | ⟨_, h, _⟩
            · rcases LockTable_mem e.lock_manager xid .IX e.table_.oid_ e.table_.oid_ x h with
                h1 | ⟨_, h1, _⟩
              · exact hT x h1 hgr hne
              · exact absurd h1 hne
            · exact absurd h hne
          have hR2 : ∀ rid1 ∈ rids1,
              ∀ x ∈ (LockRow (LockTable e.lock_manager xid .IX e.table_.oid_).2 xid .X
                e.table_.oid_ rid).2 e.table_.oid_, sameRow rid1 x → x.xid_t_ = xid := by
            intro rid1 hrid1 x hx hs
            rcases LockRow_mem _ xid .X e.table_.oid_ rid e.table_.oid_ x hx with
              h | ⟨_, h, _⟩
            · exact hR1 rid1 (List.mem_cons_of_mem rid hrid1) x h hs
            · exact h
          have hcount1 : (count + 1) % 4294967296 < 4294967296 := Nat.mod_lt _ (by omega)
          obtain ⟨m1, hloop, ho, _, hrows, hkeepR, hkeepT, _, _⟩ :=
            ih ((count + 1) % 4294967296)
              { children_0 := { e.children_0 with rest := rest }
                finished_ := e.finished_
                table_ := t2
                lock_manager := (LockRow (LockTable e.lock_manager xid .IX e.table_.oid_).2 xid .X
                  e.table_.oid_ rid).2 }
              rids1 t3 hall hcount1
              (by
                show ∀ x ∈ (LockRow (LockTable e.lock_manager xid .IX e.table_.oid_).2 xid .X
                  e.table_.oid_ rid).2 t2.oid_, _
                rw [hoid]
                exact hT2)
              (by
                show ∀ rid1 ∈ rids1, ∀ x ∈ (LockRow (LockTable e.lock_manager xid .IX
                  e.table_.oid_).2 xid .X e.table_.oid_ rid).2 t2.oid_, _
                rw [hoid]
                exact hR2)
          have ho1 : t3.oid_ = e.table_.oid_ := ho.trans hoid
          have hrows1 : ∀ rid1 ∈ rids1, holdsRow m1 e.table_.oid_ xid rid1 .X := by
            intro rid1 h1
            have h2 : holdsRow m1 t2.oid_ xid rid1 .X := hrows rid1 h1
            rw [hoid] at h2
            exact h2
          have hkeepR1 : ∀ rid1, holdsRow (LockRow (LockTable e.lock_manager xid .IX
              e.table_.oid_).2 xid .X e.table_.oid_ rid).2 e.table_.oid_ xid rid1 .X →
              holdsRow m1 e.table_.oid_ xid rid1 .X := by
            intro rid1 h1
            have h2 : holdsRow m1 t2.oid_ xid rid1 .X := hkeepR rid1 (by
              show holdsRow _ t2.oid_ xid rid1 .X
              rw [hoid]
              exact h1)
            rw [hoid] at h2
            exact h2
          have hkeepT1 : ∀ held, Upgrade held .IX = held →
              holdsTable (LockRow (LockTable e.lock_manager xid .IX
                e.table_.oid_).2 xid .X e.table_.oid_ rid).2 e.table_.oid_ xid held →
              holdsTable m1 e.table_.oid_ xid held := by
            intro held hu h1
            have h2 : holdsTable m1 t2.oid_ xid held := hkeepT held hu (by
              show holdsTable _ t2.oid_ xid held
              rw [hoid]
              exact h1)
            rw [hoid] at h2
            exact h2
          have hheld := LockTable_holds e.lock_manager xid .IX e.table_.oid_ hg1
          refine ⟨m1, ?_, ho1, fun h => (by cases h), ?_, ?_, ?_, ?_, ?_⟩
          · have hc : InsertExecutor.insertLoop K SerializeTo logSize xid cid length
                column_indexes fuel (r :: rest) count e
                = (if (LockTable e.lock_manager xid .IX e.table_.oid_).1 = false then
                    some (.error .LockTableFailed,
                      { children_0 := { e.children_0 with rest := rest }
                        finished_ := e.finished_
                        table_ := e.table_
                        lock_manager := (LockTable e.lock_manager xid .IX e.table_.oid_).2 })
                  else
                    match Table.InsertRecord K SerializeTo logSize fuel e.table_
                        (tableRecord length column_indexes r) xid cid true with
                    | none => none
                    | some (.error ex, t) =>
                      some (.error (.Table ex),
                        { children_0 := { e.children_0 with rest := rest }
                          finished_ := e.finished_
                          table_ := t
                          lock_manager := (LockTable e.lock_manager xid .IX e.table_.oid_).2 })
                    | some (.ok record_id, t) =>
                      if (LockRow (LockTable e.lock_manager xid .IX e.table_.oid_).2 xid .X
                          e.table_.oid_ record_id).1 = false then
                        some (.error .LockRowFailed,
                          { children_0 := { e.children_0 with rest := rest }
                            finished_ := e.finished_
                            table_ := t
                            lock_manager := (LockRow (LockTable e.lock_manager xid .IX
                              e.table_.oid_).2 xid .X e.table_.oid_ record_id).2 })
                      else
                        InsertExecutor.insertLoop K SerializeTo logSize xid cid length
                          column_indexes fuel rest ((count + 1) % 4294967296)
                          { children_0 := { e.children_0 with rest := rest }
                            finished_ := e.finished_
                            table_ := t
                            lock_manager := (LockRow (LockTable e.lock_manager xid .IX
                              e.table_.oid_).2 xid .X e.table_.oid_ record_id).2 }) := rfl
            rw [hc, if_neg (by rw [hg1]; exact Bool.noConfusion), hrec]
            dsimp only
            rw [if_neg (by rw [hg2]; exact Bool.noConfusion), hloop]
            have hn : ((count + 1) % 4294967296 + rest.length) % 4294967296
                = (count + (r :: rest).length) % 4294967296 := by
              have : (r :: rest).length = rest.length + 1 := rfl
              rw [this]
              omega
            rw [hn]
          · intro rid1 h1
            rcases List.mem_cons.mp h1 with h | h
            · rw [h]
              exact hkeepR1 rid (LockRow_holds _ xid e.table_.oid_ rid hg2)
            · exact hrows1 rid1 h
          · intro rid1 h1
            exact hkeepR1 rid1
              (holdsRow_LockRow _ xid xid .X e.table_.oid_ e.table_.oid_ rid1 rid
                (holdsRow_LockTable _ xid xid .IX e.table_.oid_ e.table_.oid_ rid1 h1))
          · intro held hu h1
            exact hkeepT1 held hu
              (holdsTable_LockRow _ xid xid .X e.table_.oid_ e.table_.oid_ rid held
                (holdsTable_LockTable _ xid xid e.table_.oid_ e.table_.oid_ held hu h1))
          · intro _
            obtain ⟨held, hh⟩ := hheld.2
            refine ⟨held, hkeepT1 _ ?_
              (holdsTable_LockRow _ xid xid .X e.table_.oid_ e.table_.oid_ rid _ hh)⟩
            cases held <;> rfl
          · intro _ hno
            exact hkeepT1 .IX rfl
              (holdsTable_LockRow _ xid xid .X e.table_.oid_ e.table_.oid_ rid _ (hheld.1 hno))

/-- Inserting records one after the other returns a rid for each. -/
theorem insertAll_length (K : Constants) (SerializeTo : Record → List Nat)
    (logSize : LogPayload → Nat) (xid cid fuel : Nat) :
    ∀ (records : List Record) (t t1 : Table) (rids : List Rid),
      Table.insertAll K SerializeTo logSize xid cid fuel t records = some (rids, t1) →
      rids.length = records.length := by
  intro records
  induction records with
  | nil =>
    intro t t1 rids h
    have : some ([], t) = some (rids, t1) := h
    injection this with this
    injection this with h1 _
    subst h1
    rfl
  | cons r rest ih =>
    intro t t1 rids h
    unfold Table.insertAll at h
    cases hrec : Table.InsertRecord K SerializeTo logSize fuel t r xid cid true with
    | none => rw [hrec] at h; cases h
    | some res =>
      obtain ⟨res1, t2⟩ := res
      cases res1 with
      | error ex => rw [hrec] at h; cases h
      | ok rid =>
        rw [hrec] at h
        dsimp only at h
        cases hall : Table.insertAll K SerializeTo logSize xid cid fuel t2 rest with
        | none => rw [hall] at h; cases h
        | some p =>
          obtain ⟨rids1, t3⟩ := p
          rw [hall] at h
          have h1 : some (rid :: rids1, t3) = some (rids, t1) := h
          injection h1 with h1
          injection h1 with h1 _
          rw [← h1]
          show rids1.length + 1 = rest.length + 1
          rw [ih t2 t3 rids1 hall]

/-- C35, where the code departs from it: with a child that returns no record and
a lock manager without locks, the first `Next` returns the record `{0}` and the
transaction holds no lock on the table afterwards (the locks are requested
in the loop, once per record); and with a child that returns one record for
a table of 30 columns, which takes 43 bytes where `MAX_RECORD_SIZE` is 36, `Next`
ends with the exception of `Table::InsertRecord`, returns no record and leaves
`finished_` unset, although the lock manager granted the table lock. -/
theorem Insert_Next_spec_counterexample :
    (InsertExecutor.Next exampleConstants exampleSerialize exampleLogSize 2 0 1 [0] 3
        (InsertExecutor.Init ⟨⟨[], []⟩, false, exampleTableBegun, LockMap.empty⟩)).map
      (fun p => (p.1, p.2.finished_, p.2.lock_manager 7))
      = some (.ok (some (Record.ofValues [some 0])), true, [])
    ∧ (InsertExecutor.Next exampleConstants exampleSerialize exampleLogSize 2 0 30 [0] 3
        (InsertExecutor.Init ⟨⟨[exampleRow [5]], []⟩, false, exampleTableBegun,
          LockMap.empty⟩)).map
      (fun p => (p.1, p.2.finished_, p.2.lock_manager 7))
      = some (.error (.Table (.RecordTooLarge 43)), false, [⟨.IX, .TABLE, 2, ⟨0, 0⟩⟩]) :=
  ⟨rfl, rfl⟩

/-- The first `Next` of the Insert executor after `Init` and the calls after it: for a child with the `n` records `rows`, an executor that
has not finished, a table on which `Table::InsertRecord` returns a rid for each of
the records built from them (the rids `rids`, the table `t1` afterwards), and a
lock manager in which no table lock of another transaction on the table is
incompatible with `IX` and no other transaction holds a lock on a row of
`rids`: the first `Next` after `Init` returns the record `{n}` (`n` modulo `2^32`, `count`
being a `uint32_t`), leaves `finished_` set, the child exhausted and the table `t1`,
and every later `Next` returns the null pointer and changes nothing. After it
the transaction holds every rid of `rids` in mode `X`; when `n > 0` it holds a table
lock in a mode upgraded by `IX` (`IX`, `SIX` or `X`), which is `IX` when it held no table
lock on the table before; when `n = 0` the lock manager is as it was. -/
theorem InsertExecutor_Next_summary (K : Constants) (SerializeTo : Record → List Nat)
    (logSize : LogPayload → Nat) (xid cid length : Nat) (column_indexes : List Nat)
    (fuel : Nat) (e : InsertExecutor) (rids : List Rid) (t1 : Table)
    (hfin : e.finished_ = false)
    (hins : Table.insertAll K SerializeTo logSize xid cid fuel e.table_
      (e.children_0.rows.map (tableRecord length column_indexes)) = some (rids, t1))
    (hT : ∀ x ∈ e.lock_manager e.table_.oid_, x.lock_granularity_ = .TABLE → x.xid_t_ ≠ xid →
      Compatible x.lock_type_ .IX = true)
    (hR : ∀ rid ∈ rids, ∀ x ∈ e.lock_manager e.table_.oid_, sameRow rid x → x.xid_t_ = xid) :
    ∃ m1,
      InsertExecutor.Next K SerializeTo logSize xid cid length column_indexes fuel e.Init
        = some (.ok (some (Record.ofValues
              [some ((e.children_0.rows.length % 4294967296 : Nat) : Int)])),
            ⟨⟨e.children_0.rows, []⟩, true, t1, m1⟩)
      ∧ InsertExecutor.Next K SerializeTo logSize xid cid length column_indexes fuel
          ⟨⟨e.children_0.rows, []⟩, true, t1, m1⟩
        = some (.ok none, ⟨⟨e.children_0.rows, []⟩, true, t1, m1⟩)
      ∧ rids.length = e.children_0.rows.length
      ∧ (∀ rid ∈ rids, holdsRow m1 e.table_.oid_ xid rid .X)
      ∧ (e.children_0.rows ≠ [] → ∃ held, holdsTable m1 e.table_.oid_ xid (Upgrade held .IX))
      ∧ (e.children_0.rows ≠ [] →
          (∀ x ∈ e.lock_manager e.table_.oid_, x.lock_granularity_ = .TABLE → x.xid_t_ ≠ xid) →
          holdsTable m1 e.table_.oid_ xid .IX)
      ∧ (e.children_0.rows = [] → m1 = e.lock_manager) := by
  obtain ⟨m1, hloop, _, hnil, hrows, _, _, htab, hix⟩ :=
    insertLoop_spec K SerializeTo logSize xid cid length column_indexes fuel
      e.children_0.rows 0 e.Init rids t1 hins (by omega) hT hR
  have hlen := insertAll_length K SerializeTo logSize xid cid fuel _ _ _ _ hins
  rw [List.length_map] at hlen
  refine ⟨m1, ?_, ?_, hlen, hrows, htab, hix, hnil⟩
  · have hnext : InsertExecutor.Next K SerializeTo logSize xid cid length column_indexes fuel
        e.Init
        = (if e.finished_ = true then some (.ok none, e.Init)
          else
            match InsertExecutor.insertLoop K SerializeTo logSize xid cid length column_indexes
                fuel e.children_0.rows 0 e.Init with
            | none => none
            | some (.error ex, e1) => some (.error ex, e1)
            | some (.ok count, e1) =>
              some (.ok (some (Record.ofValues [some (count : Int)])),
                { e1 with finished_ := true })) := rfl
    rw [hnext, hfin, if_neg (by exact Bool.noConfusion), hloop, Nat.zero_add]
    rfl
  · unfold InsertExecutor.Next
    rw [if_pos rfl]

/-! ## Analysis: the ATT after `Analyze` -/

/-- The second loop of `Analyze` over the records `recs`, each read at its LSN. -/
theorem analyzeScan_fold (logSize : LogPayload → Nat) (hpos : ∀ p, 0 < logSize p)
    (disk_log : List LogRecord) (next_lsn : Nat) (recs : List LogRecord) :
    ∀ (fuel current_position : Nat) (tables : List (Nat × Nat) × List ((Nat × Nat) × Nat)),
      Tiles logSize current_position recs next_lsn →
      (∀ r ∈ recs, ReadLog disk_log r.lsn_ = some r) →
      recs.length < fuel →
      analyzeScan logSize disk_log next_lsn fuel current_position tables
        = some (recs.foldl (fun t r => analyzeStep r.lsn_ r t) tables) := by
  induction recs with
  | nil =>
    intro fuel current_position tables ht _ hf
    have he : current_position = next_lsn := ht
    cases fuel with
    | zero => simp at hf
    | succ f =>
      unfold analyzeScan
      rw [if_neg (by omega)]
      rfl
  | cons r rs ih =>
    intro fuel current_position tables ht hread hf
    have h0 : r.lsn_ = current_position := ht.1
    have ht2 : Tiles logSize (current_position + r.GetSize logSize) rs next_lsn := ht.2
    have hb := (Tiles_bounds logSize rs _ _ ht2).1
    have hsz : 0 < r.GetSize logSize := hpos _
    cases fuel with
    | zero => simp at hf
    | succ f =>
      have hrd : ReadLog disk_log current_position = some r := by
        rw [← h0]; exact hread r (List.mem_cons_self _ _)
      unfold analyzeScan
      rw [if_pos (by omega), hrd]
      dsimp only
      rw [ih f _ _ ht2 (fun x hx => hread x (List.mem_cons_of_mem _ hx)) (by simpa using hf),
        List.foldl_cons, h0]

/-- The first loop of `Analyze` over records none of which is an EndCheckpoint
record: it reaches `next_lsn_` and leaves the ATT and the DPT as they are. -/
theorem analyzeCheckpoint_none (logSize : LogPayload → Nat) (hpos : ∀ p, 0 < logSize p)
    (disk_log : List LogRecord) (next_lsn : Nat) (recs : List LogRecord)
    (att : List (Nat × Nat)) (dpt : List ((Nat × Nat) × Nat)) :
    ∀ (fuel current_position : Nat),
      Tiles logSize current_position recs next_lsn →
      (∀ r ∈ recs, ReadLog disk_log r.lsn_ = some r) →
      (∀ r ∈ recs, ∀ a d, r.payload ≠ .END_CHECKPOINT a d) →
      recs.length < fuel →
      analyzeCheckpoint logSize disk_log next_lsn fuel current_position att dpt
        = some (att, dpt) := by
  induction recs with
  | nil =>
    intro fuel current_position ht _ _ hf
    have he : current_position = next_lsn := ht
    cases fuel with
    | zero => simp at hf
    | succ f =>
      unfold analyzeCheckpoint
      rw [if_neg (by omega)]
  | cons r rs ih =>
    intro fuel current_position ht hread hend hf
    have h0 : r.lsn_ = current_position := ht.1
    have ht2 : Tiles logSize (current_position + r.GetSize logSize) rs next_lsn := ht.2
    have hb := (Tiles_bounds logSize rs _ _ ht2).1
    have hsz : 0 < r.GetSize logSize := hpos _
    cases fuel with
    | zero => simp at hf
    | succ f =>
      have hrd : ReadLog disk_log current_position = some r := by
        rw [← h0]; exact hread r (List.mem_cons_self _ _)
      have hrec := ih f (current_position + r.GetSize logSize) ht2
        (fun x hx => hread x (List.mem_cons_of_mem _ hx))
        (fun x hx => hend x (List.mem_cons_of_mem _ hx)) (by simpa using hf)
      have hr := hend r (List.mem_cons_self _ _)
      unfold analyzeCheckpoint
      rw [if_pos (by omega), hrd]
      dsimp only
      cases hp : r.payload with
      | END_CHECKPOINT a d => exact absurd hp (hr a d)
      | _ => exact hrec

/-- The ATT entry of `xid` after the body of the second loop of `Analyze`: a mutation
record of `xid` sets it to the position read, a Commit record of `xid` removes it,
every other record leaves it. -/
theorem analyzeStep_att (current_position : Nat) (r : LogRecord)
    (t : List (Nat × Nat) × List ((Nat × Nat) × Nat)) (xid : Nat) :
    amFind (analyzeStep current_position r t).1 xid
      = if r.xid_ = xid then
          if r.payload.isModification = true then some current_position
          else if r.payload = .COMMIT then none else amFind t.1 xid
        else amFind t.1 xid := by
  have hc : (analyzeStep current_position r t).1
      = if r.payload = .COMMIT then
          if amFind (if r.payload.isModification = true then
                amSet t.1 r.xid_ current_position else t.1) r.xid_ ≠ none then
            amErase (if r.payload.isModification = true then
                amSet t.1 r.xid_ current_position else t.1) r.xid_
          else (if r.payload.isModification = true then
                amSet t.1 r.xid_ current_position else t.1)
        else (if r.payload.isModification = true then
                amSet t.1 r.xid_ current_position else t.1) := rfl
  rw [hc]
  by_cases hm : r.payload.isModification = true
  · have hnc : r.payload ≠ .COMMIT := by
      intro h
      rw [h] at hm
      cases hm
    rw [if_neg hnc, if_pos hm, amFind_amSet]
    by_cases hx : r.xid_ = xid
    · rw [if_pos hx, if_pos hx.symm, if_pos hm]
    · rw [if_neg hx, if_neg (fun h => hx h.symm)]
  · rw [if_neg hm]
    by_cases hcm : r.payload = .COMMIT
    · rw [if_pos hcm]
      by_cases hx : r.xid_ = xid
      · rw [if_pos hx, if_neg hm, if_pos hcm]
        by_cases hf : amFind t.1 r.xid_ ≠ none
        · rw [if_pos hf, amFind_amErase, if_pos hx.symm]
        · rw [if_neg hf, ← hx]
          exact not_not.mp hf
      · rw [if_neg hx]
        by_cases hf : amFind t.1 r.xid_ ≠ none
        · rw [if_pos hf, amFind_amErase, if_neg (fun h => hx h.symm)]
        · rw [if_neg hf]
    · rw [if_neg hcm]
      by_cases hx : r.xid_ = xid
      · rw [if_pos hx, if_neg hm, if_neg hcm]
      · rw [if_neg hx]

/-- A list that ends with `x`, split at one of its entries: the entry is `x` itself
or `x` ends the part after the entry. -/
theorem split_snoc {α : Type} (recs a b : List α) (x r : α)
    (h : recs ++ [x] = a ++ r :: b) :
    (b = [] ∧ recs = a ∧ x = r) ∨ ∃ b1, b = b1 ++ [x] ∧ recs = a ++ r :: b1 := by
  rcases List.eq_nil_or_concat b with hb | ⟨b1, y, hb⟩
  · subst hb
    have h1 : recs ++ [x] = a ++ [r] := h
    have h2 := List.append_inj' h1 rfl
    exact Or.inl ⟨rfl, h2.1, List.head_eq_of_cons_eq h2.2⟩
  · subst hb
    have h1 : recs ++ [x] = (a ++ r :: b1) ++ [y] := by
      rw [h, List.concat_eq_append, List.append_assoc, List.cons_append]
    have h2 := List.append_inj' h1 rfl
    have h3 : x = y := List.head_eq_of_cons_eq h2.2
    subst h3
    exact Or.inr ⟨b1, List.concat_eq_append _ _, h2.1⟩

/-- The ATT after the second loop of `Analyze` over the records `recs`, begun with an
empty ATT: `xid` has the entry `l` exactly when `l` is the LSN of a mutation record
of `xid` after which `recs` has no mutation record and no Commit record of `xid`. -/
theorem analyzeFold_att (recs : List LogRecord) (dpt : List ((Nat × Nat) × Nat))
    (xid l : Nat) :
    amFind (recs.foldl (fun t r => analyzeStep r.lsn_ r t) ([], dpt)).1 xid = some l
      ↔ ∃ a r b, recs = a ++ r :: b ∧ r.xid_ = xid ∧ r.payload.isModification = true
          ∧ r.lsn_ = l
          ∧ ∀ x ∈ b, x.xid_ = xid → x.payload.isModification = false ∧ x.payload ≠ .COMMIT := by
  induction recs using List.reverseRecOn with
  | nil =>
    constructor
    · intro h
      cases h
    · rintro ⟨a, r, b, h, _⟩
      cases a <;> cases h
  | append_singleton rs x ih =>
    rw [List.foldl_append, List.foldl_cons, List.foldl_nil, analyzeStep_att]
    have hkeep : (x.xid_ = xid → x.payload.isModification = false ∧ x.payload ≠ .COMMIT) →
        ((∃ a r b, rs = a ++ r :: b ∧ r.xid_ = xid ∧ r.payload.isModification = true
          ∧ r.lsn_ = l
          ∧ ∀ y ∈ b, y.xid_ = xid → y.payload.isModification = false ∧ y.payload ≠ .COMMIT)
        ↔ ∃ a r b, rs ++ [x] = a ++ r :: b ∧ r.xid_ = xid ∧ r.payload.isModification = true
          ∧ r.lsn_ = l
          ∧ ∀ y ∈ b, y.xid_ = xid → y.payload.isModification = false ∧ y.payload ≠ .COMMIT) := by
      intro hx
      constructor
      · rintro ⟨a, r, b, h, h1, h2, h3, h4⟩
        refine ⟨a, r, b ++ [x], by rw [h, List.append_assoc, List.cons_append], h1, h2, h3, ?_⟩
        intro y hy
        rcases List.mem_append.mp hy with hy | hy
        · exact h4 y hy
        · rw [List.mem_singleton.mp hy]
          exact hx
      · rintro ⟨a, r, b, h, h1, h2, h3, h4⟩
        rcases split_snoc rs a b x r h with ⟨_, _, hxr⟩ | ⟨b1, hb, hrs⟩
        · subst hxr
          have := (hx h1).1
          rw [h2] at this
          cases this
        · subst hb
          exact ⟨a, r, b1, hrs, h1, h2, h3,
            fun y hy => h4 y (List.mem_append.mpr (Or.inl hy))⟩
    have hlast : x.xid_ = xid → ∀ a r b, rs ++ [x] = a ++ r :: b →
        (∀ y ∈ b, y.xid_ = xid → y.payload.isModification = false ∧ y.payload ≠ .COMMIT) →
        (b = [] ∧ x = r) ∨ (x.payload.isModification = false ∧ x.payload ≠ .COMMIT) := by
      intro hx a r b h h4
      rcases split_snoc rs a b x r h with ⟨hb, _, hxr⟩ | ⟨b1, hb, _⟩
      · exact Or.inl ⟨hb, hxr⟩
      · subst hb
        exact Or.inr (h4 x (List.mem_append.mpr (Or.inr (List.mem_singleton.mpr rfl))) hx)
    by_cases hx : x.xid_ = xid
    · rw [if_pos hx]
      by_cases hm : x.payload.isModification = true
      · rw [if_pos hm]
        constructor
        · intro h
          injection h with h
          exact ⟨rs, x, [], rfl, hx, hm, h, fun y hy => by cases hy⟩
        · rintro ⟨a, r, b, h, _, _, h3, h4⟩
          rcases hlast hx a r b h h4 with ⟨_, hxr⟩ | ⟨hc, _⟩
          · rw [hxr, h3]
          · rw [hm] at hc
            cases hc
      · rw [if_neg hm]
        by_cases hcm : x.payload = .COMMIT
        · rw [if_pos hcm]
          constructor
          · intro h
            cases h
          · rintro ⟨a, r, b, h, _, h2, _, h4⟩
            rcases hlast hx a r b h h4 with ⟨_, hxr⟩ | ⟨_, hc⟩
            · rw [← hxr] at h2
              exact absurd h2 hm
            · exact absurd hcm hc
        · rw [if_neg hcm, ih]
          exact hkeep (fun _ => ⟨by simpa using hm, hcm⟩)
    · rw [if_neg hx, ih]
      exact hkeep (fun h => absurd h hx)

/-- C25 (as amended): with log records of positive size, the log file holding the
records `recs` without gap from the checkpoint LSN (the master record, `0` without
one) to the persisted `next_lsn`, none of them an EndCheckpoint record, and an
empty ATT at the start, `Analyze` returns, and afterwards the ATT has the entry
`xid → l` if and only if `l` is the LSN of a mutation record (Insert, Delete or
NewPage) of `xid` among `recs` after which `recs` has no further mutation record and
no Commit record of `xid`. A Rollback record removes nothing: the loop erases at
a Commit record only, so a rolled-back transaction stays in the ATT at the LSN
of its last mutation record. -/
theorem Analyze_att_spec (K : Constants) (logSize : LogPayload → Nat)
    (hpos : ∀ p, 0 < logSize p) (s : LogManager) (recs : List LogRecord) (fuel : Nat)
    (htiles : Tiles logSize (s.master_record_.getD 0) recs (s.next_lsn_file_.getD K.FIRST_LSN))
    (hread : ∀ r ∈ recs, ReadLog s.disk_log_ r.lsn_ = some r)
    (hend : ∀ r ∈ recs, ∀ a d, r.payload ≠ .END_CHECKPOINT a d)
    (hatt : s.att_ = [])
    (hfuel : recs.length < fuel) :
    ∃ s1, s.Analyze K logSize fuel = some (s1, s.master_record_.getD 0)
      ∧ ∀ xid l, amFind s1.att_ xid = some l
          ↔ ∃ a r b, recs = a ++ r :: b ∧ r.xid_ = xid ∧ r.payload.isModification = true
              ∧ r.lsn_ = l
              ∧ ∀ x ∈ b, x.xid_ = xid →
                  x.payload.isModification = false ∧ x.payload ≠ .COMMIT := by
  have h1 := analyzeCheckpoint_none logSize hpos s.disk_log_ (s.next_lsn_file_.getD K.FIRST_LSN)
    recs s.att_ s.dpt_ fuel _ htiles hread hend hfuel
  have h2 := analyzeScan_fold logSize hpos s.disk_log_ (s.next_lsn_file_.getD K.FIRST_LSN)
    recs fuel _ (s.att_, s.dpt_) htiles hread hfuel
  have hA : s.Analyze K logSize fuel
      = some ({ s with
          next_lsn_ := s.next_lsn_file_.getD K.FIRST_LSN
          flushed_lsn_ := (s.next_lsn_file_.getD K.FIRST_LSN + 2 ^ 64 - 1) % 2 ^ 64
          att_ := (recs.foldl (fun t r => analyzeStep r.lsn_ r t) (s.att_, s.dpt_)).1
          dpt_ := (recs.foldl (fun t r => analyzeStep r.lsn_ r t) (s.att_, s.dpt_)).2 },
        s.master_record_.getD 0) := by
    unfold LogManager.Analyze
    dsimp only
    rw [h1]
    dsimp only
    rw [h2]
  refine ⟨_, hA, ?_⟩
  intro xid l
  show amFind (recs.foldl (fun t r => analyzeStep r.lsn_ r t) (s.att_, s.dpt_)).1 xid = some l ↔ _
  rw [hatt]
  exact analyzeFold_att recs s.dpt_ xid l

/-- C25 (as amended) on the log file of three transactions read from LSN 0:
transaction 2 inserted and did not end, transaction 3 inserted and committed,
transaction 4 deleted and rolled back. `Analyze` returns, and the ATT has
transaction 2 at the LSN 24 of its Insert record and transaction 4 at the LSN
190 of its Delete record. -/
theorem Analyze_att_spec_witness :
    ∃ s1, LogManager.Analyze exampleConstants exampleLogSize 9
        ⟨238, 237, [], [], [],
          [⟨0, 2, 18446744073709551615, .BEGIN⟩, ⟨24, 2, 0, .INSERT 7 0 0 200 3 [0, 0, 0]⟩,
            ⟨71, 3, 18446744073709551615, .BEGIN⟩, ⟨95, 3, 71, .INSERT 7 0 1 197 3 [1, 1, 1]⟩,
            ⟨142, 3, 95, .COMMIT⟩, ⟨166, 4, 18446744073709551615, .BEGIN⟩,
            ⟨190, 4, 166, .DELETE 7 0 0⟩, ⟨214, 4, 190, .ROLLBACK⟩],
          some 238, none⟩ = some (s1, 0)
      ∧ amFind s1.att_ 2 = some 24 ∧ amFind s1.att_ 4 = some 190 :=
  (Analyze_att_spec exampleConstants exampleLogSize
    (by intro p; cases p <;> simp [exampleLogSize])
    ⟨238, 237, [], [], [],
      [⟨0, 2, 18446744073709551615, .BEGIN⟩, ⟨24, 2, 0, .INSERT 7 0 0 200 3 [0, 0, 0]⟩,
        ⟨71, 3, 18446744073709551615, .BEGIN⟩, ⟨95, 3, 71, .INSERT 7 0 1 197 3 [1, 1, 1]⟩,
        ⟨142, 3, 95, .COMMIT⟩, ⟨166, 4, 18446744073709551615, .BEGIN⟩,
        ⟨190, 4, 166, .DELETE 7 0 0⟩, ⟨214, 4, 190, .ROLLBACK⟩],
      some 238, none⟩
    [⟨0, 2, 18446744073709551615, .BEGIN⟩, ⟨24, 2, 0, .INSERT 7 0 0 200 3 [0, 0, 0]⟩,
      ⟨71, 3, 18446744073709551615, .BEGIN⟩, ⟨95, 3, 71, .INSERT 7 0 1 197 3 [1, 1, 1]⟩,
      ⟨142, 3, 95, .COMMIT⟩, ⟨166, 4, 18446744073709551615, .BEGIN⟩,
      ⟨190, 4, 166, .DELETE 7 0 0⟩, ⟨214, 4, 190, .ROLLBACK⟩]
    9 (by decide) (by decide) (by simp) rfl (by decide)).imp
    (fun _ h => ⟨h.1,
      (h.2 2 24).mpr ⟨[⟨0, 2, 18446744073709551615, .BEGIN⟩],
        ⟨24, 2, 0, .INSERT 7 0 0 200 3 [0, 0, 0]⟩, _, rfl, rfl, rfl, rfl, by decide⟩,
      (h.2 4 190).mpr ⟨[⟨0, 2, 18446744073709551615, .BEGIN⟩,
          ⟨24, 2, 0, .INSERT 7 0 0 200 3 [0, 0, 0]⟩,
          ⟨71, 3, 18446744073709551615, .BEGIN⟩, ⟨95, 3, 71, .INSERT 7 0 1 197 3 [1, 1, 1]⟩,
          ⟨142, 3, 95, .COMMIT⟩, ⟨166, 4, 18446744073709551615, .BEGIN⟩],
        ⟨190, 4, 166, .DELETE 7 0 0⟩, _, rfl, rfl, rfl, rfl, by decide⟩⟩)


/-- C20, where the code departs from it: on a log manager whose next LSN is `2 ^ 32`
(a log that has grown to 4 GiB) transaction 2 begins, which puts it into the ATT
at LSN `4294967296`. The NewPage record then appended for it is stamped with
`prev_lsn = 0`, the ATT entry converted to the 4-byte `xid_t`, and not with
`ATT[2] = 4294967296`, and `ATT[2]` becomes the LSN of that record; following
`prev_lsn` from `ATT[2]` then leads to LSN 0, where the log has no record, and not
to the Begin record. The Insert record appended in the same state is stamped
with `4294967296`. -/
theorem AppendNewPageLog_prev_lsn_narrowed :
    amFind ((LogManager.new 4294967296).run exampleConstants exampleLogSize
        [.AppendBeginLog 2]).att_ 2 = some 4294967296
    ∧ (∃ s1, ((LogManager.new 4294967296).run exampleConstants exampleLogSize
          [.AppendBeginLog 2]).AppendNewPageLog exampleConstants exampleLogSize 2 7 4294967295 0
          = .ok (4294967320, s1)
        ∧ s1.records = [⟨4294967296, 2, 18446744073709551615, .BEGIN⟩,
            ⟨4294967320, 2, 0, .NEW_PAGE 7 4294967295 0⟩]
        ∧ amFind s1.att_ 2 = some 4294967320
        ∧ ¬ GoodChain exampleConstants s1.records 2 4294967320)
    ∧ ∃ s2, ((LogManager.new 4294967296).run exampleConstants exampleLogSize
          [.AppendBeginLog 2]).AppendInsertLog exampleConstants exampleLogSize 2 7 0 0 200 3
            [0, 0, 0] = .ok (4294967320, s2)
        ∧ s2.records = [⟨4294967296, 2, 18446744073709551615, .BEGIN⟩,
            ⟨4294967320, 2, 4294967296, .INSERT 7 0 0 200 3 [0, 0, 0]⟩] := by
  refine ⟨by decide, ⟨_, rfl, rfl, rfl, ?_⟩, ⟨_, rfl, rfl⟩⟩
  show ¬ GoodChain exampleConstants
    [(⟨4294967296, 2, 18446744073709551615, .BEGIN⟩ : LogRecord),
      ⟨4294967320, 2, 0, .NEW_PAGE 7 4294967295 0⟩] 2 4294967320
  rintro ⟨chain, h1, _, _⟩
  cases chain with
  | nil =>
    have h0 : (4294967320 : Nat) = exampleConstants.NULL_LSN := h1
    exact absurd h0 (by decide)
  | cons c cs =>
    obtain ⟨_, hc, hl, _, h2⟩ := h1
    have hp : c.prev_lsn_ = 0 := by
      rcases List.mem_cons.mp hc with h | h
      · rw [h] at hl
        exact absurd hl (by decide)
      · rw [List.mem_singleton.mp h]
    rw [hp] at h2
    cases cs with
    | nil =>
      have h0 : (0 : Nat) = exampleConstants.NULL_LSN := h2
      exact absurd h0 (by decide)
    | cons d ds =>
      obtain ⟨_, hd, hl2, _⟩ := h2
      rcases List.mem_cons.mp hd with h | h
      · rw [h] at hl2
        exact absurd hl2 (by decide)
      · rw [List.mem_singleton.mp h] at hl2
        exact absurd hl2 (by decide)


/-! ## Delete and Update executors: theorems -/

/-- `Table::DeleteRecord` leaves the object id of the table as it is. -/
theorem DeleteRecord_oid (K : Constants) (logSize : LogPayload → Nat) (t : Table) (rid : Rid)
    (xid : Nat) (write_log : Bool) :
    (t.DeleteRecord K logSize rid xid write_log).2.oid_ = t.oid_ := by
  unfold Table.DeleteRecord
  dsimp only
  split
  · split <;> rfl
  · rfl

/-- `Table::UpdateRecord` leaves the object id of the table as it is. -/
theorem UpdateRecord_oid (K : Constants) (SerializeTo : Record → List Nat)
    (logSize : LogPayload → Nat) (fuel : Nat) (t : Table) (rid : Rid) (xid cid : Nat)
    (record : Record) (write_log : Bool) (res : Except DbException Rid × Table)
    (h : Table.UpdateRecord K SerializeTo logSize fuel t rid xid cid record write_log
      = some res) :
    res.2.oid_ = t.oid_ := by
  have ho := DeleteRecord_oid K logSize t rid xid write_log
  unfold Table.UpdateRecord at h
  cases hd : t.DeleteRecord K logSize rid xid write_log with
  | mk r t1 =>
    rw [hd] at h ho
    cases r with
    | error ex =>
      cases h
      exact ho
    | ok u =>
      exact (InsertRecord_oid K SerializeTo logSize fuel t1 record xid cid write_log res h).trans
        ho

/-- A request for `IX` on the table is granted when no lock stands in the way, and
none stands in the way afterwards. -/
theorem Grantable_LockTable (m : LockMap) (oid xid : Nat) (rids : List Rid)
    (h : Grantable m oid xid rids) :
    (LockTable m xid .IX oid).1 = true ∧ Grantable (LockTable m xid .IX oid).2 oid xid rids := by
  refine ⟨LockTable_granted m xid .IX oid h.1, ?_, ?_⟩
  · intro x hx hg hne
    rcases LockTable_mem m xid .IX oid oid x hx with h1 | ⟨_, h1, _⟩
    · exact h.1 x h1 hg hne
    · exact absurd h1 hne
  · intro rid hrid x hx hs
    rcases LockTable_mem m xid .IX oid oid x hx with h1 | ⟨_, h1, _⟩
    · exact h.2 rid hrid x h1 hs
    · exact h1

/-- A request for `X` on one of the rows is granted when no lock stands in the way,
and none stands in the way afterwards. -/
theorem Grantable_LockRow (m : LockMap) (oid xid : Nat) (rids : List Rid) (rid : Rid)
    (h : Grantable m oid xid rids) (hrid : rid ∈ rids) :
    (LockRow m xid .X oid rid).1 = true ∧ Grantable (LockRow m xid .X oid rid).2 oid xid rids := by
  refine ⟨LockRow_granted m xid .X oid rid (h.2 rid hrid), ?_, ?_⟩
  · intro x hx hg hne
    rcases LockRow_mem m xid .X oid rid oid x hx with h1 | ⟨_, h1, _⟩
    · exact h.1 x h1 hg hne
    · exact absurd h1 hne
  · intro rid1 hrid1 x hx hs
    rcases LockRow_mem m xid .X oid rid oid x hx with h1 | ⟨_, h1, _⟩
    · exact h.2 rid1 hrid1 x h1 hs
    · exact h1

/-- Fewer rows: no lock stands in the way on a part of the rows. -/
theorem Grantable_mono (m : LockMap) (oid xid : Nat) (rids rids1 : List Rid)
    (hsub : ∀ rid ∈ rids1, rid ∈ rids) (h : Grantable m oid xid rids) :
    Grantable m oid xid rids1 :=
  ⟨h.1, fun rid hrid => h.2 rid (hsub rid hrid)⟩

/-- The loop of `DeleteExecutor::Next` when every `Table::DeleteRecord` returns and no lock
of another transaction stands in the way: the loop ends with the number of
records added to `count`, the child exhausted and the table after the deletes. -/
theorem deleteLoop_spec (K : Constants) (logSize : LogPayload → Nat) (xid : Nat) :
    ∀ (records : List Record) (count : Nat) (e : DeleteExecutor) (t1 : Table),
      Table.deleteAll K logSize xid e.table_ (records.map (fun r => r.rid_)) = some t1 →
      count < 4294967296 →
      Grantable e.lock_manager e.table_.oid_ xid (records.map (fun r => r.rid_)) →
      ∃ m1,
        DeleteExecutor.deleteLoop K logSize xid records count e
          = (.ok ((count + records.length) % 4294967296),
              { children_0 := { e.children_0 with rest := [] }
                finished_ := e.finished_
                table_ := t1
                lock_manager := m1 })
        ∧ t1.oid_ = e.table_.oid_ := by
  intro records
  induction records with
  | nil =>
    intro count e t1 hdel hcount _
    have ht : e.table_ = t1 := by
      have : some e.table_ = some t1 := hdel
      injection this
    subst ht
    refine ⟨e.lock_manager, ?_, rfl⟩
    have hc : (count + ([] : List Record).length) % 4294967296 = count :=
      Nat.mod_eq_of_lt hcount
    rw [hc]
    rfl
  | cons r rest ih =>
    intro count e t1 hdel hcount hg
    have hD : Table.deleteAll K logSize xid e.table_
        (r.rid_ :: rest.map (fun r => r.rid_)) = some t1 := hdel
    unfold Table.deleteAll at hD
    cases hrec : e.table_.DeleteRecord K logSize r.rid_ xid true with
    | mk res t2 =>
      cases res with
      | error ex =>
        rw [hrec] at hD
        cases hD
      | ok u =>
        rw [hrec] at hD
        have hD1 : Table.deleteAll K logSize xid t2 (rest.map (fun r => r.rid_)) = some t1 := hD
        have hoid : t2.oid_ = e.table_.oid_ := by
          have := DeleteRecord_oid K logSize e.table_ r.rid_ xid true
          rw [hrec] at this
          exact this
        obtain ⟨hg1, hG1⟩ := Grantable_LockTable e.lock_manager e.table_.oid_ xid _ hg
        obtain ⟨hg2, hG2⟩ := Grantable_LockRow _ e.table_.oid_ xid _ r.rid_ hG1
          (List.mem_cons_self _ _)
        have hcount1 : (count + 1) % 4294967296 < 4294967296 := Nat.mod_lt _ (by omega)
        obtain ⟨m1, hloop, ho⟩ := ih ((count + 1) % 4294967296)
          { children_0 := { e.children_0 with rest := rest }
            finished_ := e.finished_
            table_ := t2
            lock_manager := (LockRow (LockTable e.lock_manager xid .IX e.table_.oid_).2 xid .X
              e.table_.oid_ r.rid_).2 }
          t1 hD1 hcount1
          (by
            show Grantable _ t2.oid_ xid _
            rw [hoid]
            exact Grantable_mono _ _ _ _ _ (fun rid h => List.mem_cons_of_mem _ h) hG2)
        refine ⟨m1, ?_, ho.trans hoid⟩
        have hc : DeleteExecutor.deleteLoop K logSize xid (r :: rest) count e
            = (if (LockTable e.lock_manager xid .IX e.table_.oid_).1 = false then
                (.error .LockTableFailed,
                  { children_0 := { e.children_0 with rest := rest }
                    finished_ := e.finished_
                    table_ := e.table_
                    lock_manager := (LockTable e.lock_manager xid .IX e.table_.oid_).2 })
              else
                match e.table_.DeleteRecord K logSize r.rid_ xid true with
                | (.error ex, t) =>
                  (.error (.Table ex),
                    { children_0 := { e.children_0 with rest := rest }
                      finished_ := e.finished_
                      table_ := t
                      lock_manager := (LockTable e.lock_manager xid .IX e.table_.oid_).2 })
                | (.ok _, t) =>
                  if (LockRow (LockTable e.lock_manager xid .IX e.table_.oid_).2 xid .X
                      e.table_.oid_ r.rid_).1 = false then
                    (.error .LockRowFailed,
                      { children_0 := { e.children_0 with rest := rest }
                        finished_ := e.finished_
                        table_ := t
                        lock_manager := (LockRow (LockTable e.lock_manager xid .IX
                          e.table_.oid_).2 xid .X e.table_.oid_ r.rid_).2 })
                  else
                    DeleteExecutor.deleteLoop K logSize xid rest ((count + 1) % 4294967296)
                      { children_0 := { e.children_0 with rest := rest }
                        finished_ := e.finished_
                        table_ := t
                        lock_manager := (LockRow (LockTable e.lock_manager xid .IX
                          e.table_.oid_).2 xid .X e.table_.oid_ r.rid_).2 }) := rfl
        rw [hc, if_neg (by rw [hg1]; exact Bool.noConfusion), hrec]
        dsimp only
        rw [if_neg (by rw [hg2]; exact Bool.noConfusion), hloop]
        have hn : ((count + 1) % 4294967296 + rest.length) % 4294967296
            = (count + (r :: rest).length) % 4294967296 := by
          have : (r :: rest).length = rest.length + 1 := rfl
          rw [this]
          omega
        rw [hn]

/-- The loop of `UpdateExecutor::Next` when every `Table::UpdateRecord` returns a rid and no
lock of another transaction stands in the way, on the rows replaced and on
the rows returned: the loop ends with the number of records added to `count`,
the child exhausted and the table after the updates. -/
theorem updateLoop_spec (K : Constants) (SerializeTo : Record → List Nat)
    (logSize : LogPayload → Nat) (xid cid : Nat) (fuel : Nat) :
    ∀ (records : List Record) (count : Nat) (e : UpdateExecutor) (rids : List Rid)
      (t1 : Table),
      Table.updateAll K SerializeTo logSize xid cid fuel e.table_
        (records.map (fun r => (r.rid_, updatedRecord e.update_exprs_ r))) = some (rids, t1) →
      count < 4294967296 →
      Grantable e.lock_manager e.table_.oid_ xid (rids ++ records.map (fun r => r.rid_)) →
      ∃ m1,
        UpdateExecutor.updateLoop K SerializeTo logSize xid cid fuel records count e
          = some (.ok ((count + records.length) % 4294967296),
              { children_0 := { e.children_0 with rest := [] }
                finished_ := e.finished_
                table_ := t1
                lock_manager := m1
                update_exprs_ := e.update_exprs_ })
        ∧ t1.oid_ = e.table_.oid_ := by
  intro records
  induction records with
  | nil =>
    intro count e rids t1 hupd hcount _
    have h1 : ([], e.table_) = (rids, t1) := by
      have : some ([], e.table_) = some (rids, t1) := hupd
      injection this
    injection h1 with hr ht
    subst hr
    subst ht
    refine ⟨e.lock_manager, ?_, rfl⟩
    have hc : (count + ([] : List Record).length) % 4294967296 = count :=
      Nat.mod_eq_of_lt hcount
    rw [hc]
    rfl
  | cons r rest ih =>
    intro count e rids t1 hupd hcount hg
    have hU : Table.updateAll K SerializeTo logSize xid cid fuel e.table_
        ((r.rid_, updatedRecord e.update_exprs_ r)
          :: rest.map (fun r => (r.rid_, updatedRecord e.update_exprs_ r)))
        = some (rids, t1) := hupd
    unfold Table.updateAll at hU
    cases hrec : Table.UpdateRecord K SerializeTo logSize fuel e.table_ r.rid_ xid cid
        (updatedRecord e.update_exprs_ r) true with
    | none =>
      rw [hrec] at hU
      cases hU
    | some res =>
      obtain ⟨res1, t2⟩ := res
      cases res1 with
      | error ex =>
        rw [hrec] at hU
        cases hU
      | ok rid =>
        rw [hrec] at hU
        dsimp only at hU
        cases hall : Table.updateAll K SerializeTo logSize xid cid fuel t2
            (rest.map (fun r => (r.rid_, updatedRecord e.update_exprs_ r))) with
        | none =>
          rw [hall] at hU
          cases hU
        | some p =>
          obtain ⟨rids1, t3⟩ := p
          rw [hall] at hU
          have hI1 : (rid :: rids1, t3) = (rids, t1) := by
            have : some (rid :: rids1, t3) = some (rids, t1) := hU
            injection this
          injection hI1 with hr ht
          subst hr
          subst ht
          have hoid : t2.oid_ = e.table_.oid_ :=
            UpdateRecord_oid K SerializeTo logSize fuel e.table_ r.rid_ xid cid _ true
              (.ok rid, t2) hrec
          obtain ⟨hg1, hG1⟩ := Grantable_LockTable e.lock_manager e.table_.oid_ xid _ hg
          obtain ⟨hg2, hG2⟩ := Grantable_LockRow _ e.table_.oid_ xid _ rid hG1
            (List.mem_append_left _ (List.mem_cons_self _ _))
          obtain ⟨hg3, hG3⟩ := Grantable_LockRow _ e.table_.oid_ xid _ r.rid_ hG2
            (List.mem_append_right _ (List.mem_cons_self _ _))
          have hcount1 : (count + 1) % 4294967296 < 4294967296 := Nat.mod_lt _ (by omega)
          obtain ⟨m1, hloop, ho⟩ := ih ((count + 1) % 4294967296)
            { children_0 := { e.children_0 with rest := rest }
              finished_ := e.finished_
              table_ := t2
              lock_manager := (LockRow (LockRow (LockTable e.lock_manager xid .IX
                e.table_.oid_).2 xid .X e.table_.oid_ rid).2 xid .X e.table_.oid_ r.rid_).2
              update_exprs_ := e.update_exprs_ }
            rids1 t3 hall hcount1
            (by
              show Grantable _ t2.oid_ xid _
              rw [hoid]
              refine Grantable_mono _ _ _ _ _ ?_ hG3
              intro x hx
              rcases List.mem_append.mp hx with h | h
              · exact List.mem_append_left _ (List.mem_cons_of_mem _ h)
              · exact List.mem_append_right _ (List.mem_cons_of_mem _ h))
          refine ⟨m1, ?_, ho.trans hoid⟩
          have hc : UpdateExecutor.updateLoop K SerializeTo logSize xid cid fuel (r :: rest)
              count e
              = (if (LockTable e.lock_manager xid .IX e.table_.oid_).1 = false then
                  some (.error .LockTableFailed,
                    { children_0 := { e.children_0 with rest := rest }
                      finished_ := e.finished_
                      table_ := e.table_
                      lock_manager := (LockTable e.lock_manager xid .IX e.table_.oid_).2
                      update_exprs_ := e.update_exprs_ })
                else
                  match Table.UpdateRecord K SerializeTo logSize fuel e.table_ r.rid_ xid cid
                      (updatedRecord e.update_exprs_ r) true with
                  | none => none
                  | some (.error ex, t) =>
                    some (.error (.Table ex),
                      { children_0 := { e.children_0 with rest := rest }
                        finished_ := e.finished_
                        table_ := t
                        lock_manager := (LockTable e.lock_manager xid .IX e.table_.oid_).2
                        update_exprs_ := e.update_exprs_ })
                  | some (.ok record_id, t) =>
                    if (LockRow (LockTable e.lock_manager xid .IX e.table_.oid_).2 xid .X
                        e.table_.oid_ record_id).1 = false then
                      some (.error .LockRowFailed,
                        { children_0 := { e.children_0 with rest := rest }
                          finished_ := e.finished_
                          table_ := t
                          lock_manager := (LockRow (LockTable e.lock_manager xid .IX
                            e.table_.oid_).2 xid .X e.table_.oid_ record_id).2
                          update_exprs_ := e.update_exprs_ })
                    else
                      if (LockRow (LockRow (LockTable e.lock_manager xid .IX
                          e.table_.oid_).2 xid .X e.table_.oid_ record_id).2 xid .X
                          e.table_.oid_ r.rid_).1 = false then
                        some (.error .LockRowFailed,
                          { children_0 := { e.children_0 with rest := rest }
                            finished_ := e.finished_
                            table_ := t
                            lock_manager := (LockRow (LockRow (LockTable e.lock_manager xid .IX
                              e.table_.oid_).2 xid .X e.table_.oid_ record_id).2 xid .X
                              e.table_.oid_ r.rid_).2
                            update_exprs_ := e.update_exprs_ })
                      else
                        UpdateExecutor.updateLoop K SerializeTo logSize xid cid fuel rest
                          ((count + 1) % 4294967296)
                          { children_0 := { e.children_0 with rest := rest }
                            finished_ := e.finished_
                            table_ := t
                            lock_manager := (LockRow (LockRow (LockTable e.lock_manager xid .IX
                              e.table_.oid_).2 xid .X e.table_.oid_ record_id).2 xid .X
                              e.table_.oid_ r.rid_).2
                            update_exprs_ := e.update_exprs_ }) := rfl
          rw [hc, if_neg (by rw [hg1]; exact Bool.noConfusion), hrec]
          dsimp only
          rw [if_neg (by rw [hg2]; exact Bool.noConfusion),
            if_neg (by rw [hg3]; exact Bool.noConfusion), hloop]
          have hn : ((count + 1) % 4294967296 + rest.length) % 4294967296
              = (count + (r :: rest).length) % 4294967296 := by
            have : (r :: rest).length = rest.length + 1 := rfl
            rw [this]
            omega
          rw [hn]

/-- The first `Next` of the Delete executor after `Init` and the calls after it, when
every `Table::DeleteRecord` returns and no lock of another transaction stands in
the way: the first call returns the record `{n}` for the `n` records of the child
(`n` modulo `2^32`, `count` being a `uint32_t`) and leaves `finished_` set and the table
after the deletes; a later call returns the null pointer and changes
nothing. -/
theorem DeleteExecutor_Next_summary (K : Constants) (logSize : LogPayload → Nat) (xid : Nat)
    (d : DeleteExecutor) (t1 : Table) (hfin : d.finished_ = false)
    (hdel : Table.deleteAll K logSize xid d.table_ (d.children_0.rows.map (fun r => r.rid_))
      = some t1)
    (hg : Grantable d.lock_manager d.table_.oid_ xid (d.children_0.rows.map (fun r => r.rid_))) :
    ∃ m1,
      DeleteExecutor.Next K logSize xid d.Init
        = (.ok (some (Record.ofValues
              [some ((d.children_0.rows.length % 4294967296 : Nat) : Int)])),
            ⟨⟨d.children_0.rows, []⟩, true, t1, m1⟩)
      ∧ DeleteExecutor.Next K logSize xid ⟨⟨d.children_0.rows, []⟩, true, t1, m1⟩
        = (.ok none, ⟨⟨d.children_0.rows, []⟩, true, t1, m1⟩) := by
  obtain ⟨m1, hloop, _⟩ := deleteLoop_spec K logSize xid d.children_0.rows 0 d.Init t1 hdel
    (by omega) hg
  refine ⟨m1, ?_, ?_⟩
  · have hnext : DeleteExecutor.Next K logSize xid d.Init
        = (if d.finished_ = true then (.ok none, d.Init)
          else
            match DeleteExecutor.deleteLoop K logSize xid d.children_0.rows 0 d.Init with
            | (.error ex, e1) => (.error ex, e1)
            | (.ok count, e1) =>
              (.ok (some (Record.ofValues [some (count : Int)])),
                { e1 with finished_ := true })) := rfl
    rw [hnext, hfin, if_neg (by exact Bool.noConfusion), hloop, Nat.zero_add]
    rfl
  · unfold DeleteExecutor.Next
    rw [if_pos rfl]

/-- The first `Next` of the Update executor after `Init` and the calls after it, when
every `Table::UpdateRecord` returns a rid and no lock of another transaction stands
in the way, on the rows replaced and on the rows returned: the first call
returns the record `{n}` for the `n` records of the child (`n` modulo `2^32`) and
leaves `finished_` set and the table after the updates; a later call returns the
null pointer and changes nothing. -/
theorem UpdateExecutor_Next_summary (K : Constants) (SerializeTo : Record → List Nat)
    (logSize : LogPayload → Nat) (xid cid : Nat) (fuel : Nat) (u : UpdateExecutor)
    (rids : List Rid) (t1 : Table) (hfin : u.finished_ = false)
    (hupd : Table.updateAll K SerializeTo logSize xid cid fuel u.table_
      (u.children_0.rows.map (fun r => (r.rid_, updatedRecord u.update_exprs_ r)))
      = some (rids, t1))
    (hg : Grantable u.lock_manager u.table_.oid_ xid
      (rids ++ u.children_0.rows.map (fun r => r.rid_))) :
    ∃ m1,
      UpdateExecutor.Next K SerializeTo logSize xid cid fuel u.Init
        = some (.ok (some (Record.ofValues
              [some ((u.children_0.rows.length % 4294967296 : Nat) : Int)])),
            ⟨⟨u.children_0.rows, []⟩, true, t1, m1, u.update_exprs_⟩)
      ∧ UpdateExecutor.Next K SerializeTo logSize xid cid fuel
          ⟨⟨u.children_0.rows, []⟩, true, t1, m1, u.update_exprs_⟩
        = some (.ok none, ⟨⟨u.children_0.rows, []⟩, true, t1, m1, u.update_exprs_⟩) := by
  obtain ⟨m1, hloop, _⟩ := updateLoop_spec K SerializeTo logSize xid cid fuel
    u.children_0.rows 0 u.Init rids t1 hupd (by omega) hg
  refine ⟨m1, ?_, ?_⟩
  · have hnext : UpdateExecutor.Next K SerializeTo logSize xid cid fuel u.Init
        = (if u.finished_ = true then some (.ok none, u.Init)
          else
            match UpdateExecutor.updateLoop K SerializeTo logSize xid cid fuel
                u.children_0.rows 0 u.Init with
            | none => none
            | some (.error ex, e1) => some (.error ex, e1)
            | some (.ok count, e1) =>
              some (.ok (some (Record.ofValues [some (count : Int)])),
                { e1 with finished_ := true })) := rfl
    rw [hnext, hfin, if_neg (by exact Bool.noConfusion), hloop, Nat.zero_add]
    rfl
  · unfold UpdateExecutor.Next
    rw [if_pos rfl]

/-- C35 (as amended): for a child with the `n` records `rows`, an Insert executor that
has not finished, a table on which `Table::InsertRecord` returns a rid for each of
the records built from them (the rids `rids`, the table `t1` afterwards), and a
lock manager in which no table lock of another transaction on the table is
incompatible with `IX` and no other transaction holds a lock on a row of
`rids`: the first `Next` after `Init` returns the record `{n}` (`n` modulo `2^32`, `count`
being a `uint32_t`), leaves `finished_` set, the child exhausted and the table `t1`,
and every later `Next` returns the null pointer and changes nothing. After it
the transaction holds every rid of `rids` in mode `X`; when `n > 0` it holds a table
lock in a mode upgraded by `IX` (`IX`, `SIX` or `X`), which is `IX` when it held no table
lock on the table before; when `n = 0` the lock manager is as it was. The Delete
executor and the Update executor follow the same pattern of a summary and
then null: when every `Table::DeleteRecord` returns, respectively every
`Table::UpdateRecord` returns a rid, and no lock of another transaction stands in
the way (on the rows of the child, and for Update on the rows returned), the
first `Next` after `Init` returns the record `{n}` for the `n` records of the child,
and every later `Next` returns the null pointer and changes nothing. -/
theorem Insert_Next_spec (K : Constants) (SerializeTo : Record → List Nat)
    (logSize : LogPayload → Nat) (xid cid length : Nat) (column_indexes : List Nat)
    (fuel : Nat) (e : InsertExecutor) (rids : List Rid) (t1 : Table)
    (hfin : e.finished_ = false)
    (hins : Table.insertAll K SerializeTo logSize xid cid fuel e.table_
      (e.children_0.rows.map (tableRecord length column_indexes)) = some (rids, t1))
    (hT : ∀ x ∈ e.lock_manager e.table_.oid_, x.lock_granularity_ = .TABLE → x.xid_t_ ≠ xid →
      Compatible x.lock_type_ .IX = true)
    (hR : ∀ rid ∈ rids, ∀ x ∈ e.lock_manager e.table_.oid_, sameRow rid x → x.xid_t_ = xid) :
    (∃ m1,
      InsertExecutor.Next K SerializeTo logSize xid cid length column_indexes fuel e.Init
        = some (.ok (some (Record.ofValues
              [some ((e.children_0.rows.length % 4294967296 : Nat) : Int)])),
            ⟨⟨e.children_0.rows, []⟩, true, t1, m1⟩)
      ∧ InsertExecutor.Next K SerializeTo logSize xid cid length column_indexes fuel
          ⟨⟨e.children_0.rows, []⟩, true, t1, m1⟩
        = some (.ok none, ⟨⟨e.children_0.rows, []⟩, true, t1, m1⟩)
      ∧ rids.length = e.children_0.rows.length
      ∧ (∀ rid ∈ rids, holdsRow m1 e.table_.oid_ xid rid .X)
      ∧ (e.children_0.rows ≠ [] → ∃ held, holdsTable m1 e.table_.oid_ xid (Upgrade held .IX))
      ∧ (e.children_0.rows ≠ [] →
          (∀ x ∈ e.lock_manager e.table_.oid_, x.lock_granularity_ = .TABLE → x.xid_t_ ≠ xid) →
          holdsTable m1 e.table_.oid_ xid .IX)
      ∧ (e.children_0.rows = [] → m1 = e.lock_manager))
    ∧ (∀ (d : DeleteExecutor) (t2 : Table), d.finished_ = false →
        Table.deleteAll K logSize xid d.table_ (d.children_0.rows.map (fun r => r.rid_))
          = some t2 →
        Grantable d.lock_manager d.table_.oid_ xid (d.children_0.rows.map (fun r => r.rid_)) →
        ∃ m2,
          DeleteExecutor.Next K logSize xid d.Init
            = (.ok (some (Record.ofValues
                  [some ((d.children_0.rows.length % 4294967296 : Nat) : Int)])),
                ⟨⟨d.children_0.rows, []⟩, true, t2, m2⟩)
          ∧ DeleteExecutor.Next K logSize xid ⟨⟨d.children_0.rows, []⟩, true, t2, m2⟩
            = (.ok none, ⟨⟨d.children_0.rows, []⟩, true, t2, m2⟩))
    ∧ (∀ (u : UpdateExecutor) (rids3 : List Rid) (t3 : Table), u.finished_ = false →
        Table.updateAll K SerializeTo logSize xid cid fuel u.table_
          (u.children_0.rows.map (fun r => (r.rid_, updatedRecord u.update_exprs_ r)))
          = some (rids3, t3) →
        Grantable u.lock_manager u.table_.oid_ xid
          (rids3 ++ u.children_0.rows.map (fun r => r.rid_)) →
        ∃ m3,
          UpdateExecutor.Next K SerializeTo logSize xid cid fuel u.Init
            = some (.ok (some (Record.ofValues
                  [some ((u.children_0.rows.length % 4294967296 : Nat) : Int)])),
                ⟨⟨u.children_0.rows, []⟩, true, t3, m3, u.update_exprs_⟩)
          ∧ UpdateExecutor.Next K SerializeTo logSize xid cid fuel
              ⟨⟨u.children_0.rows, []⟩, true, t3, m3, u.update_exprs_⟩
            = some (.ok none, ⟨⟨u.children_0.rows, []⟩, true, t3, m3, u.update_exprs_⟩)) :=
  ⟨InsertExecutor_Next_summary K SerializeTo logSize xid cid length column_indexes fuel e rids
      t1 hfin hins hT hR,
    fun d t2 h1 h2 h3 => DeleteExecutor_Next_summary K logSize xid d t2 h1 h2 h3,
    fun u rids3 t3 h1 h2 h3 =>
      UpdateExecutor_Next_summary K SerializeTo logSize xid cid fuel u rids3 t3 h1 h2 h3⟩

/-- C35 (as amended) on the example tables, with a lock manager without locks
and transaction 2. Insert, after transaction 2 has begun, with a child that
returns `(5)` and `(7)`: the first `Next` returns `{2}`, and afterwards the transaction
holds the rows `(0, 0)` and `(0, 1)` in mode `X` and the table in mode `IX`. Delete and
Update, on the table with one record at rid `(0, 0)`, with a child that returns
that record: the first `Next` returns `{1}`, the next one the null pointer. -/
theorem Insert_Next_spec_witness :
    (∃ m1 t1,
      InsertExecutor.Next exampleConstants exampleSerialize exampleLogSize 2 0 1 [0] 3
          (InsertExecutor.Init
            ⟨⟨[exampleRow [5], exampleRow [7]], []⟩, false, exampleTableBegun, LockMap.empty⟩)
        = some (.ok (some (Record.ofValues [some 2])),
            ⟨⟨[exampleRow [5], exampleRow [7]], []⟩, true, t1, m1⟩)
      ∧ holdsRow m1 7 2 ⟨0, 0⟩ .X ∧ holdsRow m1 7 2 ⟨0, 1⟩ .X ∧ holdsTable m1 7 2 .IX)
    ∧ (∃ m2 t2,
      DeleteExecutor.Next exampleConstants exampleLogSize 2
          (DeleteExecutor.Init
            ⟨⟨[⟨false, 2, 0, 0, [some 5, some 5], ⟨0, 0⟩⟩], []⟩, false, exampleTableOneRow,
              LockMap.empty⟩)
        = (.ok (some (Record.ofValues [some 1])),
            ⟨⟨[⟨false, 2, 0, 0, [some 5, some 5], ⟨0, 0⟩⟩], []⟩, true, t2, m2⟩)
      ∧ DeleteExecutor.Next exampleConstants exampleLogSize 2
          ⟨⟨[⟨false, 2, 0, 0, [some 5, some 5], ⟨0, 0⟩⟩], []⟩, true, t2, m2⟩
        = (.ok none, ⟨⟨[⟨false, 2, 0, 0, [some 5, some 5], ⟨0, 0⟩⟩], []⟩, true, t2, m2⟩))
    ∧ (∃ m3 t3,
      UpdateExecutor.Next exampleConstants exampleSerialize exampleLogSize 2 0 3
          (UpdateExecutor.Init
            ⟨⟨[⟨false, 2, 0, 0, [some 5, some 5], ⟨0, 0⟩⟩], []⟩, false, exampleTableOneRow,
              LockMap.empty, [fun _ => some 9, fun r => r.GetValue 1]⟩)
        = some (.ok (some (Record.ofValues [some 1])),
            ⟨⟨[⟨false, 2, 0, 0, [some 5, some 5], ⟨0, 0⟩⟩], []⟩, true, t3, m3,
              [fun _ => some 9, fun r => r.GetValue 1]⟩)
      ∧ UpdateExecutor.Next exampleConstants exampleSerialize exampleLogSize 2 0 3
          ⟨⟨[⟨false, 2, 0, 0, [some 5, some 5], ⟨0, 0⟩⟩], []⟩, true, t3, m3,
            [fun _ => some 9, fun r => r.GetValue 1]⟩
        = some (.ok none,
            ⟨⟨[⟨false, 2, 0, 0, [some 5, some 5], ⟨0, 0⟩⟩], []⟩, true, t3, m3,
              [fun _ => some 9, fun r => r.GetValue 1]⟩)) := by
  have hfst : (Table.insertAll exampleConstants exampleSerialize exampleLogSize 2 0 3
      exampleTableBegun
      ([exampleRow [5], exampleRow [7]].map (tableRecord 1 [0]))).map Prod.fst
      = some [⟨0, 0⟩, ⟨0, 1⟩] := by
    decide
  have hdel : (Table.deleteAll exampleConstants exampleLogSize 2 exampleTableOneRow
      [⟨0, 0⟩]).isSome = true := by
    decide
  have hupd : (Table.updateAll exampleConstants exampleSerialize exampleLogSize 2 0 3
      exampleTableOneRow
      [(⟨0, 0⟩, updatedRecord [fun _ => some 9, fun r => r.GetValue 1]
        ⟨false, 2, 0, 0, [some 5, some 5], ⟨0, 0⟩⟩)]).isSome = true := by
    decide
  cases hall : Table.insertAll exampleConstants exampleSerialize exampleLogSize 2 0 3
      exampleTableBegun ([exampleRow [5], exampleRow [7]].map (tableRecord 1 [0])) with
  | none =>
    rw [hall] at hfst
    cases hfst
  | some p =>
    obtain ⟨rids, t1⟩ := p
    rw [hall] at hfst
    have hr : rids = [⟨0, 0⟩, ⟨0, 1⟩] := by
      injection hfst
    subst hr
    obtain ⟨⟨m1, h1, _, _, hrows, _, hix, _⟩, hD, hU⟩ :=
      Insert_Next_spec exampleConstants exampleSerialize exampleLogSize 2 0 1 [0] 3
        ⟨⟨[exampleRow [5], exampleRow [7]], []⟩, false, exampleTableBegun, LockMap.empty⟩
        [⟨0, 0⟩, ⟨0, 1⟩] t1 rfl hall (fun x hx => by cases hx) (fun _ _ x hx => by cases hx)
    have hl : ([exampleRow [5], exampleRow [7]].length % 4294967296 : Nat) = 2 := by decide
    rw [hl] at h1
    refine ⟨⟨m1, t1, h1, hrows _ (List.mem_cons_self _ _),
      hrows _ (List.mem_cons_of_mem _ (List.mem_cons_self _ _)),
      hix (by intro h; cases h) (fun x hx => by cases hx)⟩, ?_, ?_⟩
    · cases hd : Table.deleteAll exampleConstants exampleLogSize 2 exampleTableOneRow
          [⟨0, 0⟩] with
      | none =>
        rw [hd] at hdel
        cases hdel
      | some t2 =>
        obtain ⟨m2, g1, g2⟩ := hD
          ⟨⟨[⟨false, 2, 0, 0, [some 5, some 5], ⟨0, 0⟩⟩], []⟩, false, exampleTableOneRow,
            LockMap.empty⟩ t2 rfl hd
          ⟨fun x hx => (by cases hx), fun _ _ x hx => (by cases hx)⟩
        exact ⟨m2, t2, g1, g2⟩
    · cases hu : Table.updateAll exampleConstants exampleSerialize exampleLogSize 2 0 3
          exampleTableOneRow
          [(⟨0, 0⟩, updatedRecord [fun _ => some 9, fun r => r.GetValue 1]
            ⟨false, 2, 0, 0, [some 5, some 5], ⟨0, 0⟩⟩)] with
      | none =>
        rw [hu] at hupd
        cases hupd
      | some p =>
        obtain ⟨rids3, t3⟩ := p
        obtain ⟨m3, g1, g2⟩ := hU
          ⟨⟨[⟨false, 2, 0, 0, [some 5, some 5], ⟨0, 0⟩⟩], []⟩, false, exampleTableOneRow,
            LockMap.empty, [fun _ => some 9, fun r => r.GetValue 1]⟩ rids3 t3 rfl hu
          ⟨fun x hx => (by cases hx), fun _ _ x hx => (by cases hx)⟩
        exact ⟨m3, t3, g1, g2⟩

end huadb
